import Mathlib

/-!
# AMD64 machine-code encoder (`src/binary/encoding/amd64/opcode.c`)

A shallow embedding of the instruction-form catalog, the form selector
(`opcode_select`), the encoder (`opcode_fill`) and the byte serializer
(`opcode_format_encoding`), followed by the properties established about them.

Conventions of the embedding:
* bytes and other machine integers are `Nat`, truncated with `% 256` where the C code
  stores into a `uint8_t`; displacements are `Int` (C `int32_t`);
* a C pointer to a catalog entry is a value of `opcode_ref`; the entries live in a heap
  `opcode_ref → amd64_opcode_inst_t`, because `opcode_fill` writes through that pointer;
* a failed `assert`/`assertf`/`error_exit` (the process aborts) and a dereference of a
  null pointer are the result `none`;
* the C field names `prefix`, `rex_prefix`, `vex_prefix` are written `prefix_byte`,
  `rex_pfx`, `vex_pfx`.
-/

namespace Amd64

/-! ## Data model -/

/-- A machine register (`reg_t`): the fields the encoder reads. -/
structure reg_t where
  name : String
  index : Nat
  size : Nat
  deriving DecidableEq, Repr

/-- Low-level operand kinds declared by the catalog (`inst_operand_type`, `OPERAND_TYPE_*`). -/
inductive inst_operand_type where
  | REL8 | REL16 | REL32 | RM8 | RM16 | RM32 | RM64 | SEG64 | M | M16 | M32 | M64
  | IMM8 | IMM16 | IMM32 | IMM64 | R8 | R16 | R32 | R64
  | XMM1S64 | XMM2S64 | XMM1S32 | XMM2S32 | XMM2M128 | XMM1M64 | XMM2M64 | XMM2M32 | XMM1M32
  | YMM1 | YMM2
  deriving DecidableEq, Repr

/-- Modelled from the spec: the numeric value of the `OPERAND_TYPE_*` enumerators, declared in
`opcode.h`, which is not part of the sources at hand. Only the relative order is used
(by `opcode_sort_insts`). The spec fixes three pairs: the ascending sort "prefers e.g. `RM8`
over `R8`" (§4.2); `mov rax, rbx` and `mov r9, r10` take the form `mov_rm64_r64` (§8,
scenarios 1 and 6), so `RM64` precedes `R64`; `mov eax, 0x12345678` takes the form
`mov_r32_imm32` (§8, scenario 2), so `R32` precedes `RM32`. The kinds the spec says nothing
about stand in the order in which `operand_low_to_high` tests them. The value `0` is the empty
operand slot. -/
def inst_operand_type.ord : inst_operand_type → Nat
  | .REL8 => 1 | .REL16 => 2 | .REL32 => 3
  | .RM8 => 4 | .RM16 => 5 | .R32 => 6 | .RM32 => 7 | .RM64 => 8
  | .SEG64 => 9 | .M => 10 | .M16 => 11 | .M32 => 12 | .M64 => 13
  | .IMM8 => 14 | .IMM16 => 15 | .IMM32 => 16 | .IMM64 => 17
  | .R8 => 18 | .R16 => 19 | .R64 => 20
  | .XMM1S64 => 21 | .XMM2S64 => 22 | .XMM1S32 => 23 | .XMM2S32 => 24 | .XMM2M128 => 25
  | .XMM1M64 => 26 | .XMM2M64 => 27 | .XMM2M32 => 28 | .XMM1M32 => 29
  | .YMM1 => 30 | .YMM2 => 31

/-- Operand-encoding roles (`ENCODING_TYPE_*`). -/
inductive encoding_type where
  | MODRM_RM | MODRM_REG | OPCODE_PLUS | IMM | VEX_VVVV
  deriving DecidableEq, Repr

/-- Extension flags of a form (`opcode_ext`, `OPCODE_EXT_*`); an unused slot of the C array
(value `0`) is simply absent from the list of a form. -/
inductive opcode_ext where
  | SLASH0 | SLASH1 | SLASH2 | SLASH3 | SLASH4 | SLASH5 | SLASH6 | SLASH7 | SLASHR
  | REX | REX_W | IMM_BYTE | IMM_WORD | IMM_DWORD | IMM_QWORD
  | VEX_128 | VEX_256 | VEX_66 | VEX_F2 | VEX_F3 | VEX_0F | VEX_0F_38 | VEX_0F_3A
  | VEX_W0 | VEX_W1 | VEX_WIG
  deriving DecidableEq, Repr

/-- One operand slot of a form (`opcode_operand_t`). -/
structure opcode_operand_t where
  type : inst_operand_type
  encoding : encoding_type
  deriving DecidableEq, Repr

/-- A catalog entry (`amd64_opcode_inst_t`). `opcode` holds the three bytes of the C array
(unused positions are `0`); `extensions` and `operands` list the used slots of the C arrays. -/
structure amd64_opcode_inst_t where
  group : String
  name : String
  prefix_byte : Nat
  opcode : List Nat
  extensions : List opcode_ext
  operands : List opcode_operand_t
  deriving DecidableEq, Repr

/-- High-level operand kinds carried by an assembly operand (`AMD64_ASM_OPERAND_TYPE_*`).
`OTHER` stands for every kind the encoder does not know. -/
inductive asm_operand_type where
  | REG | FREG | INDIRECT_REG | DISP_REG | SIB_REG | RIP_RELATIVE | SEG_OFFSET
  | UINT8 | UINT16 | UINT32 | UINT64 | UINT | FLOAT32 | FLOAT64 | OTHER
  deriving DecidableEq, Repr

/-- The payload of an assembly operand: the C `void *value`, cast according to the type tag
(`asm_disp_reg_t`, `asm_sib_reg_t`, …). The type tag is the constructor. For `float32` the
second field is the content of the four bytes of the temporary buffer that the encoder
leaves unwritten. -/
inductive asm_value where
  | reg (r : reg_t)
  | freg (r : reg_t)
  | indirect_reg (reg : reg_t)
  | disp_reg (reg : reg_t) (disp : Int)
  | sib_reg (base : Option reg_t) (index : Option reg_t) (scale : Nat) (disp : Int)
  | rip_relative (disp : Int)
  | seg_offset (name : String) (offset : Int)
  | uint8 (value : Nat)
  | uint16 (value : Nat)
  | uint32 (value : Nat)
  | uint64 (value : Nat)
  | uint (value : Nat)
  | float32 (bits : Nat) (stale : Nat)
  | float64 (bits : Nat)
  | other
  deriving DecidableEq, Repr

/-- An assembly operand (`amd64_asm_operand_t`). -/
structure amd64_asm_operand_t where
  size : Nat
  value : asm_value
  deriving DecidableEq, Repr

/-- The type tag of an operand. -/
def amd64_asm_operand_t.type (o : amd64_asm_operand_t) : asm_operand_type :=
  match o.value with
  | .reg _ => .REG
  | .freg _ => .FREG
  | .indirect_reg _ => .INDIRECT_REG
  | .disp_reg _ _ => .DISP_REG
  | .sib_reg _ _ _ _ => .SIB_REG
  | .rip_relative _ => .RIP_RELATIVE
  | .seg_offset _ _ => .SEG_OFFSET
  | .uint8 _ => .UINT8
  | .uint16 _ => .UINT16
  | .uint32 _ => .UINT32
  | .uint64 _ => .UINT64
  | .uint _ => .UINT
  | .float32 _ _ => .FLOAT32
  | .float64 _ => .FLOAT64
  | .other => .OTHER

/-- An assembly instruction (`amd64_asm_inst_t`); `count` is the length of `operands`. -/
structure amd64_asm_inst_t where
  op_id : Nat
  name : String
  prefix_byte : Nat
  operands : List amd64_asm_operand_t
  need_rex_ext : Bool
  deriving DecidableEq, Repr

structure rex_prefix_t where
  w : Bool
  r : Bool
  x : Bool
  b : Bool
  deriving DecidableEq, Repr

structure vex_prefix_t where
  source : Nat
  vex_legacy_byte : Nat
  vex_opcode_extension : Nat
  l : Bool
  r : Bool
  w : Bool
  x : Bool
  b : Bool
  deriving DecidableEq, Repr

structure modrm_t where
  mod : Nat
  reg : Nat
  rm : Nat
  deriving DecidableEq, Repr

structure sib_t where
  scale : Nat
  index : Nat
  base : Nat
  deriving DecidableEq, Repr

/-- The intermediate record (`amd64_binary_format_t`). `disps` and `imms` are the first
`disp_count` and `imm_count` bytes of the C buffers. -/
structure amd64_binary_format_t where
  prefix_byte : Nat
  vex_pfx : Option vex_prefix_t
  rex_pfx : Option rex_prefix_t
  opcode : List Nat
  modrm : Option modrm_t
  sib : Option sib_t
  disps : List Nat
  imms : List Nat
  op_id : Nat
  deriving DecidableEq, Repr

/-- Modelled from the spec: `MODRM_MOD_INDIRECT_REGISTER` of `opcode.h` (not among the
sources), the ModR/M `mod` value `00` of §4.3. -/
def MODRM_MOD_INDIRECT_REGISTER : Nat := 0

/-- Modelled from the spec: `MODRM_MOD_INDIRECT_REGISTER_BYTE_DISP` of `opcode.h`, `mod = 01`. -/
def MODRM_MOD_INDIRECT_REGISTER_BYTE_DISP : Nat := 1

/-- Modelled from the spec: `MODRM_MOD_INDIRECT_REGISTER_DWORD_DISP` of `opcode.h`, `mod = 10`. -/
def MODRM_MOD_INDIRECT_REGISTER_DWORD_DISP : Nat := 2

/-- Modelled from the spec: `MODRM_MOD_DIRECT_REGISTER` of `opcode.h`, `mod = 3`. -/
def MODRM_MOD_DIRECT_REGISTER : Nat := 3

/-- Modelled from the spec: `MODRM_MOD_SIB_FOLLOWS_RM` of `opcode.h`, the `rm` value `4`
that announces a SIB byte. -/
def MODRM_MOD_SIB_FOLLOWS_RM : Nat := 4

/-- Modelled from the spec: `VEX_OPCODE_EXT_66` of `opcode.h`, the VEX `pp` value of `66`. -/
def VEX_OPCODE_EXT_66 : Nat := 1

/-- Modelled from the spec: `VEX_OPCODE_EXT_F3` of `opcode.h`, the VEX `pp` value of `F3`. -/
def VEX_OPCODE_EXT_F3 : Nat := 2

/-- Modelled from the spec: `VEX_OPCODE_EXT_F2` of `opcode.h`, the VEX `pp` value of `F2`. -/
def VEX_OPCODE_EXT_F2 : Nat := 3

/-- Modelled from the spec: `VEX_LEGACY_BYTE_0F` of `opcode.h`, the VEX map value of `0F`. -/
def VEX_LEGACY_BYTE_0F : Nat := 1

/-- Modelled from the spec: `VEX_LEGACY_BYTE_0F_38` of `opcode.h`, the VEX map value of `0F 38`. -/
def VEX_LEGACY_BYTE_0F_38 : Nat := 2

/-- Modelled from the spec: `VEX_LEGACY_BYTE_0F_3A` of `opcode.h`, the VEX map value of `0F 3A`. -/
def VEX_LEGACY_BYTE_0F_3A : Nat := 3

/-- Modelled from the spec: the operand sizes `BYTE` … `YWORD` (bytes), §3 `size_bytes`. -/
def BYTE : Nat := 1

/-- Modelled from the spec: see `BYTE`. -/
def WORD : Nat := 2

/-- Modelled from the spec: see `BYTE`. -/
def DWORD : Nat := 4

/-- Modelled from the spec: see `BYTE`. -/
def QWORD : Nat := 8

/-- Modelled from the spec: see `BYTE`. -/
def OWORD : Nat := 16

/-- Modelled from the spec: see `BYTE`. -/
def YWORD : Nat := 32

/-! ## The instruction-form catalog -/

/-- Addresses of the statically allocated catalog entries (`&mov_rm64_r64`, …), in declaration order. -/
inductive opcode_ref where
  | movsq | call_rm64 | call_rel32 | jmp_rel8 | jmp_rel32 | je_rel8 | je_rel32 | idiv_rm8
  | idiv_rex_rm8 | idiv_rm16 | idiv_rm32 | idiv_rm64 | div_rm8 | div_rex_rm8 | div_rm16 | div_rm32
  | div_rm64 | imul_rm8 | imul_rm16 | imul_rm32 | imul_rm64 | mul_rm8 | mul_rex_rm8 | mul_rm16
  | mul_rm32 | mul_rm64 | add_rm8_imm8 | add_rex_rm8_imm8 | add_rm16_imm16 | add_rm32_imm32
  | add_rm64_imm32 | add_rm8_r8 | add_rex_rm8_r8 | add_rm16_r16 | add_rm32_r32 | add_rm64_r64
  | add_r8_rm8 | add_rex_r8_rm8 | add_r16_rm16 | add_r32_rm32 | add_r64_rm64 | sub_rm8_imm8
  | sub_rex_rm8_imm8 | sub_rm16_imm16 | sub_rm32_imm32 | sub_rm64_imm32 | sub_rm8_r8
  | sub_rex_rm8_r8 | sub_rm16_r16 | sub_rm32_r32 | sub_rm64_r64 | sub_r8_rm8 | sub_rex_r8_rm8
  | sub_r16_rm16 | sub_r32_rm32 | sub_r64_rm64 | mov_rm8_r8 | mov_rex_rm8_r8 | mov_rm16_r16
  | mov_rm32_r32 | mov_rm64_r64 | mov_r8_rm8 | mov_rex_r8_rm8 | mov_r16_rm16 | mov_r32_rm32
  | mov_r64_rm64 | mov_r64_seg | mov_r8_imm8 | mov_rex_r8_imm8 | mov_r16_imm16 | mov_r32_imm32
  | mov_r64_imm64 | mov_rm8_imm8 | mov_rex_rm8_imm8 | mov_rm16_imm16 | mov_rm32_imm32
  | mov_rm64_imm32 | lea_r64_m | syscall_inst | ret | push_r64 | push_rm64 | pop_r64 | pop_rm64
  | cmp_rm8_imm8 | cmp_rex_rm8_imm8 | cmp_rm16_imm16 | cmp_rm32_imm32 | cmp_rm64_imm32 | cmp_rm8_r8
  | cmp_rex_rm8_r8 | cmp_rm16_r16 | cmp_rm32_r32 | cmp_rm64_r64 | cmp_r8_rm8 | cmp_rex_r8_rm8
  | cmp_r16_rm16 | cmp_r32_rm32 | cmp_r64_rm64 | seta_rm8 | setae_rm8 | setb_rm8 | setbe_rm8
  | setg_rm8 | setge_rm8 | setl_rm8 | setle_rm8 | sete_rm8 | setne_rm8 | seta_rex_rm8
  | setae_rex_rm8 | setb_rex_rm8 | setbe_rex_rm8 | setg_rex_rm8 | setge_rex_rm8 | setl_rex_rm8
  | setle_rex_rm8 | sete_rex_rm8 | setne_rex_rm8 | neg_rm8 | neg_rex_rm8 | neg_rm16 | neg_rm32
  | neg_rm64 | not_rm8 | not_rex_rm8 | not_rm16 | not_rm32 | not_rm64 | xor_rm8_imm8
  | xor_rex_rm8_imm8 | xor_rm16_imm16 | xor_rm32_imm32 | xor_rm64_imm32 | xor_rm8_r8
  | xor_rex_rm8_r8 | xor_rm16_r16 | xor_rm32_r32 | xor_rm64_r64 | xor_r8_rm8 | xor_rex_r8_rm8
  | xor_r16_rm16 | xor_r32_rm32 | xor_r64_rm64 | or_rm8_imm8 | or_rex_rm8_imm8 | or_rm16_imm16
  | or_rm32_imm32 | or_rm64_imm32 | or_rm8_r8 | or_rex_rm8_r8 | or_rm16_r16 | or_rm32_r32
  | or_rm64_r64 | or_r8_rm8 | or_rex_r8_rm8 | or_r16_rm16 | or_r32_rm32 | or_r64_rm64 | and_rm8_imm8
  | and_rex_rm8_imm8 | and_rm16_imm16 | and_rm32_imm32 | and_rm64_imm32 | and_rm8_r8
  | and_rex_rm8_r8 | and_rm16_r16 | and_rm32_r32 | and_rm64_r64 | and_r8_rm8 | and_rex_r8_rm8
  | and_r16_rm16 | and_r32_rm32 | and_r64_rm64 | sal_rm8_cl | sal_rex_rm8_cl | sal_rm16_cl
  | sal_rm32_cl | sal_rm64_cl | sar_rm8_cl | sar_rex_rm8_cl | sar_rm16_cl | sar_rm32_cl
  | sar_rm64_cl | shr_rm8_cl | shr_rex_rm8_cl | shr_rm16_cl | shr_rm32_cl | shr_rm64_cl
  | xorpd_xmm1_xmm2m128 | xorps_xmm1_xmm2m128 | movsd_xmm1_xmm2 | movsd_xmm1_m64
  | movsd_xmm1m64_xmm2 | movss_xmm1_xmm2 | movss_xmm1_m32 | movss_xmm2m32_xmm1 | addsd_xmm1_xmm2m64
  | addss_xmm1_xmm2m32 | subsd_xmm1_xmm2m64 | subss_xmm1_xmm2m32 | mulsd_xmm1_xmm2m64
  | mulss_xmm1_xmm2m32 | divsd_xmm1_xmm2m64 | divss_xmm1_xmm2m32 | comisd | comiss | movsx_r16_rm8
  | movsx_r32_rm8 | movsx_r64_rm8 | movsx_r32_rm16 | movsx_r64_rm16 | movsx_r64_rm32 | movzx_r16_rm8
  | movzx_r32_rm8 | movzx_r64_rm8 | movzx_r32_rm16 | movzx_r64_rm16 | movzx_r64_rm32
  deriving DecidableEq, Repr

def movsq : amd64_opcode_inst_t :=
  ⟨"movsq", "movsq", 0, [0xA5, 0, 0], [.REX_W], []⟩
def call_rm64 : amd64_opcode_inst_t :=
  ⟨"call", "call", 0, [0xFF, 0, 0], [.SLASH2], [⟨.RM64, .MODRM_RM⟩]⟩
def call_rel32 : amd64_opcode_inst_t :=
  ⟨"call", "call", 0, [0xE8, 0, 0], [.IMM_DWORD], [⟨.REL32, .IMM⟩]⟩
def jmp_rel8 : amd64_opcode_inst_t :=
  ⟨"jmp", "jmp", 0, [0xEB, 0, 0], [.IMM_BYTE], [⟨.REL8, .IMM⟩]⟩
def jmp_rel32 : amd64_opcode_inst_t :=
  ⟨"jmp", "jmp", 0, [0xE9, 0, 0], [.IMM_DWORD], [⟨.REL32, .IMM⟩]⟩
def je_rel8 : amd64_opcode_inst_t :=
  ⟨"je", "je", 0, [0x74, 0, 0], [.IMM_BYTE], [⟨.REL8, .IMM⟩]⟩
def je_rel32 : amd64_opcode_inst_t :=
  ⟨"je", "je", 0, [0x0F, 0x84, 0], [.IMM_DWORD], [⟨.REL32, .IMM⟩]⟩
def idiv_rm8 : amd64_opcode_inst_t :=
  ⟨"idiv", "idiv", 0, [0xF6, 0, 0], [.SLASH7], [⟨.RM8, .MODRM_RM⟩]⟩
def idiv_rex_rm8 : amd64_opcode_inst_t :=
  ⟨"idiv", "idiv", 0, [0xF6, 0, 0], [.REX, .SLASH7], [⟨.RM8, .MODRM_RM⟩]⟩
def idiv_rm16 : amd64_opcode_inst_t :=
  ⟨"idiv", "idiv", 0x66, [0xF7, 0, 0], [.SLASH7], [⟨.RM16, .MODRM_RM⟩]⟩
def idiv_rm32 : amd64_opcode_inst_t :=
  ⟨"idiv", "idiv", 0, [0xF7, 0, 0], [.SLASH7], [⟨.RM32, .MODRM_RM⟩]⟩
def idiv_rm64 : amd64_opcode_inst_t :=
  ⟨"idiv", "idiv", 0, [0xF7, 0, 0], [.REX_W, .SLASH7], [⟨.RM64, .MODRM_RM⟩]⟩
def div_rm8 : amd64_opcode_inst_t :=
  ⟨"div", "div", 0, [0xF6, 0, 0], [.SLASH6], [⟨.RM8, .MODRM_RM⟩]⟩
def div_rex_rm8 : amd64_opcode_inst_t :=
  ⟨"div", "div", 0, [0xF6, 0, 0], [.REX, .SLASH6], [⟨.RM8, .MODRM_RM⟩]⟩
def div_rm16 : amd64_opcode_inst_t :=
  ⟨"div", "div", 0x66, [0xF7, 0, 0], [.SLASH6], [⟨.RM16, .MODRM_RM⟩]⟩
def div_rm32 : amd64_opcode_inst_t :=
  ⟨"div", "div", 0, [0xF7, 0, 0], [.SLASH6], [⟨.RM32, .MODRM_RM⟩]⟩
def div_rm64 : amd64_opcode_inst_t :=
  ⟨"div", "div", 0, [0xF7, 0, 0], [.REX_W, .SLASH6], [⟨.RM64, .MODRM_RM⟩]⟩
def imul_rm8 : amd64_opcode_inst_t :=
  ⟨"imul", "imul", 0, [0xF6, 0, 0], [.SLASH5], [⟨.RM8, .MODRM_RM⟩]⟩
def imul_rm16 : amd64_opcode_inst_t :=
  ⟨"imul", "imul", 0x66, [0xF7, 0, 0], [.SLASH5], [⟨.RM16, .MODRM_RM⟩]⟩
def imul_rm32 : amd64_opcode_inst_t :=
  ⟨"imul", "imul", 0, [0xF7, 0, 0], [.SLASH5], [⟨.RM32, .MODRM_RM⟩]⟩
def imul_rm64 : amd64_opcode_inst_t :=
  ⟨"imul", "imul", 0, [0xF7, 0, 0], [.REX_W, .SLASH5], [⟨.RM64, .MODRM_RM⟩]⟩
def mul_rm8 : amd64_opcode_inst_t :=
  ⟨"mul", "mul", 0, [0xF6, 0, 0], [.SLASH4], [⟨.RM8, .MODRM_RM⟩]⟩
def mul_rex_rm8 : amd64_opcode_inst_t :=
  ⟨"mul", "mul", 0, [0xF6, 0, 0], [.REX, .SLASH4], [⟨.RM8, .MODRM_RM⟩]⟩
def mul_rm16 : amd64_opcode_inst_t :=
  ⟨"mul", "mul", 0x66, [0xF7, 0, 0], [.SLASH4], [⟨.RM16, .MODRM_RM⟩]⟩
def mul_rm32 : amd64_opcode_inst_t :=
  ⟨"mul", "mul", 0, [0xF7, 0, 0], [.SLASH4], [⟨.RM32, .MODRM_RM⟩]⟩
def mul_rm64 : amd64_opcode_inst_t :=
  ⟨"mul", "mul", 0, [0xF7, 0, 0], [.REX_W, .SLASH4], [⟨.RM64, .MODRM_RM⟩]⟩
def add_rm8_imm8 : amd64_opcode_inst_t :=
  ⟨"add", "add", 0, [0x80, 0, 0], [.SLASH0, .IMM_BYTE], [⟨.RM8, .MODRM_RM⟩, ⟨.IMM8, .IMM⟩]⟩
def add_rex_rm8_imm8 : amd64_opcode_inst_t :=
  ⟨"add", "add", 0, [0x80, 0, 0], [.REX, .SLASH0, .IMM_BYTE], [⟨.RM8, .MODRM_RM⟩, ⟨.IMM8, .IMM⟩]⟩
def add_rm16_imm16 : amd64_opcode_inst_t :=
  ⟨"add", "add", 0x66, [0x81, 0, 0], [.SLASH0, .IMM_WORD], [⟨.RM16, .MODRM_RM⟩, ⟨.IMM16, .IMM⟩]⟩
def add_rm32_imm32 : amd64_opcode_inst_t :=
  ⟨"add", "add", 0, [0x81, 0, 0], [.SLASH0, .IMM_DWORD], [⟨.RM32, .MODRM_RM⟩, ⟨.IMM32, .IMM⟩]⟩
def add_rm64_imm32 : amd64_opcode_inst_t :=
  ⟨"add", "add", 0, [0x81, 0, 0], [.REX_W, .SLASH0, .IMM_DWORD], [⟨.RM64, .MODRM_RM⟩, ⟨.IMM32, .IMM⟩]⟩
def add_rm8_r8 : amd64_opcode_inst_t :=
  ⟨"add", "add", 0, [0x00, 0, 0], [.SLASHR], [⟨.RM8, .MODRM_RM⟩, ⟨.R8, .MODRM_REG⟩]⟩
def add_rex_rm8_r8 : amd64_opcode_inst_t :=
  ⟨"add", "add", 0, [0x00, 0, 0], [.REX, .SLASHR], [⟨.RM8, .MODRM_RM⟩, ⟨.R8, .MODRM_REG⟩]⟩
def add_rm16_r16 : amd64_opcode_inst_t :=
  ⟨"add", "add", 0x66, [0x01, 0, 0], [.SLASHR], [⟨.RM16, .MODRM_RM⟩, ⟨.R16, .MODRM_REG⟩]⟩
def add_rm32_r32 : amd64_opcode_inst_t :=
  ⟨"add", "add", 0, [0x01, 0, 0], [.SLASHR], [⟨.RM32, .MODRM_RM⟩, ⟨.R32, .MODRM_REG⟩]⟩
def add_rm64_r64 : amd64_opcode_inst_t :=
  ⟨"add", "add", 0, [0x01, 0, 0], [.REX_W, .SLASHR], [⟨.RM64, .MODRM_RM⟩, ⟨.R64, .MODRM_REG⟩]⟩
def add_r8_rm8 : amd64_opcode_inst_t :=
  ⟨"add", "add", 0, [0x02, 0, 0], [.SLASHR], [⟨.R8, .MODRM_REG⟩, ⟨.RM8, .MODRM_RM⟩]⟩
def add_rex_r8_rm8 : amd64_opcode_inst_t :=
  ⟨"add", "add", 0, [0x02, 0, 0], [.REX, .SLASHR], [⟨.R8, .MODRM_REG⟩, ⟨.RM8, .MODRM_RM⟩]⟩
def add_r16_rm16 : amd64_opcode_inst_t :=
  ⟨"add", "add", 0x66, [0x03, 0, 0], [.SLASHR], [⟨.R16, .MODRM_REG⟩, ⟨.RM16, .MODRM_RM⟩]⟩
def add_r32_rm32 : amd64_opcode_inst_t :=
  ⟨"add", "add", 0, [0x03, 0, 0], [.SLASHR], [⟨.R32, .MODRM_REG⟩, ⟨.RM32, .MODRM_RM⟩]⟩
def add_r64_rm64 : amd64_opcode_inst_t :=
  ⟨"add", "add", 0, [0x03, 0, 0], [.REX_W, .SLASHR], [⟨.R64, .MODRM_REG⟩, ⟨.RM64, .MODRM_RM⟩]⟩
def sub_rm8_imm8 : amd64_opcode_inst_t :=
  ⟨"sub", "sub", 0, [0x80, 0, 0], [.SLASH5, .IMM_BYTE], [⟨.RM8, .MODRM_RM⟩, ⟨.IMM8, .IMM⟩]⟩
def sub_rex_rm8_imm8 : amd64_opcode_inst_t :=
  ⟨"sub", "sub", 0, [0x80, 0, 0], [.REX, .SLASH5, .IMM_BYTE], [⟨.RM8, .MODRM_RM⟩, ⟨.IMM8, .IMM⟩]⟩
def sub_rm16_imm16 : amd64_opcode_inst_t :=
  ⟨"sub", "sub", 0x66, [0x81, 0, 0], [.SLASH5, .IMM_WORD], [⟨.RM16, .MODRM_RM⟩, ⟨.IMM16, .IMM⟩]⟩
def sub_rm32_imm32 : amd64_opcode_inst_t :=
  ⟨"sub", "sub", 0, [0x81, 0, 0], [.SLASH5, .IMM_DWORD], [⟨.RM32, .MODRM_RM⟩, ⟨.IMM32, .IMM⟩]⟩
def sub_rm64_imm32 : amd64_opcode_inst_t :=
  ⟨"sub", "sub", 0, [0x81, 0, 0], [.REX_W, .SLASH5, .IMM_DWORD], [⟨.RM64, .MODRM_RM⟩, ⟨.IMM32, .IMM⟩]⟩
def sub_rm8_r8 : amd64_opcode_inst_t :=
  ⟨"sub", "sub", 0, [0x28, 0, 0], [.SLASHR], [⟨.RM8, .MODRM_RM⟩, ⟨.R8, .MODRM_REG⟩]⟩
def sub_rex_rm8_r8 : amd64_opcode_inst_t :=
  ⟨"sub", "sub", 0, [0x28, 0, 0], [.REX, .SLASHR], [⟨.RM8, .MODRM_RM⟩, ⟨.R8, .MODRM_REG⟩]⟩
def sub_rm16_r16 : amd64_opcode_inst_t :=
  ⟨"sub", "sub", 0x66, [0x29, 0, 0], [.SLASHR], [⟨.RM16, .MODRM_RM⟩, ⟨.R16, .MODRM_REG⟩]⟩
def sub_rm32_r32 : amd64_opcode_inst_t :=
  ⟨"sub", "sub", 0, [0x29, 0, 0], [.SLASHR], [⟨.RM32, .MODRM_RM⟩, ⟨.R32, .MODRM_REG⟩]⟩
def sub_rm64_r64 : amd64_opcode_inst_t :=
  ⟨"sub", "sub", 0, [0x29, 0, 0], [.REX_W, .SLASHR], [⟨.RM64, .MODRM_RM⟩, ⟨.R64, .MODRM_REG⟩]⟩
def sub_r8_rm8 : amd64_opcode_inst_t :=
  ⟨"sub", "sub", 0, [0x2A, 0, 0], [.SLASHR], [⟨.R8, .MODRM_REG⟩, ⟨.RM8, .MODRM_RM⟩]⟩
def sub_rex_r8_rm8 : amd64_opcode_inst_t :=
  ⟨"sub", "sub", 0, [0x2A, 0, 0], [.REX, .SLASHR], [⟨.R8, .MODRM_REG⟩, ⟨.RM8, .MODRM_RM⟩]⟩
def sub_r16_rm16 : amd64_opcode_inst_t :=
  ⟨"sub", "sub", 0x66, [0x2B, 0, 0], [.SLASHR], [⟨.R16, .MODRM_REG⟩, ⟨.RM16, .MODRM_RM⟩]⟩
def sub_r32_rm32 : amd64_opcode_inst_t :=
  ⟨"sub", "sub", 0, [0x2B, 0, 0], [.SLASHR], [⟨.R32, .MODRM_REG⟩, ⟨.RM32, .MODRM_RM⟩]⟩
def sub_r64_rm64 : amd64_opcode_inst_t :=
  ⟨"sub", "sub", 0, [0x2B, 0, 0], [.REX_W, .SLASHR], [⟨.R64, .MODRM_REG⟩, ⟨.RM64, .MODRM_RM⟩]⟩
def mov_rm8_r8 : amd64_opcode_inst_t :=
  ⟨"mov", "mov", 0, [0x88, 0, 0], [.SLASHR], [⟨.RM8, .MODRM_RM⟩, ⟨.R8, .MODRM_REG⟩]⟩
def mov_rex_rm8_r8 : amd64_opcode_inst_t :=
  ⟨"mov", "mov", 0, [0x88, 0, 0], [.REX, .SLASHR], [⟨.RM8, .MODRM_RM⟩, ⟨.R8, .MODRM_REG⟩]⟩
def mov_rm16_r16 : amd64_opcode_inst_t :=
  ⟨"mov", "mov", 0x66, [0x89, 0, 0], [.SLASHR], [⟨.RM16, .MODRM_RM⟩, ⟨.R16, .MODRM_REG⟩]⟩
def mov_rm32_r32 : amd64_opcode_inst_t :=
  ⟨"mov", "mov", 0, [0x89, 0, 0], [.SLASHR], [⟨.RM32, .MODRM_RM⟩, ⟨.R32, .MODRM_REG⟩]⟩
def mov_rm64_r64 : amd64_opcode_inst_t :=
  ⟨"mov", "mov", 0, [0x89, 0, 0], [.REX_W, .SLASHR], [⟨.RM64, .MODRM_RM⟩, ⟨.R64, .MODRM_REG⟩]⟩
def mov_r8_rm8 : amd64_opcode_inst_t :=
  ⟨"mov", "mov", 0, [0x8A, 0, 0], [.SLASHR], [⟨.R8, .MODRM_REG⟩, ⟨.RM8, .MODRM_RM⟩]⟩
def mov_rex_r8_rm8 : amd64_opcode_inst_t :=
  ⟨"mov", "mov", 0, [0x8A, 0, 0], [.REX, .SLASHR], [⟨.R8, .MODRM_REG⟩, ⟨.RM8, .MODRM_RM⟩]⟩
def mov_r16_rm16 : amd64_opcode_inst_t :=
  ⟨"mov", "mov", 0x66, [0x8B, 0, 0], [.SLASHR], [⟨.R16, .MODRM_REG⟩, ⟨.RM16, .MODRM_RM⟩]⟩
def mov_r32_rm32 : amd64_opcode_inst_t :=
  ⟨"mov", "mov", 0, [0x8B, 0, 0], [.SLASHR], [⟨.R32, .MODRM_REG⟩, ⟨.RM32, .MODRM_RM⟩]⟩
def mov_r64_rm64 : amd64_opcode_inst_t :=
  ⟨"mov", "mov", 0, [0x8B, 0, 0], [.REX_W, .SLASHR], [⟨.R64, .MODRM_REG⟩, ⟨.RM64, .MODRM_RM⟩]⟩
def mov_r64_seg : amd64_opcode_inst_t :=
  ⟨"mov", "mov", 0, [0x8B, 0, 0], [.REX_W, .SLASHR], [⟨.R64, .MODRM_REG⟩, ⟨.SEG64, .MODRM_RM⟩]⟩
def mov_r8_imm8 : amd64_opcode_inst_t :=
  ⟨"mov", "mov", 0, [0xB0, 0, 0], [.IMM_BYTE], [⟨.R8, .OPCODE_PLUS⟩, ⟨.IMM8, .IMM⟩]⟩
def mov_rex_r8_imm8 : amd64_opcode_inst_t :=
  ⟨"mov", "mov", 0, [0xB0, 0, 0], [.REX, .IMM_BYTE], [⟨.R8, .OPCODE_PLUS⟩, ⟨.IMM8, .IMM⟩]⟩
def mov_r16_imm16 : amd64_opcode_inst_t :=
  ⟨"mov", "mov", 0x66, [0xB8, 0, 0], [.IMM_WORD], [⟨.R16, .OPCODE_PLUS⟩, ⟨.IMM16, .IMM⟩]⟩
def mov_r32_imm32 : amd64_opcode_inst_t :=
  ⟨"mov", "mov", 0, [0xB8, 0, 0], [.IMM_DWORD], [⟨.R32, .OPCODE_PLUS⟩, ⟨.IMM32, .IMM⟩]⟩
def mov_r64_imm64 : amd64_opcode_inst_t :=
  ⟨"mov", "mov", 0, [0xB8, 0, 0], [.REX_W, .IMM_QWORD], [⟨.R64, .OPCODE_PLUS⟩, ⟨.IMM64, .IMM⟩]⟩
def mov_rm8_imm8 : amd64_opcode_inst_t :=
  ⟨"mov", "mov", 0, [0xC6, 0, 0], [.SLASH0, .IMM_BYTE], [⟨.RM8, .MODRM_RM⟩, ⟨.IMM8, .IMM⟩]⟩
def mov_rex_rm8_imm8 : amd64_opcode_inst_t :=
  ⟨"mov", "mov", 0, [0xC6, 0, 0], [.REX, .SLASH0, .IMM_BYTE], [⟨.RM8, .MODRM_RM⟩, ⟨.IMM8, .IMM⟩]⟩
def mov_rm16_imm16 : amd64_opcode_inst_t :=
  ⟨"mov", "mov", 0x66, [0xC7, 0, 0], [.SLASH0, .IMM_WORD], [⟨.RM16, .MODRM_RM⟩, ⟨.IMM16, .IMM⟩]⟩
def mov_rm32_imm32 : amd64_opcode_inst_t :=
  ⟨"mov", "mov", 0, [0xC7, 0, 0], [.SLASH0, .IMM_DWORD], [⟨.RM32, .MODRM_RM⟩, ⟨.IMM32, .IMM⟩]⟩
def mov_rm64_imm32 : amd64_opcode_inst_t :=
  ⟨"mov", "mov", 0, [0xC7, 0, 0], [.REX_W, .SLASH0, .IMM_DWORD], [⟨.RM64, .MODRM_RM⟩, ⟨.IMM32, .IMM⟩]⟩
def lea_r64_m : amd64_opcode_inst_t :=
  ⟨"lea", "lea", 0, [0x8D, 0, 0], [.REX_W, .SLASHR], [⟨.R64, .MODRM_REG⟩, ⟨.M, .MODRM_RM⟩]⟩
def syscall_inst : amd64_opcode_inst_t :=
  ⟨"syscall_inst", "syscall_inst", 0, [0x0F, 0x05, 0], [], []⟩
def ret : amd64_opcode_inst_t :=
  ⟨"ret", "ret", 0, [0xC3, 0, 0], [], []⟩
def push_r64 : amd64_opcode_inst_t :=
  ⟨"push", "push", 0, [0x50, 0, 0], [], [⟨.R64, .OPCODE_PLUS⟩]⟩
def push_rm64 : amd64_opcode_inst_t :=
  ⟨"push", "push", 0, [0xFF, 0, 0], [.SLASH6], [⟨.RM64, .MODRM_RM⟩]⟩
def pop_r64 : amd64_opcode_inst_t :=
  ⟨"pop", "pop", 0, [0x58, 0, 0], [], [⟨.R64, .OPCODE_PLUS⟩]⟩
def pop_rm64 : amd64_opcode_inst_t :=
  ⟨"pop", "pop", 0, [0x8F, 0, 0], [.SLASH0], [⟨.RM64, .MODRM_RM⟩]⟩
def cmp_rm8_imm8 : amd64_opcode_inst_t :=
  ⟨"cmp", "cmp", 0, [0x80, 0, 0], [.SLASH7, .IMM_BYTE], [⟨.RM8, .MODRM_RM⟩, ⟨.IMM8, .IMM⟩]⟩
def cmp_rex_rm8_imm8 : amd64_opcode_inst_t :=
  ⟨"cmp", "cmp", 0, [0x80, 0, 0], [.REX, .SLASH7, .IMM_BYTE], [⟨.RM8, .MODRM_RM⟩, ⟨.IMM8, .IMM⟩]⟩
def cmp_rm16_imm16 : amd64_opcode_inst_t :=
  ⟨"cmp", "cmp", 0x66, [0x81, 0, 0], [.SLASH7, .IMM_WORD], [⟨.RM16, .MODRM_RM⟩, ⟨.IMM16, .IMM⟩]⟩
def cmp_rm32_imm32 : amd64_opcode_inst_t :=
  ⟨"cmp", "cmp", 0, [0x81, 0, 0], [.SLASH7, .IMM_DWORD], [⟨.RM32, .MODRM_RM⟩, ⟨.IMM32, .IMM⟩]⟩
def cmp_rm64_imm32 : amd64_opcode_inst_t :=
  ⟨"cmp", "cmp", 0, [0x81, 0, 0], [.REX_W, .SLASH7, .IMM_DWORD], [⟨.RM64, .MODRM_RM⟩, ⟨.IMM32, .IMM⟩]⟩
def cmp_rm8_r8 : amd64_opcode_inst_t :=
  ⟨"cmp", "cmp", 0, [0x38, 0, 0], [.SLASHR], [⟨.RM8, .MODRM_RM⟩, ⟨.R8, .MODRM_REG⟩]⟩
def cmp_rex_rm8_r8 : amd64_opcode_inst_t :=
  ⟨"cmp", "cmp", 0, [0x38, 0, 0], [.REX, .SLASHR], [⟨.RM8, .MODRM_RM⟩, ⟨.R8, .MODRM_REG⟩]⟩
def cmp_rm16_r16 : amd64_opcode_inst_t :=
  ⟨"cmp", "cmp", 0x66, [0x39, 0, 0], [.SLASHR], [⟨.RM16, .MODRM_RM⟩, ⟨.R16, .MODRM_REG⟩]⟩
def cmp_rm32_r32 : amd64_opcode_inst_t :=
  ⟨"cmp", "cmp", 0, [0x39, 0, 0], [.SLASHR], [⟨.RM32, .MODRM_RM⟩, ⟨.R32, .MODRM_REG⟩]⟩
def cmp_rm64_r64 : amd64_opcode_inst_t :=
  ⟨"cmp", "cmp", 0, [0x39, 0, 0], [.REX_W, .SLASHR], [⟨.RM64, .MODRM_RM⟩, ⟨.R64, .MODRM_REG⟩]⟩
def cmp_r8_rm8 : amd64_opcode_inst_t :=
  ⟨"cmp", "cmp", 0, [0x3A, 0, 0], [.SLASHR], [⟨.R8, .MODRM_REG⟩, ⟨.RM8, .MODRM_RM⟩]⟩
def cmp_rex_r8_rm8 : amd64_opcode_inst_t :=
  ⟨"cmp", "cmp", 0, [0x3A, 0, 0], [.REX, .SLASHR], [⟨.R8, .MODRM_REG⟩, ⟨.RM8, .MODRM_RM⟩]⟩
def cmp_r16_rm16 : amd64_opcode_inst_t :=
  ⟨"cmp", "cmp", 0x66, [0x3B, 0, 0], [.SLASHR], [⟨.R16, .MODRM_REG⟩, ⟨.RM16, .MODRM_RM⟩]⟩
def cmp_r32_rm32 : amd64_opcode_inst_t :=
  ⟨"cmp", "cmp", 0, [0x3B, 0, 0], [.SLASHR], [⟨.R32, .MODRM_REG⟩, ⟨.RM32, .MODRM_RM⟩]⟩
def cmp_r64_rm64 : amd64_opcode_inst_t :=
  ⟨"cmp", "cmp", 0, [0x3B, 0, 0], [.REX_W, .SLASHR], [⟨.R64, .MODRM_REG⟩, ⟨.RM64, .MODRM_RM⟩]⟩
def seta_rm8 : amd64_opcode_inst_t :=
  ⟨"seta", "seta", 0, [0x0F, 0x97, 0], [], [⟨.RM8, .MODRM_RM⟩]⟩
def setae_rm8 : amd64_opcode_inst_t :=
  ⟨"setae", "setae", 0, [0x0F, 0x93, 0], [], [⟨.RM8, .MODRM_RM⟩]⟩
def setb_rm8 : amd64_opcode_inst_t :=
  ⟨"setb", "setb", 0, [0x0F, 0x92, 0], [], [⟨.RM8, .MODRM_RM⟩]⟩
def setbe_rm8 : amd64_opcode_inst_t :=
  ⟨"setbe", "setbe", 0, [0x0F, 0x96, 0], [], [⟨.RM8, .MODRM_RM⟩]⟩
def setg_rm8 : amd64_opcode_inst_t :=
  ⟨"setg", "setg", 0, [0x0F, 0x9F, 0], [], [⟨.RM8, .MODRM_RM⟩]⟩
def setge_rm8 : amd64_opcode_inst_t :=
  ⟨"setge", "setge", 0, [0x0F, 0x9D, 0], [], [⟨.RM8, .MODRM_RM⟩]⟩
def setl_rm8 : amd64_opcode_inst_t :=
  ⟨"setl", "setl", 0, [0x0F, 0x9C, 0], [], [⟨.RM8, .MODRM_RM⟩]⟩
def setle_rm8 : amd64_opcode_inst_t :=
  ⟨"setle", "setle", 0, [0x0F, 0x9E, 0], [], [⟨.RM8, .MODRM_RM⟩]⟩
def sete_rm8 : amd64_opcode_inst_t :=
  ⟨"sete", "sete", 0, [0x0F, 0x94, 0], [], [⟨.RM8, .MODRM_RM⟩]⟩
def setne_rm8 : amd64_opcode_inst_t :=
  ⟨"setne", "setne", 0, [0x0F, 0x95, 0], [], [⟨.RM8, .MODRM_RM⟩]⟩
def seta_rex_rm8 : amd64_opcode_inst_t :=
  ⟨"seta", "seta", 0, [0x0F, 0x97, 0], [.REX], [⟨.RM8, .MODRM_RM⟩]⟩
def setae_rex_rm8 : amd64_opcode_inst_t :=
  ⟨"setae", "setae", 0, [0x0F, 0x93, 0], [.REX], [⟨.RM8, .MODRM_RM⟩]⟩
def setb_rex_rm8 : amd64_opcode_inst_t :=
  ⟨"setb", "setb", 0, [0x0F, 0x92, 0], [.REX], [⟨.RM8, .MODRM_RM⟩]⟩
def setbe_rex_rm8 : amd64_opcode_inst_t :=
  ⟨"setbe", "setbe", 0, [0x0F, 0x96, 0], [.REX], [⟨.RM8, .MODRM_RM⟩]⟩
def setg_rex_rm8 : amd64_opcode_inst_t :=
  ⟨"setg", "setg", 0, [0x0F, 0x9F, 0], [.REX], [⟨.RM8, .MODRM_RM⟩]⟩
def setge_rex_rm8 : amd64_opcode_inst_t :=
  ⟨"setge", "setge", 0, [0x0F, 0x9D, 0], [.REX], [⟨.RM8, .MODRM_RM⟩]⟩
def setl_rex_rm8 : amd64_opcode_inst_t :=
  ⟨"setl", "setl", 0, [0x0F, 0x9C, 0], [.REX], [⟨.RM8, .MODRM_RM⟩]⟩
def setle_rex_rm8 : amd64_opcode_inst_t :=
  ⟨"setle", "setle", 0, [0x0F, 0x9E, 0], [.REX], [⟨.RM8, .MODRM_RM⟩]⟩
def sete_rex_rm8 : amd64_opcode_inst_t :=
  ⟨"sete", "sete", 0, [0x0F, 0x94, 0], [.REX], [⟨.RM8, .MODRM_RM⟩]⟩
def setne_rex_rm8 : amd64_opcode_inst_t :=
  ⟨"setne", "setne", 0, [0x0F, 0x95, 0], [.REX], [⟨.RM8, .MODRM_RM⟩]⟩
def neg_rm8 : amd64_opcode_inst_t :=
  ⟨"neg", "neg", 0, [0xF6, 0, 0], [.SLASH3], [⟨.RM8, .MODRM_RM⟩]⟩
def neg_rex_rm8 : amd64_opcode_inst_t :=
  ⟨"neg", "neg", 0, [0xF6, 0, 0], [.REX, .SLASH3], [⟨.RM8, .MODRM_RM⟩]⟩
def neg_rm16 : amd64_opcode_inst_t :=
  ⟨"neg", "neg", 0x66, [0xF7, 0, 0], [.SLASH3], [⟨.RM16, .MODRM_RM⟩]⟩
def neg_rm32 : amd64_opcode_inst_t :=
  ⟨"neg", "neg", 0, [0xF7, 0, 0], [.SLASH3], [⟨.RM32, .MODRM_RM⟩]⟩
def neg_rm64 : amd64_opcode_inst_t :=
  ⟨"neg", "neg", 0, [0xF7, 0, 0], [.REX_W, .SLASH3], [⟨.RM64, .MODRM_RM⟩]⟩
def not_rm8 : amd64_opcode_inst_t :=
  ⟨"not", "not", 0, [0xF6, 0, 0], [.SLASH2], [⟨.RM8, .MODRM_RM⟩]⟩
def not_rex_rm8 : amd64_opcode_inst_t :=
  ⟨"not", "not", 0, [0xF6, 0, 0], [.REX, .SLASH2], [⟨.RM8, .MODRM_RM⟩]⟩
def not_rm16 : amd64_opcode_inst_t :=
  ⟨"not", "not", 0x66, [0xF7, 0, 0], [.SLASH2], [⟨.RM16, .MODRM_RM⟩]⟩
def not_rm32 : amd64_opcode_inst_t :=
  ⟨"not", "not", 0, [0xF7, 0, 0], [.SLASH2], [⟨.RM32, .MODRM_RM⟩]⟩
def not_rm64 : amd64_opcode_inst_t :=
  ⟨"not", "not", 0, [0xF7, 0, 0], [.REX_W, .SLASH2], [⟨.RM64, .MODRM_RM⟩]⟩
def xor_rm8_imm8 : amd64_opcode_inst_t :=
  ⟨"xor", "xor", 0, [0x80, 0, 0], [.SLASH6, .IMM_BYTE], [⟨.RM8, .MODRM_RM⟩, ⟨.IMM8, .IMM⟩]⟩
def xor_rex_rm8_imm8 : amd64_opcode_inst_t :=
  ⟨"xor", "xor", 0, [0x80, 0, 0], [.REX, .SLASH6, .IMM_BYTE], [⟨.RM8, .MODRM_RM⟩, ⟨.IMM8, .IMM⟩]⟩
def xor_rm16_imm16 : amd64_opcode_inst_t :=
  ⟨"xor", "xor", 0x66, [0x81, 0, 0], [.SLASH6, .IMM_WORD], [⟨.RM16, .MODRM_RM⟩, ⟨.IMM16, .IMM⟩]⟩
def xor_rm32_imm32 : amd64_opcode_inst_t :=
  ⟨"xor", "xor", 0, [0x81, 0, 0], [.SLASH6, .IMM_DWORD], [⟨.RM32, .MODRM_RM⟩, ⟨.IMM32, .IMM⟩]⟩
def xor_rm64_imm32 : amd64_opcode_inst_t :=
  ⟨"xor", "xor", 0, [0x81, 0, 0], [.REX_W, .SLASH6, .IMM_DWORD], [⟨.RM64, .MODRM_RM⟩, ⟨.IMM32, .IMM⟩]⟩
def xor_rm8_r8 : amd64_opcode_inst_t :=
  ⟨"xor", "xor", 0, [0x30, 0, 0], [.SLASHR], [⟨.RM8, .MODRM_RM⟩, ⟨.R8, .MODRM_REG⟩]⟩
def xor_rex_rm8_r8 : amd64_opcode_inst_t :=
  ⟨"xor", "xor", 0, [0x30, 0, 0], [.REX, .SLASHR], [⟨.RM8, .MODRM_RM⟩, ⟨.R8, .MODRM_REG⟩]⟩
def xor_rm16_r16 : amd64_opcode_inst_t :=
  ⟨"xor", "xor", 0x66, [0x31, 0, 0], [.SLASHR], [⟨.RM16, .MODRM_RM⟩, ⟨.R16, .MODRM_REG⟩]⟩
def xor_rm32_r32 : amd64_opcode_inst_t :=
  ⟨"xor", "xor", 0, [0x31, 0, 0], [.SLASHR], [⟨.RM32, .MODRM_RM⟩, ⟨.R32, .MODRM_REG⟩]⟩
def xor_rm64_r64 : amd64_opcode_inst_t :=
  ⟨"xor", "xor", 0, [0x31, 0, 0], [.REX_W, .SLASHR], [⟨.RM64, .MODRM_RM⟩, ⟨.R64, .MODRM_REG⟩]⟩
def xor_r8_rm8 : amd64_opcode_inst_t :=
  ⟨"xor", "xor", 0, [0x32, 0, 0], [.SLASHR], [⟨.R8, .MODRM_REG⟩, ⟨.RM8, .MODRM_RM⟩]⟩
def xor_rex_r8_rm8 : amd64_opcode_inst_t :=
  ⟨"xor", "xor", 0, [0x32, 0, 0], [.REX, .SLASHR], [⟨.R8, .MODRM_REG⟩, ⟨.RM8, .MODRM_RM⟩]⟩
def xor_r16_rm16 : amd64_opcode_inst_t :=
  ⟨"xor", "xor", 0x66, [0x33, 0, 0], [.SLASHR], [⟨.R16, .MODRM_REG⟩, ⟨.RM16, .MODRM_RM⟩]⟩
def xor_r32_rm32 : amd64_opcode_inst_t :=
  ⟨"xor", "xor", 0, [0x33, 0, 0], [.SLASHR], [⟨.R32, .MODRM_REG⟩, ⟨.RM32, .MODRM_RM⟩]⟩
def xor_r64_rm64 : amd64_opcode_inst_t :=
  ⟨"xor", "xor", 0, [0x33, 0, 0], [.REX_W, .SLASHR], [⟨.R64, .MODRM_REG⟩, ⟨.RM64, .MODRM_RM⟩]⟩
def or_rm8_imm8 : amd64_opcode_inst_t :=
  ⟨"or", "or", 0, [0x80, 0, 0], [.SLASH1, .IMM_BYTE], [⟨.RM8, .MODRM_RM⟩, ⟨.IMM8, .IMM⟩]⟩
def or_rex_rm8_imm8 : amd64_opcode_inst_t :=
  ⟨"or", "or", 0, [0x80, 0, 0], [.REX, .SLASH1, .IMM_BYTE], [⟨.RM8, .MODRM_RM⟩, ⟨.IMM8, .IMM⟩]⟩
def or_rm16_imm16 : amd64_opcode_inst_t :=
  ⟨"or", "or", 0x66, [0x81, 0, 0], [.SLASH1, .IMM_WORD], [⟨.RM16, .MODRM_RM⟩, ⟨.IMM16, .IMM⟩]⟩
def or_rm32_imm32 : amd64_opcode_inst_t :=
  ⟨"or", "or", 0, [0x81, 0, 0], [.SLASH1, .IMM_DWORD], [⟨.RM32, .MODRM_RM⟩, ⟨.IMM32, .IMM⟩]⟩
def or_rm64_imm32 : amd64_opcode_inst_t :=
  ⟨"or", "or", 0, [0x81, 0, 0], [.REX_W, .SLASH1, .IMM_DWORD], [⟨.RM64, .MODRM_RM⟩, ⟨.IMM32, .IMM⟩]⟩
def or_rm8_r8 : amd64_opcode_inst_t :=
  ⟨"or", "or", 0, [0x08, 0, 0], [.SLASHR], [⟨.RM8, .MODRM_RM⟩, ⟨.R8, .MODRM_REG⟩]⟩
def or_rex_rm8_r8 : amd64_opcode_inst_t :=
  ⟨"or", "or", 0, [0x08, 0, 0], [.REX, .SLASHR], [⟨.RM8, .MODRM_RM⟩, ⟨.R8, .MODRM_REG⟩]⟩
def or_rm16_r16 : amd64_opcode_inst_t :=
  ⟨"or", "or", 0x66, [0x09, 0, 0], [.SLASHR], [⟨.RM16, .MODRM_RM⟩, ⟨.R16, .MODRM_REG⟩]⟩
def or_rm32_r32 : amd64_opcode_inst_t :=
  ⟨"or", "or", 0, [0x09, 0, 0], [.SLASHR], [⟨.RM32, .MODRM_RM⟩, ⟨.R32, .MODRM_REG⟩]⟩
def or_rm64_r64 : amd64_opcode_inst_t :=
  ⟨"or", "or", 0, [0x09, 0, 0], [.REX_W, .SLASHR], [⟨.RM64, .MODRM_RM⟩, ⟨.R64, .MODRM_REG⟩]⟩
def or_r8_rm8 : amd64_opcode_inst_t :=
  ⟨"or", "or", 0, [0x0A, 0, 0], [.SLASHR], [⟨.R8, .MODRM_REG⟩, ⟨.RM8, .MODRM_RM⟩]⟩
def or_rex_r8_rm8 : amd64_opcode_inst_t :=
  ⟨"or", "or", 0, [0x0A, 0, 0], [.REX, .SLASHR], [⟨.R8, .MODRM_REG⟩, ⟨.RM8, .MODRM_RM⟩]⟩
def or_r16_rm16 : amd64_opcode_inst_t :=
  ⟨"or", "or", 0x66, [0x0B, 0, 0], [.SLASHR], [⟨.R16, .MODRM_REG⟩, ⟨.RM16, .MODRM_RM⟩]⟩
def or_r32_rm32 : amd64_opcode_inst_t :=
  ⟨"or", "or", 0, [0x0B, 0, 0], [.SLASHR], [⟨.R32, .MODRM_REG⟩, ⟨.RM32, .MODRM_RM⟩]⟩
def or_r64_rm64 : amd64_opcode_inst_t :=
  ⟨"or", "or", 0, [0x0B, 0, 0], [.REX_W, .SLASHR], [⟨.R64, .MODRM_REG⟩, ⟨.RM64, .MODRM_RM⟩]⟩
def and_rm8_imm8 : amd64_opcode_inst_t :=
  ⟨"and", "and", 0, [0x80, 0, 0], [.SLASH4, .IMM_BYTE], [⟨.RM8, .MODRM_RM⟩, ⟨.IMM8, .IMM⟩]⟩
def and_rex_rm8_imm8 : amd64_opcode_inst_t :=
  ⟨"and", "and", 0, [0x80, 0, 0], [.REX, .SLASH4, .IMM_BYTE], [⟨.RM8, .MODRM_RM⟩, ⟨.IMM8, .IMM⟩]⟩
def and_rm16_imm16 : amd64_opcode_inst_t :=
  ⟨"and", "and", 0x66, [0x81, 0, 0], [.SLASH4, .IMM_WORD], [⟨.RM16, .MODRM_RM⟩, ⟨.IMM16, .IMM⟩]⟩
def and_rm32_imm32 : amd64_opcode_inst_t :=
  ⟨"and", "and", 0, [0x81, 0, 0], [.SLASH4, .IMM_DWORD], [⟨.RM32, .MODRM_RM⟩, ⟨.IMM32, .IMM⟩]⟩
def and_rm64_imm32 : amd64_opcode_inst_t :=
  ⟨"and", "and", 0, [0x81, 0, 0], [.REX_W, .SLASH4, .IMM_DWORD], [⟨.RM64, .MODRM_RM⟩, ⟨.IMM32, .IMM⟩]⟩
def and_rm8_r8 : amd64_opcode_inst_t :=
  ⟨"and", "and", 0, [0x20, 0, 0], [.SLASHR], [⟨.RM8, .MODRM_RM⟩, ⟨.R8, .MODRM_REG⟩]⟩
def and_rex_rm8_r8 : amd64_opcode_inst_t :=
  ⟨"and", "and", 0, [0x20, 0, 0], [.REX, .SLASHR], [⟨.RM8, .MODRM_RM⟩, ⟨.R8, .MODRM_REG⟩]⟩
def and_rm16_r16 : amd64_opcode_inst_t :=
  ⟨"and", "and", 0x66, [0x21, 0, 0], [.SLASHR], [⟨.RM16, .MODRM_RM⟩, ⟨.R16, .MODRM_REG⟩]⟩
def and_rm32_r32 : amd64_opcode_inst_t :=
  ⟨"and", "and", 0, [0x21, 0, 0], [.SLASHR], [⟨.RM32, .MODRM_RM⟩, ⟨.R32, .MODRM_REG⟩]⟩
def and_rm64_r64 : amd64_opcode_inst_t :=
  ⟨"and", "and", 0, [0x21, 0, 0], [.REX_W, .SLASHR], [⟨.RM64, .MODRM_RM⟩, ⟨.R64, .MODRM_REG⟩]⟩
def and_r8_rm8 : amd64_opcode_inst_t :=
  ⟨"and", "and", 0, [0x22, 0, 0], [.SLASHR], [⟨.R8, .MODRM_REG⟩, ⟨.RM8, .MODRM_RM⟩]⟩
def and_rex_r8_rm8 : amd64_opcode_inst_t :=
  ⟨"and", "and", 0, [0x22, 0, 0], [.REX, .SLASHR], [⟨.R8, .MODRM_REG⟩, ⟨.RM8, .MODRM_RM⟩]⟩
def and_r16_rm16 : amd64_opcode_inst_t :=
  ⟨"and", "and", 0x66, [0x23, 0, 0], [.SLASHR], [⟨.R16, .MODRM_REG⟩, ⟨.RM16, .MODRM_RM⟩]⟩
def and_r32_rm32 : amd64_opcode_inst_t :=
  ⟨"and", "and", 0, [0x23, 0, 0], [.SLASHR], [⟨.R32, .MODRM_REG⟩, ⟨.RM32, .MODRM_RM⟩]⟩
def and_r64_rm64 : amd64_opcode_inst_t :=
  ⟨"and", "and", 0, [0x23, 0, 0], [.REX_W, .SLASHR], [⟨.R64, .MODRM_REG⟩, ⟨.RM64, .MODRM_RM⟩]⟩
def sal_rm8_cl : amd64_opcode_inst_t :=
  ⟨"sal", "sal", 0, [0xD2, 0, 0], [.SLASH4], [⟨.RM8, .MODRM_RM⟩, ⟨.R8, .MODRM_REG⟩]⟩
def sal_rex_rm8_cl : amd64_opcode_inst_t :=
  ⟨"sal", "sal", 0, [0xD2, 0, 0], [.REX, .SLASH4], [⟨.RM8, .MODRM_RM⟩, ⟨.R8, .MODRM_REG⟩]⟩
def sal_rm16_cl : amd64_opcode_inst_t :=
  ⟨"sal", "sal", 0x66, [0xD3, 0, 0], [.SLASH4], [⟨.RM16, .MODRM_RM⟩, ⟨.R8, .MODRM_REG⟩]⟩
def sal_rm32_cl : amd64_opcode_inst_t :=
  ⟨"sal", "sal", 0, [0xD3, 0, 0], [.SLASH4], [⟨.RM32, .MODRM_RM⟩, ⟨.R8, .MODRM_REG⟩]⟩
def sal_rm64_cl : amd64_opcode_inst_t :=
  ⟨"sal", "sal", 0, [0xD3, 0, 0], [.REX_W, .SLASH4], [⟨.RM64, .MODRM_RM⟩, ⟨.R8, .MODRM_REG⟩]⟩
def sar_rm8_cl : amd64_opcode_inst_t :=
  ⟨"sar", "sar", 0, [0xD2, 0, 0], [.SLASH7], [⟨.RM8, .MODRM_RM⟩, ⟨.R8, .MODRM_REG⟩]⟩
def sar_rex_rm8_cl : amd64_opcode_inst_t :=
  ⟨"sar", "sar", 0, [0xD2, 0, 0], [.REX, .SLASH7], [⟨.RM8, .MODRM_RM⟩, ⟨.R8, .MODRM_REG⟩]⟩
def sar_rm16_cl : amd64_opcode_inst_t :=
  ⟨"sar", "sar", 0x66, [0xD3, 0, 0], [.SLASH7], [⟨.RM16, .MODRM_RM⟩, ⟨.R8, .MODRM_REG⟩]⟩
def sar_rm32_cl : amd64_opcode_inst_t :=
  ⟨"sar", "sar", 0, [0xD3, 0, 0], [.SLASH7], [⟨.RM32, .MODRM_RM⟩, ⟨.R8, .MODRM_REG⟩]⟩
def sar_rm64_cl : amd64_opcode_inst_t :=
  ⟨"sar", "sar", 0, [0xD3, 0, 0], [.REX_W, .SLASH7], [⟨.RM64, .MODRM_RM⟩, ⟨.R8, .MODRM_REG⟩]⟩
def shr_rm8_cl : amd64_opcode_inst_t :=
  ⟨"shr", "shr", 0, [0xD2, 0, 0], [.SLASH5], [⟨.RM8, .MODRM_RM⟩, ⟨.R8, .MODRM_REG⟩]⟩
def shr_rex_rm8_cl : amd64_opcode_inst_t :=
  ⟨"shr", "shr", 0, [0xD2, 0, 0], [.REX, .SLASH5], [⟨.RM8, .MODRM_RM⟩, ⟨.R8, .MODRM_REG⟩]⟩
def shr_rm16_cl : amd64_opcode_inst_t :=
  ⟨"shr", "shr", 0x66, [0xD3, 0, 0], [.SLASH5], [⟨.RM16, .MODRM_RM⟩, ⟨.R8, .MODRM_REG⟩]⟩
def shr_rm32_cl : amd64_opcode_inst_t :=
  ⟨"shr", "shr", 0, [0xD3, 0, 0], [.SLASH5], [⟨.RM32, .MODRM_RM⟩, ⟨.R8, .MODRM_REG⟩]⟩
def shr_rm64_cl : amd64_opcode_inst_t :=
  ⟨"shr", "shr", 0, [0xD3, 0, 0], [.REX_W, .SLASH5], [⟨.RM64, .MODRM_RM⟩, ⟨.R8, .MODRM_REG⟩]⟩
def xorpd_xmm1_xmm2m128 : amd64_opcode_inst_t :=
  ⟨"xor", "xorpd", 0, [0x66, 0x0F, 0x57], [.SLASHR], [⟨.XMM1S64, .MODRM_REG⟩, ⟨.XMM2M64, .MODRM_RM⟩]⟩
def xorps_xmm1_xmm2m128 : amd64_opcode_inst_t :=
  ⟨"xor", "xorps", 0, [0x0F, 0x57, 0], [.SLASHR], [⟨.XMM1S32, .MODRM_REG⟩, ⟨.XMM2M32, .MODRM_RM⟩]⟩
def movsd_xmm1_xmm2 : amd64_opcode_inst_t :=
  ⟨"mov", "movsd", 0xF2, [0x0F, 0x10, 0], [.SLASHR], [⟨.XMM1S64, .MODRM_REG⟩, ⟨.XMM2S64, .MODRM_RM⟩]⟩
def movsd_xmm1_m64 : amd64_opcode_inst_t :=
  ⟨"mov", "movsd", 0xF2, [0x0F, 0x10, 0], [.SLASHR], [⟨.XMM1S64, .MODRM_REG⟩, ⟨.M64, .MODRM_RM⟩]⟩
def movsd_xmm1m64_xmm2 : amd64_opcode_inst_t :=
  ⟨"mov", "movsd", 0x0F2, [0x0F, 0x11, 0], [.SLASHR], [⟨.XMM1M64, .MODRM_RM⟩, ⟨.XMM2S64, .MODRM_REG⟩]⟩
def movss_xmm1_xmm2 : amd64_opcode_inst_t :=
  ⟨"mov", "movss", 0xF3, [0x0F, 0x10, 0], [.SLASHR], [⟨.XMM1S32, .MODRM_REG⟩, ⟨.XMM2S32, .MODRM_RM⟩]⟩
def movss_xmm1_m32 : amd64_opcode_inst_t :=
  ⟨"mov", "movss", 0xF3, [0x0F, 0x10, 0], [.SLASHR], [⟨.XMM1S32, .MODRM_REG⟩, ⟨.M32, .MODRM_RM⟩]⟩
def movss_xmm2m32_xmm1 : amd64_opcode_inst_t :=
  ⟨"mov", "movss", 0xF3, [0x0F, 0x11, 0], [.SLASHR], [⟨.XMM2M32, .MODRM_RM⟩, ⟨.XMM1S32, .MODRM_REG⟩]⟩
def addsd_xmm1_xmm2m64 : amd64_opcode_inst_t :=
  ⟨"add", "addsd", 0xF2, [0x0F, 0x58, 0], [.SLASHR], [⟨.XMM1S64, .MODRM_REG⟩, ⟨.XMM2M64, .MODRM_RM⟩]⟩
def addss_xmm1_xmm2m32 : amd64_opcode_inst_t :=
  ⟨"add", "addss", 0xF3, [0x0F, 0x58, 0], [.SLASHR], [⟨.XMM1S32, .MODRM_REG⟩, ⟨.XMM2M32, .MODRM_RM⟩]⟩
def subsd_xmm1_xmm2m64 : amd64_opcode_inst_t :=
  ⟨"sub", "subsd", 0xF2, [0x0F, 0x5C, 0], [.SLASHR], [⟨.XMM1S64, .MODRM_REG⟩, ⟨.XMM2M64, .MODRM_RM⟩]⟩
def subss_xmm1_xmm2m32 : amd64_opcode_inst_t :=
  ⟨"sub", "subss", 0xF3, [0x0F, 0x5C, 0], [.SLASHR], [⟨.XMM1S32, .MODRM_REG⟩, ⟨.XMM2M32, .MODRM_RM⟩]⟩
def mulsd_xmm1_xmm2m64 : amd64_opcode_inst_t :=
  ⟨"fmul", "mulsd", 0xF2, [0x0F, 0x59, 0], [.SLASHR], [⟨.XMM1S64, .MODRM_REG⟩, ⟨.XMM2M64, .MODRM_RM⟩]⟩
def mulss_xmm1_xmm2m32 : amd64_opcode_inst_t :=
  ⟨"fmul", "mulss", 0xF3, [0x0F, 0x59, 0], [.SLASHR], [⟨.XMM1S32, .MODRM_REG⟩, ⟨.XMM2M32, .MODRM_RM⟩]⟩
def divsd_xmm1_xmm2m64 : amd64_opcode_inst_t :=
  ⟨"fdiv", "divsd", 0xF2, [0x0F, 0x5E, 0], [.SLASHR], [⟨.XMM1S64, .MODRM_REG⟩, ⟨.XMM2M64, .MODRM_RM⟩]⟩
def divss_xmm1_xmm2m32 : amd64_opcode_inst_t :=
  ⟨"fdiv", "divss", 0xF3, [0x0F, 0x5E, 0], [.SLASHR], [⟨.XMM1S32, .MODRM_REG⟩, ⟨.XMM2M32, .MODRM_RM⟩]⟩
def comisd : amd64_opcode_inst_t :=
  ⟨"cmp", "comisd", 0x66, [0x0F, 0x2F, 0], [.SLASHR], [⟨.XMM1S64, .MODRM_REG⟩, ⟨.XMM2M64, .MODRM_RM⟩]⟩
def comiss : amd64_opcode_inst_t :=
  ⟨"cmp", "comiss", 0, [0x0F, 0x2F, 0], [.SLASHR], [⟨.XMM1S32, .MODRM_REG⟩, ⟨.XMM2M32, .MODRM_RM⟩]⟩
def movsx_r16_rm8 : amd64_opcode_inst_t :=
  ⟨"movsx", "movsx", 0x66, [0x0F, 0xBE, 0], [.SLASHR], [⟨.R16, .MODRM_REG⟩, ⟨.RM8, .MODRM_RM⟩]⟩
def movsx_r32_rm8 : amd64_opcode_inst_t :=
  ⟨"movsx", "movsx", 0, [0x0F, 0xBE, 0], [.SLASHR], [⟨.R32, .MODRM_REG⟩, ⟨.RM8, .MODRM_RM⟩]⟩
def movsx_r64_rm8 : amd64_opcode_inst_t :=
  ⟨"movsx", "movsx", 0, [0x0F, 0xBE, 0], [.REX_W, .SLASHR], [⟨.R64, .MODRM_REG⟩, ⟨.RM8, .MODRM_RM⟩]⟩
def movsx_r32_rm16 : amd64_opcode_inst_t :=
  ⟨"movsx", "movsx", 0, [0x0F, 0xBF, 0], [.SLASHR], [⟨.R32, .MODRM_REG⟩, ⟨.RM16, .MODRM_RM⟩]⟩
def movsx_r64_rm16 : amd64_opcode_inst_t :=
  ⟨"movsx", "movsx", 0, [0x0F, 0xBF, 0], [.REX_W, .SLASHR], [⟨.R64, .MODRM_REG⟩, ⟨.RM16, .MODRM_RM⟩]⟩
def movsx_r64_rm32 : amd64_opcode_inst_t :=
  ⟨"movsx", "movsxd", 0, [0x63, 0, 0], [.REX_W, .SLASHR], [⟨.R64, .MODRM_REG⟩, ⟨.RM32, .MODRM_RM⟩]⟩
def movzx_r16_rm8 : amd64_opcode_inst_t :=
  ⟨"movzx", "movzx", 0x66, [0x0F, 0xB6, 0], [.SLASHR], [⟨.R16, .MODRM_REG⟩, ⟨.RM8, .MODRM_RM⟩]⟩
def movzx_r32_rm8 : amd64_opcode_inst_t :=
  ⟨"movzx", "movzx", 0, [0x0F, 0xB6, 0], [.SLASHR], [⟨.R32, .MODRM_REG⟩, ⟨.RM8, .MODRM_RM⟩]⟩
def movzx_r64_rm8 : amd64_opcode_inst_t :=
  ⟨"movzx", "movzx", 0, [0x0F, 0xB6, 0], [.REX_W, .SLASHR], [⟨.R64, .MODRM_REG⟩, ⟨.RM8, .MODRM_RM⟩]⟩
def movzx_r32_rm16 : amd64_opcode_inst_t :=
  ⟨"movzx", "movzx", 0, [0x0F, 0xB7, 0], [.SLASHR], [⟨.R32, .MODRM_REG⟩, ⟨.RM16, .MODRM_RM⟩]⟩
def movzx_r64_rm16 : amd64_opcode_inst_t :=
  ⟨"movzx", "movzx", 0, [0x0F, 0xB7, 0], [.REX_W, .SLASHR], [⟨.R64, .MODRM_REG⟩, ⟨.RM16, .MODRM_RM⟩]⟩
def movzx_r64_rm32 : amd64_opcode_inst_t :=
  ⟨"movzx", "mov", 0, [0x63, 0, 0], [.SLASHR], [⟨.R64, .MODRM_REG⟩, ⟨.RM32, .MODRM_RM⟩]⟩

/-- Contents of the catalog entries at program start (the static initialisers). -/
def static_insts (inst : opcode_ref) : amd64_opcode_inst_t :=
  opcode_ref.casesOn (motive := fun _ => amd64_opcode_inst_t) inst
    movsq call_rm64 call_rel32 jmp_rel8 jmp_rel32 je_rel8 je_rel32 idiv_rm8 idiv_rex_rm8 idiv_rm16
    idiv_rm32 idiv_rm64 div_rm8 div_rex_rm8 div_rm16 div_rm32 div_rm64 imul_rm8 imul_rm16 imul_rm32
    imul_rm64 mul_rm8 mul_rex_rm8 mul_rm16 mul_rm32 mul_rm64 add_rm8_imm8 add_rex_rm8_imm8
    add_rm16_imm16 add_rm32_imm32 add_rm64_imm32 add_rm8_r8 add_rex_rm8_r8 add_rm16_r16 add_rm32_r32
    add_rm64_r64 add_r8_rm8 add_rex_r8_rm8 add_r16_rm16 add_r32_rm32 add_r64_rm64 sub_rm8_imm8
    sub_rex_rm8_imm8 sub_rm16_imm16 sub_rm32_imm32 sub_rm64_imm32 sub_rm8_r8 sub_rex_rm8_r8
    sub_rm16_r16 sub_rm32_r32 sub_rm64_r64 sub_r8_rm8 sub_rex_r8_rm8 sub_r16_rm16 sub_r32_rm32
    sub_r64_rm64 mov_rm8_r8 mov_rex_rm8_r8 mov_rm16_r16 mov_rm32_r32 mov_rm64_r64 mov_r8_rm8
    mov_rex_r8_rm8 mov_r16_rm16 mov_r32_rm32 mov_r64_rm64 mov_r64_seg mov_r8_imm8 mov_rex_r8_imm8
    mov_r16_imm16 mov_r32_imm32 mov_r64_imm64 mov_rm8_imm8 mov_rex_rm8_imm8 mov_rm16_imm16
    mov_rm32_imm32 mov_rm64_imm32 lea_r64_m syscall_inst ret push_r64 push_rm64 pop_r64 pop_rm64
    cmp_rm8_imm8 cmp_rex_rm8_imm8 cmp_rm16_imm16 cmp_rm32_imm32 cmp_rm64_imm32 cmp_rm8_r8
    cmp_rex_rm8_r8 cmp_rm16_r16 cmp_rm32_r32 cmp_rm64_r64 cmp_r8_rm8 cmp_rex_r8_rm8 cmp_r16_rm16
    cmp_r32_rm32 cmp_r64_rm64 seta_rm8 setae_rm8 setb_rm8 setbe_rm8 setg_rm8 setge_rm8 setl_rm8
    setle_rm8 sete_rm8 setne_rm8 seta_rex_rm8 setae_rex_rm8 setb_rex_rm8 setbe_rex_rm8 setg_rex_rm8
    setge_rex_rm8 setl_rex_rm8 setle_rex_rm8 sete_rex_rm8 setne_rex_rm8 neg_rm8 neg_rex_rm8 neg_rm16
    neg_rm32 neg_rm64 not_rm8 not_rex_rm8 not_rm16 not_rm32 not_rm64 xor_rm8_imm8 xor_rex_rm8_imm8
    xor_rm16_imm16 xor_rm32_imm32 xor_rm64_imm32 xor_rm8_r8 xor_rex_rm8_r8 xor_rm16_r16 xor_rm32_r32
    xor_rm64_r64 xor_r8_rm8 xor_rex_r8_rm8 xor_r16_rm16 xor_r32_rm32 xor_r64_rm64 or_rm8_imm8
    or_rex_rm8_imm8 or_rm16_imm16 or_rm32_imm32 or_rm64_imm32 or_rm8_r8 or_rex_rm8_r8 or_rm16_r16
    or_rm32_r32 or_rm64_r64 or_r8_rm8 or_rex_r8_rm8 or_r16_rm16 or_r32_rm32 or_r64_rm64 and_rm8_imm8
    and_rex_rm8_imm8 and_rm16_imm16 and_rm32_imm32 and_rm64_imm32 and_rm8_r8 and_rex_rm8_r8
    and_rm16_r16 and_rm32_r32 and_rm64_r64 and_r8_rm8 and_rex_r8_rm8 and_r16_rm16 and_r32_rm32
    and_r64_rm64 sal_rm8_cl sal_rex_rm8_cl sal_rm16_cl sal_rm32_cl sal_rm64_cl sar_rm8_cl
    sar_rex_rm8_cl sar_rm16_cl sar_rm32_cl sar_rm64_cl shr_rm8_cl shr_rex_rm8_cl shr_rm16_cl
    shr_rm32_cl shr_rm64_cl xorpd_xmm1_xmm2m128 xorps_xmm1_xmm2m128 movsd_xmm1_xmm2 movsd_xmm1_m64
    movsd_xmm1m64_xmm2 movss_xmm1_xmm2 movss_xmm1_m32 movss_xmm2m32_xmm1 addsd_xmm1_xmm2m64
    addss_xmm1_xmm2m32 subsd_xmm1_xmm2m64 subss_xmm1_xmm2m32 mulsd_xmm1_xmm2m64 mulss_xmm1_xmm2m32
    divsd_xmm1_xmm2m64 divss_xmm1_xmm2m32 comisd comiss movsx_r16_rm8 movsx_r32_rm8 movsx_r64_rm8
    movsx_r32_rm16 movsx_r64_rm16 movsx_r64_rm32 movzx_r16_rm8 movzx_r32_rm8 movzx_r64_rm8
    movzx_r32_rm16 movzx_r64_rm16 movzx_r64_rm32

/-- The `opcode_tree_build(&…)` calls of `amd64_opcode_init`, in source order. -/
def registered_insts : List opcode_ref := [
  opcode_ref.lea_r64_m, opcode_ref.syscall_inst, opcode_ref.call_rm64, opcode_ref.call_rel32,
  opcode_ref.jmp_rel8, opcode_ref.jmp_rel32, opcode_ref.je_rel8, opcode_ref.je_rel32,
  opcode_ref.ret, opcode_ref.push_rm64, opcode_ref.push_r64, opcode_ref.pop_r64,
  opcode_ref.pop_rm64, opcode_ref.add_rex_rm8_imm8, opcode_ref.add_rm8_imm8,
  opcode_ref.add_rm16_imm16, opcode_ref.add_rm32_imm32, opcode_ref.add_rm64_imm32,
  opcode_ref.add_rex_rm8_r8, opcode_ref.add_rm8_r8, opcode_ref.add_rm16_r16,
  opcode_ref.add_rm32_r32, opcode_ref.add_rm64_r64, opcode_ref.add_rex_r8_rm8,
  opcode_ref.add_r8_rm8, opcode_ref.add_r16_rm16, opcode_ref.add_r32_rm32, opcode_ref.add_r64_rm64,
  opcode_ref.sub_rex_rm8_imm8, opcode_ref.sub_rm8_imm8, opcode_ref.sub_rm16_imm16,
  opcode_ref.sub_rm32_imm32, opcode_ref.sub_rm64_imm32, opcode_ref.sub_rex_rm8_r8,
  opcode_ref.sub_rm8_r8, opcode_ref.sub_rm16_r16, opcode_ref.sub_rm32_r32, opcode_ref.sub_rm64_r64,
  opcode_ref.sub_rex_r8_rm8, opcode_ref.sub_r8_rm8, opcode_ref.sub_r16_rm16,
  opcode_ref.sub_r32_rm32, opcode_ref.sub_r64_rm64, opcode_ref.idiv_rex_rm8, opcode_ref.idiv_rm8,
  opcode_ref.idiv_rm16, opcode_ref.idiv_rm32, opcode_ref.idiv_rm64, opcode_ref.div_rex_rm8,
  opcode_ref.div_rm8, opcode_ref.div_rm16, opcode_ref.div_rm32, opcode_ref.div_rm64,
  opcode_ref.imul_rm8, opcode_ref.imul_rm16, opcode_ref.imul_rm32, opcode_ref.imul_rm64,
  opcode_ref.mul_rex_rm8, opcode_ref.mul_rm8, opcode_ref.mul_rm16, opcode_ref.mul_rm32,
  opcode_ref.mul_rm64, opcode_ref.mov_rex_rm8_r8, opcode_ref.mov_rm8_r8, opcode_ref.mov_rm16_r16,
  opcode_ref.mov_rm32_r32, opcode_ref.mov_rm64_r64, opcode_ref.mov_rex_r8_rm8,
  opcode_ref.mov_r8_rm8, opcode_ref.mov_r16_rm16, opcode_ref.mov_r64_rm64, opcode_ref.mov_r32_rm32,
  opcode_ref.mov_r64_seg, opcode_ref.mov_rex_r8_imm8, opcode_ref.mov_r8_imm8,
  opcode_ref.mov_r16_imm16, opcode_ref.mov_r32_imm32, opcode_ref.mov_r64_imm64,
  opcode_ref.mov_rex_rm8_imm8, opcode_ref.mov_rm8_imm8, opcode_ref.mov_rm16_imm16,
  opcode_ref.mov_rm32_imm32, opcode_ref.mov_rm64_imm32, opcode_ref.cmp_rex_rm8_imm8,
  opcode_ref.cmp_rm8_imm8, opcode_ref.cmp_rm16_imm16, opcode_ref.cmp_rm32_imm32,
  opcode_ref.cmp_rm64_imm32, opcode_ref.cmp_rex_rm8_r8, opcode_ref.cmp_rm8_r8,
  opcode_ref.cmp_rm16_r16, opcode_ref.cmp_rm32_r32, opcode_ref.cmp_r64_rm64,
  opcode_ref.cmp_rex_r8_rm8, opcode_ref.cmp_r8_rm8, opcode_ref.cmp_r16_rm16,
  opcode_ref.cmp_r32_rm32, opcode_ref.cmp_r64_rm64, opcode_ref.seta_rex_rm8,
  opcode_ref.setae_rex_rm8, opcode_ref.setb_rex_rm8, opcode_ref.setbe_rex_rm8,
  opcode_ref.setg_rex_rm8, opcode_ref.setge_rex_rm8, opcode_ref.setl_rex_rm8,
  opcode_ref.setle_rex_rm8, opcode_ref.sete_rex_rm8, opcode_ref.setne_rex_rm8, opcode_ref.seta_rm8,
  opcode_ref.setae_rm8, opcode_ref.setb_rm8, opcode_ref.setbe_rm8, opcode_ref.setg_rm8,
  opcode_ref.setge_rm8, opcode_ref.setl_rm8, opcode_ref.setle_rm8, opcode_ref.sete_rm8,
  opcode_ref.setne_rm8, opcode_ref.neg_rex_rm8, opcode_ref.neg_rm8, opcode_ref.neg_rm16,
  opcode_ref.neg_rm32, opcode_ref.neg_rm64, opcode_ref.not_rex_rm8, opcode_ref.not_rm8,
  opcode_ref.not_rm16, opcode_ref.not_rm32, opcode_ref.not_rm64, opcode_ref.xor_rex_rm8_imm8,
  opcode_ref.xor_rm8_imm8, opcode_ref.xor_rm16_imm16, opcode_ref.xor_rm32_imm32,
  opcode_ref.xor_rm64_imm32, opcode_ref.xor_rex_rm8_r8, opcode_ref.xor_rm8_r8,
  opcode_ref.xor_rm16_r16, opcode_ref.xor_rm32_r32, opcode_ref.xor_rm64_r64,
  opcode_ref.xor_rex_r8_rm8, opcode_ref.xor_r8_rm8, opcode_ref.xor_r16_rm16,
  opcode_ref.xor_r32_rm32, opcode_ref.xor_r64_rm64, opcode_ref.or_rex_rm8_imm8,
  opcode_ref.or_rm8_imm8, opcode_ref.or_rm16_imm16, opcode_ref.or_rm32_imm32,
  opcode_ref.or_rm64_imm32, opcode_ref.or_rex_rm8_r8, opcode_ref.or_rm8_r8, opcode_ref.or_rm16_r16,
  opcode_ref.or_rm32_r32, opcode_ref.or_rm64_r64, opcode_ref.or_r8_rm8, opcode_ref.or_rex_r8_rm8,
  opcode_ref.or_r16_rm16, opcode_ref.or_r32_rm32, opcode_ref.or_r64_rm64,
  opcode_ref.and_rex_rm8_imm8, opcode_ref.and_rm8_imm8, opcode_ref.and_rm16_imm16,
  opcode_ref.and_rm32_imm32, opcode_ref.and_rm64_imm32, opcode_ref.and_rex_rm8_r8,
  opcode_ref.and_rm8_r8, opcode_ref.and_rm16_r16, opcode_ref.and_rm32_r32, opcode_ref.and_rm64_r64,
  opcode_ref.and_rex_r8_rm8, opcode_ref.and_r8_rm8, opcode_ref.and_r16_rm16,
  opcode_ref.and_r32_rm32, opcode_ref.and_r64_rm64, opcode_ref.sal_rex_rm8_cl,
  opcode_ref.sal_rm8_cl, opcode_ref.sal_rm16_cl, opcode_ref.sal_rm32_cl, opcode_ref.sal_rm64_cl,
  opcode_ref.sar_rex_rm8_cl, opcode_ref.sar_rm8_cl, opcode_ref.sar_rm16_cl, opcode_ref.sar_rm32_cl,
  opcode_ref.sar_rm64_cl, opcode_ref.shr_rex_rm8_cl, opcode_ref.shr_rm8_cl, opcode_ref.shr_rm16_cl,
  opcode_ref.shr_rm32_cl, opcode_ref.shr_rm64_cl, opcode_ref.movsd_xmm1_m64,
  opcode_ref.movsd_xmm1_xmm2, opcode_ref.movsd_xmm1m64_xmm2, opcode_ref.movss_xmm1_xmm2,
  opcode_ref.movss_xmm1_m32, opcode_ref.movss_xmm2m32_xmm1, opcode_ref.xorps_xmm1_xmm2m128,
  opcode_ref.xorpd_xmm1_xmm2m128, opcode_ref.addss_xmm1_xmm2m32, opcode_ref.addsd_xmm1_xmm2m64,
  opcode_ref.subss_xmm1_xmm2m32, opcode_ref.subsd_xmm1_xmm2m64, opcode_ref.mulss_xmm1_xmm2m32,
  opcode_ref.mulsd_xmm1_xmm2m64, opcode_ref.divss_xmm1_xmm2m32, opcode_ref.divsd_xmm1_xmm2m64,
  opcode_ref.comiss, opcode_ref.comisd, opcode_ref.movsx_r16_rm8, opcode_ref.movsx_r32_rm8,
  opcode_ref.movsx_r64_rm8, opcode_ref.movsx_r32_rm16, opcode_ref.movsx_r64_rm16,
  opcode_ref.movsx_r64_rm32, opcode_ref.movzx_r16_rm8, opcode_ref.movzx_r32_rm8,
  opcode_ref.movzx_r64_rm8, opcode_ref.movzx_r32_rm16, opcode_ref.movzx_r64_rm16,
  opcode_ref.movzx_r64_rm32]

/-- The heap of catalog entries: what each `amd64_opcode_inst_t *` points to. -/
abbrev opcode_heap := opcode_ref → amd64_opcode_inst_t

/-! ## The form lookup trie -/

/-- A key of a `succs` table: the mnemonic at the root, below it the string
`itoa(asm_operand_to_key(type, size))`, kept here as the pair it is computed from. -/
inductive table_key where
  | name (s : String)
  | operand (type : asm_operand_type) (size : Nat)
  deriving DecidableEq, Repr

/-- `asm_operand_to_key`: `(type << 8) | byte`, kept as the pair. -/
def asm_operand_to_key (type : asm_operand_type) (byte : Nat) : table_key :=
  .operand type byte

/-- A trie node (`amd64_opcode_tree_node_t`): the forms ending here and the children.
(The C field `key` is written and never read.) -/
inductive amd64_opcode_tree_node_t where
  | mk (insts : List opcode_ref) (succs : List (table_key × amd64_opcode_tree_node_t))

def amd64_opcode_tree_node_t.insts : amd64_opcode_tree_node_t → List opcode_ref
  | .mk insts _ => insts

def amd64_opcode_tree_node_t.succs :
    amd64_opcode_tree_node_t → List (table_key × amd64_opcode_tree_node_t)
  | .mk _ succs => succs

def opcode_node_new : amd64_opcode_tree_node_t := .mk [] []

/-- `table_get`: the value stored under a key, if any. -/
def table_get {α : Type} : List (table_key × α) → table_key → Option α
  | [], _ => none
  | (k, v) :: rest, key => if k = key then some v else table_get rest key

/-- `table_exist`. -/
def table_exist {α : Type} (t : List (table_key × α)) (key : table_key) : Bool :=
  (table_get t key).isSome

/-- `table_set`: replace the value under the key, or add the key. -/
def table_set {α : Type} : List (table_key × α) → table_key → α → List (table_key × α)
  | [], key, v => [(key, v)]
  | (k, w) :: rest, key, v =>
    if k = key then (k, v) :: rest else (k, w) :: table_set rest key v

/-- `operand_low_to_high`: the high-level keys a low-level operand kind accepts. -/
def operand_low_to_high : inst_operand_type → List table_key
  | .REL8 => [asm_operand_to_key .UINT8 BYTE]
  | .REL16 => [asm_operand_to_key .UINT16 WORD]
  | .REL32 => [asm_operand_to_key .UINT32 DWORD]
  | .RM8 => [asm_operand_to_key .REG BYTE, asm_operand_to_key .INDIRECT_REG BYTE,
      asm_operand_to_key .DISP_REG BYTE, asm_operand_to_key .RIP_RELATIVE BYTE,
      asm_operand_to_key .SIB_REG BYTE]
  | .RM16 => [asm_operand_to_key .REG WORD, asm_operand_to_key .INDIRECT_REG WORD,
      asm_operand_to_key .DISP_REG WORD, asm_operand_to_key .RIP_RELATIVE WORD,
      asm_operand_to_key .SIB_REG WORD]
  | .RM32 => [asm_operand_to_key .REG DWORD, asm_operand_to_key .INDIRECT_REG DWORD,
      asm_operand_to_key .DISP_REG DWORD, asm_operand_to_key .RIP_RELATIVE DWORD,
      asm_operand_to_key .SIB_REG DWORD]
  | .RM64 => [asm_operand_to_key .REG QWORD, asm_operand_to_key .INDIRECT_REG QWORD,
      asm_operand_to_key .DISP_REG QWORD, asm_operand_to_key .RIP_RELATIVE QWORD,
      asm_operand_to_key .SIB_REG QWORD]
  | .SEG64 => [asm_operand_to_key .SEG_OFFSET QWORD]
  | .M => [asm_operand_to_key .INDIRECT_REG QWORD, asm_operand_to_key .SIB_REG QWORD,
      asm_operand_to_key .DISP_REG QWORD, asm_operand_to_key .RIP_RELATIVE QWORD]
  | .M16 => [asm_operand_to_key .INDIRECT_REG WORD]
  | .M32 => [asm_operand_to_key .INDIRECT_REG DWORD, asm_operand_to_key .DISP_REG DWORD,
      asm_operand_to_key .RIP_RELATIVE DWORD, asm_operand_to_key .SIB_REG DWORD]
  | .M64 => [asm_operand_to_key .INDIRECT_REG QWORD, asm_operand_to_key .DISP_REG QWORD,
      asm_operand_to_key .SIB_REG QWORD, asm_operand_to_key .RIP_RELATIVE QWORD]
  | .IMM8 => [asm_operand_to_key .UINT8 BYTE]
  | .IMM16 => [asm_operand_to_key .UINT16 WORD]
  | .IMM32 => [asm_operand_to_key .UINT32 DWORD, asm_operand_to_key .UINT QWORD]
  | .IMM64 => [asm_operand_to_key .UINT64 QWORD]
  | .R8 => [asm_operand_to_key .REG BYTE]
  | .R16 => [asm_operand_to_key .REG 2]
  | .R32 => [asm_operand_to_key .REG 4]
  | .R64 => [asm_operand_to_key .REG QWORD]
  | .XMM1S64 | .XMM2S64 => [asm_operand_to_key .FREG QWORD]
  | .XMM1S32 | .XMM2S32 => [asm_operand_to_key .FREG DWORD]
  | .XMM2M128 => [asm_operand_to_key .FREG OWORD]
  | .XMM1M64 | .XMM2M64 => [asm_operand_to_key .FREG QWORD,
      asm_operand_to_key .INDIRECT_REG QWORD, asm_operand_to_key .RIP_RELATIVE QWORD,
      asm_operand_to_key .SIB_REG QWORD, asm_operand_to_key .DISP_REG QWORD]
  | .XMM2M32 | .XMM1M32 => [asm_operand_to_key .FREG DWORD,
      asm_operand_to_key .INDIRECT_REG DWORD, asm_operand_to_key .RIP_RELATIVE DWORD,
      asm_operand_to_key .SIB_REG DWORD, asm_operand_to_key .DISP_REG DWORD]
  | .YMM1 | .YMM2 => [asm_operand_to_key .FREG YWORD]

/-- `opcode_find_succs`: register `inst` below `node`, along every key sequence its remaining
operand slots accept; the recursion of the C code on `operands_index` is the recursion on the
list of remaining slots. -/
def opcode_find_succs (inst : opcode_ref) :
    List opcode_operand_t → amd64_opcode_tree_node_t → amd64_opcode_tree_node_t
  | [], node => .mk (node.insts ++ [inst]) node.succs
  | operand :: rest, node =>
    (operand_low_to_high operand.type).foldl
      (fun node key =>
        let succ := (table_get node.succs key).getD opcode_node_new
        .mk node.insts (table_set node.succs key (opcode_find_succs inst rest succ)))
      node

/-- `opcode_find_name` followed by `opcode_find_succs`: `opcode_tree_build`. -/
def opcode_tree_build (heap : opcode_heap) (root : amd64_opcode_tree_node_t) (inst : opcode_ref) :
    amd64_opcode_tree_node_t :=
  let key := table_key.name (heap inst).group
  let node := (table_get root.succs key).getD opcode_node_new
  .mk root.insts (table_set root.succs key (opcode_find_succs inst (heap inst).operands node))

/-- The trie built by `amd64_opcode_init` from a registration sequence. -/
def opcode_tree_of (heap : opcode_heap) (regs : List opcode_ref) : amd64_opcode_tree_node_t :=
  regs.foldl (opcode_tree_build heap) opcode_node_new

/-- The global `opcode_tree_root` after `amd64_opcode_init`. -/
@[irreducible] def opcode_tree_root : amd64_opcode_tree_node_t :=
  opcode_tree_of static_insts registered_insts

/-! ## Form selection -/

def str_equal (a b : String) : Bool := a == b

/-- `has_64_reg`: spl, bpl, sil, dil and every register of index ≥ 8. -/
def has_64_reg (reg : reg_t) : Bool :=
  if str_equal reg.name "spl" then true
  else if str_equal reg.name "bpl" then true
  else if str_equal reg.name "sil" then true
  else if str_equal reg.name "dil" then true
  else if reg.index ≥ 8 then true
  else false

/-- `is_high_eight_reg`: ah, bh, ch, dh. -/
def is_high_eight_reg (reg : reg_t) : Bool :=
  if str_equal reg.name "ah" then true
  else if str_equal reg.name "bh" then true
  else if str_equal reg.name "ch" then true
  else if str_equal reg.name "dh" then true
  else false

/-- `has_rex_extension`. -/
def has_rex_extension (list : List opcode_ext) : Bool :=
  (list.take 4).any (fun e => e = .REX || e = .REX_W)

/-- The registers `reg` and `reg2` that `opcode_select` inspects in an operand. -/
def select_regs (operand : amd64_asm_operand_t) : Option reg_t × Option reg_t :=
  match operand.value with
  | .reg r => (some r, none)
  | .disp_reg r _ => (some r, none)
  | .indirect_reg r => (some r, none)
  | .sib_reg base index _ _ => (base, index)
  | _ => (none, none)

/-- One register's contribution to the two flags of `opcode_select`. -/
def select_flags (reg : Option reg_t) (flags : Bool × Bool) : Bool × Bool :=
  match reg with
  | none => flags
  | some r =>
    (if has_64_reg r then true else flags.1, if is_high_eight_reg r then true else flags.2)

/-- The operand loop of `opcode_select`: the flags `(has64_reg, has_high_eight_reg)` and the
trie descent; `none` when a key is absent (`assertf(exists, …)`). -/
def opcode_select_walk : List amd64_asm_operand_t → amd64_opcode_tree_node_t → Bool × Bool →
    Option (amd64_opcode_tree_node_t × Bool × Bool)
  | [], current, flags => some (current, flags)
  | operand :: rest, current, flags =>
    let regs := select_regs operand
    let flags := select_flags regs.2 (select_flags regs.1 flags)
    let key := asm_operand_to_key operand.type operand.size
    match table_get current.succs key with
    | none => none
    | some next => opcode_select_walk rest next flags

/-- The value `insts->list[j]->operands[0].type` compared by the sort (`0`: no operand). -/
def first_operand_ord (heap : opcode_heap) (inst : opcode_ref) : Nat :=
  match (heap inst).operands with
  | [] => 0
  | operand :: _ => operand.type.ord

/-- The inner loop of `opcode_sort_insts`: `n` comparisons of neighbours from the left;
the flag is `change`. -/
def opcode_sort_pass (heap : opcode_heap) : Nat → List opcode_ref → List opcode_ref × Bool
  | 0, l => (l, false)
  | _ + 1, [] => ([], false)
  | _ + 1, [a] => ([a], false)
  | n + 1, a :: b :: rest =>
    if first_operand_ord heap a > first_operand_ord heap b then
      (b :: (opcode_sort_pass heap n (a :: rest)).1, true)
    else
      (a :: (opcode_sort_pass heap n (b :: rest)).1, (opcode_sort_pass heap n (b :: rest)).2)

/-- The outer loop of `opcode_sort_insts`; the argument is `count - 1 - i`. -/
def opcode_sort_loop (heap : opcode_heap) : Nat → List opcode_ref → List opcode_ref
  | 0, l => l
  | k + 1, l =>
    let r := opcode_sort_pass heap (k + 1) l
    if r.2 then opcode_sort_loop heap k r.1 else r.1

/-- `opcode_sort_insts`: bubble sort, ascending in the kind of the first operand. -/
def opcode_sort_insts (heap : opcode_heap) (insts : List opcode_ref) : List opcode_ref :=
  if insts.length = 0 then insts else opcode_sort_loop heap (insts.length - 1) insts

/-- `opcode_select`: the chosen form and the instruction with `need_rex_ext` set;
`none` when an assertion fails. -/
def opcode_select (heap : opcode_heap) (root : amd64_opcode_tree_node_t)
    (asm_inst : amd64_asm_inst_t) : Option (opcode_ref × amd64_asm_inst_t) :=
  match table_get root.succs (.name asm_inst.name) with
  | none => none
  | some current =>
    match opcode_select_walk asm_inst.operands current (false, false) with
    | none => none
    | some (current, has64_reg, has_high_eight_reg) =>
      let temps := current.insts
      let asm_inst := { asm_inst with need_rex_ext := has64_reg }
      let insts := temps.filter
        (fun inst => !(has_high_eight_reg && has_rex_extension (heap inst).extensions))
      match opcode_sort_insts heap insts with
      | [] => none
      | inst :: _ => some (inst, asm_inst)

/-! ## The encoder: `opcode_fill` -/

/-- Truncation to `uint8_t`. -/
def u8 (n : Nat) : Nat := n % 256

def new_rex_pfx : rex_prefix_t := ⟨false, false, false, false⟩

def new_vex_pfx : vex_prefix_t := ⟨0, 0, 0, false, true, true, true, true⟩

def new_modrm : modrm_t := ⟨0, 0, 0⟩

def new_sib (scale index base : Nat) : sib_t := ⟨u8 scale, u8 index, u8 base⟩

/-- The ModR/M record after `if (format->modrm == NULL) format->modrm = new_modrm();`. -/
def modrm_of (format : amd64_binary_format_t) : modrm_t := format.modrm.getD new_modrm

/-- The REX record after `if (format->rex_prefix == NULL) …`. -/
def rex_of (format : amd64_binary_format_t) : rex_prefix_t := format.rex_pfx.getD new_rex_pfx

/-- The VEX record after `if (format->vex_prefix == NULL) …`. -/
def vex_of (format : amd64_binary_format_t) : vex_prefix_t := format.vex_pfx.getD new_vex_pfx

/-- `build_ext`. -/
def build_ext (format : amd64_binary_format_t) (ext : opcode_ext) : amd64_binary_format_t :=
  match ext with
  | .SLASH0 => { format with modrm := some { modrm_of format with reg := 0 } }
  | .SLASH1 => { format with modrm := some { modrm_of format with reg := 1 } }
  | .SLASH2 => { format with modrm := some { modrm_of format with reg := 2 } }
  | .SLASH3 => { format with modrm := some { modrm_of format with reg := 3 } }
  | .SLASH4 => { format with modrm := some { modrm_of format with reg := 4 } }
  | .SLASH5 => { format with modrm := some { modrm_of format with reg := 5 } }
  | .SLASH6 => { format with modrm := some { modrm_of format with reg := 6 } }
  | .SLASH7 => { format with modrm := some { modrm_of format with reg := 7 } }
  | .SLASHR => { format with modrm := some (modrm_of format) }
  | .REX_W => { format with rex_pfx := some { rex_of format with w := true } }
  | .REX => { format with rex_pfx := some (rex_of format) }
  | .VEX_128 => { format with vex_pfx := some (vex_of format) }
  | .VEX_256 => { format with vex_pfx := some { vex_of format with l := true } }
  | .VEX_66 =>
    { format with vex_pfx := some { vex_of format with vex_opcode_extension := VEX_OPCODE_EXT_66 } }
  | .VEX_F2 =>
    { format with vex_pfx := some { vex_of format with vex_opcode_extension := VEX_OPCODE_EXT_F2 } }
  | .VEX_F3 =>
    { format with vex_pfx := some { vex_of format with vex_opcode_extension := VEX_OPCODE_EXT_F3 } }
  | .VEX_0F =>
    { format with vex_pfx := some { vex_of format with vex_opcode_extension := VEX_LEGACY_BYTE_0F } }
  | .VEX_0F_38 =>
    { format with
      vex_pfx := some { vex_of format with vex_opcode_extension := VEX_LEGACY_BYTE_0F_38 } }
  | .VEX_0F_3A =>
    { format with
      vex_pfx := some { vex_of format with vex_opcode_extension := VEX_LEGACY_BYTE_0F_3A } }
  | .VEX_W0 => { format with vex_pfx := some { vex_of format with w := false } }
  | .VEX_W1 => { format with vex_pfx := some { vex_of format with w := true } }
  | .VEX_WIG => { format with vex_pfx := some { vex_of format with w := false } }
  | .IMM_BYTE | .IMM_WORD | .IMM_DWORD | .IMM_QWORD => format

/-- `set_disp`: the displacement bytes and their count (the register argument is unused). -/
def set_disp (format : amd64_binary_format_t) (disps : List Nat) (count : Nat) :
    amd64_binary_format_t :=
  { format with disps := disps.take count }

/-- `set_imm`. -/
def set_imm (format : amd64_binary_format_t) (imms : List Nat) (count : Nat) :
    amd64_binary_format_t :=
  { format with imms := imms.take count }

/-- `int32_to_uint8`: the four little-endian bytes of an `int32_t` (`>>` on a signed value is
the arithmetic shift). -/
def int32_to_uint8 (src : Int) : List Nat :=
  [(src % 256).toNat, ((src >>> (8 : Nat)) % 256).toNat, ((src >>> (16 : Nat)) % 256).toNat,
    ((src >>> (24 : Nat)) % 256).toNat]

/-- The first `n` little-endian bytes of an unsigned value (`memcpy` from its address). -/
def le_bytes (value : Nat) : Nat → List Nat
  | 0 => []
  | n + 1 => value % 256 :: le_bytes (value / 256) n

/-- `inst_format_new`. -/
def inst_format_new (opcode : List Nat) : amd64_binary_format_t :=
  { prefix_byte := 0, vex_pfx := none, rex_pfx := none, opcode := opcode.take 3,
    modrm := none, sib := none, disps := [], imms := [], op_id := 0 }

/-- `ext_exists[ext]` for the extensions seen so far. -/
def ext_exists (exts : List opcode_ext) (ext : opcode_ext) : Bool := exts.contains ext

/-- The test `ext_exists[OPCODE_EXT_REX_W] || ext_exists[OPCODE_EXT_REX]`. -/
def rex_live (exts : List opcode_ext) : Bool := ext_exists exts .REX_W || ext_exists exts .REX

/-- The test `ext_exists[OPCODE_EXT_VEX_128] || ext_exists[OPCODE_EXT_VEX_256]`. -/
def vex_live (exts : List opcode_ext) : Bool :=
  ext_exists exts .VEX_128 || ext_exists exts .VEX_256

/-- A write through `format->rex_prefix`; `none` when the pointer is null. -/
def with_rex (format : amd64_binary_format_t) (f : rex_prefix_t → rex_prefix_t) :
    Option amd64_binary_format_t :=
  match format.rex_pfx with
  | none => none
  | some r => some { format with rex_pfx := some (f r) }

/-- A write through `format->vex_prefix`; `none` when the pointer is null. -/
def with_vex (format : amd64_binary_format_t) (f : vex_prefix_t → vex_prefix_t) :
    Option amd64_binary_format_t :=
  match format.vex_pfx with
  | none => none
  | some v => some { format with vex_pfx := some (f v) }

/-- The `REG` / `FREG` branch of the operand loop. -/
def fill_reg (exts : List opcode_ext) (format : amd64_binary_format_t)
    (encoding : encoding_type) (r : reg_t) : Option amd64_binary_format_t :=
  match encoding with
  | .MODRM_RM =>
    let format := { format with
      modrm := some { modrm_of format with mod := MODRM_MOD_DIRECT_REGISTER, rm := r.index &&& 7 } }
    if rex_live exts then with_rex format (fun x => { x with b := decide (r.index > 7) })
    else if vex_live exts then with_vex format (fun x => { x with b := decide (r.index ≤ 7) })
    else some format
  | .MODRM_REG =>
    let format := match format.modrm with
      | none => { format with modrm := some { new_modrm with mod := MODRM_MOD_DIRECT_REGISTER } }
      | some _ => format
    if ext_exists exts .SLASHR then
      let format := { format with modrm := some { modrm_of format with reg := r.index &&& 7 } }
      if rex_live exts then with_rex format (fun x => { x with r := decide (r.index > 7) })
      else if vex_live exts then with_vex format (fun x => { x with r := decide (r.index ≤ 7) })
      else some format
    else some format
  | .OPCODE_PLUS =>
    let format := { format with
      opcode := format.opcode.modifyHead (fun b => u8 (b + (r.index &&& 7))) }
    if rex_live exts then with_rex format (fun x => { x with b := decide (r.index > 7) })
    else some format
  | .VEX_VVVV =>
    some { format with
      vex_pfx := some { vex_of format with
        source := u8 (15 + 256 - u8 r.index), r := decide (r.index ≤ 7) } }
  | .IMM => none

/-- The `DISP_REG` branch. -/
def fill_disp_reg (exts : List opcode_ext) (format : amd64_binary_format_t)
    (encoding : encoding_type) (reg : reg_t) (disp : Int) : Option amd64_binary_format_t :=
  match encoding with
  | .MODRM_RM =>
    let byte_disp : Bool := decide (disp ≥ -128) && decide (disp ≤ 127)
    let mod := if byte_disp then MODRM_MOD_INDIRECT_REGISTER_BYTE_DISP
      else MODRM_MOD_INDIRECT_REGISTER_DWORD_DISP
    let count := if byte_disp then 1 else 4
    let format := { format with
      modrm := some { modrm_of format with rm := reg.index &&& 7, mod := mod } }
    let format := set_disp format (int32_to_uint8 disp) count
    if rex_live exts then with_rex format (fun x => { x with b := decide (reg.index > 7) })
    else some format
  | _ => none

/-- The `INDIRECT_REG` branch. -/
def fill_indirect_reg (exts : List opcode_ext) (format : amd64_binary_format_t)
    (encoding : encoding_type) (reg : reg_t) : Option amd64_binary_format_t :=
  match encoding with
  | .MODRM_RM =>
    let format :=
      if reg.index = 13 ∨ reg.index = 5 then
        set_disp { format with
          modrm := some { modrm_of format with
            mod := MODRM_MOD_INDIRECT_REGISTER_BYTE_DISP, rm := u8 reg.index } } [0] 1
      else
        set_disp { format with
          modrm := some { modrm_of format with
            mod := MODRM_MOD_INDIRECT_REGISTER, rm := u8 reg.index } } [0, 0, 0, 0] 0
    if rex_live exts then with_rex format (fun x => { x with b := decide (reg.index > 7) })
    else some format
  | .MODRM_REG =>
    let format := match format.modrm with
      | none => { format with
          modrm := some { new_modrm with mod := MODRM_MOD_INDIRECT_REGISTER_BYTE_DISP } }
      | some _ => format
    let format := { format with modrm := some { modrm_of format with reg := u8 reg.index } }
    if rex_live exts then with_rex format (fun x => { x with r := decide (reg.index > 7) })
    else some format
  | _ => none

/-- The `RIP_RELATIVE` branch (a role other than the two ModR/M roles leaves the record as
it is). -/
def fill_rip_relative (format : amd64_binary_format_t) (encoding : encoding_type) (disp : Int) :
    Option amd64_binary_format_t :=
  match encoding with
  | .MODRM_RM =>
    some (set_disp { format with
      modrm := some { modrm_of format with mod := MODRM_MOD_INDIRECT_REGISTER, rm := 5 } }
      (int32_to_uint8 disp) 4)
  | .MODRM_REG =>
    some (set_disp { format with
      modrm := some { modrm_of format with mod := MODRM_MOD_INDIRECT_REGISTER, reg := 5 } }
      (int32_to_uint8 disp) 4)
  | _ => some format

/-- The `SEG_OFFSET` branch. -/
def fill_seg_offset (format : amd64_binary_format_t) (name : String) (offset : Int) :
    Option amd64_binary_format_t :=
  let format :=
    if str_equal name "fs" then { format with prefix_byte := 0x64 }
    else if str_equal name "gs" then { format with prefix_byte := 0x65 }
    else format
  let format := { format with
    modrm := some { modrm_of format with
      mod := MODRM_MOD_INDIRECT_REGISTER, rm := MODRM_MOD_SIB_FOLLOWS_RM },
    sib := some (new_sib 0 4 5) }
  some (set_disp format (int32_to_uint8 offset) 4)

/-- The displacement part of the `SIB_REG` branch: the choice of `mod` by the displacement,
the special case of the bases r13 and rbp, and the final `assert(false)` for base 5 with
`mod = 00`. -/
def fill_sib_disp (format : amd64_binary_format_t) (base : reg_t) (disp : Int) :
    Option amd64_binary_format_t :=
  let format :=
    if disp = 0 then
      { format with
        modrm := some { modrm_of format with mod := MODRM_MOD_INDIRECT_REGISTER } }
    else if disp ≥ -128 ∧ disp ≤ 127 then
      set_disp { format with
        modrm := some { modrm_of format with
          mod := MODRM_MOD_INDIRECT_REGISTER_BYTE_DISP } } [(disp % 256).toNat] 1
    else
      set_disp { format with
        modrm := some { modrm_of format with
          mod := MODRM_MOD_INDIRECT_REGISTER_DWORD_DISP } } (int32_to_uint8 disp) 4
  let format :=
    if base.index = 13 ∨ base.index = 5 then
      set_disp { format with
        modrm := some { modrm_of format with
          mod := MODRM_MOD_INDIRECT_REGISTER_BYTE_DISP } } [0] 1
    else format
  if base.index = 5 ∧ (modrm_of format).mod = MODRM_MOD_INDIRECT_REGISTER then none
  else some format

/-- The `SIB_REG` branch (a role other than `MODRM_RM` leaves the record as it is). -/
def fill_sib_reg (exts : List opcode_ext) (format : amd64_binary_format_t)
    (encoding : encoding_type) (base index : Option reg_t) (scale : Nat) (disp : Int) :
    Option amd64_binary_format_t :=
  match encoding with
  | .MODRM_RM =>
    match base with
    | none => none
    | some base =>
      let format := { format with
        modrm := some { modrm_of format with rm := MODRM_MOD_SIB_FOLLOWS_RM } }
      let sib_index := match index with
        | some i => u8 i.index
        | none => 4
      let sib_base := u8 base.index
      let format := { format with sib := some (new_sib scale sib_index sib_base) }
      let format? :=
        if rex_live exts then
          with_rex format
            (fun x => { x with x := decide (sib_index > 7), b := decide (sib_base > 7) })
        else some format
      match format? with
      | none => none
      | some format => fill_sib_disp format base disp
  | _ => some format

/-- One turn of the operand loop of `opcode_fill`: slot `operand` of the form filled with
`asm_operand`. -/
def fill_operand (exts : List opcode_ext) (format : amd64_binary_format_t)
    (operand : opcode_operand_t) (asm_operand : amd64_asm_operand_t) :
    Option amd64_binary_format_t :=
  match asm_operand.value with
  | .reg r => fill_reg exts format operand.encoding r
  | .freg r => fill_reg exts format operand.encoding r
  | .disp_reg reg disp => fill_disp_reg exts format operand.encoding reg disp
  | .indirect_reg reg => fill_indirect_reg exts format operand.encoding reg
  | .rip_relative disp => fill_rip_relative format operand.encoding disp
  | .seg_offset name offset => fill_seg_offset format name offset
  | .sib_reg base index scale disp => fill_sib_reg exts format operand.encoding base index scale disp
  | .uint64 value => some (set_imm format (le_bytes value 8) 8)
  | .float64 bits => some (set_imm format (le_bytes bits 8) 8)
  | .uint32 value => some (set_imm format (le_bytes value 4) 4)
  | .uint value => some (set_imm format (le_bytes value 4) 4)
  | .uint16 value => some (set_imm format (le_bytes value 2) 2)
  | .uint8 value => some (set_imm format [u8 value] 1)
  | .float32 bits stale => some (set_imm format (le_bytes bits 4 ++ le_bytes stale 4) 8)
  | .other => none

/-- The operand loop of `opcode_fill` (`while (i <= 3 && inst->operands[i].type > 0)`):
the slots of the form against `asm_inst.operands[i]`; a missing assembly operand is a null
pointer. -/
def fill_operands (exts : List opcode_ext) :
    amd64_binary_format_t → List opcode_operand_t → List amd64_asm_operand_t →
      Option amd64_binary_format_t
  | format, [], _ => some format
  | _, _ :: _, [] => none
  | format, operand :: operands, asm_operand :: asm_operands =>
    match fill_operand exts format operand asm_operand with
    | none => none
    | some format => fill_operands exts format operands asm_operands

/-- The extension list after the extension phase: the declared extensions, and `REX` when
`need_rex_ext` asks for it and neither `REX` nor `REX.W` is declared. -/
def fill_exts (inst : amd64_opcode_inst_t) (asm_inst : amd64_asm_inst_t) : List opcode_ext :=
  let declared := inst.extensions.take 4
  if asm_inst.need_rex_ext && !ext_exists declared .REX && !ext_exists declared .REX_W then
    declared ++ [.REX]
  else declared

/-- The heap after the first statement of `opcode_fill`:
`if (asm_inst.prefix > 0) inst->prefix = asm_inst.prefix;`. -/
def fill_heap (heap : opcode_heap) (inst : opcode_ref) (asm_inst : amd64_asm_inst_t) :
    opcode_heap :=
  if asm_inst.prefix_byte > 0 then
    Function.update heap inst { heap inst with prefix_byte := asm_inst.prefix_byte }
  else heap

/-- `opcode_fill`: the heap after the call and the record; `none` when the call aborts. -/
def opcode_fill (heap : opcode_heap) (inst : opcode_ref) (asm_inst : amd64_asm_inst_t) :
    Option (opcode_heap × amd64_binary_format_t) :=
  let format := { inst_format_new (heap inst).opcode with op_id := asm_inst.op_id }
  let heap := fill_heap heap inst asm_inst
  let form := heap inst
  let format :=
    if form.prefix_byte > 0 then { format with prefix_byte := form.prefix_byte } else format
  let exts := fill_exts form asm_inst
  let format := exts.foldl build_ext format
  match fill_operands exts format (form.operands.take 4) asm_inst.operands with
  | none => none
  | some format => some (heap, format)

/-! ## The byte serializer -/

def bit (b : Bool) : Nat := if b then 1 else 0

/-- `opcode_vex_encoding`. -/
def opcode_vex_encoding (v : vex_prefix_t) : List Nat :=
  if (v.vex_legacy_byte = 0 ∨ v.vex_legacy_byte = VEX_LEGACY_BYTE_0F) ∧ v.x = true ∧ v.b = true
  then
    [0xc5, u8 ((if v.r then 1 <<< 7 else 0) + (v.source <<< 3) + (if v.l then 1 <<< 2 else 0)
      + v.vex_opcode_extension)]
  else
    [0xc4,
      u8 ((if v.r then 1 <<< 7 else 0) + (if v.x then 1 <<< 6 else 0)
        + (if v.b then 1 <<< 5 else 0) + v.vex_legacy_byte),
      u8 ((if v.w then 1 <<< 7 else 0) + (v.source <<< 3) + (if v.l then 1 <<< 2 else 0)
        + v.vex_opcode_extension)]

/-- `opcode_rex_encoding`. -/
def opcode_rex_encoding (rex : rex_prefix_t) : Nat :=
  u8 ((if rex.b then 1 else 0) + (if rex.x then 1 <<< 1 else 0) + (if rex.r then 1 <<< 2 else 0)
    + (if rex.w then 1 <<< 3 else 0) + (1 <<< 6))

/-- `opcode_modrm_encoding`. -/
def opcode_modrm_encoding (modrm : modrm_t) : Nat :=
  u8 ((modrm.rm &&& 7) ||| ((modrm.reg &&& 7) <<< 3) ||| (u8 modrm.mod <<< 6))

/-- `opcode_sib_encoding`. -/
def opcode_sib_encoding (sib : sib_t) : Nat :=
  u8 ((sib.base &&& 7) ||| ((sib.index &&& 7) <<< 3) ||| (sib.scale <<< 6))

/-- The opcode loop of `opcode_format_encoding`:
`while (j < 3 && format->opcode[j] > 0) data[(*count)++] = format->opcode[j++];`. -/
def opcode_bytes (opcode : List Nat) : List Nat :=
  (opcode.take 3).takeWhile (fun b => decide (b > 0))

/-- `opcode_format_encoding`: the bytes written to `data`; `*count` is their number. -/
def opcode_format_encoding (format : amd64_binary_format_t) : List Nat :=
  (if format.prefix_byte > 0 then [format.prefix_byte] else [])
  ++ (match format.vex_pfx with
      | some v => opcode_vex_encoding v
      | none => [])
  ++ (match format.rex_pfx with
      | some rex => [opcode_rex_encoding rex]
      | none => [])
  ++ opcode_bytes format.opcode
  ++ (match format.modrm with
      | some modrm => [opcode_modrm_encoding modrm]
      | none => [])
  ++ (match format.sib with
      | some sib => [opcode_sib_encoding sib]
      | none => [])
  ++ format.disps
  ++ format.imms

/-- `amd64_asm_inst_encoding`: the heap after the call, the chosen form and the bytes. -/
def amd64_asm_inst_encoding (heap : opcode_heap) (root : amd64_opcode_tree_node_t)
    (inst : amd64_asm_inst_t) : Option (opcode_heap × opcode_ref × List Nat) :=
  match opcode_select heap root inst with
  | none => none
  | some (opcode, inst) =>
    match opcode_fill heap opcode inst with
    | none => none
    | some (heap, format) => some (heap, opcode, opcode_format_encoding format)


/-! ## Registers used in the examples -/

/-- Modelled from the spec: entries of the register table of `src/register/arch/amd64.h`
(not among the sources), with the architectural names and numbers. -/
def rax : reg_t := ⟨"rax", 0, 8⟩

/-- Modelled from the spec: see `rax`. -/
def rbx : reg_t := ⟨"rbx", 3, 8⟩

/-- Modelled from the spec: see `rax`. -/
def rsp : reg_t := ⟨"rsp", 4, 8⟩

/-- Modelled from the spec: see `rax`. -/
def rbp : reg_t := ⟨"rbp", 5, 8⟩

/-- Modelled from the spec: see `rax`. -/
def rdi : reg_t := ⟨"rdi", 7, 8⟩

/-- Modelled from the spec: see `rax`. -/
def r9 : reg_t := ⟨"r9", 9, 8⟩

/-- Modelled from the spec: see `rax`. -/
def r10 : reg_t := ⟨"r10", 10, 8⟩

/-- Modelled from the spec: see `rax`. -/
def r12 : reg_t := ⟨"r12", 12, 8⟩

/-- Modelled from the spec: see `rax`. -/
def r13 : reg_t := ⟨"r13", 13, 8⟩

/-- Modelled from the spec: see `rax`. -/
def eax : reg_t := ⟨"eax", 0, 4⟩

/-- Modelled from the spec: see `rax`. -/
def al : reg_t := ⟨"al", 0, 1⟩

/-- Modelled from the spec: see `rax`. -/
def bl : reg_t := ⟨"bl", 3, 1⟩

/-- Modelled from the spec: see `rax`. -/
def ah : reg_t := ⟨"ah", 4, 1⟩

/-! ## Vocabulary of the statements -/

/-- A register whose name is none of the byte aliases `ah bh ch dh spl bpl sil dil`, with an
index in `0..15`: every 16-, 32- and 64-bit general-purpose register is one. -/
def plain_reg (r : reg_t) : Prop :=
  r.index < 16 ∧ r.name ∉ ["ah", "bh", "ch", "dh", "spl", "bpl", "sil", "dil"]

instance (r : reg_t) : Decidable (plain_reg r) := by
  unfold plain_reg; exact inferInstance

/-- The key of an assembly operand, as `opcode_select` computes it. -/
def operand_key (operand : amd64_asm_operand_t) : table_key :=
  asm_operand_to_key operand.type operand.size

/-- The trie descent of `opcode_select` along a sequence of keys. -/
def walk_keys : List table_key → amd64_opcode_tree_node_t → Option amd64_opcode_tree_node_t
  | [], current => some current
  | key :: rest, current =>
    match table_get current.succs key with
    | none => none
    | some next => walk_keys rest next

/-- The candidate forms `current->insts` reached for a mnemonic and a key sequence. -/
def select_candidates (root : amd64_opcode_tree_node_t) (name : String)
    (keys : List table_key) : Option (List opcode_ref) :=
  match table_get root.succs (.name name) with
  | none => none
  | some current => (walk_keys keys current).map (fun node => node.insts)

/-- The flags `(has64_reg, has_high_eight_reg)` after the operand loop of `opcode_select`. -/
def select_flags_all : List amd64_asm_operand_t → Bool × Bool → Bool × Bool
  | [], flags => flags
  | operand :: rest, flags =>
    select_flags_all rest
      (select_flags (select_regs operand).2 (select_flags (select_regs operand).1 flags))

/-- The last steps of `opcode_select`, from the candidate list and the flags. -/
def select_finish (heap : opcode_heap) (asm_inst : amd64_asm_inst_t) (temps : List opcode_ref)
    (flags : Bool × Bool) : Option (opcode_ref × amd64_asm_inst_t) :=
  match opcode_sort_insts heap
      (temps.filter (fun inst => !(flags.2 && has_rex_extension (heap inst).extensions))) with
  | [] => none
  | inst :: _ => some (inst, { asm_inst with need_rex_ext := flags.1 })

/-- The `rm` field (bits 2..0) of the ModR/M byte emitted for a record. -/
def modrm_rm_field (m : modrm_t) : Nat := opcode_modrm_encoding m &&& 7

/-- The record of `opcode_fill` after the extension phase of a form with opcode `8B` and the
extensions `REX.W`, `/r` (such as `mov_r64_rm64`). -/
def ext_phase_rex_w_slashr : amd64_binary_format_t :=
  [opcode_ext.REX_W, opcode_ext.SLASHR].foldl build_ext (inst_format_new [0x8B, 0, 0])

/-- The form and bytes of one encoding from the state after `amd64_opcode_init`. -/
def encode (inst : amd64_asm_inst_t) : Option (opcode_ref × List Nat) :=
  (amd64_asm_inst_encoding static_insts opcode_tree_root inst).map (fun p => p.2)

/-! ## Vocabulary of the general statements -/

/-- Every form stored at a node reached from `n` along `keys` satisfies `P keys`. -/
def node_ok (P : List table_key → opcode_ref → Prop) (n : amd64_opcode_tree_node_t) : Prop :=
  ∀ keys n', walk_keys keys n = some n' → ∀ f ∈ n'.insts, P keys f

/-- The keys of a path agree, slot by slot, with the operand kinds of a form. -/
def keys_match (keys : List table_key) (operands : List opcode_operand_t) : Prop :=
  List.Forall₂ (fun key slot => key ∈ operand_low_to_high slot.type) keys operands

/-- The high-level operand kinds a role of `opcode_fill` is meant to consume. -/
def role_accepts : encoding_type → asm_operand_type → Bool
  | .MODRM_RM, k =>
    k = .REG || k = .FREG || k = .INDIRECT_REG || k = .DISP_REG || k = .SIB_REG
      || k = .RIP_RELATIVE || k = .SEG_OFFSET
  | .MODRM_REG, k => k = .REG || k = .FREG
  | .OPCODE_PLUS, k => k = .REG
  | .IMM, k => k = .UINT8 || k = .UINT16 || k = .UINT32 || k = .UINT64 || k = .UINT
  | .VEX_VVVV, _ => false

/-- A key of an operand kind the role consumes. -/
def key_accepted (role : encoding_type) : table_key → Bool
  | .operand k _ => role_accepts role k
  | .name _ => false

/-- Every key under which the trie files a slot is of a kind the slot's role consumes. -/
def slot_wf (slot : opcode_operand_t) : Bool :=
  (operand_low_to_high slot.type).all (key_accepted slot.encoding)

/-- The operand is a direct register (`REG` or `FREG`). -/
def is_direct_reg (operand : amd64_asm_operand_t) : Bool :=
  operand.type = .REG || operand.type = .FREG

/-- The extensions `/0` … `/7` and `/r`, which create the ModR/M record. -/
def slash_ext : opcode_ext → Bool
  | .SLASH0 | .SLASH1 | .SLASH2 | .SLASH3 | .SLASH4 | .SLASH5 | .SLASH6 | .SLASH7 | .SLASHR => true
  | _ => false

/-- The `VEX_*` extensions, which create the VEX record. -/
def vex_ext : opcode_ext → Bool
  | .VEX_128 | .VEX_256 | .VEX_66 | .VEX_F2 | .VEX_F3 | .VEX_0F | .VEX_0F_38 | .VEX_0F_3A
  | .VEX_W0 | .VEX_W1 | .VEX_WIG => true
  | _ => false

/-- The shape shared by the registered catalog entries: at most four slots and extensions,
every slot filed only under kinds its role consumes, at most one `MODRM_RM` and one `IMM`
slot, no `VEX_*` extension, a `MODRM_RM` slot whenever a `/k`, `/r` extension or a `MODRM_REG`
slot is declared, and no ModR/M at all beside an `IMM64` slot. -/
def form_wf (form : amd64_opcode_inst_t) : Bool :=
  decide (form.operands.length ≤ 4) && decide (form.extensions.length ≤ 4)
    && form.operands.all slot_wf
    && decide ((form.operands.filter (fun s => s.encoding = .MODRM_RM)).length ≤ 1)
    && decide ((form.operands.filter (fun s => s.encoding = .IMM)).length ≤ 1)
    && !form.extensions.any vex_ext
    && (!(form.extensions.any slash_ext || form.operands.any (fun s => s.encoding = .MODRM_REG))
        || form.operands.any (fun s => s.encoding = .MODRM_RM))
    && (!form.operands.any (fun s => s.type = .IMM64)
        || !(form.extensions.any slash_ext
              || form.operands.any (fun s => s.encoding = .MODRM_RM || s.encoding = .MODRM_REG)))

/-- The registers of an operand that `opcode_select` inspects. -/
def operand_regs (operand : amd64_asm_operand_t) : List reg_t :=
  (select_regs operand).1.toList ++ (select_regs operand).2.toList

/-- Every `SIB_REG` operand of the instruction has a base register. -/
def sib_has_base (operand : amd64_asm_operand_t) : Bool :=
  match operand.value with
  | .sib_reg none _ _ _ => false
  | _ => true

/-- The numeric value of an immediate operand. -/
def imm_value : asm_value → Option Nat
  | .uint8 v => some v
  | .uint16 v => some v
  | .uint32 v => some v
  | .uint64 v => some v
  | .uint v => some v
  | _ => none

/-- The number of immediate bytes `opcode_fill` writes for an operand kind. -/
def imm_kind_width : asm_operand_type → Nat
  | .UINT8 => 1
  | .UINT16 => 2
  | .UINT32 => 4
  | .UINT => 4
  | .UINT64 => 8
  | _ => 0

/-- The width in bytes of a low-level immediate kind. -/
def imm_width : inst_operand_type → Nat
  | .IMM8 | .REL8 => 1
  | .IMM16 | .REL16 => 2
  | .IMM32 | .REL32 => 4
  | .IMM64 => 8
  | _ => 0

/-- Slot by slot, the role consumes the kind of the operand it is filled with. -/
def accepts (slots : List opcode_operand_t) (ops : List amd64_asm_operand_t) : Prop :=
  List.Forall₂ (fun slot op => role_accepts slot.encoding op.type = true) slots ops


/-! ## Instructions used in the examples -/

/-- Modelled from the spec: see `rax`. -/
def spl : reg_t := ⟨"spl", 4, 1⟩

/-- The instruction `mov rax, [rbx]`. -/
def mov_rax_mem_rbx : amd64_asm_inst_t :=
  ⟨0, "mov", 0, [⟨8, .reg rax⟩, ⟨8, .indirect_reg rbx⟩], false⟩

/-- The instruction `mov al, bl`. -/
def mov_al_bl : amd64_asm_inst_t := ⟨0, "mov", 0, [⟨1, .reg al⟩, ⟨1, .reg bl⟩], false⟩

/-- The instruction `mov ah, bl`. -/
def mov_ah_bl : amd64_asm_inst_t := ⟨0, "mov", 0, [⟨1, .reg ah⟩, ⟨1, .reg bl⟩], false⟩

/-- The instruction `movzx eax, spl`. -/
def movzx_eax_spl : amd64_asm_inst_t := ⟨0, "movzx", 0, [⟨4, .reg eax⟩, ⟨1, .reg spl⟩], false⟩

/-- The instruction `movsx rax, ah`, which no form encodes. -/
def movsx_rax_ah : amd64_asm_inst_t := ⟨0, "movsx", 0, [⟨8, .reg rax⟩, ⟨1, .reg ah⟩], false⟩

/-- The instruction `mov rax, 0x1122334455667788`. -/
def mov_rax_imm64 : amd64_asm_inst_t :=
  ⟨0, "mov", 0, [⟨8, .reg rax⟩, ⟨8, .uint64 0x1122334455667788⟩], false⟩

/-- The instruction `lock add qword [rax + rbx*4 + 0x12345678], 0x11223344`. -/
def lock_add_sib_imm32 : amd64_asm_inst_t :=
  ⟨0, "add", 0xF0, [⟨8, .sib_reg (some rax) (some rbx) 2 0x12345678⟩, ⟨4, .uint32 0x11223344⟩],
    false⟩

/-- A VEX-encoded form, `vaddsd xmm1, xmm2, xmm3/m64` (VEX.LIG.F2.0F.WIG 58 /r), written with
the extensions and roles that `build_ext` and `opcode_fill` handle; `amd64_opcode_init`
registers no form of this kind. -/
def vaddsd_form : amd64_opcode_inst_t :=
  ⟨"vaddsd", "vaddsd", 0, [0x58, 0, 0], [.VEX_128, .VEX_F2, .VEX_0F, .SLASHR],
    [⟨.XMM1S64, .MODRM_REG⟩, ⟨.XMM2S64, .VEX_VVVV⟩, ⟨.XMM2M64, .MODRM_RM⟩]⟩

/-- A heap whose entries all hold `vaddsd_form`. -/
def vex_heap : opcode_heap := fun _ => vaddsd_form

/-- Modelled from the spec: see `rax`. -/
def xmm0 : reg_t := ⟨"xmm0", 0, 16⟩

/-- Modelled from the spec: see `rax`. -/
def xmm1 : reg_t := ⟨"xmm1", 1, 16⟩

/-- The instruction `vaddsd xmm0, xmm1, [r9]` as `opcode_select` hands it on: the index of
r9 sets `need_rex_ext`. -/
def vaddsd_xmm0_xmm1_mem_r9 : amd64_asm_inst_t :=
  ⟨0, "vaddsd", 0, [⟨8, .freg xmm0⟩, ⟨8, .freg xmm1⟩, ⟨8, .indirect_reg r9⟩], true⟩

/-! ## Vocabulary of the statements on the trie and the sort -/

/-- The forms stored at the node reached from `n` along `keys`; empty when the walk fails. -/
def node_insts (n : amd64_opcode_tree_node_t) (keys : List table_key) : List opcode_ref :=
  ((walk_keys keys n).map (fun node => node.insts)).getD []

/-- The slots of a form accept a key sequence: as many slots as keys, and every key among the
keys `operand_low_to_high` gives for the kind of its slot. -/
def slots_accept (keys : List table_key) (slots : List opcode_operand_t) : Bool :=
  decide (slots.length = keys.length)
    && (keys.zip slots).all (fun p => decide (p.1 ∈ operand_low_to_high p.2.type))

/-- Specification of the candidate list: the registered forms, in registration order and
with multiplicity, whose group is the mnemonic and whose slots accept the keys. -/
def spec_candidates (heap : opcode_heap) (regs : List opcode_ref) (name : String)
    (keys : List table_key) : List opcode_ref :=
  regs.filter (fun f => decide ((heap f).group = name) && slots_accept keys (heap f).operands)

/-- The test of the filter loop of `opcode_select`: the form is kept. -/
def survives (heap : opcode_heap) (inst : amd64_asm_inst_t) (f : opcode_ref) : Bool :=
  !(inst.operands.any (fun op => (operand_regs op).any is_high_eight_reg)
    && has_rex_extension (heap f).extensions)

/-! ## Calls that run in parallel -/

/-- The statements of `opcode_fill` after the store
`if (asm_inst.prefix > 0) inst->prefix = asm_inst.prefix;`: they read the catalog entry and
write only the record of the call. (`inst_format_new(inst->opcode)` stands before the store
in the C code; it reads the member `opcode`, which no statement writes.) -/
def opcode_fill_rest (heap : opcode_heap) (inst : opcode_ref) (asm_inst : amd64_asm_inst_t) :
    Option amd64_binary_format_t :=
  let form := heap inst
  let format := { inst_format_new form.opcode with op_id := asm_inst.op_id }
  let format :=
    if form.prefix_byte > 0 then { format with prefix_byte := form.prefix_byte } else format
  let exts := fill_exts form asm_inst
  let format := exts.foldl build_ext format
  fill_operands exts format (form.operands.take 4) asm_inst.operands

/-- A call of `amd64_asm_inst_encoding` in progress: before `opcode_select`, before the
store of `opcode_fill`, before the rest of `opcode_fill`, and returned (`none`: aborted). -/
inductive enc_thread where
  | ready (inst : amd64_asm_inst_t)
  | selected (form : opcode_ref) (inst : amd64_asm_inst_t)
  | stored (form : opcode_ref) (inst : amd64_asm_inst_t)
  | done (result : Option (opcode_ref × List Nat))

/-- The next step of a call on the shared catalog: `opcode_select`, then the store of
`opcode_fill`, then the rest of `opcode_fill` and `opcode_format_encoding`. -/
def thread_step (root : amd64_opcode_tree_node_t) (heap : opcode_heap) :
    enc_thread → opcode_heap × enc_thread
  | .ready inst =>
    match opcode_select heap root inst with
    | none => (heap, .done none)
    | some (form, inst) => (heap, .selected form inst)
  | .selected form inst => (fill_heap heap form inst, .stored form inst)
  | .stored form inst =>
    match opcode_fill_rest heap form inst with
    | none => (heap, .done none)
    | some format => (heap, .done (some (form, opcode_format_encoding format)))
  | .done result => (heap, .done result)

/-- An interleaving: the threads that make the successive steps, from left to right. -/
def run_schedule (root : amd64_opcode_tree_node_t) :
    List Nat → opcode_heap × List enc_thread → opcode_heap × List enc_thread
  | [], state => state
  | t :: rest, (heap, threads) =>
    match threads[t]? with
    | none => run_schedule root rest (heap, threads)
    | some thread =>
      run_schedule root rest
        ((thread_step root heap thread).1, threads.set t (thread_step root heap thread).2)

/-- What a call has returned, if it has. -/
def thread_result : enc_thread → Option (Option (opcode_ref × List Nat))
  | .done result => some result
  | _ => none

/-- The instruction `add [rax], rbx`. -/
def add_mem_rax_rbx : amd64_asm_inst_t :=
  ⟨0, "add", 0, [⟨8, .indirect_reg rax⟩, ⟨8, .reg rbx⟩], false⟩

/-- The instruction `lock add [rax], rbx` (prefix `F0`). -/
def lock_add_mem_rax_rbx : amd64_asm_inst_t :=
  ⟨0, "add", 0xF0, [⟨8, .indirect_reg rax⟩, ⟨8, .reg rbx⟩], false⟩

/-- The instruction `add [rax], rbx` with the prefix `66`. -/
def data16_add_mem_rax_rbx : amd64_asm_inst_t :=
  ⟨0, "add", 0x66, [⟨8, .indirect_reg rax⟩, ⟨8, .reg rbx⟩], false⟩

/-- `push` with the operand `[rax + rbx*4 + 8]`, a kind the slot of `push_r64` cannot
consume. -/
def push_sib : amd64_asm_inst_t :=
  ⟨0, "push", 0, [⟨8, .sib_reg (some rax) (some rbx) 2 8⟩], false⟩

/-- `push` with the operand `[rip + 16]`. -/
def push_rip : amd64_asm_inst_t := ⟨0, "push", 0, [⟨8, .rip_relative 16⟩], false⟩

/-! ## Vocabulary and examples of the statements on single fields -/

/-- The digit `k` of an extension `/k`. -/
def slash_digit : opcode_ext → Option Nat
  | .SLASH0 => some 0
  | .SLASH1 => some 1
  | .SLASH2 => some 2
  | .SLASH3 => some 3
  | .SLASH4 => some 4
  | .SLASH5 => some 5
  | .SLASH6 => some 6
  | .SLASH7 => some 7
  | _ => none

/-- The `reg` field (bits 5..3) of the ModR/M byte emitted for a record. -/
def modrm_reg_field (m : modrm_t) : Nat := (opcode_modrm_encoding m >>> 3) &&& 7

/-- The display names of the SSE forms of the catalog. -/
def sse_names : List String :=
  ["movsd", "movss", "addsd", "addss", "subsd", "subss", "mulsd", "mulss", "divsd", "divss",
    "xorps", "xorpd", "comiss", "comisd"]

/-- An operand with the index of its `FREG` register raised by 8; other operands as they
are. -/
def raise_freg (operand : amd64_asm_operand_t) : amd64_asm_operand_t :=
  match operand.value with
  | .freg r => { operand with value := .freg { r with index := r.index + 8 } }
  | _ => operand

/-- An instruction with the indexes of all its `FREG` registers raised by 8. -/
def raise_inst (inst : amd64_asm_inst_t) : amd64_asm_inst_t :=
  { inst with operands := inst.operands.map raise_freg }

/-- Modelled from the spec: see `rax`. -/
def cl : reg_t := ⟨"cl", 1, 1⟩

/-- Modelled from the spec: see `rax`. -/
def r8b : reg_t := ⟨"r8b", 8, 1⟩

/-- Modelled from the spec: see `rax`. -/
def xmm8 : reg_t := ⟨"xmm8", 8, 16⟩

/-- Modelled from the spec: see `rax`. -/
def xmm9 : reg_t := ⟨"xmm9", 9, 16⟩

/-- The instruction `sal bl, cl`. -/
def sal_bl_cl : amd64_asm_inst_t := ⟨0, "sal", 0, [⟨1, .reg bl⟩, ⟨1, .reg cl⟩], false⟩

/-- The instruction `mov ah, r8b`, which no legal encoding expresses. -/
def mov_ah_r8b : amd64_asm_inst_t := ⟨0, "mov", 0, [⟨1, .reg ah⟩, ⟨1, .reg r8b⟩], false⟩

/-- The instruction `movsd xmm0, xmm1`. -/
def movsd_xmm0_xmm1 : amd64_asm_inst_t :=
  ⟨0, "mov", 0, [⟨8, .freg xmm0⟩, ⟨8, .freg xmm1⟩], false⟩

/-- The instruction `movsd xmm8, xmm9`. -/
def movsd_xmm8_xmm9 : amd64_asm_inst_t :=
  ⟨0, "mov", 0, [⟨8, .freg xmm8⟩, ⟨8, .freg xmm9⟩], false⟩

/-- The instruction `mov rax, [r13 + d]`, the memory operand given as `SIB_REG` without
index. -/
def mov_rax_sib_r13 (d : Int) : amd64_asm_inst_t :=
  ⟨0, "mov", 0, [⟨8, .reg rax⟩, ⟨8, .sib_reg (some r13) none 0 d⟩], false⟩

/-- The instruction `cmp [rax], rbx`. -/
def cmp_mem_rax_rbx : amd64_asm_inst_t :=
  ⟨0, "cmp", 0, [⟨8, .indirect_reg rax⟩, ⟨8, .reg rbx⟩], false⟩

/-! # Properties -/

/-! ## Selection: decomposition of `opcode_select` -/

theorem opcode_select_walk_eq (ops : List amd64_asm_operand_t) (node : amd64_opcode_tree_node_t)
    (flags : Bool × Bool) :
    opcode_select_walk ops node flags =
      (walk_keys (ops.map operand_key) node).map (fun n => (n, select_flags_all ops flags)) := by
  induction ops generalizing node flags with
  | nil => simp [opcode_select_walk, walk_keys, select_flags_all]
  | cons operand rest ih =>
    simp only [opcode_select_walk, List.map_cons, walk_keys, select_flags_all, operand_key]
    cases table_get node.succs (asm_operand_to_key operand.type operand.size) with
    | none => rfl
    | some next => exact ih next _

theorem opcode_select_eq (heap : opcode_heap) (root : amd64_opcode_tree_node_t)
    (asm_inst : amd64_asm_inst_t) :
    opcode_select heap root asm_inst =
      match select_candidates root asm_inst.name (asm_inst.operands.map operand_key) with
      | none => none
      | some temps =>
        select_finish heap asm_inst temps (select_flags_all asm_inst.operands (false, false)) := by
  unfold opcode_select select_candidates
  cases table_get root.succs (.name asm_inst.name) with
  | none => rfl
  | some current =>
    simp only [opcode_select_walk_eq]
    cases walk_keys (asm_inst.operands.map operand_key) current with
    | none => rfl
    | some node => rfl

theorem plain_reg_high (r : reg_t) (h : plain_reg r) : is_high_eight_reg r = false := by
  obtain ⟨_, hn⟩ := h
  simp only [List.mem_cons, List.mem_singleton, not_or, List.not_mem_nil, or_false] at hn
  simp [is_high_eight_reg, str_equal, hn]

theorem build_ext_keeps_rex (format : amd64_binary_format_t) (ext : opcode_ext)
    (h : format.rex_pfx.isSome = true) : (build_ext format ext).rex_pfx.isSome = true := by
  cases ext <;> simp [build_ext, h]

theorem foldl_build_ext_keeps_rex (exts : List opcode_ext) (format : amd64_binary_format_t)
    (h : format.rex_pfx.isSome = true) : (exts.foldl build_ext format).rex_pfx.isSome = true := by
  induction exts generalizing format with
  | nil => exact h
  | cons e es ih => exact ih _ (build_ext_keeps_rex format e h)

/-- After the extension phase of `opcode_fill` the REX record exists if `REX` or `REX.W` is
among the extensions seen. -/
theorem ext_phase_rex (exts : List opcode_ext) (format : amd64_binary_format_t)
    (h : rex_live exts = true) : (exts.foldl build_ext format).rex_pfx.isSome = true := by
  induction exts generalizing format with
  | nil => simp [rex_live, ext_exists] at h
  | cons e es ih =>
    by_cases he : e = .REX_W ∨ e = .REX
    · show (es.foldl build_ext (build_ext format e)).rex_pfx.isSome = true
      apply foldl_build_ext_keeps_rex
      rcases he with rfl | rfl <;> simp [build_ext]
    · have hes : rex_live es = true := by
        simp only [not_or] at he
        simp only [rex_live, ext_exists, List.contains_cons, Bool.or_eq_true, beq_iff_eq] at h ⊢
        rcases h with (h | h) | (h | h)
        · exact absurd h.symm he.1
        · exact Or.inl h
        · exact absurd h.symm he.2
        · exact Or.inr h
      exact ih _ hes

theorem with_rex_some (format format' : amd64_binary_format_t)
    (f : rex_prefix_t → rex_prefix_t) (h : with_rex format f = some format') :
    format'.rex_pfx.isSome = true := by
  unfold with_rex at h
  split at h
  · cases h
  · cases h; rfl

theorem with_vex_rex (format format' : amd64_binary_format_t)
    (f : vex_prefix_t → vex_prefix_t) (h : with_vex format f = some format') :
    format'.rex_pfx = format.rex_pfx := by
  unfold with_vex at h
  split at h
  · cases h
  · cases h; rfl

theorem fill_sib_disp_rex (format format' : amd64_binary_format_t) (base : reg_t) (disp : Int)
    (hf : fill_sib_disp format base disp = some format') :
    format'.rex_pfx = format.rex_pfx := by
  simp only [fill_sib_disp, set_disp] at hf
  split_ifs at hf <;> cases hf <;> rfl

/-- A turn of the operand loop never removes the REX record. -/
theorem fill_operand_keeps_rex (exts : List opcode_ext) (format format' : amd64_binary_format_t)
    (operand : opcode_operand_t) (asm_operand : amd64_asm_operand_t)
    (hf : fill_operand exts format operand asm_operand = some format')
    (h : format.rex_pfx.isSome = true) : format'.rex_pfx.isSome = true := by
  obtain ⟨type, encoding⟩ := operand
  obtain ⟨size, value⟩ := asm_operand
  cases value <;> cases encoding <;>
    simp only [fill_operand, fill_reg, fill_disp_reg, fill_indirect_reg, fill_rip_relative,
      fill_seg_offset, fill_sib_reg, set_disp, set_imm] at hf <;>
    (repeat' split at hf) <;>
    first
      | (exact with_rex_some _ _ _ hf)
      | (rw [with_vex_rex _ _ _ hf]; exact h)
      | (cases hf; done)
      | (cases hf; exact h)
      | (rw [fill_sib_disp_rex _ _ _ _ hf]
         first
          | exact h
          | (rename_i heq; split at heq
             · exact with_rex_some _ _ _ heq
             · cases heq; exact h))

/-- The operand loop never removes the REX record. -/
theorem fill_operands_keeps_rex (exts : List opcode_ext) (operands : List opcode_operand_t) :
    ∀ (asm_operands : List amd64_asm_operand_t) (format format' : amd64_binary_format_t),
      fill_operands exts format operands asm_operands = some format' →
      format.rex_pfx.isSome = true → format'.rex_pfx.isSome = true := by
  induction operands with
  | nil =>
    intro asm_operands format format' hf h
    simp only [fill_operands, Option.some.injEq] at hf
    exact hf ▸ h
  | cons operand rest ih =>
    intro asm_operands format format' hf h
    cases asm_operands with
    | nil => simp [fill_operands] at hf
    | cons asm_operand asm_rest =>
      simp only [fill_operands] at hf
      cases hstep : fill_operand exts format operand asm_operand with
      | none => simp [hstep] at hf
      | some mid =>
        rw [hstep] at hf
        exact ih asm_rest mid format' hf (fill_operand_keeps_rex _ _ _ _ _ hstep h)

/-! ## Byte arithmetic -/

theorem rex_byte_eq (w r x b : Bool) :
    opcode_rex_encoding ⟨w, r, x, b⟩ =
      0x40 ||| (bit w <<< 3) ||| (bit r <<< 2) ||| (bit x <<< 1) ||| bit b := by
  cases w <;> cases r <;> cases x <;> cases b <;> rfl

theorem modrm_byte_eq (mod reg rm : Nat) (hm : mod < 4) :
    opcode_modrm_encoding ⟨mod, reg, rm⟩ = (mod <<< 6) ||| ((reg &&& 7) <<< 3) ||| (rm &&& 7) := by
  have h1 : reg &&& 7 ≤ 7 := Nat.and_le_right
  have h2 : rm &&& 7 ≤ 7 := Nat.and_le_right
  simp only [opcode_modrm_encoding, u8]
  generalize reg &&& 7 = a at h1
  generalize rm &&& 7 = c at h2
  interval_cases mod <;> interval_cases a <;> interval_cases c <;> rfl

theorem select_finish_low (heap : opcode_heap) (asm_inst : amd64_asm_inst_t)
    (temps : List opcode_ref) (has64 : Bool) :
    select_finish heap asm_inst temps (has64, false) =
      match opcode_sort_insts heap temps with
      | [] => none
      | inst :: _ => some (inst, { asm_inst with need_rex_ext := has64 }) := by
  simp [select_finish]

/-- Encoding from the initial state, once the candidates and the winner of the sort are known
and no high-byte register occurs. -/
theorem encode_of_candidates (inst : amd64_asm_inst_t) (name : String) (keys : List table_key)
    (temps : List opcode_ref) (form : opcode_ref) (rest : List opcode_ref) (has64 : Bool)
    (hname : inst.name = name) (hkeys : inst.operands.map operand_key = keys)
    (hc : select_candidates opcode_tree_root name keys = some temps)
    (hf : select_flags_all inst.operands (false, false) = (has64, false))
    (hsort : opcode_sort_insts static_insts temps = form :: rest) :
    encode inst =
      (opcode_fill static_insts form { inst with need_rex_ext := has64 }).map
        (fun p => (form, opcode_format_encoding p.2)) := by
  subst hname hkeys
  simp only [encode, amd64_asm_inst_encoding, opcode_select_eq, hc, hf, select_finish_low, hsort]
  cases opcode_fill static_insts form { inst with need_rex_ext := has64 } with
  | none => rfl
  | some p => rfl

theorem and7_and7 (x : Nat) : x &&& 7 &&& 7 = x &&& 7 := by
  rw [Nat.and_assoc]; rfl

theorem decide_gt7 (n : Nat) : decide (7 < n) = decide (8 ≤ n) := by
  by_cases h : 8 ≤ n
  · have h2 : 7 < n := h
    simp [h, h2]
  · have h2 : ¬ 7 < n := h
    simp [h, h2]

theorem cand_mov_reg8_reg8 :
    select_candidates opcode_tree_root "mov" [.operand .REG 8, .operand .REG 8] =
      some [.mov_rm64_r64, .mov_r64_rm64] := by
  decide!

theorem sort_mov_reg8_reg8 :
    opcode_sort_insts static_insts [.mov_rm64_r64, .mov_r64_rm64] =
      [.mov_rm64_r64, .mov_r64_rm64] := by
  decide!

/-- C1. `mov dst, src` with two 64-bit general-purpose registers selects `mov_rm64_r64` and
emits the three bytes REX.W (with R from `src`, B from `dst`), `0x89`, ModR/M with `mod = 3`,
`reg = src`, `rm = dst`. -/
theorem C1_mov_r64_r64 (dst src : reg_t) (op_id : Nat) (need : Bool)
    (hd : plain_reg dst) (hs : plain_reg src) :
    encode ⟨op_id, "mov", 0, [⟨8, .reg dst⟩, ⟨8, .reg src⟩], need⟩ =
      some (.mov_rm64_r64,
        [0x48 ||| (bit (decide (src.index ≥ 8)) <<< 2) ||| bit (decide (dst.index ≥ 8)),
         0x89,
         0xC0 ||| ((src.index &&& 7) <<< 3) ||| (dst.index &&& 7)]) := by
  rw [encode_of_candidates ⟨op_id, "mov", 0, [⟨8, .reg dst⟩, ⟨8, .reg src⟩], need⟩
    "mov" [.operand .REG 8, .operand .REG 8] _ _ _
    (has_64_reg src || has_64_reg dst) rfl rfl cand_mov_reg8_reg8
    (by simp [select_flags_all, select_regs, select_flags, plain_reg_high, hd, hs])
    sort_mov_reg8_reg8]
  simp [opcode_fill, fill_heap, static_insts, mov_rm64_r64, inst_format_new, fill_exts, ext_exists,
    fill_operands, fill_operand, fill_reg, build_ext, modrm_of, rex_of, with_rex, rex_live,
    new_rex_pfx, new_modrm, opcode_format_encoding, opcode_bytes, rex_byte_eq, modrm_byte_eq,
    MODRM_MOD_DIRECT_REGISTER, and7_and7, decide_gt7]
  cases decide (8 ≤ src.index) <;> cases decide (8 ≤ dst.index) <;> rfl

/-- Witness of C1: `mov rax, rbx` is `48 89 D8` and `mov r9, r10` is `4D 89 D1`. -/
theorem C1_mov_r64_r64_witness :
    (plain_reg rax ∧ plain_reg rbx ∧ plain_reg r9 ∧ plain_reg r10) ∧
      encode ⟨0, "mov", 0, [⟨8, .reg rax⟩, ⟨8, .reg rbx⟩], false⟩ =
        some (.mov_rm64_r64, [0x48, 0x89, 0xD8]) ∧
      encode ⟨0, "mov", 0, [⟨8, .reg r9⟩, ⟨8, .reg r10⟩], false⟩ =
        some (.mov_rm64_r64, [0x4D, 0x89, 0xD1]) :=
  ⟨by decide, C1_mov_r64_r64 rax rbx 0 false (by decide) (by decide),
   C1_mov_r64_r64 r9 r10 0 false (by decide) (by decide)⟩

theorem int32_to_uint8_eq (d : Int) :
    int32_to_uint8 d =
      [(d % 256).toNat, (d / 256 % 256).toNat, (d / 65536 % 256).toNat,
        (d / 16777216 % 256).toNat] := by
  have h8 : d >>> (8 : Nat) = d / 256 := by rw [Int.shiftRight_eq_div_pow]; norm_num
  have h16 : d >>> (16 : Nat) = d / 65536 := by rw [Int.shiftRight_eq_div_pow]; norm_num
  have h24 : d >>> (24 : Nat) = d / 16777216 := by rw [Int.shiftRight_eq_div_pow]; norm_num
  simp [int32_to_uint8, h8, h16, h24]

theorem and7_lit5 : (5 &&& 7 : Nat) = 5 := rfl

theorem and7_lit4 : (4 &&& 7 : Nat) = 4 := rfl

theorem sib_absolute : opcode_sib_encoding (new_sib 0 4 5) = 0x25 := by decide

theorem le_bytes_four (v : Nat) :
    le_bytes v 4 = [v % 256, v / 256 % 256, v / 65536 % 256, v / 16777216 % 256] := by
  simp [le_bytes, Nat.div_div_eq_div_mul]

theorem cand_add_disp8_uint32 :
    select_candidates opcode_tree_root "add" [.operand .DISP_REG 8, .operand .UINT32 4] =
      some [.add_rm64_imm32] := by
  decide!

theorem sort_singleton (heap : opcode_heap) (form : opcode_ref) :
    opcode_sort_insts heap [form] = [form] := by
  simp [opcode_sort_insts, opcode_sort_loop]

/-- C3. `add qword [b + d], v` with a 64-bit base register other than rsp and r12, a
displacement in `-128..127` and a 32-bit immediate selects `add_rm64_imm32` and emits REX.W
(with B from the base), `0x81`, ModR/M with `mod = 01`, `reg = 0`, `rm = b`, the displacement
byte and the four immediate bytes. -/
theorem C3_add_m64_imm32 (b : reg_t) (d : Int) (v op_id : Nat) (need : Bool)
    (hb : plain_reg b) (_hsib : b.index ≠ 4 ∧ b.index ≠ 12) (hd : -128 ≤ d ∧ d ≤ 127)
    (_hv : v < 2 ^ 32) :
    encode ⟨op_id, "add", 0, [⟨8, .disp_reg b d⟩, ⟨4, .uint32 v⟩], need⟩ =
      some (.add_rm64_imm32,
        [0x48 ||| bit (decide (b.index ≥ 8)), 0x81, 0x40 ||| (b.index &&& 7), (d % 256).toNat,
          v % 256, v / 256 % 256, v / 65536 % 256, v / 16777216 % 256]) := by
  rw [encode_of_candidates ⟨op_id, "add", 0, [⟨8, .disp_reg b d⟩, ⟨4, .uint32 v⟩], need⟩
    "add" [.operand .DISP_REG 8, .operand .UINT32 4] _ _ _ (has_64_reg b) rfl rfl
    cand_add_disp8_uint32
    (by simp [select_flags_all, select_regs, select_flags, plain_reg_high, hb])
    (sort_singleton _ _)]
  simp [opcode_fill, fill_heap, static_insts, add_rm64_imm32, inst_format_new, fill_exts,
    ext_exists, fill_operands, fill_operand, fill_disp_reg, build_ext, modrm_of, rex_of, with_rex,
    rex_live, new_rex_pfx, new_modrm, opcode_format_encoding, opcode_bytes, rex_byte_eq,
    modrm_byte_eq, set_imm, set_disp, le_bytes_four, int32_to_uint8_eq,
    MODRM_MOD_INDIRECT_REGISTER_BYTE_DISP, and7_and7, decide_gt7, hd.1, hd.2]
  cases decide (8 ≤ b.index) <;> rfl

/-- Witness of C3: `add qword [rbp - 8], 1` is `48 81 45 F8 01 00 00 00`. -/
theorem C3_add_m64_imm32_witness :
    plain_reg rbp ∧ (rbp.index ≠ 4 ∧ rbp.index ≠ 12) ∧ ((-128 : Int) ≤ -8 ∧ (-8 : Int) ≤ 127) ∧
      encode ⟨0, "add", 0, [⟨8, .disp_reg rbp (-8)⟩, ⟨4, .uint32 1⟩], false⟩ =
        some (.add_rm64_imm32, [0x48, 0x81, 0x45, 0xF8, 0x01, 0x00, 0x00, 0x00]) :=
  ⟨by decide, by decide, by decide,
    C3_add_m64_imm32 rbp (-8) 1 0 false (by decide) (by decide) (by decide) (by decide)⟩

theorem cand_lea_reg8_rip8 :
    select_candidates opcode_tree_root "lea" [.operand .REG 8, .operand .RIP_RELATIVE 8] =
      some [.lea_r64_m] := by
  decide!

/-- C4. `lea r, [rip + d]` with a 64-bit register and a 32-bit displacement selects
`lea_r64_m` and emits REX.W (with R from `r`), `0x8D`, ModR/M with `mod = 00`, `reg = r`,
`rm = 5`, and the displacement as four little-endian bytes; there is no SIB byte. -/
theorem C4_lea_rip (r : reg_t) (d : Int) (op_id : Nat) (need : Bool)
    (hr : plain_reg r) (_hd : -2 ^ 31 ≤ d ∧ d < 2 ^ 31) :
    encode ⟨op_id, "lea", 0, [⟨8, .reg r⟩, ⟨8, .rip_relative d⟩], need⟩ =
      some (.lea_r64_m,
        [0x48 ||| (bit (decide (r.index ≥ 8)) <<< 2), 0x8D, ((r.index &&& 7) <<< 3) ||| 5,
          (d % 256).toNat, (d / 256 % 256).toNat, (d / 65536 % 256).toNat,
          (d / 16777216 % 256).toNat]) := by
  rw [encode_of_candidates ⟨op_id, "lea", 0, [⟨8, .reg r⟩, ⟨8, .rip_relative d⟩], need⟩
    "lea" [.operand .REG 8, .operand .RIP_RELATIVE 8] _ _ _ (has_64_reg r) rfl rfl
    cand_lea_reg8_rip8
    (by simp [select_flags_all, select_regs, select_flags, plain_reg_high, hr])
    (sort_singleton _ _)]
  simp [opcode_fill, fill_heap, static_insts, lea_r64_m, inst_format_new, fill_exts,
    ext_exists, fill_operands, fill_operand, fill_reg, fill_rip_relative, build_ext, modrm_of,
    rex_of, with_rex, rex_live, new_rex_pfx, new_modrm, opcode_format_encoding, opcode_bytes,
    rex_byte_eq, modrm_byte_eq, set_disp, int32_to_uint8_eq,
    MODRM_MOD_INDIRECT_REGISTER, MODRM_MOD_DIRECT_REGISTER, and7_and7, and7_lit5, decide_gt7]
  cases decide (8 ≤ r.index) <;> rfl

/-- Witness of C4: `lea rdi, [rip + 0x100]` is `48 8D 3D 00 01 00 00`. -/
theorem C4_lea_rip_witness :
    plain_reg rdi ∧ ((-2 ^ 31 : Int) ≤ 0x100 ∧ (0x100 : Int) < 2 ^ 31) ∧
      encode ⟨0, "lea", 0, [⟨8, .reg rdi⟩, ⟨8, .rip_relative 0x100⟩], false⟩ =
        some (.lea_r64_m, [0x48, 0x8D, 0x3D, 0x00, 0x01, 0x00, 0x00]) :=
  ⟨by decide, by decide, C4_lea_rip rdi 0x100 0 false (by decide) (by decide)⟩

theorem cand_mov_reg8_seg8 :
    select_candidates opcode_tree_root "mov" [.operand .REG 8, .operand .SEG_OFFSET 8] =
      some [.mov_r64_seg] := by
  decide!

/-- C5. `mov r, s:off` with a 64-bit register, `s` one of `fs`, `gs` and a 32-bit offset
selects `mov_r64_seg` and emits the segment byte (`64` for fs, `65` for gs), REX.W (with R
from `r`), `0x8B`, ModR/M with `mod = 00`, `reg = r`, `rm = 4`, the SIB byte `25` and the
offset as four little-endian bytes. -/
theorem C5_mov_seg (r : reg_t) (s : String) (off : Int) (op_id : Nat) (need : Bool)
    (hr : plain_reg r) (hs : s = "fs" ∨ s = "gs") (_ho : -2 ^ 31 ≤ off ∧ off < 2 ^ 31) :
    encode ⟨op_id, "mov", 0, [⟨8, .reg r⟩, ⟨8, .seg_offset s off⟩], need⟩ =
      some (.mov_r64_seg,
        [if s = "fs" then 0x64 else 0x65, 0x48 ||| (bit (decide (r.index ≥ 8)) <<< 2), 0x8B,
          ((r.index &&& 7) <<< 3) ||| 4, 0x25,
          (off % 256).toNat, (off / 256 % 256).toNat, (off / 65536 % 256).toNat,
          (off / 16777216 % 256).toNat]) := by
  rw [encode_of_candidates ⟨op_id, "mov", 0, [⟨8, .reg r⟩, ⟨8, .seg_offset s off⟩], need⟩
    "mov" [.operand .REG 8, .operand .SEG_OFFSET 8] _ _ _ (has_64_reg r) rfl rfl
    cand_mov_reg8_seg8
    (by simp [select_flags_all, select_regs, select_flags, plain_reg_high, hr])
    (sort_singleton _ _)]
  rcases hs with rfl | rfl <;>
  simp [opcode_fill, fill_heap, static_insts, mov_r64_seg, inst_format_new, fill_exts,
    ext_exists, fill_operands, fill_operand, fill_reg, fill_seg_offset, build_ext, modrm_of,
    rex_of, with_rex, rex_live, new_rex_pfx, new_modrm, opcode_format_encoding,
    opcode_bytes, sib_absolute, str_equal,
    rex_byte_eq, modrm_byte_eq, set_disp, int32_to_uint8_eq, MODRM_MOD_SIB_FOLLOWS_RM,
    MODRM_MOD_INDIRECT_REGISTER, MODRM_MOD_DIRECT_REGISTER, and7_and7, and7_lit4, decide_gt7] <;>
  cases decide (8 ≤ r.index) <;> rfl

/-- Witness of C5: `mov rax, fs:0x28` is `64 48 8B 04 25 28 00 00 00`. -/
theorem C5_mov_seg_witness :
    plain_reg rax ∧ ("fs" = "fs" ∨ "fs" = "gs") ∧
      ((-2 ^ 31 : Int) ≤ 0x28 ∧ (0x28 : Int) < 2 ^ 31) ∧
      encode ⟨0, "mov", 0, [⟨8, .reg rax⟩, ⟨8, .seg_offset "fs" 0x28⟩], false⟩ =
        some (.mov_r64_seg, [0x64, 0x48, 0x8B, 0x04, 0x25, 0x28, 0x00, 0x00, 0x00]) :=
  ⟨by decide, by decide, by decide,
    C5_mov_seg rax "fs" 0x28 0 false (by decide) (by decide) (by decide)⟩

/-- C6, the code at the failing inputs: the forms `add_rex_rm8_r8` and `add_rm8_r8` declare
the one opcode byte `0x00`, and the encodings of `add al, bl` and `add ah, bl` contain no
opcode byte at all (the serializer stops at the first zero byte of `opcode`): the emitted
bytes are `40 D8` and `DC`. -/
theorem C6_add_zero_opcode_dropped :
    (static_insts .add_rex_rm8_r8).opcode = [0x00, 0, 0] ∧
      (static_insts .add_rm8_r8).opcode = [0x00, 0, 0] ∧
      encode ⟨0, "add", 0, [⟨1, .reg al⟩, ⟨1, .reg bl⟩], false⟩ =
        some (.add_rex_rm8_r8, [0x40, 0xD8]) ∧
      encode ⟨0, "add", 0, [⟨1, .reg ah⟩, ⟨1, .reg bl⟩], false⟩ =
        some (.add_rm8_r8, [0xDC]) := by
  decide!

/-- C7, the code at the failing input: `opcode_fill` called on the catalog entry
`add_rm64_r64` (declared prefix `0`) with `lock add [rax], rbx` (instruction prefix `F0`)
leaves the entry with prefix `F0`. -/
theorem C7_fill_writes_form_prefix :
    (static_insts .add_rm64_r64).prefix_byte = 0 ∧
      (opcode_fill static_insts .add_rm64_r64
          ⟨0, "add", 0xF0, [⟨8, .indirect_reg rax⟩, ⟨8, .reg rbx⟩], false⟩).map
        (fun p => (p.1 .add_rm64_r64).prefix_byte) = some 0xF0 := by
  decide!

/-- C8, the code at the failing input: from the state after `amd64_opcode_init`,
`add [rax], rbx` is encoded as `48 01 18`; after one encoding of `lock add [rax], rbx`
(prefix `F0`) the same instruction is encoded as `F0 48 01 18`. -/
theorem C8_prefix_leaks_between_calls :
    (amd64_asm_inst_encoding static_insts opcode_tree_root
          ⟨0, "add", 0, [⟨8, .indirect_reg rax⟩, ⟨8, .reg rbx⟩], false⟩).map (fun p => p.2) =
        some (.add_rm64_r64, [0x48, 0x01, 0x18]) ∧
      ((amd64_asm_inst_encoding static_insts opcode_tree_root
          ⟨0, "add", 0xF0, [⟨8, .indirect_reg rax⟩, ⟨8, .reg rbx⟩], false⟩).bind
        (fun p => amd64_asm_inst_encoding p.1 opcode_tree_root
          ⟨0, "add", 0, [⟨8, .indirect_reg rax⟩, ⟨8, .reg rbx⟩], false⟩)).map (fun p => p.2) =
        some (.add_rm64_r64, [0xF0, 0x48, 0x01, 0x18]) := by
  decide!

/-- C9, the code at the failing inputs: `mov rax, [rsp]`, `mov rax, [r12]` and
`mov rax, [rsp + 8]` are accepted and encoded as `48 8B 04`, `49 8B 04` and `48 8B 44 08`:
the ModR/M byte has `mod ≠ 3` and `rm = 4`, and no SIB byte follows it. -/
theorem C9_indirect_rsp_without_sib :
    encode ⟨0, "mov", 0, [⟨8, .reg rax⟩, ⟨8, .indirect_reg rsp⟩], false⟩ =
        some (.mov_r64_rm64, [0x48, 0x8B, 0x04]) ∧
      encode ⟨0, "mov", 0, [⟨8, .reg rax⟩, ⟨8, .indirect_reg r12⟩], false⟩ =
        some (.mov_r64_rm64, [0x49, 0x8B, 0x04]) ∧
      encode ⟨0, "mov", 0, [⟨8, .reg rax⟩, ⟨8, .disp_reg rsp 8⟩], false⟩ =
        some (.mov_r64_rm64, [0x48, 0x8B, 0x44, 0x08]) := by
  decide!

theorem modrm_rm_field_eq (m : modrm_t) (hm : m.mod < 4) : modrm_rm_field m = m.rm &&& 7 := by
  obtain ⟨mod, reg, rm⟩ := m
  have h1 : reg &&& 7 ≤ 7 := Nat.and_le_right
  have h2 : rm &&& 7 ≤ 7 := Nat.and_le_right
  simp only [modrm_rm_field, opcode_modrm_encoding, u8] at *
  generalize reg &&& 7 = a at h1
  generalize rm &&& 7 = c at h2
  interval_cases mod <;> interval_cases a <;> interval_cases c <;> rfl

/-- C10. A slot of role `MODRM_RM` filled with an `INDIRECT_REG` operand `[r]`: for `r.index`
5 or 13 the record gets `mod = 01`, an `rm` field of 5 and the single displacement byte `00`;
for every other index `mod = 00`, the `rm` field `r.index & 7` and no displacement byte; when
a REX prefix is live its `b` bit becomes `r.index ≥ 8`. (The `rm` member of the record holds
`r.index` itself; the field of the emitted byte is its low three bits.) -/
theorem C10_indirect_reg_slot (exts : List opcode_ext) (format : amd64_binary_format_t)
    (operand : opcode_operand_t) (size : Nat) (r : reg_t)
    (henc : operand.encoding = .MODRM_RM) (hidx : r.index < 16)
    (hrex : rex_live exts = true → format.rex_pfx.isSome = true) :
    ∃ format' m, fill_operand exts format operand ⟨size, .indirect_reg r⟩ = some format' ∧
      format'.modrm = some m ∧ m.rm = r.index ∧
      (if r.index = 5 ∨ r.index = 13 then
        m.mod = 1 ∧ modrm_rm_field m = 5 ∧ format'.disps = [0]
      else m.mod = 0 ∧ modrm_rm_field m = r.index &&& 7 ∧ format'.disps = []) ∧
      (rex_live exts = true →
        format'.rex_pfx = some { rex_of format with b := decide (r.index ≥ 8) }) := by
  have hu : u8 r.index = r.index := Nat.mod_eq_of_lt (by omega)
  by_cases hl : rex_live exts = true
  · obtain ⟨rex, hrex'⟩ := Option.isSome_iff_exists.mp (hrex hl)
    by_cases h5 : r.index = 5 ∨ r.index = 13
    · have h5' : r.index = 13 ∨ r.index = 5 := h5.symm
      refine ⟨{ format with
          modrm := some ⟨1, (modrm_of format).reg, r.index⟩, disps := [0],
          rex_pfx := some { rex with b := decide (r.index > 7) } },
        ⟨1, (modrm_of format).reg, r.index⟩, ?_, rfl, rfl, ?_, ?_⟩
      · simp [fill_operand, fill_indirect_reg, henc, h5', hl, with_rex, set_disp, hrex', hu,
          MODRM_MOD_INDIRECT_REGISTER_BYTE_DISP]
      · rw [if_pos h5]
        refine ⟨rfl, ?_, rfl⟩
        rw [modrm_rm_field_eq _ (by show 1 < 4; decide)]
        rcases h5 with h | h <;> simp only [h] <;> rfl
      · intro _
        simp [rex_of, hrex', decide_gt7]
    · have h5' : ¬ (r.index = 13 ∨ r.index = 5) := fun h => h5 h.symm
      refine ⟨{ format with
          modrm := some ⟨0, (modrm_of format).reg, r.index⟩, disps := [],
          rex_pfx := some { rex with b := decide (r.index > 7) } },
        ⟨0, (modrm_of format).reg, r.index⟩, ?_, rfl, rfl, ?_, ?_⟩
      · simp [fill_operand, fill_indirect_reg, henc, h5', hl, with_rex, set_disp, hrex', hu,
          MODRM_MOD_INDIRECT_REGISTER]
      · rw [if_neg h5]
        exact ⟨rfl, modrm_rm_field_eq _ (by show 0 < 4; decide), rfl⟩
      · intro _
        simp [rex_of, hrex', decide_gt7]
  · by_cases h5 : r.index = 5 ∨ r.index = 13
    · have h5' : r.index = 13 ∨ r.index = 5 := h5.symm
      refine ⟨{ format with modrm := some ⟨1, (modrm_of format).reg, r.index⟩, disps := [0] },
        ⟨1, (modrm_of format).reg, r.index⟩, ?_, rfl, rfl, ?_, fun h => absurd h hl⟩
      · simp [fill_operand, fill_indirect_reg, henc, h5', hl, set_disp, hu,
          MODRM_MOD_INDIRECT_REGISTER_BYTE_DISP]
      · rw [if_pos h5]
        refine ⟨rfl, ?_, rfl⟩
        rw [modrm_rm_field_eq _ (by show 1 < 4; decide)]
        rcases h5 with h | h <;> simp only [h] <;> rfl
    · have h5' : ¬ (r.index = 13 ∨ r.index = 5) := fun h => h5 h.symm
      refine ⟨{ format with modrm := some ⟨0, (modrm_of format).reg, r.index⟩, disps := [] },
        ⟨0, (modrm_of format).reg, r.index⟩, ?_, rfl, rfl, ?_, fun h => absurd h hl⟩
      · simp [fill_operand, fill_indirect_reg, henc, h5', hl, set_disp, hu,
          MODRM_MOD_INDIRECT_REGISTER]
      · rw [if_neg h5]
        exact ⟨rfl, modrm_rm_field_eq _ (by show 0 < 4; decide), rfl⟩

/-- Witness of C10: the slot `RM64` of a `REX.W /r` form filled with `[rbp]`. -/
theorem C10_indirect_reg_slot_witness :
    (⟨.RM64, .MODRM_RM⟩ : opcode_operand_t).encoding = .MODRM_RM ∧ rbp.index < 16 ∧
      (rex_live [.REX_W, .SLASHR] = true → ext_phase_rex_w_slashr.rex_pfx.isSome = true) ∧
      ∃ format' m,
        fill_operand [.REX_W, .SLASHR] ext_phase_rex_w_slashr ⟨.RM64, .MODRM_RM⟩
            ⟨8, .indirect_reg rbp⟩ = some format' ∧
          format'.modrm = some m ∧ m.rm = rbp.index ∧
          (if rbp.index = 5 ∨ rbp.index = 13 then
            m.mod = 1 ∧ modrm_rm_field m = 5 ∧ format'.disps = [0]
          else m.mod = 0 ∧ modrm_rm_field m = rbp.index &&& 7 ∧ format'.disps = []) ∧
          (rex_live [.REX_W, .SLASHR] = true →
            format'.rex_pfx =
              some { rex_of ext_phase_rex_w_slashr with b := decide (rbp.index ≥ 8) }) :=
  ⟨rfl, by decide, fun _ => rfl,
    C10_indirect_reg_slot [.REX_W, .SLASHR] ext_phase_rex_w_slashr ⟨.RM64, .MODRM_RM⟩ 8 rbp rfl
      (by decide) (fun _ => rfl)⟩

/-! ## Soundness of the trie: what a leaf can hold -/

theorem table_get_set {α : Type} (t : List (table_key × α)) (key k : table_key) (v : α) :
    table_get (table_set t key v) k = if key = k then some v else table_get t k := by
  induction t with
  | nil =>
    by_cases h : key = k <;> simp [table_set, table_get, h]
  | cons p rest ih =>
    obtain ⟨k0, w⟩ := p
    by_cases h0 : k0 = key
    · subst h0
      by_cases h : k0 = k <;> simp [table_set, table_get, h]
    · simp only [table_set, h0, if_false, table_get, ih]
      by_cases h1 : k0 = k
      · subst h1
        have h2 : ¬ key = k0 := fun e => h0 e.symm
        simp [h2]
      · simp [h1]

theorem node_ok_new (P : List table_key → opcode_ref → Prop) : node_ok P opcode_node_new := by
  intro keys n' h f hf
  cases keys with
  | nil =>
    simp only [walk_keys, Option.some.injEq] at h
    subst h
    simp [opcode_node_new, amd64_opcode_tree_node_t.insts] at hf
  | cons k ks =>
    simp [walk_keys, opcode_node_new, amd64_opcode_tree_node_t.succs, table_get] at h

theorem node_ok_child (P : List table_key → opcode_ref → Prop) (n : amd64_opcode_tree_node_t)
    (key : table_key) (h : node_ok P n) :
    node_ok (fun ks => P (key :: ks)) ((table_get n.succs key).getD opcode_node_new) := by
  cases hg : table_get n.succs key with
  | none => exact node_ok_new _
  | some c =>
    intro keys n' hw f hf
    simp only [Option.getD_some] at hw
    apply h (key :: keys) n' _ f hf
    simp [walk_keys, hg, hw]

theorem node_ok_step (P : List table_key → opcode_ref → Prop) (n child : amd64_opcode_tree_node_t)
    (key : table_key) (h : node_ok P n) (hc : node_ok (fun ks => P (key :: ks)) child) :
    node_ok P (.mk n.insts (table_set n.succs key child)) := by
  intro keys n' hw f hf
  cases keys with
  | nil =>
    simp only [walk_keys, Option.some.injEq] at hw
    subst hw
    exact h [] n rfl f hf
  | cons k ks =>
    simp only [walk_keys, amd64_opcode_tree_node_t.succs, table_get_set] at hw
    by_cases hk : key = k
    · subst hk
      simp only [if_true] at hw
      exact hc ks n' hw f hf
    · simp only [hk, if_false] at hw
      apply h (k :: ks) n' _ f hf
      simpa [walk_keys] using hw

theorem opcode_find_succs_ok (inst : opcode_ref) (operands : List opcode_operand_t) :
    ∀ (P : List table_key → opcode_ref → Prop) (n : amd64_opcode_tree_node_t),
      node_ok P n → (∀ keys, keys_match keys operands → P keys inst) →
      node_ok P (opcode_find_succs inst operands n) := by
  induction operands with
  | nil =>
    intro P n h hP keys n' hw f hf
    cases keys with
    | nil =>
      simp only [walk_keys, Option.some.injEq, opcode_find_succs] at hw
      subst hw
      simp only [amd64_opcode_tree_node_t.insts, List.mem_append, List.mem_singleton] at hf
      rcases hf with hf | hf
      · exact h [] n rfl f hf
      · subst hf
        exact hP [] List.Forall₂.nil
    | cons k ks =>
      apply h (k :: ks) n' _ f hf
      simpa [walk_keys, opcode_find_succs, amd64_opcode_tree_node_t.succs] using hw
  | cons operand rest ih =>
    intro P n h hP
    simp only [opcode_find_succs]
    have main : ∀ (l : List table_key), (∀ k ∈ l, k ∈ operand_low_to_high operand.type) →
        ∀ n : amd64_opcode_tree_node_t, node_ok P n →
        node_ok P (l.foldl
          (fun node key =>
            amd64_opcode_tree_node_t.mk node.insts
              (table_set node.succs key
                (opcode_find_succs inst rest ((table_get node.succs key).getD opcode_node_new))))
          n) := by
      intro l
      induction l with
      | nil => intro _ n hn; exact hn
      | cons key l ihl =>
        intro hl n hn
        simp only [List.foldl_cons]
        apply ihl (fun k hk => hl k (List.mem_cons_of_mem _ hk))
        apply node_ok_step P n _ key hn
        apply ih (fun ks => P (key :: ks)) _ (node_ok_child P n key hn)
        intro keys hkeys
        exact hP (key :: keys) (List.Forall₂.cons (hl key (List.mem_cons_self _ _)) hkeys)
    exact main _ (fun _ hk => hk) n h

theorem opcode_tree_build_ok (heap : opcode_heap) (P : List table_key → opcode_ref → Prop)
    (root : amd64_opcode_tree_node_t) (inst : opcode_ref) (h : node_ok P root)
    (hP : ∀ keys, keys_match keys (heap inst).operands →
      P (table_key.name (heap inst).group :: keys) inst) :
    node_ok P (opcode_tree_build heap root inst) := by
  unfold opcode_tree_build
  apply node_ok_step P root _ _ h
  exact opcode_find_succs_ok inst _ _ _ (node_ok_child P root _ h) hP

/-- What the trie built from a registration sequence can return for a mnemonic and a key
sequence: registered forms of that mnemonic group whose operand slots accept the keys. -/
theorem select_candidates_sound (heap : opcode_heap) (regs : List opcode_ref) (name : String)
    (keys : List table_key) (temps : List opcode_ref)
    (h : select_candidates (opcode_tree_of heap regs) name keys = some temps) :
    ∀ f ∈ temps, f ∈ regs ∧ (heap f).group = name ∧ keys_match keys (heap f).operands := by
  let P : List table_key → opcode_ref → Prop := fun path f =>
    f ∈ regs ∧ ∃ ks, path = table_key.name (heap f).group :: ks ∧ keys_match ks (heap f).operands
  have hall : ∀ (l : List opcode_ref), (∀ x ∈ l, x ∈ regs) →
      ∀ n : amd64_opcode_tree_node_t, node_ok P n →
        node_ok P (l.foldl (opcode_tree_build heap) n) := by
    intro l
    induction l with
    | nil => intro _ n hn; exact hn
    | cons x l ih =>
      intro hl n hn
      simp only [List.foldl_cons]
      apply ih (fun y hy => hl y (List.mem_cons_of_mem _ hy))
      apply opcode_tree_build_ok heap P n x hn
      intro ks hks
      exact ⟨hl x (List.mem_cons_self _ _), ks, rfl, hks⟩
  have hroot : node_ok P (opcode_tree_of heap regs) :=
    hall regs (fun _ hx => hx) _ (node_ok_new P)
  intro f hf
  unfold select_candidates at h
  cases hg : table_get (opcode_tree_of heap regs).succs (.name name) with
  | none => simp [hg] at h
  | some current =>
    simp only [hg, Option.map_eq_some'] at h
    obtain ⟨node, hw, hi⟩ := h
    subst hi
    have hw' : walk_keys (table_key.name name :: keys) (opcode_tree_of heap regs) = some node := by
      simp [walk_keys, hg, hw]
    obtain ⟨hreg, ks, hks, hm⟩ := hroot _ _ hw' f hf
    simp only [List.cons.injEq, table_key.name.injEq] at hks
    obtain ⟨hn, rfl⟩ := hks
    exact ⟨hreg, hn.symm, hm⟩

theorem opcode_tree_root_eq : opcode_tree_root = opcode_tree_of static_insts registered_insts := by
  unfold opcode_tree_root
  rfl

/-! ## The sort returns a permutation -/

theorem opcode_sort_pass_perm (heap : opcode_heap) (n : Nat) (l : List opcode_ref) :
    (opcode_sort_pass heap n l).1.Perm l := by
  induction n generalizing l with
  | zero => simp [opcode_sort_pass]
  | succ n ih =>
    match l with
    | [] => simp [opcode_sort_pass]
    | [a] => simp [opcode_sort_pass]
    | a :: b :: rest =>
      simp only [opcode_sort_pass]
      split
      · exact ((ih (a :: rest)).cons b).trans (List.Perm.swap a b rest)
      · exact (ih (b :: rest)).cons a

theorem opcode_sort_loop_perm (heap : opcode_heap) (k : Nat) (l : List opcode_ref) :
    (opcode_sort_loop heap k l).Perm l := by
  induction k generalizing l with
  | zero => simp [opcode_sort_loop]
  | succ k ih =>
    simp only [opcode_sort_loop]
    split
    · exact (ih _).trans (opcode_sort_pass_perm heap (k + 1) l)
    · exact opcode_sort_pass_perm heap (k + 1) l

theorem opcode_sort_insts_perm (heap : opcode_heap) (l : List opcode_ref) :
    (opcode_sort_insts heap l).Perm l := by
  unfold opcode_sort_insts
  split
  · exact List.Perm.refl _
  · exact opcode_sort_loop_perm heap _ l

/-! ## The registered catalog is well formed -/

theorem registered_form_wf : ∀ f ∈ registered_insts, form_wf (static_insts f) = true := by
  decide!

/-! ## One turn of the operand loop, field by field -/

theorem with_rex_eq (format format' : amd64_binary_format_t)
    (g : rex_prefix_t → rex_prefix_t) (h : with_rex format g = some format') :
    ∃ r, format.rex_pfx = some r ∧ format' = { format with rex_pfx := some (g r) } := by
  unfold with_rex at h
  split at h
  · cases h
  · rename_i r hr
    cases h
    exact ⟨r, hr, rfl⟩

theorem with_vex_eq (format format' : amd64_binary_format_t)
    (g : vex_prefix_t → vex_prefix_t) (h : with_vex format g = some format') :
    ∃ v, format.vex_pfx = some v ∧ format' = { format with vex_pfx := some (g v) } := by
  unfold with_vex at h
  split at h
  · cases h
  · rename_i v hv
    cases h
    exact ⟨v, hv, rfl⟩

theorem fill_sib_disp_fields (format format' : amd64_binary_format_t) (base : reg_t) (disp : Int)
    (hf : fill_sib_disp format base disp = some format') :
    format'.rex_pfx = format.rex_pfx ∧ format'.vex_pfx = format.vex_pfx ∧
      format'.imms = format.imms ∧ format'.sib = format.sib ∧
      format'.opcode = format.opcode ∧ format'.prefix_byte = format.prefix_byte ∧
      (format.disps.length ≤ 4 → format'.disps.length ≤ 4) ∧
      ∃ m, format'.modrm = some m ∧ m.mod ≠ 3 ∧ m.rm = (modrm_of format).rm := by
  simp only [fill_sib_disp, set_disp] at hf
  split_ifs at hf <;> cases hf <;>
    refine ⟨rfl, rfl, rfl, rfl, rfl, rfl, ?_, _, rfl, ?_, ?_⟩ <;>
    simp [int32_to_uint8, modrm_of, MODRM_MOD_INDIRECT_REGISTER,
      MODRM_MOD_INDIRECT_REGISTER_BYTE_DISP, MODRM_MOD_INDIRECT_REGISTER_DWORD_DISP]

theorem rex_opt_eq (c : Prop) [Decidable c] (F mid : amd64_binary_format_t)
    (g : rex_prefix_t → rex_prefix_t)
    (h : (if c then with_rex F g else some F) = some mid) :
    mid.imms = F.imms ∧ mid.rex_pfx.isSome = F.rex_pfx.isSome ∧ mid.vex_pfx = F.vex_pfx ∧
      mid.disps = F.disps ∧ mid.modrm = F.modrm ∧ mid.sib = F.sib ∧ mid.opcode = F.opcode ∧
      mid.prefix_byte = F.prefix_byte := by
  split at h
  · obtain ⟨r, hr, rfl⟩ := with_rex_eq _ _ _ h
    simp [hr]
  · cases h
    simp

/-- A slot of role `MODRM_RM` filled with a kind the role consumes. -/
theorem step_rm (exts : List opcode_ext) (format format' : amd64_binary_format_t)
    (slot : opcode_operand_t) (op : amd64_asm_operand_t)
    (henc : slot.encoding = .MODRM_RM) (hacc : role_accepts slot.encoding op.type = true)
    (hf : fill_operand exts format slot op = some format') :
    format'.imms = format.imms ∧ format'.rex_pfx.isSome = format.rex_pfx.isSome ∧
      format'.vex_pfx.isSome = format.vex_pfx.isSome ∧
      (format.disps.length ≤ 4 → format'.disps.length ≤ 4) ∧
      ∃ m, format'.modrm = some m ∧ (m.mod = 3 ↔ is_direct_reg op = true) := by
  obtain ⟨type, encoding⟩ := slot
  obtain ⟨size, value⟩ := op
  simp only at henc
  subst henc
  cases value <;>
    simp only [role_accepts, amd64_asm_operand_t.type, is_direct_reg, fill_operand, fill_reg,
      fill_disp_reg, fill_indirect_reg, fill_rip_relative, fill_seg_offset, fill_sib_reg,
      set_disp] at hf hacc ⊢ <;>
    (try (simp at hacc; done))
  all_goals (repeat' split at hf)
  all_goals first
    | (cases hf; done)
    | (obtain ⟨r, hr, rfl⟩ := with_rex_eq _ _ _ hf
       simp only at hr
       simp [hr, int32_to_uint8, MODRM_MOD_DIRECT_REGISTER, MODRM_MOD_INDIRECT_REGISTER,
         MODRM_MOD_INDIRECT_REGISTER_BYTE_DISP, MODRM_MOD_INDIRECT_REGISTER_DWORD_DISP])
    | (obtain ⟨v, hv, rfl⟩ := with_vex_eq _ _ _ hf
       simp only at hv
       simp [hv, int32_to_uint8, MODRM_MOD_DIRECT_REGISTER, MODRM_MOD_INDIRECT_REGISTER,
         MODRM_MOD_INDIRECT_REGISTER_BYTE_DISP, MODRM_MOD_INDIRECT_REGISTER_DWORD_DISP])
    | (cases hf
       simp [int32_to_uint8, MODRM_MOD_DIRECT_REGISTER, MODRM_MOD_INDIRECT_REGISTER,
         MODRM_MOD_INDIRECT_REGISTER_BYTE_DISP, MODRM_MOD_INDIRECT_REGISTER_DWORD_DISP])
    | (rename_i heq
       obtain ⟨h1, h2, h3, h4, h5, -, -, -⟩ := rex_opt_eq _ _ _ _ heq
       obtain ⟨g1, g2, g3, -, -, -, g7, m, g8, g9, -⟩ := fill_sib_disp_fields _ _ _ _ hf
       simp only at h1 h2 h3 h4 h5
       refine ⟨by rw [g3, h1], by rw [g1, h2], by rw [g2, h3],
         fun hd => g7 (by rw [h4]; exact hd), m, g8, ?_⟩
       simp [g9])

/-- A slot of another role than `MODRM_RM` filled with a kind the role consumes. -/
theorem step_other (exts : List opcode_ext) (format format' : amd64_binary_format_t)
    (slot : opcode_operand_t) (op : amd64_asm_operand_t)
    (henc : slot.encoding ≠ .MODRM_RM) (hacc : role_accepts slot.encoding op.type = true)
    (hf : fill_operand exts format slot op = some format') :
    format'.rex_pfx.isSome = format.rex_pfx.isSome ∧
      format'.vex_pfx.isSome = format.vex_pfx.isSome ∧
      format'.disps = format.disps ∧ format'.sib = format.sib ∧
      (∀ m, format.modrm = some m → ∃ m', format'.modrm = some m' ∧ m'.mod = m.mod ∧ m'.rm = m.rm) ∧
      (slot.encoding = .MODRM_REG → format'.modrm.isSome = true) ∧
      (slot.encoding ≠ .MODRM_REG → format'.modrm = format.modrm) ∧
      (slot.encoding ≠ .IMM → format'.imms = format.imms) ∧
      (slot.encoding = .IMM →
        ∃ v, imm_value op.value = some v ∧ format'.imms = le_bytes v (imm_kind_width op.type)) := by
  obtain ⟨type, encoding⟩ := slot
  obtain ⟨size, value⟩ := op
  simp only at henc
  cases encoding <;> cases value <;>
    simp only [role_accepts, amd64_asm_operand_t.type, fill_operand, fill_reg,
      fill_disp_reg, fill_indirect_reg, fill_rip_relative, fill_seg_offset, fill_sib_reg,
      set_disp, set_imm, imm_value, imm_kind_width] at hf hacc henc ⊢ <;>
    (try (simp at hacc; done)) <;> (try (simp at henc; done))
  all_goals (repeat' split at hf)
  all_goals first
    | (cases hf; done)
    | (obtain ⟨r, hr, rfl⟩ := with_rex_eq _ _ _ hf
       simp only at hr
       simp_all [modrm_of, le_bytes, u8])
    | (obtain ⟨v, hv, rfl⟩ := with_vex_eq _ _ _ hf
       simp only at hv
       simp_all [modrm_of, le_bytes, u8])
    | (cases hf
       simp_all [modrm_of, le_bytes, u8])

theorem fill_sib_disp_total (format : amd64_binary_format_t) (base : reg_t) (disp : Int) :
    ∃ format', fill_sib_disp format base disp = some format' := by
  simp only [fill_sib_disp, set_disp]
  by_cases h5 : base.index = 5
  · simp [h5, modrm_of, MODRM_MOD_INDIRECT_REGISTER_BYTE_DISP, MODRM_MOD_INDIRECT_REGISTER]
  · simp [h5]

theorem with_rex_total (format : amd64_binary_format_t) (g : rex_prefix_t → rex_prefix_t)
    (h : format.rex_pfx.isSome = true) : ∃ format', with_rex format g = some format' := by
  obtain ⟨r, hr⟩ := Option.isSome_iff_exists.mp h
  simp [with_rex, hr]

/-- A turn of the operand loop returns a record when the role consumes the operand kind, the
REX record exists if a REX extension is live, no VEX extension is live and a `SIB_REG`
operand has a base register. -/
theorem step_total (exts : List opcode_ext) (format : amd64_binary_format_t)
    (slot : opcode_operand_t) (op : amd64_asm_operand_t)
    (hacc : role_accepts slot.encoding op.type = true)
    (hrex : rex_live exts = true → format.rex_pfx.isSome = true)
    (hvex : vex_live exts = false) (hbase : sib_has_base op = true) :
    ∃ format', fill_operand exts format slot op = some format' := by
  obtain ⟨type, encoding⟩ := slot
  obtain ⟨size, value⟩ := op
  by_cases hl : rex_live exts = true
  · obtain ⟨r, hr⟩ := Option.isSome_iff_exists.mp (hrex hl)
    cases hm : format.modrm <;> cases encoding <;> cases value <;>
      simp only [role_accepts, amd64_asm_operand_t.type, sib_has_base] at hacc hbase <;>
      (try (simp at hacc; done)) <;>
      first
        | (simp [fill_operand, fill_reg, fill_disp_reg, fill_indirect_reg, fill_rip_relative,
            fill_seg_offset, set_disp, set_imm, with_rex, hl, hr, hm]; done)
        | (rename_i base index scale disp
           cases base with
           | none => simp at hbase
           | some b =>
             simp only [fill_operand, fill_sib_reg, with_rex, hl, hr, if_true]
             exact fill_sib_disp_total _ _ _)
        | (simp only [fill_operand, fill_reg, fill_disp_reg, fill_indirect_reg, set_disp]
           split_ifs <;> simp_all [with_rex, modrm_of])
  · cases hm : format.modrm <;> cases encoding <;> cases value <;>
      simp only [role_accepts, amd64_asm_operand_t.type, sib_has_base] at hacc hbase <;>
      (try (simp at hacc; done)) <;>
      first
        | (simp [fill_operand, fill_reg, fill_disp_reg, fill_indirect_reg, fill_rip_relative,
            fill_seg_offset, set_disp, set_imm, hl, hvex, hm]; done)
        | (rename_i base index scale disp
           cases base with
           | none => simp at hbase
           | some b =>
             simp only [fill_operand, fill_sib_reg, hl, if_false]
             exact fill_sib_disp_total _ _ _)
        | (simp only [fill_operand, fill_reg, fill_disp_reg, fill_indirect_reg, set_disp]
           split_ifs <;> simp_all [modrm_of])

/-! ## The operand loop as a whole -/

theorem fill_operands_cons (exts : List opcode_ext) (format format' : amd64_binary_format_t)
    (slot : opcode_operand_t) (slots : List opcode_operand_t) (op : amd64_asm_operand_t)
    (ops : List amd64_asm_operand_t)
    (h : fill_operands exts format (slot :: slots) (op :: ops) = some format') :
    ∃ mid, fill_operand exts format slot op = some mid ∧
      fill_operands exts mid slots ops = some format' := by
  simp only [fill_operands] at h
  cases hstep : fill_operand exts format slot op with
  | none => simp [hstep] at h
  | some mid => exact ⟨mid, rfl, by simpa [hstep] using h⟩

/-- Facts every accepted turn shares, whatever the role. -/
theorem step_common (exts : List opcode_ext) (format format' : amd64_binary_format_t)
    (slot : opcode_operand_t) (op : amd64_asm_operand_t)
    (hacc : role_accepts slot.encoding op.type = true)
    (hf : fill_operand exts format slot op = some format') :
    format'.rex_pfx.isSome = format.rex_pfx.isSome ∧
      format'.vex_pfx.isSome = format.vex_pfx.isSome ∧
      (format.disps.length ≤ 4 → format'.disps.length ≤ 4) ∧
      (format.modrm.isSome = true → format'.modrm.isSome = true) := by
  by_cases henc : slot.encoding = .MODRM_RM
  · obtain ⟨-, h2, h3, h4, m, hm, -⟩ := step_rm exts format format' slot op henc hacc hf
    exact ⟨h2, h3, h4, fun _ => by simp [hm]⟩
  · obtain ⟨h1, h2, h3, -, h5, -⟩ := step_other exts format format' slot op henc hacc hf
    refine ⟨h1, h2, fun hd => by rw [h3]; exact hd, fun hm => ?_⟩
    obtain ⟨m, hm'⟩ := Option.isSome_iff_exists.mp hm
    obtain ⟨m', hm'', -⟩ := h5 m hm'
    simp [hm'']

theorem loop_common (exts : List opcode_ext) (slots : List opcode_operand_t)
    (ops : List amd64_asm_operand_t) (hacc : accepts slots ops) :
    ∀ (format format' : amd64_binary_format_t),
      fill_operands exts format slots ops = some format' →
      format'.rex_pfx.isSome = format.rex_pfx.isSome ∧
        format'.vex_pfx.isSome = format.vex_pfx.isSome ∧
        (format.disps.length ≤ 4 → format'.disps.length ≤ 4) ∧
        (format.modrm.isSome = true → format'.modrm.isSome = true) := by
  induction hacc with
  | nil =>
    intro format format' h
    simp only [fill_operands, Option.some.injEq] at h
    subst h
    exact ⟨rfl, rfl, id, id⟩
  | cons h1 _ ih =>
    intro format format' h
    obtain ⟨mid, hs, hr⟩ := fill_operands_cons _ _ _ _ _ _ _ h
    obtain ⟨a1, a2, a3, a4⟩ := step_common _ _ _ _ _ h1 hs
    obtain ⟨b1, b2, b3, b4⟩ := ih mid format' hr
    exact ⟨b1.trans a1, b2.trans a2, fun hd => b3 (a3 hd), fun hm => b4 (a4 hm)⟩

/-- The operand loop returns a record for accepted operands. -/
theorem loop_total (exts : List opcode_ext) (slots : List opcode_operand_t)
    (ops : List amd64_asm_operand_t) (hacc : accepts slots ops)
    (hvex : vex_live exts = false) (hbase : ∀ op ∈ ops, sib_has_base op = true) :
    ∀ (format : amd64_binary_format_t),
      (rex_live exts = true → format.rex_pfx.isSome = true) →
      ∃ format', fill_operands exts format slots ops = some format' := by
  induction hacc with
  | nil => intro format _; exact ⟨format, rfl⟩
  | @cons slot op slots ops h1 _ ih =>
    intro format hrex
    obtain ⟨mid, hs⟩ := step_total exts format slot op h1 hrex hvex
      (hbase op (List.mem_cons_self _ _))
    obtain ⟨a1, -⟩ := step_common _ _ _ _ _ h1 hs
    obtain ⟨format', hr⟩ := ih (fun o ho => hbase o (List.mem_cons_of_mem _ ho)) mid
      (fun hl => by rw [a1]; exact hrex hl)
    exact ⟨format', by simp [fill_operands, hs, hr]⟩

/-- Without a slot of a ModR/M role the loop leaves ModR/M, SIB and displacement alone. -/
theorem loop_no_modrm (exts : List opcode_ext) (slots : List opcode_operand_t)
    (ops : List amd64_asm_operand_t) (hacc : accepts slots ops)
    (hno : ∀ s ∈ slots, s.encoding ≠ .MODRM_RM ∧ s.encoding ≠ .MODRM_REG) :
    ∀ (format format' : amd64_binary_format_t),
      fill_operands exts format slots ops = some format' →
      format'.modrm = format.modrm ∧ format'.sib = format.sib ∧
        format'.disps = format.disps := by
  induction hacc with
  | nil =>
    intro format format' h
    simp only [fill_operands, Option.some.injEq] at h
    subst h
    exact ⟨rfl, rfl, rfl⟩
  | @cons slot op slots ops h1 _ ih =>
    intro format format' h
    obtain ⟨mid, hs, hr⟩ := fill_operands_cons _ _ _ _ _ _ _ h
    obtain ⟨hn1, hn2⟩ := hno slot (List.mem_cons_self _ _)
    obtain ⟨-, -, a3, a4, -, -, a7, -⟩ := step_other _ _ _ _ _ hn1 h1 hs
    obtain ⟨b1, b2, b3⟩ := ih (fun s hs' => hno s (List.mem_cons_of_mem _ hs')) mid format' hr
    exact ⟨b1.trans (a7 hn2), b2.trans a4, b3.trans a3⟩

/-- With a slot of a ModR/M role the record has a ModR/M afterwards. -/
theorem loop_modrm (exts : List opcode_ext) (slots : List opcode_operand_t)
    (ops : List amd64_asm_operand_t) (hacc : accepts slots ops)
    (hex : ∃ s ∈ slots, s.encoding = .MODRM_RM ∨ s.encoding = .MODRM_REG) :
    ∀ (format format' : amd64_binary_format_t),
      fill_operands exts format slots ops = some format' → format'.modrm.isSome = true := by
  induction hacc with
  | nil => obtain ⟨s, hs, -⟩ := hex; cases hs
  | @cons slot op slots ops h1 hrest ih =>
    intro format format' h
    obtain ⟨mid, hs, hr⟩ := fill_operands_cons _ _ _ _ _ _ _ h
    obtain ⟨s, hmem, hrole⟩ := hex
    rcases List.mem_cons.mp hmem with rfl | hmem'
    · have hmid : mid.modrm.isSome = true := by
        rcases hrole with hrole | hrole
        · obtain ⟨-, -, -, -, m, hm, -⟩ := step_rm _ _ _ _ _ hrole h1 hs
          simp [hm]
        · have hne : s.encoding ≠ .MODRM_RM := by rw [hrole]; decide
          exact (step_other _ _ _ _ _ hne h1 hs).2.2.2.2.2.1 hrole
      exact (loop_common exts slots ops hrest mid format' hr).2.2.2 hmid
    · exact ih ⟨s, hmem', hrole⟩ mid format' hr

/-- The `mod` field after the loop: kept by the slots of other roles, decided by the one
`MODRM_RM` slot. -/
theorem loop_mod (exts : List opcode_ext) (slots : List opcode_operand_t)
    (ops : List amd64_asm_operand_t) (hacc : accepts slots ops) :
    (slots.filter (fun s => s.encoding = .MODRM_RM)).length ≤ 1 →
    ∀ (format format' : amd64_binary_format_t),
      fill_operands exts format slots ops = some format' →
      (slots.filter (fun s => s.encoding = .MODRM_RM) = [] →
        ∀ m, format.modrm = some m →
          ∃ m', format'.modrm = some m' ∧ m'.mod = m.mod ∧ m'.rm = m.rm) ∧
      (∀ (i : Nat) (slot : opcode_operand_t) (op : amd64_asm_operand_t), slots[i]? = some slot →
         slot.encoding = .MODRM_RM → ops[i]? = some op →
        ∃ m, format'.modrm = some m ∧ (m.mod = 3 ↔ is_direct_reg op = true)) := by
  induction hacc with
  | nil =>
    intro _ format format' h
    simp only [fill_operands, Option.some.injEq] at h
    subst h
    exact ⟨fun _ m hm => ⟨m, hm, rfl, rfl⟩, fun i slot op hs => by simp at hs⟩
  | @cons slot op slots ops h1 _ ih =>
    intro huniq format format' h
    obtain ⟨mid, hs, hr⟩ := fill_operands_cons _ _ _ _ _ _ _ h
    by_cases henc : slot.encoding = .MODRM_RM
    · have hrest : slots.filter (fun s => s.encoding = .MODRM_RM) = [] := by
        have : (slots.filter (fun s => s.encoding = .MODRM_RM)).length = 0 := by
          simp only [List.filter_cons, henc, decide_True, if_true, List.length_cons] at huniq
          omega
        exact List.length_eq_zero.mp this
      obtain ⟨b1, -⟩ := ih (by simp [hrest]) mid format' hr
      obtain ⟨-, -, -, -, m, hm, hiff⟩ := step_rm _ _ _ _ _ henc h1 hs
      refine ⟨fun hnil => ?_, fun i slot' op' hsl henc' hop => ?_⟩
      · simp [List.filter_cons, henc] at hnil
      · obtain ⟨m', hm', hmod, -⟩ := b1 hrest m hm
        cases i with
        | zero =>
          simp only [List.getElem?_cons_zero, Option.some.injEq] at hsl hop
          subst hsl hop
          exact ⟨m', hm', by rw [hmod]; exact hiff⟩
        | succ j =>
          simp only [List.getElem?_cons_succ] at hsl hop
          have hmem : slot' ∈ slots.filter (fun s => s.encoding = .MODRM_RM) := by
            simp only [List.mem_filter, decide_eq_true_eq]
            exact ⟨List.getElem?_mem hsl, henc'⟩
          rw [hrest] at hmem
          cases hmem
    · have huniq' : (slots.filter (fun s => s.encoding = .MODRM_RM)).length ≤ 1 := by
        simpa [List.filter_cons, henc] using huniq
      obtain ⟨b1, b2⟩ := ih huniq' mid format' hr
      obtain ⟨-, -, -, -, a5, -⟩ := step_other _ _ _ _ _ henc h1 hs
      refine ⟨fun hnil m hm => ?_, fun i slot' op' hsl henc' hop => ?_⟩
      · have hnil' : slots.filter (fun s => s.encoding = .MODRM_RM) = [] := by
          simpa [List.filter_cons, henc] using hnil
        obtain ⟨m1, hm1, e1, e2⟩ := a5 m hm
        obtain ⟨m2, hm2, e3, e4⟩ := b1 hnil' m1 hm1
        exact ⟨m2, hm2, e3.trans e1, e4.trans e2⟩
      · cases i with
        | zero =>
          simp only [List.getElem?_cons_zero, Option.some.injEq] at hsl
          subst hsl
          exact absurd henc' henc
        | succ j =>
          simp only [List.getElem?_cons_succ] at hsl hop
          exact b2 j slot' op' hsl henc' hop

/-- The immediate bytes after the loop: those of the operand in the one `IMM` slot. -/
theorem loop_imm (exts : List opcode_ext) (slots : List opcode_operand_t)
    (ops : List amd64_asm_operand_t) (hacc : accepts slots ops) :
    (slots.filter (fun s => s.encoding = .IMM)).length ≤ 1 →
    ∀ (format format' : amd64_binary_format_t),
      fill_operands exts format slots ops = some format' →
      (slots.filter (fun s => s.encoding = .IMM) = [] → format'.imms = format.imms) ∧
      (∀ (i : Nat) (slot : opcode_operand_t) (op : amd64_asm_operand_t), slots[i]? = some slot →
         slot.encoding = .IMM → ops[i]? = some op →
        ∃ v, imm_value op.value = some v ∧
          format'.imms = le_bytes v (imm_kind_width op.type)) := by
  induction hacc with
  | nil =>
    intro _ format format' h
    simp only [fill_operands, Option.some.injEq] at h
    subst h
    exact ⟨fun _ => rfl, fun i slot op hs => by simp at hs⟩
  | @cons slot op slots ops h1 _ ih =>
    intro huniq format format' h
    obtain ⟨mid, hs, hr⟩ := fill_operands_cons _ _ _ _ _ _ _ h
    by_cases henc : slot.encoding = .IMM
    · have hrest : slots.filter (fun s => s.encoding = .IMM) = [] := by
        have : (slots.filter (fun s => s.encoding = .IMM)).length = 0 := by
          simp only [List.filter_cons, henc, decide_True, if_true, List.length_cons] at huniq
          omega
        exact List.length_eq_zero.mp this
      obtain ⟨b1, -⟩ := ih (by simp [hrest]) mid format' hr
      have hne : slot.encoding ≠ .MODRM_RM := by rw [henc]; decide
      obtain ⟨v, hv, himm⟩ := (step_other _ _ _ _ _ hne h1 hs).2.2.2.2.2.2.2.2 henc
      refine ⟨fun hnil => ?_, fun i slot' op' hsl henc' hop => ?_⟩
      · simp [List.filter_cons, henc] at hnil
      · cases i with
        | zero =>
          simp only [List.getElem?_cons_zero, Option.some.injEq] at hsl hop
          subst hsl hop
          exact ⟨v, hv, by rw [b1 hrest, himm]⟩
        | succ j =>
          simp only [List.getElem?_cons_succ] at hsl hop
          have hmem : slot' ∈ slots.filter (fun s => s.encoding = .IMM) := by
            simp only [List.mem_filter, decide_eq_true_eq]
            exact ⟨List.getElem?_mem hsl, henc'⟩
          rw [hrest] at hmem
          cases hmem
    · have huniq' : (slots.filter (fun s => s.encoding = .IMM)).length ≤ 1 := by
        simpa [List.filter_cons, henc] using huniq
      obtain ⟨b1, b2⟩ := ih huniq' mid format' hr
      have hsame : mid.imms = format.imms := by
        by_cases hrm : slot.encoding = .MODRM_RM
        · exact (step_rm _ _ _ _ _ hrm h1 hs).1
        · exact (step_other _ _ _ _ _ hrm h1 hs).2.2.2.2.2.2.2.1 henc
      refine ⟨fun hnil => ?_, fun i slot' op' hsl henc' hop => ?_⟩
      · have hnil' : slots.filter (fun s => s.encoding = .IMM) = [] := by
          simpa [List.filter_cons, henc] using hnil
        rw [b1 hnil', hsame]
      · cases i with
        | zero =>
          simp only [List.getElem?_cons_zero, Option.some.injEq] at hsl
          subst hsl
          exact absurd henc' henc
        | succ j =>
          simp only [List.getElem?_cons_succ] at hsl hop
          exact b2 j slot' op' hsl henc' hop

/-! ## What `opcode_select` returns -/

/-- A form returned by `opcode_select` is one of the candidates of the reached leaf that
passes the high-byte filter, and the instruction comes back with `need_rex_ext` set. -/
theorem opcode_select_some (heap : opcode_heap) (root : amd64_opcode_tree_node_t)
    (inst inst' : amd64_asm_inst_t) (form : opcode_ref)
    (h : opcode_select heap root inst = some (form, inst')) :
    ∃ temps, select_candidates root inst.name (inst.operands.map operand_key) = some temps ∧
      form ∈ temps ∧
      ((select_flags_all inst.operands (false, false)).2 = true →
        has_rex_extension (heap form).extensions = false) ∧
      inst' = { inst with need_rex_ext := (select_flags_all inst.operands (false, false)).1 } := by
  rw [opcode_select_eq] at h
  cases hc : select_candidates root inst.name (inst.operands.map operand_key) with
  | none => simp [hc] at h
  | some temps =>
    simp only [hc, select_finish] at h
    refine ⟨temps, rfl, ?_⟩
    generalize hl : opcode_sort_insts heap
      (temps.filter (fun i =>
        !((select_flags_all inst.operands (false, false)).2 &&
          has_rex_extension (heap i).extensions))) = sorted at h
    cases sorted with
    | nil => simp at h
    | cons x rest =>
      simp only [Option.some.injEq, Prod.mk.injEq] at h
      obtain ⟨rfl, rfl⟩ := h
      have hmem : x ∈ temps.filter (fun i =>
          !((select_flags_all inst.operands (false, false)).2 &&
            has_rex_extension (heap i).extensions)) := by
        have hp := opcode_sort_insts_perm heap (temps.filter (fun i =>
          !((select_flags_all inst.operands (false, false)).2 &&
            has_rex_extension (heap i).extensions)))
        rw [hl] at hp
        exact hp.subset (List.mem_cons_self _ _)
      simp only [List.mem_filter, Bool.not_eq_true', Bool.and_eq_false_imp] at hmem
      exact ⟨hmem.1, hmem.2, rfl⟩

theorem accepts_of_keys (slots : List opcode_operand_t) (ops : List amd64_asm_operand_t)
    (hwf : ∀ s ∈ slots, slot_wf s = true)
    (hk : keys_match (ops.map operand_key) slots) : accepts slots ops := by
  unfold keys_match at hk
  unfold accepts
  induction slots generalizing ops with
  | nil =>
    cases ops with
    | nil => exact List.Forall₂.nil
    | cons o os => cases hk
  | cons s slots ih =>
    cases ops with
    | nil => cases hk
    | cons o os =>
      simp only [List.map_cons, List.forall₂_cons] at hk
      refine List.Forall₂.cons ?_ (ih os (fun x hx => hwf x (List.mem_cons_of_mem _ hx)) hk.2)
      have h1 := hwf s (List.mem_cons_self _ _)
      simp only [slot_wf, List.all_eq_true] at h1
      have h2 := h1 _ hk.1
      simpa [operand_key, asm_operand_to_key, key_accepted] using h2

/-- What is known of an instruction accepted from the state after `amd64_opcode_init`. -/
theorem accepted_shape (inst inst' : amd64_asm_inst_t) (form : opcode_ref)
    (h : opcode_select static_insts opcode_tree_root inst = some (form, inst')) :
    form ∈ registered_insts ∧ form_wf (static_insts form) = true ∧
      (static_insts form).group = inst.name ∧
      keys_match (inst.operands.map operand_key) (static_insts form).operands ∧
      accepts (static_insts form).operands inst.operands ∧
      inst' = { inst with need_rex_ext := (select_flags_all inst.operands (false, false)).1 } := by
  obtain ⟨temps, hc, hmem, -, hi⟩ := opcode_select_some _ _ _ _ _ h
  rw [opcode_tree_root_eq] at hc
  obtain ⟨hreg, hg, hk⟩ := select_candidates_sound _ _ _ _ _ hc form hmem
  have hwf := registered_form_wf form hreg
  refine ⟨hreg, hwf, hg, hk, accepts_of_keys _ _ ?_ hk, hi⟩
  intro s hs
  have : (static_insts form).operands.all slot_wf = true := by
    simp only [form_wf, Bool.and_eq_true] at hwf
    exact hwf.1.1.1.1.1.2
  exact List.all_eq_true.mp this s hs

/-! ## The extension phase -/

theorem build_ext_fields (format : amd64_binary_format_t) (ext : opcode_ext) :
    (build_ext format ext).sib = format.sib ∧ (build_ext format ext).disps = format.disps ∧
      (build_ext format ext).imms = format.imms ∧
      (build_ext format ext).opcode = format.opcode ∧
      (build_ext format ext).prefix_byte = format.prefix_byte ∧
      (slash_ext ext = false → (build_ext format ext).modrm = format.modrm) ∧
      (vex_ext ext = false → (build_ext format ext).vex_pfx = format.vex_pfx) ∧
      (ext ≠ .REX → ext ≠ .REX_W → (build_ext format ext).rex_pfx = format.rex_pfx) := by
  cases ext <;> simp [build_ext, slash_ext, vex_ext]

theorem ext_phase_fields (exts : List opcode_ext) :
    ∀ format : amd64_binary_format_t,
      (exts.foldl build_ext format).sib = format.sib ∧
      (exts.foldl build_ext format).disps = format.disps ∧
      (exts.foldl build_ext format).imms = format.imms ∧
      (exts.foldl build_ext format).opcode = format.opcode ∧
      (exts.foldl build_ext format).prefix_byte = format.prefix_byte ∧
      (exts.any slash_ext = false → (exts.foldl build_ext format).modrm = format.modrm) ∧
      (exts.any vex_ext = false → (exts.foldl build_ext format).vex_pfx = format.vex_pfx) ∧
      (rex_live exts = false → (exts.foldl build_ext format).rex_pfx = format.rex_pfx) := by
  induction exts with
  | nil => intro format; simp
  | cons e es ih =>
    intro format
    obtain ⟨a1, a2, a3, a4, a5, a6, a7, a8⟩ := build_ext_fields format e
    obtain ⟨b1, b2, b3, b4, b5, b6, b7, b8⟩ := ih (build_ext format e)
    simp only [List.foldl_cons]
    refine ⟨b1.trans a1, b2.trans a2, b3.trans a3, b4.trans a4, b5.trans a5, ?_, ?_, ?_⟩
    · intro h
      simp only [List.any_cons, Bool.or_eq_false_iff] at h
      exact (b6 h.2).trans (a6 h.1)
    · intro h
      simp only [List.any_cons, Bool.or_eq_false_iff] at h
      exact (b7 h.2).trans (a7 h.1)
    · intro h
      simp only [rex_live, ext_exists, List.contains_cons, Bool.or_eq_false_iff,
        beq_eq_false_iff_ne, ne_eq] at h
      have hes : rex_live es = false := by
        simp only [rex_live, ext_exists, Bool.or_eq_false_iff]
        exact ⟨h.1.2, h.2.2⟩
      exact (b8 hes).trans (a8 (fun e' => h.2.1 e'.symm) (fun e' => h.1.1 e'.symm))

theorem contains_mem (l : List opcode_ext) (a : opcode_ext) : l.contains a = true ↔ a ∈ l := by
  simp

theorem rex_live_any (l : List opcode_ext) :
    rex_live l = l.any (fun e => e = .REX || e = .REX_W) := by
  rw [Bool.eq_iff_iff]
  simp only [rex_live, ext_exists, Bool.or_eq_true, contains_mem, List.any_eq_true,
    decide_eq_true_eq]
  constructor
  · rintro (h | h)
    · exact ⟨_, h, Or.inr rfl⟩
    · exact ⟨_, h, Or.inl rfl⟩
  · rintro ⟨e, he, (rfl | rfl)⟩
    · exact Or.inr he
    · exact Or.inl he

theorem rex_live_eq_has_rex (exts : List opcode_ext) :
    rex_live (exts.take 4) = has_rex_extension exts := by
  rw [rex_live_any]; rfl

theorem fill_exts_facts (form : amd64_opcode_inst_t) (asm_inst : amd64_asm_inst_t) :
    rex_live (fill_exts form asm_inst) =
        (has_rex_extension form.extensions || asm_inst.need_rex_ext) ∧
      vex_live (fill_exts form asm_inst) = vex_live (form.extensions.take 4) ∧
      (fill_exts form asm_inst).any slash_ext = (form.extensions.take 4).any slash_ext ∧
      (fill_exts form asm_inst).any vex_ext = (form.extensions.take 4).any vex_ext := by
  have hr := rex_live_eq_has_rex form.extensions
  simp only [rex_live, ext_exists] at hr
  simp only [fill_exts, ext_exists]
  split
  · rename_i h
    simp only [Bool.and_eq_true, Bool.not_eq_true'] at h
    refine ⟨?_, ?_, ?_, ?_⟩
    · simp [rex_live, ext_exists, h.1.1]
    · simp [vex_live, ext_exists]
    · simp [slash_ext]
    · simp [vex_ext]
  · rename_i h
    refine ⟨?_, rfl, rfl, rfl⟩
    simp only [rex_live, ext_exists]
    rw [hr]
    rw [← hr]
    cases hn : asm_inst.need_rex_ext
    · simp
    · simp only [hn, Bool.true_and, Bool.and_eq_true, Bool.not_eq_true', not_and,
        Bool.not_eq_false] at h
      cases h1 : (form.extensions.take 4).contains opcode_ext.REX
      · have := h h1
        simp only [contains_mem, hn] at this ⊢
        simp [this]
      · simp

theorem vex_live_of_no_vex (exts : List opcode_ext) (h : exts.any vex_ext = false) :
    vex_live exts = false := by
  simp only [vex_live, ext_exists, Bool.or_eq_false_iff]
  simp only [List.any_eq_false] at h
  constructor
  · cases hc : exts.contains opcode_ext.VEX_128 with
    | false => rfl
    | true =>
      have := h _ ((contains_mem _ _).mp hc)
      simp [vex_ext] at this
  · cases hc : exts.contains opcode_ext.VEX_256 with
    | false => rfl
    | true =>
      have := h _ ((contains_mem _ _).mp hc)
      simp [vex_ext] at this

/-! ## The whole of `opcode_fill` -/

theorem ext_phase_modrm (exts : List opcode_ext) :
    ∀ format : amd64_binary_format_t,
      (format.modrm.isSome = true ∨ exts.any slash_ext = true) →
        (exts.foldl build_ext format).modrm.isSome = true := by
  induction exts with
  | nil =>
    intro format h
    rcases h with h | h
    · exact h
    · simp at h
  | cons e es ih =>
    intro format h
    simp only [List.foldl_cons]
    apply ih
    by_cases hm : format.modrm.isSome = true
    · left
      cases e <;> simp [build_ext, hm]
    · rcases h with h | h
      · exact absurd h hm
      · simp only [List.any_cons, Bool.or_eq_true] at h
        rcases h with h | h
        · left
          cases e <;> simp [build_ext, slash_ext] at h ⊢
        · right
          exact h

theorem ext_phase_rex_iff (exts : List opcode_ext) (format : amd64_binary_format_t)
    (h0 : format.rex_pfx = none) :
    (exts.foldl build_ext format).rex_pfx.isSome = rex_live exts := by
  cases hl : rex_live exts
  · rw [(ext_phase_fields exts format).2.2.2.2.2.2.2 hl, h0]
    rfl
  · exact ext_phase_rex exts format hl

theorem fill_heap_fields (heap : opcode_heap) (ref : opcode_ref) (inst : amd64_asm_inst_t) :
    (fill_heap heap ref inst ref).extensions = (heap ref).extensions ∧
      (fill_heap heap ref inst ref).operands = (heap ref).operands ∧
      (fill_heap heap ref inst ref).opcode = (heap ref).opcode := by
  unfold fill_heap
  split <;> simp

theorem fill_exts_heap (heap : opcode_heap) (ref : opcode_ref) (inst : amd64_asm_inst_t) :
    fill_exts (fill_heap heap ref inst ref) inst = fill_exts (heap ref) inst := by
  simp only [fill_exts, (fill_heap_fields heap ref inst).1]

/-- The record with which the operand loop of `opcode_fill` starts, and the loop itself. -/
theorem opcode_fill_some (heap heap' : opcode_heap) (ref : opcode_ref) (inst : amd64_asm_inst_t)
    (format' : amd64_binary_format_t) (h : opcode_fill heap ref inst = some (heap', format')) :
    ∃ format0,
      fill_operands (fill_exts (heap ref) inst) format0 ((heap ref).operands.take 4)
          inst.operands = some format' ∧
        format0.rex_pfx.isSome = (has_rex_extension (heap ref).extensions || inst.need_rex_ext) ∧
        (((heap ref).extensions.take 4).any vex_ext = false → format0.vex_pfx = none) ∧
        (((heap ref).extensions.take 4).any slash_ext = false → format0.modrm = none) ∧
        (((heap ref).extensions.take 4).any slash_ext = true → format0.modrm.isSome = true) ∧
        format0.sib = none ∧ format0.disps = [] ∧ format0.imms = [] ∧
        format0.opcode = (heap ref).opcode.take 3 := by
  simp only [opcode_fill, fill_exts_heap, (fill_heap_fields heap ref inst).2.1] at h
  split at h
  · cases h
  · rename_i format hf
    simp only [Option.some.injEq, Prod.mk.injEq] at h
    obtain ⟨-, rfl⟩ := h
    refine ⟨_, hf, ?_⟩
    obtain ⟨e1, e2, e3, e4⟩ := fill_exts_facts (heap ref) inst
    generalize hstart : (if (fill_heap heap ref inst ref).prefix_byte > 0 then
      ({ inst_format_new (heap ref).opcode with
          op_id := inst.op_id, prefix_byte := (fill_heap heap ref inst ref).prefix_byte } :
        amd64_binary_format_t)
      else { inst_format_new (heap ref).opcode with op_id := inst.op_id }) = start
    have hs : start.rex_pfx = none ∧ start.vex_pfx = none ∧ start.modrm = none ∧
        start.sib = none ∧ start.disps = [] ∧ start.imms = [] ∧
        start.opcode = (heap ref).opcode.take 3 := by
      rw [← hstart]
      split <;> simp [inst_format_new]
    obtain ⟨a1, a2, a3, a4, a5, a6, a7, a8⟩ := ext_phase_fields (fill_exts (heap ref) inst) start
    refine ⟨?_, ?_, ?_, ?_, ?_, ?_, ?_, ?_⟩
    · rw [ext_phase_rex_iff _ _ hs.1, e1]
    · intro hv
      rw [a7 (e4.trans hv), hs.2.1]
    · intro hv
      rw [a6 (e3.trans hv), hs.2.2.1]
    · intro hv
      exact ext_phase_modrm _ _ (Or.inr (e3.trans hv))
    · rw [a1, hs.2.2.2.1]
    · rw [a2, hs.2.2.2.2.1]
    · rw [a3, hs.2.2.2.2.2.1]
    · rw [a4, hs.2.2.2.2.2.2]

/-- The call `opcode_fill` returns a record when every slot is filled with an operand of a
kind its role consumes, no `VEX_*` extension is declared and every `SIB_REG` operand has a
base register. -/
theorem opcode_fill_total (heap : opcode_heap) (ref : opcode_ref) (inst : amd64_asm_inst_t)
    (hacc : accepts ((heap ref).operands.take 4) inst.operands)
    (hvex : ((heap ref).extensions.take 4).any vex_ext = false)
    (hbase : ∀ op ∈ inst.operands, sib_has_base op = true) :
    ∃ heap' format', opcode_fill heap ref inst = some (heap', format') := by
  obtain ⟨e1, e2, e3, e4⟩ := fill_exts_facts (heap ref) inst
  have hv : vex_live (fill_exts (heap ref) inst) = false :=
    vex_live_of_no_vex _ (e4.trans hvex)
  simp only [opcode_fill, fill_exts_heap, (fill_heap_fields heap ref inst).2.1]
  obtain ⟨format', hf⟩ := loop_total (fill_exts (heap ref) inst) _ _ hacc hv hbase
    ((fill_exts (heap ref) inst).foldl build_ext
      (if (fill_heap heap ref inst ref).prefix_byte > 0 then
        ({ inst_format_new (heap ref).opcode with
            op_id := inst.op_id, prefix_byte := (fill_heap heap ref inst ref).prefix_byte } :
          amd64_binary_format_t)
        else { inst_format_new (heap ref).opcode with op_id := inst.op_id }))
    (fun hl => ext_phase_rex _ _ hl)
  rw [hf]
  exact ⟨_, _, rfl⟩
/-! ## Accepted instructions -/

theorem form_wf_props (form : amd64_opcode_inst_t) (h : form_wf form = true) :
    form.operands.length ≤ 4 ∧ form.extensions.length ≤ 4 ∧
      (∀ s ∈ form.operands, slot_wf s = true) ∧
      (form.operands.filter (fun s => s.encoding = .MODRM_RM)).length ≤ 1 ∧
      (form.operands.filter (fun s => s.encoding = .IMM)).length ≤ 1 ∧
      form.extensions.any vex_ext = false ∧
      ((form.extensions.any slash_ext = true ∨ ∃ s ∈ form.operands, s.encoding = .MODRM_REG) →
        ∃ s ∈ form.operands, s.encoding = .MODRM_RM) ∧
      ((∃ s ∈ form.operands, s.type = .IMM64) →
        form.extensions.any slash_ext = false ∧
          ∀ s ∈ form.operands, s.encoding ≠ .MODRM_RM ∧ s.encoding ≠ .MODRM_REG) := by
  simp only [form_wf, Bool.and_eq_true, decide_eq_true_eq, List.all_eq_true, Bool.or_eq_true,
    Bool.not_eq_true'] at h
  obtain ⟨⟨⟨⟨⟨⟨⟨h1, h2⟩, h3⟩, h4⟩, h5⟩, h6⟩, h7⟩, h8⟩ := h
  refine ⟨h1, h2, h3, h4, h5, h6, ?_, ?_⟩
  · intro hx
    rcases h7 with h7 | h7
    · exfalso
      simp only [Bool.or_eq_false_iff] at h7
      rcases hx with hx | ⟨s, hs, he⟩
      · rw [h7.1] at hx
        cases hx
      · have h72 := h7.2
        simp only [List.any_eq_false, decide_eq_true_eq] at h72
        exact h72 s hs he
    · simp only [List.any_eq_true, decide_eq_true_eq] at h7
      exact h7
  · rintro ⟨s, hs, ht⟩
    rcases h8 with h8 | h8
    · simp only [List.any_eq_false, decide_eq_true_eq] at h8
      exact absurd ht (h8 s hs)
    · simp only [Bool.or_eq_false_iff] at h8
      refine ⟨h8.1, ?_⟩
      have h82 := h8.2
      simp only [List.any_eq_false, Bool.or_eq_true, decide_eq_true_eq, not_or] at h82
      exact h82

/-- The operand loop that `opcode_fill` runs for an accepted instruction, and the record it
starts with. -/
theorem accepted_fill (inst inst' : amd64_asm_inst_t) (form : opcode_ref) (heap' : opcode_heap)
    (format' : amd64_binary_format_t)
    (hsel : opcode_select static_insts opcode_tree_root inst = some (form, inst'))
    (hf : opcode_fill static_insts form inst' = some (heap', format')) :
    ∃ exts format0,
      fill_operands exts format0 (static_insts form).operands inst.operands = some format' ∧
        accepts (static_insts form).operands inst.operands ∧
        form_wf (static_insts form) = true ∧
        format0.rex_pfx.isSome =
          (has_rex_extension (static_insts form).extensions || inst'.need_rex_ext) ∧
        format0.vex_pfx = none ∧
        ((static_insts form).extensions.any slash_ext = false → format0.modrm = none) ∧
        ((static_insts form).extensions.any slash_ext = true → format0.modrm.isSome = true) ∧
        format0.sib = none ∧ format0.disps = [] ∧ format0.imms = [] ∧
        format0.opcode = (static_insts form).opcode.take 3 := by
  obtain ⟨-, hwf, -, -, hacc, hinst⟩ := accepted_shape inst inst' form hsel
  obtain ⟨w1, w2, -, -, -, w6, -, -⟩ := form_wf_props _ hwf
  obtain ⟨format0, g1, g2, g3, g4, g5, g6, g7, g8, g9⟩ :=
    opcode_fill_some static_insts heap' form inst' format' hf
  have hops : inst'.operands = inst.operands := by rw [hinst]
  rw [List.take_of_length_le w1, hops] at g1
  rw [List.take_of_length_le w2] at g3 g4 g5
  exact ⟨_, format0, g1, hacc, hwf, g2, g3 w6, g4, g5, g6, g7, g8, g9⟩

/-- For an accepted instruction whose `SIB_REG` operands all have a base register,
`opcode_fill` returns a record. -/
theorem accepted_total (inst inst' : amd64_asm_inst_t) (form : opcode_ref)
    (hsel : opcode_select static_insts opcode_tree_root inst = some (form, inst'))
    (hbase : ∀ op ∈ inst.operands, sib_has_base op = true) :
    ∃ heap' format', opcode_fill static_insts form inst' = some (heap', format') := by
  obtain ⟨-, hwf, -, -, hacc, hinst⟩ := accepted_shape inst inst' form hsel
  obtain ⟨w1, w2, -, -, -, w6, -, -⟩ := form_wf_props _ hwf
  have hops : inst'.operands = inst.operands := by rw [hinst]
  apply opcode_fill_total
  · rw [List.take_of_length_le w1, hops]
    exact hacc
  · rw [List.take_of_length_le w2]
    exact w6
  · rw [hops]
    exact hbase

theorem accepts_length (slots : List opcode_operand_t) (ops : List amd64_asm_operand_t)
    (h : accepts slots ops) : slots.length = ops.length :=
  List.Forall₂.length_eq h

/-- The flag `has64_reg` of `opcode_select` after the operand loop. -/
theorem select_flags_all_fst (ops : List amd64_asm_operand_t) :
    ∀ flags : Bool × Bool,
      (select_flags_all ops flags).1 =
        (flags.1 || ops.any (fun op => (operand_regs op).any has_64_reg)) := by
  induction ops with
  | nil => intro flags; simp [select_flags_all]
  | cons op rest ih =>
    intro flags
    simp only [select_flags_all, ih, List.any_cons, operand_regs]
    rcases h1 : (select_regs op).1 with _ | r1 <;> rcases h2 : (select_regs op).2 with _ | r2 <;>
      simp [select_flags] <;> (try cases has_64_reg r1) <;> (try cases has_64_reg r2) <;>
      simp

/-- The flag `has_high_eight_reg` of `opcode_select` after the operand loop. -/
theorem select_flags_all_snd (ops : List amd64_asm_operand_t) :
    ∀ flags : Bool × Bool,
      (select_flags_all ops flags).2 =
        (flags.2 || ops.any (fun op => (operand_regs op).any is_high_eight_reg)) := by
  induction ops with
  | nil => intro flags; simp [select_flags_all]
  | cons op rest ih =>
    intro flags
    simp only [select_flags_all, ih, List.any_cons, operand_regs]
    rcases h1 : (select_regs op).1 with _ | r1 <;> rcases h2 : (select_regs op).2 with _ | r2 <;>
      simp [select_flags] <;> (try cases is_high_eight_reg r1) <;>
      (try cases is_high_eight_reg r2) <;> simp
theorem forall₂_index {α β : Type} (R : α → β → Prop) (l1 : List α) (l2 : List β)
    (h : List.Forall₂ R l1 l2) :
    ∀ (i : Nat) (a : α), l1[i]? = some a → ∃ b, l2[i]? = some b ∧ R a b := by
  induction h with
  | nil => intro i a ha; simp at ha
  | @cons a0 b0 l1 l2 h0 _ ih =>
    intro i a ha
    cases i with
    | zero =>
      simp only [List.getElem?_cons_zero, Option.some.injEq] at ha
      subst ha
      exact ⟨b0, by simp, h0⟩
    | succ j =>
      simp only [List.getElem?_cons_succ] at ha ⊢
      exact ih j a ha

theorem has_rex_extension_iff (l : List opcode_ext) (h : l.length ≤ 4) :
    has_rex_extension l = true ↔ opcode_ext.REX ∈ l ∨ opcode_ext.REX_W ∈ l := by
  simp only [has_rex_extension, List.take_of_length_le h, List.any_eq_true, Bool.or_eq_true,
    decide_eq_true_eq]
  constructor
  · rintro ⟨e, he, (rfl | rfl)⟩
    · exact Or.inl he
    · exact Or.inr he
  · rintro (h | h)
    · exact ⟨_, h, Or.inl rfl⟩
    · exact ⟨_, h, Or.inr rfl⟩

theorem no_modrm_slot (slots : List opcode_operand_t)
    (h : ¬ ∃ s ∈ slots, s.encoding = .MODRM_RM ∨ s.encoding = .MODRM_REG) :
    ∀ s ∈ slots, s.encoding ≠ .MODRM_RM ∧ s.encoding ≠ .MODRM_REG :=
  fun s hs => ⟨fun he => h ⟨s, hs, Or.inl he⟩, fun he => h ⟨s, hs, Or.inr he⟩⟩

/-- For an accepted instruction the ModR/M record exists exactly when the form has a slot of
role `MODRM_RM` or `MODRM_REG`; without one there is no SIB record and no displacement. -/
theorem accepted_modrm (inst inst' : amd64_asm_inst_t) (form : opcode_ref) (heap' : opcode_heap)
    (format' : amd64_binary_format_t)
    (hsel : opcode_select static_insts opcode_tree_root inst = some (form, inst'))
    (hf : opcode_fill static_insts form inst' = some (heap', format')) :
    (format'.modrm.isSome = true ↔
      ∃ s ∈ (static_insts form).operands, s.encoding = .MODRM_RM ∨ s.encoding = .MODRM_REG) ∧
      ((¬ ∃ s ∈ (static_insts form).operands,
          s.encoding = .MODRM_RM ∨ s.encoding = .MODRM_REG) →
        format'.modrm = none ∧ format'.sib = none ∧ format'.disps = []) := by
  obtain ⟨exts, format0, hloop, hacc, hwf, f1, f2, f3, f4, f5, f6, f7, f8⟩ :=
    accepted_fill inst inst' form heap' format' hsel hf
  obtain ⟨w1, w2, w3, w4, w5, w6, w7, w8⟩ := form_wf_props _ hwf
  have hno : (¬ ∃ s ∈ (static_insts form).operands,
      s.encoding = .MODRM_RM ∨ s.encoding = .MODRM_REG) →
      format'.modrm = none ∧ format'.sib = none ∧ format'.disps = [] := by
    intro hn
    have hslash : (static_insts form).extensions.any slash_ext = false := by
      cases hs : (static_insts form).extensions.any slash_ext with
      | false => rfl
      | true =>
        obtain ⟨s, hs1, hs2⟩ := w7 (Or.inl hs)
        exact absurd ⟨s, hs1, Or.inl hs2⟩ hn
    obtain ⟨a1, a2, a3⟩ := loop_no_modrm exts _ _ hacc (no_modrm_slot _ hn) format0 format' hloop
    exact ⟨a1.trans (f3 hslash), a2.trans f5, a3.trans f6⟩
  refine ⟨⟨fun hm => ?_, fun hex => loop_modrm exts _ _ hacc hex format0 format' hloop⟩, hno⟩
  by_contra hn
  rw [(hno hn).1] at hm
  cases hm
/-! ## The ModR/M and REX records of accepted instructions -/

/-- C13. For an instruction accepted by `opcode_select` and the form it returns: whenever the
record built by `opcode_fill` has a ModR/M record, the form has a slot of role `MODRM_RM`
filled by an operand of the instruction, and `modrm.mod = 3` exactly when the operand in a
`MODRM_RM` slot is a direct register (`REG` or `FREG`). The record is built whenever every
`SIB_REG` operand has a base register. -/
theorem C13_mod_direct_iff (inst inst' : amd64_asm_inst_t) (form : opcode_ref)
    (hsel : opcode_select static_insts opcode_tree_root inst = some (form, inst')) :
    (∀ (heap' : opcode_heap) (format' : amd64_binary_format_t) (m : modrm_t),
      opcode_fill static_insts form inst' = some (heap', format') → format'.modrm = some m →
        (∃ (i : Nat) (slot : opcode_operand_t) (op : amd64_asm_operand_t),
          (static_insts form).operands[i]? = some slot ∧ slot.encoding = .MODRM_RM ∧
            inst.operands[i]? = some op) ∧
        ∀ (i : Nat) (slot : opcode_operand_t) (op : amd64_asm_operand_t),
          (static_insts form).operands[i]? = some slot → slot.encoding = .MODRM_RM →
            inst.operands[i]? = some op → (m.mod = 3 ↔ is_direct_reg op = true)) ∧
      ((∀ op ∈ inst.operands, sib_has_base op = true) →
        ∃ heap' format', opcode_fill static_insts form inst' = some (heap', format')) := by
  refine ⟨fun heap' format' m hf hm => ?_, accepted_total inst inst' form hsel⟩
  obtain ⟨exts, format0, hloop, hacc, hwf, -⟩ :=
    accepted_fill inst inst' form heap' format' hsel hf
  obtain ⟨-, -, -, w4, -, -, w7, -⟩ := form_wf_props _ hwf
  obtain ⟨-, b2⟩ := loop_mod exts _ _ hacc w4 format0 format' hloop
  constructor
  · have hsome : format'.modrm.isSome = true := by rw [hm]; rfl
    obtain ⟨s, hs, he⟩ := (accepted_modrm inst inst' form heap' format' hsel hf).1.mp hsome
    have hrm : ∃ s ∈ (static_insts form).operands, s.encoding = .MODRM_RM := by
      rcases he with he | he
      · exact ⟨s, hs, he⟩
      · exact w7 (Or.inr ⟨s, hs, he⟩)
    obtain ⟨s', hs', he'⟩ := hrm
    obtain ⟨i, hi⟩ := List.mem_iff_getElem?.mp hs'
    obtain ⟨op, hop, -⟩ := forall₂_index _ _ _ hacc i s' hi
    exact ⟨i, s', op, hi, he', hop⟩
  · intro i slot op hsl henc hop
    obtain ⟨m', hm', hiff⟩ := b2 i slot op hsl henc hop
    rw [hm] at hm'
    cases hm'
    exact hiff

/-- Witness of C13: `mov rax, [rbx]`, accepted with the form `mov_r64_rm64`. -/
theorem C13_mod_direct_iff_witness :
    opcode_select static_insts opcode_tree_root mov_rax_mem_rbx =
        some (.mov_r64_rm64, mov_rax_mem_rbx) ∧
      (∀ (heap' : opcode_heap) (format' : amd64_binary_format_t) (m : modrm_t),
        opcode_fill static_insts .mov_r64_rm64 mov_rax_mem_rbx = some (heap', format') →
          format'.modrm = some m →
          (∃ (i : Nat) (slot : opcode_operand_t) (op : amd64_asm_operand_t),
            (static_insts .mov_r64_rm64).operands[i]? = some slot ∧
              slot.encoding = .MODRM_RM ∧ mov_rax_mem_rbx.operands[i]? = some op) ∧
          ∀ (i : Nat) (slot : opcode_operand_t) (op : amd64_asm_operand_t),
            (static_insts .mov_r64_rm64).operands[i]? = some slot → slot.encoding = .MODRM_RM →
              mov_rax_mem_rbx.operands[i]? = some op → (m.mod = 3 ↔ is_direct_reg op = true)) ∧
        ((∀ op ∈ mov_rax_mem_rbx.operands, sib_has_base op = true) →
          ∃ heap' format',
            opcode_fill static_insts .mov_r64_rm64 mov_rax_mem_rbx = some (heap', format')) :=
  ⟨by decide!, C13_mod_direct_iff mov_rax_mem_rbx mov_rax_mem_rbx .mov_r64_rm64 (by decide!)⟩

/-- C14. For an instruction accepted by `opcode_select` the returned form is registered, and
the record built by `opcode_fill` has a ModR/M record if and only if some operand slot of the
form has role `MODRM_RM` or `MODRM_REG`. The record is built whenever every `SIB_REG`
operand has a base register. -/
theorem C14_modrm_iff_slot (inst inst' : amd64_asm_inst_t) (form : opcode_ref)
    (hsel : opcode_select static_insts opcode_tree_root inst = some (form, inst')) :
    form ∈ registered_insts ∧
      (∀ (heap' : opcode_heap) (format' : amd64_binary_format_t),
        opcode_fill static_insts form inst' = some (heap', format') →
          (format'.modrm.isSome = true ↔
            ∃ s ∈ (static_insts form).operands,
              s.encoding = .MODRM_RM ∨ s.encoding = .MODRM_REG)) ∧
      ((∀ op ∈ inst.operands, sib_has_base op = true) →
        ∃ heap' format', opcode_fill static_insts form inst' = some (heap', format')) :=
  ⟨(accepted_shape inst inst' form hsel).1,
    fun heap' format' hf => (accepted_modrm inst inst' form heap' format' hsel hf).1,
    accepted_total inst inst' form hsel⟩

/-- Witness of C14: `mov rax, [rbx]`, accepted with the form `mov_r64_rm64`. -/
theorem C14_modrm_iff_slot_witness :
    opcode_select static_insts opcode_tree_root mov_rax_mem_rbx =
        some (.mov_r64_rm64, mov_rax_mem_rbx) ∧
      opcode_ref.mov_r64_rm64 ∈ registered_insts ∧
      (∀ (heap' : opcode_heap) (format' : amd64_binary_format_t),
        opcode_fill static_insts .mov_r64_rm64 mov_rax_mem_rbx = some (heap', format') →
          (format'.modrm.isSome = true ↔
            ∃ s ∈ (static_insts .mov_r64_rm64).operands,
              s.encoding = .MODRM_RM ∨ s.encoding = .MODRM_REG)) ∧
      ((∀ op ∈ mov_rax_mem_rbx.operands, sib_has_base op = true) →
        ∃ heap' format',
          opcode_fill static_insts .mov_r64_rm64 mov_rax_mem_rbx = some (heap', format')) :=
  ⟨by decide!, C14_modrm_iff_slot mov_rax_mem_rbx mov_rax_mem_rbx .mov_r64_rm64 (by decide!)⟩
theorem rex_byte_high (rex : rex_prefix_t) : opcode_rex_encoding rex / 16 = 4 := by
  obtain ⟨w, r, x, b⟩ := rex
  cases w <;> cases r <;> cases x <;> cases b <;> rfl

theorem has_64_reg_of_name (r : reg_t) (h : r.name ∈ ["spl", "bpl", "sil", "dil"]) :
    has_64_reg r = true := by
  simp only [List.mem_cons, List.mem_singleton, List.not_mem_nil, or_false] at h
  unfold has_64_reg str_equal
  rcases h with h | h | h | h <;> simp [h]

theorem is_high_eight_reg_iff (r : reg_t) :
    is_high_eight_reg r = true ↔ r.name ∈ ["ah", "bh", "ch", "dh"] := by
  simp only [List.mem_cons, List.mem_singleton, List.not_mem_nil, or_false]
  unfold is_high_eight_reg str_equal
  constructor
  · intro h
    split_ifs at h with h1 h2 h3 h4
    · exact Or.inl (by simpa using h1)
    · exact Or.inr (Or.inl (by simpa using h2))
    · exact Or.inr (Or.inr (Or.inl (by simpa using h3)))
    · exact Or.inr (Or.inr (Or.inr (by simpa using h4)))
  · rintro (h | h | h | h) <;> simp [h]

theorem flags_fst_iff (ops : List amd64_asm_operand_t) :
    (select_flags_all ops (false, false)).1 = true ↔
      ∃ op ∈ ops, ∃ r ∈ operand_regs op, has_64_reg r = true := by
  rw [select_flags_all_fst]
  simp only [Bool.false_or, List.any_eq_true]

theorem flags_snd_iff (ops : List amd64_asm_operand_t) :
    (select_flags_all ops (false, false)).2 = true ↔
      ∃ op ∈ ops, ∃ r ∈ operand_regs op, r.name ∈ ["ah", "bh", "ch", "dh"] := by
  rw [select_flags_all_snd]
  simp only [Bool.false_or, List.any_eq_true, is_high_eight_reg_iff]

/-- C15. For an instruction accepted by `opcode_select` and the form it returns, the record
built by `opcode_fill` has a REX record if and only if the form declares `REX` or `REX.W` or
`need_rex_ext` is set; the serializer writes the REX byte, of high nibble `0100`, right after
the legacy prefix exactly when the record has one (there is no VEX record). `need_rex_ext` is
set exactly when some inspected register satisfies `has_64_reg`, in particular when one is
named spl, bpl, sil or dil. The record is built whenever every `SIB_REG` operand has a base
register. -/
theorem C15_rex_iff (inst inst' : amd64_asm_inst_t) (form : opcode_ref)
    (hsel : opcode_select static_insts opcode_tree_root inst = some (form, inst')) :
    (∀ (heap' : opcode_heap) (format' : amd64_binary_format_t),
      opcode_fill static_insts form inst' = some (heap', format') →
        (format'.rex_pfx.isSome = true ↔
          opcode_ext.REX ∈ (static_insts form).extensions ∨
            opcode_ext.REX_W ∈ (static_insts form).extensions ∨ inst'.need_rex_ext = true) ∧
        opcode_format_encoding format' =
          (if format'.prefix_byte > 0 then [format'.prefix_byte] else [])
            ++ (match format'.rex_pfx with
                | some rex => [opcode_rex_encoding rex]
                | none => [])
            ++ opcode_bytes format'.opcode
            ++ (match format'.modrm with
                | some modrm => [opcode_modrm_encoding modrm]
                | none => [])
            ++ (match format'.sib with
                | some sib => [opcode_sib_encoding sib]
                | none => [])
            ++ format'.disps ++ format'.imms ∧
        ∀ rex, format'.rex_pfx = some rex → opcode_rex_encoding rex / 16 = 4) ∧
      (inst'.need_rex_ext = true ↔
        ∃ op ∈ inst.operands, ∃ r ∈ operand_regs op, has_64_reg r = true) ∧
      (∀ op ∈ inst.operands, ∀ r ∈ operand_regs op,
        r.name ∈ ["spl", "bpl", "sil", "dil"] → inst'.need_rex_ext = true) ∧
      ((∀ op ∈ inst.operands, sib_has_base op = true) →
        ∃ heap' format', opcode_fill static_insts form inst' = some (heap', format')) := by
  have hneed : inst'.need_rex_ext = (select_flags_all inst.operands (false, false)).1 := by
    rw [(accepted_shape inst inst' form hsel).2.2.2.2.2]
  have hiff : inst'.need_rex_ext = true ↔
      ∃ op ∈ inst.operands, ∃ r ∈ operand_regs op, has_64_reg r = true := by
    rw [hneed]
    exact flags_fst_iff _
  refine ⟨fun heap' format' hf => ?_, hiff,
    fun op hop r hr hn => hiff.mpr ⟨op, hop, r, hr, has_64_reg_of_name r hn⟩,
    accepted_total inst inst' form hsel⟩
  obtain ⟨exts, format0, hloop, hacc, hwf, f1, f2, -⟩ :=
    accepted_fill inst inst' form heap' format' hsel hf
  obtain ⟨-, w2, -⟩ := form_wf_props _ hwf
  obtain ⟨c1, c2, -, -⟩ := loop_common exts _ _ hacc format0 format' hloop
  refine ⟨?_, ?_, fun rex _ => rex_byte_high rex⟩
  · rw [c1, f1, Bool.or_eq_true, has_rex_extension_iff _ w2, or_assoc]
  · have hv : format'.vex_pfx = none := by
      rw [f2] at c2
      cases hvv : format'.vex_pfx with
      | none => rfl
      | some v => rw [hvv] at c2; cases c2
    simp only [opcode_format_encoding, hv, List.append_nil]

/-- Witness of C15: `movzx eax, spl`, accepted with the form `movzx_r32_rm8`, which declares
neither `REX` nor `REX.W`. -/
theorem C15_rex_iff_witness :
    opcode_select static_insts opcode_tree_root movzx_eax_spl =
        some (.movzx_r32_rm8, { movzx_eax_spl with need_rex_ext := true }) ∧
      ((∀ (heap' : opcode_heap) (format' : amd64_binary_format_t),
        opcode_fill static_insts .movzx_r32_rm8 { movzx_eax_spl with need_rex_ext := true } =
            some (heap', format') →
          (format'.rex_pfx.isSome = true ↔
            opcode_ext.REX ∈ (static_insts .movzx_r32_rm8).extensions ∨
              opcode_ext.REX_W ∈ (static_insts .movzx_r32_rm8).extensions ∨
              ({ movzx_eax_spl with need_rex_ext := true } : amd64_asm_inst_t).need_rex_ext
                = true) ∧
          opcode_format_encoding format' =
            (if format'.prefix_byte > 0 then [format'.prefix_byte] else [])
              ++ (match format'.rex_pfx with
                  | some rex => [opcode_rex_encoding rex]
                  | none => [])
              ++ opcode_bytes format'.opcode
              ++ (match format'.modrm with
                  | some modrm => [opcode_modrm_encoding modrm]
                  | none => [])
              ++ (match format'.sib with
                  | some sib => [opcode_sib_encoding sib]
                  | none => [])
              ++ format'.disps ++ format'.imms ∧
          ∀ rex, format'.rex_pfx = some rex → opcode_rex_encoding rex / 16 = 4) ∧
        (({ movzx_eax_spl with need_rex_ext := true } : amd64_asm_inst_t).need_rex_ext = true ↔
          ∃ op ∈ movzx_eax_spl.operands, ∃ r ∈ operand_regs op, has_64_reg r = true) ∧
        (∀ op ∈ movzx_eax_spl.operands, ∀ r ∈ operand_regs op,
          r.name ∈ ["spl", "bpl", "sil", "dil"] →
            ({ movzx_eax_spl with need_rex_ext := true } : amd64_asm_inst_t).need_rex_ext
              = true) ∧
        ((∀ op ∈ movzx_eax_spl.operands, sib_has_base op = true) →
          ∃ heap' format',
            opcode_fill static_insts .movzx_r32_rm8 { movzx_eax_spl with need_rex_ext := true } =
              some (heap', format'))) :=
  ⟨by decide!,
    C15_rex_iff movzx_eax_spl { movzx_eax_spl with need_rex_ext := true } .movzx_r32_rm8
      (by decide!)⟩

/-- The bytes of `mov al, bl` (form `mov_rex_rm8_r8`, REX byte `0x40` with `w = r = x = b = 0`)
and of `movzx eax, spl` (form `movzx_r32_rm8`, REX byte synthesized). -/
theorem rex_examples :
    encode mov_al_bl = some (.mov_rex_rm8_r8, [0x40, 0x88, 0xD8]) ∧
      encode movzx_eax_spl = some (.movzx_r32_rm8, [0x40, 0x0F, 0xB6, 0xC4]) := by
  decide!
/-! ## When `opcode_select` fails -/

theorem opcode_sort_insts_nil (heap : opcode_heap) (l : List opcode_ref) :
    opcode_sort_insts heap l = [] ↔ l = [] := by
  constructor
  · intro h
    have hp := opcode_sort_insts_perm heap l
    rw [h] at hp
    exact List.Perm.nil_eq hp |>.symm
  · intro h
    subst h
    rfl

theorem select_finish_none (heap : opcode_heap) (inst : amd64_asm_inst_t)
    (temps : List opcode_ref) (flags : Bool × Bool) :
    select_finish heap inst temps flags = none ↔
      temps.filter (fun f => !(flags.2 && has_rex_extension (heap f).extensions)) = [] := by
  unfold select_finish
  rw [← opcode_sort_insts_nil heap]
  cases opcode_sort_insts heap
      (temps.filter (fun f => !(flags.2 && has_rex_extension (heap f).extensions))) with
  | nil => simp
  | cons x rest => simp

theorem walk_keys_none (keys : List table_key) :
    ∀ node : amd64_opcode_tree_node_t,
      walk_keys keys node = none ↔
        ∃ (i : Nat) (key : table_key) (n : amd64_opcode_tree_node_t),
          keys[i]? = some key ∧ walk_keys (keys.take i) node = some n ∧
            table_get n.succs key = none := by
  induction keys with
  | nil =>
    intro node
    simp [walk_keys]
  | cons k rest ih =>
    intro node
    constructor
    · intro h
      simp only [walk_keys] at h
      cases hg : table_get node.succs k with
      | none => exact ⟨0, k, node, by simp, by simp [walk_keys], hg⟩
      | some next =>
        simp only [hg] at h
        obtain ⟨i, key, n, h1, h2, h3⟩ := (ih next).mp h
        exact ⟨i + 1, key, n, by simpa using h1, by simp [walk_keys, hg, h2], h3⟩
    · rintro ⟨i, key, n, h1, h2, h3⟩
      cases i with
      | zero =>
        simp only [List.getElem?_cons_zero, Option.some.injEq] at h1
        simp only [List.take_zero, walk_keys, Option.some.injEq] at h2
        subst h1 h2
        simp [walk_keys, h3]
      | succ j =>
        simp only [List.getElem?_cons_succ] at h1
        simp only [List.take_succ_cons, walk_keys] at h2
        cases hg : table_get node.succs k with
        | none => simp [walk_keys, hg]
        | some next =>
          simp only [hg] at h2
          simp only [walk_keys, hg]
          exact (ih next).mpr ⟨j, key, n, h1, h2, h3⟩

/-- The three ways in which `opcode_select` fails, for any heap and trie. -/
theorem opcode_select_none (heap : opcode_heap) (root : amd64_opcode_tree_node_t)
    (inst : amd64_asm_inst_t) :
    opcode_select heap root inst = none ↔
      table_get root.succs (.name inst.name) = none ∨
      (∃ (current : amd64_opcode_tree_node_t) (i : Nat) (op : amd64_asm_operand_t)
          (node : amd64_opcode_tree_node_t),
        table_get root.succs (.name inst.name) = some current ∧ inst.operands[i]? = some op ∧
          walk_keys ((inst.operands.take i).map operand_key) current = some node ∧
          table_get node.succs (operand_key op) = none) ∨
      (∃ (current leaf : amd64_opcode_tree_node_t),
        table_get root.succs (.name inst.name) = some current ∧
          walk_keys (inst.operands.map operand_key) current = some leaf ∧
          leaf.insts.filter (fun f =>
            !(inst.operands.any (fun op => (operand_regs op).any is_high_eight_reg) &&
              has_rex_extension (heap f).extensions)) = []) := by
  have hflag : (select_flags_all inst.operands (false, false)).2 =
      inst.operands.any (fun op => (operand_regs op).any is_high_eight_reg) := by
    rw [select_flags_all_snd]
    rfl
  rw [opcode_select_eq]
  unfold select_candidates
  cases hg : table_get root.succs (.name inst.name) with
  | none => simp
  | some current =>
    cases hw : walk_keys (inst.operands.map operand_key) current with
    | none =>
      simp only [hw, Option.map_none', true_iff]
      right; left
      obtain ⟨i, key, n, h1, h2, h3⟩ := (walk_keys_none _ current).mp hw
      simp only [List.getElem?_map, Option.map_eq_some'] at h1
      obtain ⟨op, hop, rfl⟩ := h1
      rw [← List.map_take] at h2
      exact ⟨current, i, op, n, rfl, hop, h2, h3⟩
    | some leaf =>
      simp only [hw, Option.map_some', select_finish_none, hflag]
      constructor
      · intro h
        right; right
        exact ⟨current, leaf, rfl, hw, h⟩
      · rintro (h | ⟨c, i, op, node, h1, h2, h3, h4⟩ | ⟨c, l, h1, h2, h3⟩)
        · cases h
        · exfalso
          simp only [Option.some.injEq] at h1
          subst h1
          have : walk_keys (inst.operands.map operand_key) current = none := by
            apply (walk_keys_none _ current).mpr
            refine ⟨i, operand_key op, node, ?_, ?_, h4⟩
            · simp [List.getElem?_map, h2]
            · rw [← List.map_take]
              exact h3
          rw [hw] at this
          cases this
        · simp only [Option.some.injEq] at h1 h2
          subst h1
          rw [hw] at h2
          simp only [Option.some.injEq] at h2
          subst h2
          exact h3

/-- C17. When some register the selector inspects (that of a `REG`, `INDIRECT_REG` or
`DISP_REG` operand, the base or index of a `SIB_REG` operand) is named ah, bh, ch or dh: a
form returned by `opcode_select` declares neither `REX` nor `REX.W`, and if every candidate
at the leaf declares `REX` or `REX.W` the selection fails. -/
theorem C17_high_byte_no_rex (inst : amd64_asm_inst_t)
    (hhigh : ∃ op ∈ inst.operands, ∃ r ∈ operand_regs op, r.name ∈ ["ah", "bh", "ch", "dh"]) :
    (∀ (form : opcode_ref) (inst' : amd64_asm_inst_t),
      opcode_select static_insts opcode_tree_root inst = some (form, inst') →
        opcode_ext.REX ∉ (static_insts form).extensions ∧
          opcode_ext.REX_W ∉ (static_insts form).extensions) ∧
      (∀ temps : List opcode_ref,
        select_candidates opcode_tree_root inst.name (inst.operands.map operand_key)
            = some temps →
          (∀ f ∈ temps, opcode_ext.REX ∈ (static_insts f).extensions ∨
            opcode_ext.REX_W ∈ (static_insts f).extensions) →
          opcode_select static_insts opcode_tree_root inst = none) := by
  have hflag := (flags_snd_iff inst.operands).mpr hhigh
  constructor
  · intro form inst' hsel
    obtain ⟨hreg, hwf, -⟩ := accepted_shape inst inst' form hsel
    obtain ⟨-, w2, -⟩ := form_wf_props _ hwf
    obtain ⟨temps, -, -, hno, -⟩ := opcode_select_some _ _ _ _ _ hsel
    have h := hno hflag
    have hiff := has_rex_extension_iff _ w2
    rw [h] at hiff
    constructor
    · intro hx
      exact absurd (hiff.mpr (Or.inl hx)) (by simp)
    · intro hx
      exact absurd (hiff.mpr (Or.inr hx)) (by simp)
  · intro temps hc hall
    rw [opcode_select_eq, hc]
    simp only [select_finish_none, hflag, Bool.true_and, List.filter_eq_nil_iff,
      Bool.not_eq_true', Bool.not_eq_false]
    intro f hf
    have hc' := hc
    rw [opcode_tree_root_eq] at hc'
    obtain ⟨hreg, -⟩ := select_candidates_sound _ _ _ _ _ hc' f hf
    obtain ⟨-, w2, -⟩ := form_wf_props _ (registered_form_wf f hreg)
    exact (has_rex_extension_iff _ w2).mpr (hall f hf)

/-- Witness of C17: `mov ah, bl`. -/
theorem C17_high_byte_no_rex_witness :
    (∃ op ∈ mov_ah_bl.operands, ∃ r ∈ operand_regs op, r.name ∈ ["ah", "bh", "ch", "dh"]) ∧
      (∀ (form : opcode_ref) (inst' : amd64_asm_inst_t),
        opcode_select static_insts opcode_tree_root mov_ah_bl = some (form, inst') →
          opcode_ext.REX ∉ (static_insts form).extensions ∧
            opcode_ext.REX_W ∉ (static_insts form).extensions) ∧
      (∀ temps : List opcode_ref,
        select_candidates opcode_tree_root mov_ah_bl.name
            (mov_ah_bl.operands.map operand_key) = some temps →
          (∀ f ∈ temps, opcode_ext.REX ∈ (static_insts f).extensions ∨
            opcode_ext.REX_W ∈ (static_insts f).extensions) →
          opcode_select static_insts opcode_tree_root mov_ah_bl = none) :=
  ⟨by decide, C17_high_byte_no_rex mov_ah_bl (by decide)⟩

/-- The high-byte filter at work: `mov ah, bl` gets the form without REX among the four
candidates, and `movsx rax, ah`, whose only candidate declares `REX.W`, is rejected. -/
theorem high_byte_examples :
    select_candidates opcode_tree_root "mov" [.operand .REG 1, .operand .REG 1] =
        some [.mov_rex_rm8_r8, .mov_rm8_r8, .mov_rex_r8_rm8, .mov_r8_rm8] ∧
      opcode_select static_insts opcode_tree_root mov_ah_bl = some (.mov_rm8_r8, mov_ah_bl) ∧
      select_candidates opcode_tree_root "movsx" [.operand .REG 8, .operand .REG 1] =
        some [.movsx_r64_rm8] ∧
      opcode_select static_insts opcode_tree_root movsx_rax_ah = none := by
  decide!

/-- C19. After `amd64_opcode_init`, `opcode_select` fails on an instruction if and only if
(a) the mnemonic is not a child of the trie root, or (b) the key of some operand `i` is not a
child of the node reached after the operands before it, or (c) the form list of the node
reached after all operands is empty once the forms declaring `REX` or `REX.W` are removed
when a high-byte register is present; when the leaf is reached and a form survives the
filter, a surviving registered form is returned. -/
theorem C19_select_fails_iff (inst : amd64_asm_inst_t) :
    (opcode_select static_insts opcode_tree_root inst = none ↔
      table_get opcode_tree_root.succs (.name inst.name) = none ∨
      (∃ (current : amd64_opcode_tree_node_t) (i : Nat) (op : amd64_asm_operand_t)
          (node : amd64_opcode_tree_node_t),
        table_get opcode_tree_root.succs (.name inst.name) = some current ∧
          inst.operands[i]? = some op ∧
          walk_keys ((inst.operands.take i).map operand_key) current = some node ∧
          table_get node.succs (operand_key op) = none) ∨
      (∃ (current leaf : amd64_opcode_tree_node_t),
        table_get opcode_tree_root.succs (.name inst.name) = some current ∧
          walk_keys (inst.operands.map operand_key) current = some leaf ∧
          leaf.insts.filter (fun f =>
            !(inst.operands.any (fun op => (operand_regs op).any is_high_eight_reg) &&
              has_rex_extension (static_insts f).extensions)) = [])) ∧
      (∀ (current leaf : amd64_opcode_tree_node_t),
        table_get opcode_tree_root.succs (.name inst.name) = some current →
          walk_keys (inst.operands.map operand_key) current = some leaf →
          leaf.insts.filter (fun f =>
            !(inst.operands.any (fun op => (operand_regs op).any is_high_eight_reg) &&
              has_rex_extension (static_insts f).extensions)) ≠ [] →
          ∃ form inst', opcode_select static_insts opcode_tree_root inst = some (form, inst') ∧
            form ∈ registered_insts ∧
            form ∈ leaf.insts.filter (fun f =>
              !(inst.operands.any (fun op => (operand_regs op).any is_high_eight_reg) &&
                has_rex_extension (static_insts f).extensions))) := by
  refine ⟨opcode_select_none static_insts opcode_tree_root inst, ?_⟩
  intro current leaf hg hw hne
  have hflag : (select_flags_all inst.operands (false, false)).2 =
      inst.operands.any (fun op => (operand_regs op).any is_high_eight_reg) := by
    rw [select_flags_all_snd]
    rfl
  cases hsel : opcode_select static_insts opcode_tree_root inst with
  | none =>
    exfalso
    rcases (opcode_select_none static_insts opcode_tree_root inst).mp hsel with
      h | ⟨c, i, op, node, h1, h2, h3, h4⟩ | ⟨c, l, h1, h2, h3⟩
    · rw [hg] at h
      cases h
    · rw [hg] at h1
      simp only [Option.some.injEq] at h1
      subst h1
      have : walk_keys (inst.operands.map operand_key) current = none := by
        apply (walk_keys_none _ current).mpr
        refine ⟨i, operand_key op, node, ?_, ?_, h4⟩
        · simp [List.getElem?_map, h2]
        · rw [← List.map_take]
          exact h3
      rw [hw] at this
      cases this
    · rw [hg] at h1
      simp only [Option.some.injEq] at h1
      subst h1
      rw [hw] at h2
      simp only [Option.some.injEq] at h2
      subst h2
      exact hne h3
  | some p =>
    obtain ⟨form, inst'⟩ := p
    refine ⟨form, inst', rfl, (accepted_shape inst inst' form hsel).1, ?_⟩
    obtain ⟨temps, hc, hmem, hno, -⟩ := opcode_select_some _ _ _ _ _ hsel
    simp only [select_candidates, hg, hw, Option.map_some', Option.some.injEq] at hc
    subst hc
    simp only [List.mem_filter, Bool.not_eq_true', Bool.and_eq_false_imp]
    rw [← hflag]
    exact ⟨hmem, hno⟩

/-- Witness of C19: `movsx rax, ah`, which fails by case (c). -/
theorem C19_select_fails_iff_witness :
    opcode_select static_insts opcode_tree_root movsx_rax_ah = none ∧
      (table_get opcode_tree_root.succs (.name movsx_rax_ah.name) = none ∨
      (∃ (current : amd64_opcode_tree_node_t) (i : Nat) (op : amd64_asm_operand_t)
          (node : amd64_opcode_tree_node_t),
        table_get opcode_tree_root.succs (.name movsx_rax_ah.name) = some current ∧
          movsx_rax_ah.operands[i]? = some op ∧
          walk_keys ((movsx_rax_ah.operands.take i).map operand_key) current = some node ∧
          table_get node.succs (operand_key op) = none) ∨
      (∃ (current leaf : amd64_opcode_tree_node_t),
        table_get opcode_tree_root.succs (.name movsx_rax_ah.name) = some current ∧
          walk_keys (movsx_rax_ah.operands.map operand_key) current = some leaf ∧
          leaf.insts.filter (fun f =>
            !(movsx_rax_ah.operands.any (fun op => (operand_regs op).any is_high_eight_reg) &&
              has_rex_extension (static_insts f).extensions)) = [])) :=
  ⟨by decide!, (C19_select_fails_iff movsx_rax_ah).1.mp (by decide!)⟩

/-- The three failures of `opcode_select`: an unknown mnemonic, an operand key without a child
(`ret rax`), and a leaf whose only form is filtered out (`movsx rax, ah`). -/
theorem select_failure_examples :
    opcode_select static_insts opcode_tree_root ⟨0, "nosuch", 0, [], false⟩ = none ∧
      opcode_select static_insts opcode_tree_root ⟨0, "ret", 0, [⟨8, .reg rax⟩], false⟩ = none ∧
      opcode_select static_insts opcode_tree_root movsx_rax_ah = none := by
  decide!
/-! ## Immediates and the length of the output -/

theorem le_bytes_length (n : Nat) : ∀ v : Nat, (le_bytes v n).length = n := by
  induction n with
  | zero => intro v; rfl
  | succ n ih => intro v; simp [le_bytes, ih]

/-- An `IMM` slot and the operand filed under one of its keys agree on the width. -/
theorem imm_slot_width (slot : opcode_operand_t) (op : amd64_asm_operand_t)
    (henc : slot.encoding = .IMM) (hwf : slot_wf slot = true)
    (hk : operand_key op ∈ operand_low_to_high slot.type) :
    imm_kind_width op.type = imm_width slot.type ∧
      slot.type ∈ [inst_operand_type.IMM8, .IMM16, .IMM32, .IMM64, .REL8, .REL16, .REL32] ∧
      (op.type = .UINT → slot.type = .IMM32) := by
  obtain ⟨ty, enc⟩ := slot
  simp only at henc
  subst henc
  generalize hty : op.type = t at *
  cases ty <;>
    simp [operand_low_to_high, operand_key, asm_operand_to_key, slot_wf, key_accepted,
      role_accepts, hty] at hk hwf ⊢ <;>
    (try (rcases hk with ⟨rfl, -⟩ | ⟨rfl, -⟩ <;> simp [imm_kind_width, imm_width]))

theorem keys_match_index (ops : List amd64_asm_operand_t) (slots : List opcode_operand_t)
    (hk : keys_match (ops.map operand_key) slots) (i : Nat) (slot : opcode_operand_t)
    (op : amd64_asm_operand_t) (hs : slots[i]? = some slot) (ho : ops[i]? = some op) :
    operand_key op ∈ operand_low_to_high slot.type := by
  have hkey : (ops.map operand_key)[i]? = some (operand_key op) := by
    simp [List.getElem?_map, ho]
  obtain ⟨slot', hs', hm⟩ := forall₂_index _ _ _ hk i _ hkey
  rw [hs] at hs'
  cases hs'
  exact hm

/-- C18. For an instruction accepted by `opcode_select` and every slot of role `IMM` of the
returned form: the slot is of kind IMM8/16/32/64 or REL8/16/32, the immediate bytes of the
record are the little-endian bytes of the operand's value, as many as the width of the slot's
kind (1, 2, 4 or 8), and they end the emitted byte string; a `UINT` operand occurs only in an
`IMM32` slot and gives exactly 4 bytes. The record is built whenever every `SIB_REG` operand
has a base register. -/
theorem C18_imm_bytes (inst inst' : amd64_asm_inst_t) (form : opcode_ref)
    (hsel : opcode_select static_insts opcode_tree_root inst = some (form, inst')) :
    (∀ (heap' : opcode_heap) (format' : amd64_binary_format_t) (i : Nat)
        (slot : opcode_operand_t) (op : amd64_asm_operand_t),
      opcode_fill static_insts form inst' = some (heap', format') →
        (static_insts form).operands[i]? = some slot → slot.encoding = .IMM →
        inst.operands[i]? = some op →
        slot.type ∈ [inst_operand_type.IMM8, .IMM16, .IMM32, .IMM64, .REL8, .REL16, .REL32] ∧
        (op.type = .UINT → slot.type = .IMM32 ∧ format'.imms.length = 4) ∧
        ∃ v, imm_value op.value = some v ∧
          format'.imms = le_bytes v (imm_width slot.type) ∧
          format'.imms.length = imm_width slot.type ∧
          ∃ pre, opcode_format_encoding format' = pre ++ le_bytes v (imm_width slot.type)) ∧
      ((∀ op ∈ inst.operands, sib_has_base op = true) →
        ∃ heap' format', opcode_fill static_insts form inst' = some (heap', format')) := by
  refine ⟨fun heap' format' i slot op hf hsl henc hop => ?_, accepted_total inst inst' form hsel⟩
  obtain ⟨-, -, -, hkeys, -, -⟩ := accepted_shape inst inst' form hsel
  obtain ⟨exts, format0, hloop, hacc, hwf, -⟩ :=
    accepted_fill inst inst' form heap' format' hsel hf
  obtain ⟨-, -, w3, -, w5, -⟩ := form_wf_props _ hwf
  obtain ⟨-, b2⟩ := loop_imm exts _ _ hacc w5 format0 format' hloop
  obtain ⟨v, hv, himm⟩ := b2 i slot op hsl henc hop
  obtain ⟨e1, e2, e3⟩ := imm_slot_width slot op henc (w3 slot (List.getElem?_mem hsl))
    (keys_match_index _ _ hkeys i slot op hsl hop)
  rw [e1] at himm
  have hlen : format'.imms.length = imm_width slot.type := by
    rw [himm, le_bytes_length]
  refine ⟨e2, fun hu => ?_, v, hv, himm, hlen, ?_⟩
  · have h32 := e3 hu
    refine ⟨h32, ?_⟩
    rw [hlen, h32]
    rfl
  · rw [← himm]
    exact ⟨_, rfl⟩

/-- Witness of C18: `mov rax, 0x1122334455667788`, accepted with the form `mov_r64_imm64`. -/
theorem C18_imm_bytes_witness :
    opcode_select static_insts opcode_tree_root mov_rax_imm64 =
        some (.mov_r64_imm64, mov_rax_imm64) ∧
      (∀ (heap' : opcode_heap) (format' : amd64_binary_format_t) (i : Nat)
          (slot : opcode_operand_t) (op : amd64_asm_operand_t),
        opcode_fill static_insts .mov_r64_imm64 mov_rax_imm64 = some (heap', format') →
          (static_insts .mov_r64_imm64).operands[i]? = some slot → slot.encoding = .IMM →
          mov_rax_imm64.operands[i]? = some op →
          slot.type ∈ [inst_operand_type.IMM8, .IMM16, .IMM32, .IMM64, .REL8, .REL16, .REL32] ∧
          (op.type = .UINT → slot.type = .IMM32 ∧ format'.imms.length = 4) ∧
          ∃ v, imm_value op.value = some v ∧
            format'.imms = le_bytes v (imm_width slot.type) ∧
            format'.imms.length = imm_width slot.type ∧
            ∃ pre, opcode_format_encoding format' = pre ++ le_bytes v (imm_width slot.type)) ∧
        ((∀ op ∈ mov_rax_imm64.operands, sib_has_base op = true) →
          ∃ heap' format',
            opcode_fill static_insts .mov_r64_imm64 mov_rax_imm64 = some (heap', format')) :=
  ⟨by decide!, C18_imm_bytes mov_rax_imm64 mov_rax_imm64 .mov_r64_imm64 (by decide!)⟩

/-- Immediates in bytes: an 8-byte `IMM64`, a `UINT` operand in the `IMM32` slot
of `mov_rm64_imm32`, and an `IMM32` after a SIB operand with a 32-bit displacement. -/
theorem imm_examples :
    encode mov_rax_imm64 =
        some (.mov_r64_imm64, [0x48, 0xB8, 0x88, 0x77, 0x66, 0x55, 0x44, 0x33, 0x22, 0x11]) ∧
      encode ⟨0, "mov", 0, [⟨8, .reg rax⟩, ⟨8, .uint 5⟩], false⟩ =
        some (.mov_rm64_imm32, [0x48, 0xC7, 0xC0, 5, 0, 0, 0]) ∧
      encode lock_add_sib_imm32 =
        some (.add_rm64_imm32,
          [0xF0, 0x48, 0x81, 0x84, 0x98, 0x78, 0x56, 0x34, 0x12, 0x44, 0x33, 0x22, 0x11]) := by
  decide!

theorem opcode_bytes_length (opcode : List Nat) : (opcode_bytes opcode).length ≤ 3 := by
  unfold opcode_bytes
  exact ((List.takeWhile_prefix _).length_le).trans (by simp)

/-- The length of the output by the parts of the record. -/
theorem encoding_length (format : amd64_binary_format_t) (hv : format.vex_pfx = none) :
    (opcode_format_encoding format).length ≤
      2 + (opcode_bytes format.opcode).length + (if format.modrm.isSome then 1 else 0)
        + (if format.sib.isSome then 1 else 0) + format.disps.length + format.imms.length := by
  obtain ⟨pb, vex, rex, opc, modrm, sib, disps, imms, op_id⟩ := format
  simp only at hv
  subst hv
  cases rex <;> cases modrm <;> cases sib <;>
    simp only [opcode_format_encoding, List.length_append, List.append_nil, Option.isSome_some,
      Option.isSome_none, if_true, Bool.false_eq_true, if_false, List.length_singleton,
      List.length_nil] <;>
    split_ifs <;> simp only [List.length_singleton, List.length_nil] <;> omega

/-- C20. Every byte string that `amd64_asm_inst_encoding` produces from the state after
`amd64_opcode_init` has at most 15 bytes. -/
theorem C20_length_le_15 (inst : amd64_asm_inst_t) (form : opcode_ref) (bytes : List Nat)
    (h : encode inst = some (form, bytes)) : bytes.length ≤ 15 := by
  simp only [encode, amd64_asm_inst_encoding, Option.map_eq_some'] at h
  obtain ⟨⟨heap', form', bytes'⟩, h1, h2⟩ := h
  simp only [Prod.mk.injEq] at h2
  obtain ⟨rfl, rfl⟩ := h2
  cases hsel : opcode_select static_insts opcode_tree_root inst with
  | none => simp [hsel] at h1
  | some p =>
    obtain ⟨f, inst'⟩ := p
    simp only [hsel] at h1
    cases hf : opcode_fill static_insts f inst' with
    | none => simp [hf] at h1
    | some q =>
      obtain ⟨hp, format'⟩ := q
      simp only [hf, Option.some.injEq, Prod.mk.injEq] at h1
      obtain ⟨-, rfl, rfl⟩ := h1
      obtain ⟨-, -, -, hkeys, -, -⟩ := accepted_shape inst inst' _ hsel
      obtain ⟨exts, format0, hloop, hacc, hwf, f1, f2, f3, f4, f5, f6, f7, f8⟩ :=
        accepted_fill inst inst' _ hp format' hsel hf
      obtain ⟨w1, w2, w3, w4, w5, w6, w7, w8⟩ := form_wf_props _ hwf
      obtain ⟨c1, c2, c3, c4⟩ := loop_common exts _ _ hacc format0 format' hloop
      obtain ⟨b1, b2⟩ := loop_imm exts _ _ hacc w5 format0 format' hloop
      have hvex : format'.vex_pfx = none := by
        rw [f2] at c2
        cases hvv : format'.vex_pfx with
        | none => rfl
        | some v => rw [hvv] at c2; cases c2
      have hd : format'.disps.length ≤ 4 := c3 (by rw [f6]; simp)
      have hop := opcode_bytes_length format'.opcode
      have hlen := encoding_length format' hvex
      have himm : format'.imms.length ≤ 4 ∨
          (format'.imms.length ≤ 8 ∧ format'.modrm = none ∧ format'.sib = none ∧
            format'.disps = []) := by
        by_cases hnil : (static_insts f).operands.filter (fun s => s.encoding = .IMM) = []
        · left
          rw [b1 hnil, f7]
          simp
        · obtain ⟨slot, hslot⟩ := List.exists_mem_of_ne_nil _ hnil
          simp only [List.mem_filter, decide_eq_true_eq] at hslot
          obtain ⟨i, hi⟩ := List.mem_iff_getElem?.mp hslot.1
          obtain ⟨op, hop', -⟩ := forall₂_index _ _ _ hacc i slot hi
          obtain ⟨v, -, hb⟩ := b2 i slot op hi hslot.2 hop'
          obtain ⟨e1, e2, -⟩ := imm_slot_width slot op hslot.2 (w3 slot hslot.1)
            (keys_match_index _ _ hkeys i slot op hi hop')
          rw [e1] at hb
          have hl : format'.imms.length = imm_width slot.type := by
            rw [hb, le_bytes_length]
          by_cases h64 : slot.type = .IMM64
          · right
            obtain ⟨-, hnone⟩ := w8 ⟨slot, hslot.1, h64⟩
            have hn : ¬ ∃ s ∈ (static_insts f).operands,
                s.encoding = .MODRM_RM ∨ s.encoding = .MODRM_REG := by
              rintro ⟨s, hs, he | he⟩
              · exact (hnone s hs).1 he
              · exact (hnone s hs).2 he
            refine ⟨?_, (accepted_modrm inst inst' _ hp format' hsel hf).2 hn⟩
            rw [hl, h64]
            simp [imm_width]
          · left
            rw [hl]
            simp only [List.mem_cons, List.mem_singleton, List.not_mem_nil, or_false] at e2
            rcases e2 with h | h | h | h | h | h | h <;> simp [h, imm_width] at h64 ⊢
      rcases himm with hi | ⟨hi, hm, hs, hdn⟩
      · have a1 : (if format'.modrm.isSome then 1 else 0) ≤ 1 := by split <;> omega
        have a2 : (if format'.sib.isSome then 1 else 0) ≤ 1 := by split <;> omega
        omega
      · rw [hm, hs, hdn] at hlen
        simp only [Option.isSome_none, Bool.false_eq_true, if_false, List.length_nil] at hlen
        omega

/-- Witness of C20: `lock add qword [rax + rbx*4 + 0x12345678], 0x11223344`, 13 bytes. -/
theorem C20_length_le_15_witness :
    encode lock_add_sib_imm32 =
        some (.add_rm64_imm32,
          [0xF0, 0x48, 0x81, 0x84, 0x98, 0x78, 0x56, 0x34, 0x12, 0x44, 0x33, 0x22, 0x11]) ∧
      [0xF0, 0x48, 0x81, 0x84, 0x98, 0x78, 0x56, 0x34, 0x12, 0x44, 0x33, 0x22, 0x11].length
        ≤ 15 :=
  ⟨by decide!, C20_length_le_15 lock_add_sib_imm32 .add_rm64_imm32 _ (by decide!)⟩
/-! ## A REX record beside a VEX record -/

theorem with_vex_some (format format' : amd64_binary_format_t)
    (f : vex_prefix_t → vex_prefix_t) (h : with_vex format f = some format') :
    format'.vex_pfx.isSome = true := by
  obtain ⟨v, -, rfl⟩ := with_vex_eq _ _ _ h
  rfl

theorem with_rex_vex (format format' : amd64_binary_format_t)
    (f : rex_prefix_t → rex_prefix_t) (h : with_rex format f = some format') :
    format'.vex_pfx = format.vex_pfx := by
  obtain ⟨r, -, rfl⟩ := with_rex_eq _ _ _ h
  rfl

/-- A turn of the operand loop never removes the VEX record. -/
theorem fill_operand_keeps_vex (exts : List opcode_ext) (format format' : amd64_binary_format_t)
    (operand : opcode_operand_t) (asm_operand : amd64_asm_operand_t)
    (hf : fill_operand exts format operand asm_operand = some format')
    (h : format.vex_pfx.isSome = true) : format'.vex_pfx.isSome = true := by
  obtain ⟨type, encoding⟩ := operand
  obtain ⟨size, value⟩ := asm_operand
  cases value <;> cases encoding <;>
    simp only [fill_operand, fill_reg, fill_disp_reg, fill_indirect_reg, fill_rip_relative,
      fill_seg_offset, fill_sib_reg, set_disp, set_imm] at hf <;>
    (repeat' split at hf) <;>
    first
      | (exact with_vex_some _ _ _ hf)
      | (rw [with_rex_vex _ _ _ hf]; exact h)
      | (cases hf; done)
      | (cases hf; exact h)
      | (cases hf; rfl)
      | (rw [(fill_sib_disp_fields _ _ _ _ hf).2.1]
         first
          | exact h
          | (rename_i heq; split at heq
             · rw [with_rex_vex _ _ _ heq]; exact h
             · cases heq; exact h))

/-- The operand loop never removes the VEX record. -/
theorem fill_operands_keeps_vex (exts : List opcode_ext) (operands : List opcode_operand_t) :
    ∀ (asm_operands : List amd64_asm_operand_t) (format format' : amd64_binary_format_t),
      fill_operands exts format operands asm_operands = some format' →
      format.vex_pfx.isSome = true → format'.vex_pfx.isSome = true := by
  induction operands with
  | nil =>
    intro asm_operands format format' hf h
    simp only [fill_operands, Option.some.injEq] at hf
    exact hf ▸ h
  | cons operand rest ih =>
    intro asm_operands format format' hf h
    cases asm_operands with
    | nil => simp [fill_operands] at hf
    | cons asm_operand asm_rest =>
      simp only [fill_operands] at hf
      cases hstep : fill_operand exts format operand asm_operand with
      | none => simp [hstep] at hf
      | some mid =>
        rw [hstep] at hf
        exact ih asm_rest mid format' hf (fill_operand_keeps_vex _ _ _ _ _ hstep h)

theorem ext_phase_vex (exts : List opcode_ext) :
    ∀ format : amd64_binary_format_t,
      (format.vex_pfx.isSome = true ∨ exts.any vex_ext = true) →
        (exts.foldl build_ext format).vex_pfx.isSome = true := by
  induction exts with
  | nil =>
    intro format h
    rcases h with h | h
    · exact h
    · simp at h
  | cons e es ih =>
    intro format h
    simp only [List.foldl_cons]
    apply ih
    by_cases hm : format.vex_pfx.isSome = true
    · left
      cases e <;> simp [build_ext, hm]
    · rcases h with h | h
      · exact absurd h hm
      · simp only [List.any_cons, Bool.or_eq_true] at h
        rcases h with h | h
        · left
          cases e <;> simp [build_ext, vex_ext] at h ⊢
        · right
          exact h

/-- Outside the registered catalog: for a form that declares a `VEX_*` extension and an
instruction with `need_rex_ext` set, every record that `opcode_fill` returns has a VEX record
and a REX record, and the serializer writes the VEX prefix followed by the REX byte. (The
test before the synthesized `REX` looks only at `REX` and `REX.W`.) -/
theorem rex_beside_vex_outside_catalog (heap heap' : opcode_heap) (ref : opcode_ref)
    (inst : amd64_asm_inst_t) (format' : amd64_binary_format_t)
    (hvex : ((heap ref).extensions.take 4).any vex_ext = true)
    (hneed : inst.need_rex_ext = true)
    (hf : opcode_fill heap ref inst = some (heap', format')) :
    ∃ v rex, format'.vex_pfx = some v ∧ format'.rex_pfx = some rex ∧
      ∃ post, opcode_format_encoding format' =
        (if format'.prefix_byte > 0 then [format'.prefix_byte] else [])
          ++ opcode_vex_encoding v ++ [opcode_rex_encoding rex] ++ post := by
  simp only [opcode_fill, fill_exts_heap, (fill_heap_fields heap ref inst).2.1] at hf
  split at hf
  · cases hf
  · rename_i format hloop
    simp only [Option.some.injEq, Prod.mk.injEq] at hf
    obtain ⟨-, rfl⟩ := hf
    obtain ⟨e1, -, -, e4⟩ := fill_exts_facts (heap ref) inst
    have hr : format.rex_pfx.isSome = true := by
      apply fill_operands_keeps_rex _ _ _ _ _ hloop
      apply ext_phase_rex
      rw [e1, hneed, Bool.or_true]
    have hv : format.vex_pfx.isSome = true := by
      apply fill_operands_keeps_vex _ _ _ _ _ hloop
      apply ext_phase_vex
      right
      rw [e4]
      exact hvex
    cases hvv : format.vex_pfx with
    | none => rw [hvv] at hv; cases hv
    | some v =>
      cases hrr : format.rex_pfx with
      | none => rw [hrr] at hr; cases hr
      | some rex =>
        refine ⟨v, rex, rfl, rfl, ?_⟩
        simp only [opcode_format_encoding, hvv, hrr, List.append_assoc]
        exact ⟨_, rfl⟩

/-- A form that the catalog does not have: `vaddsd xmm0, xmm1, [r9]` filled into a VEX
form comes out as `C5 F1 | 41 | 58 01`, a VEX prefix followed by a REX byte; without
`need_rex_ext` the same call gives `C5 F1 58 01`. -/
theorem rex_beside_vex_example :
    (((vex_heap .movsq).extensions.take 4).any vex_ext = true ∧
      vaddsd_xmm0_xmm1_mem_r9.need_rex_ext = true ∧
      (opcode_fill vex_heap .movsq vaddsd_xmm0_xmm1_mem_r9).map
          (fun p => (p.2.vex_pfx.isSome, p.2.rex_pfx.isSome, opcode_format_encoding p.2)) =
        some (true, true, [0xC5, 0xF1, 0x41, 0x58, 0x01]) ∧
      (opcode_fill vex_heap .movsq { vaddsd_xmm0_xmm1_mem_r9 with need_rex_ext := false }).map
          (fun p => (p.2.vex_pfx.isSome, p.2.rex_pfx.isSome, opcode_format_encoding p.2)) =
        some (true, false, [0xC5, 0xF1, 0x58, 0x01])) ∧
      ∃ (heap' : opcode_heap) (format' : amd64_binary_format_t),
        opcode_fill vex_heap .movsq vaddsd_xmm0_xmm1_mem_r9 = some (heap', format') ∧
        ∃ v rex, format'.vex_pfx = some v ∧ format'.rex_pfx = some rex ∧
          ∃ post, opcode_format_encoding format' =
            (if format'.prefix_byte > 0 then [format'.prefix_byte] else [])
              ++ opcode_vex_encoding v ++ [opcode_rex_encoding rex] ++ post :=
  ⟨by decide!, vex_heap,
    ⟨0, some ⟨14, 0, 1, false, true, true, true, true⟩, some ⟨false, false, false, true⟩,
      [0x58, 0, 0], some ⟨0, 0, 9⟩, none, [], [], 0⟩, rfl,
    rex_beside_vex_outside_catalog vex_heap vex_heap .movsq vaddsd_xmm0_xmm1_mem_r9 _ (by decide) rfl rfl⟩

/-! ## No VEX record on a registered form -/

/-- A record with a REX and without a VEX record: `movzx eax, spl` filled into
`movzx_r32_rm8` with `need_rex_ext` set gives `40 0F B6 C4`, and `0F B6 C4` without. -/
theorem no_vex_examples :
    (opcode_fill static_insts .movzx_r32_rm8 { movzx_eax_spl with need_rex_ext := true }).map
        (fun p => (p.2.vex_pfx.isSome, p.2.rex_pfx.isSome, opcode_format_encoding p.2)) =
        some (false, true, [0x40, 0x0F, 0xB6, 0xC4]) ∧
      (opcode_fill static_insts .movzx_r32_rm8 movzx_eax_spl).map
        (fun p => (p.2.vex_pfx.isSome, p.2.rex_pfx.isSome, opcode_format_encoding p.2)) =
        some (false, false, [0x0F, 0xB6, 0xC4]) := by
  constructor <;> decide!
/-! ## Displacements -/

theorem modrm_mod_field (m : modrm_t) (hm : m.mod < 4) : opcode_modrm_encoding m / 64 = m.mod := by
  obtain ⟨mod, reg, rm⟩ := m
  have h1 : reg &&& 7 ≤ 7 := Nat.and_le_right
  have h2 : rm &&& 7 ≤ 7 := Nat.and_le_right
  simp only [opcode_modrm_encoding, u8] at *
  generalize reg &&& 7 = a at h1
  generalize rm &&& 7 = c at h2
  interval_cases mod <;> interval_cases a <;> interval_cases c <;> rfl

/-- The four bytes of `int32_to_uint8` are the little-endian bytes of the two's complement. -/
theorem int32_to_uint8_le (d : Int) :
    int32_to_uint8 d = le_bytes (d % 4294967296).toNat 4 := by
  rw [int32_to_uint8_eq, le_bytes_four]
  simp only [List.cons.injEq, and_true]
  refine ⟨?_, ?_, ?_, ?_⟩ <;> omega

/-- C11. A slot of role `MODRM_RM` filled with a `DISP_REG` operand `[r + d]`: for
`-128 ≤ d ≤ 127` the record gets `mod = 01` and the single displacement byte `d mod 256`;
otherwise `mod = 10` and four displacement bytes, the little-endian two's complement of `d`.
The `mod` field of the emitted ModR/M byte is the `mod` of the record. -/
theorem C11_disp_reg_slot (exts : List opcode_ext) (format : amd64_binary_format_t)
    (slot : opcode_operand_t) (size : Nat) (reg : reg_t) (d : Int)
    (henc : slot.encoding = .MODRM_RM)
    (hrex : rex_live exts = true → format.rex_pfx.isSome = true) :
    ∃ format' m,
      fill_operand exts format slot ⟨size, .disp_reg reg d⟩ = some format' ∧
        format'.modrm = some m ∧ opcode_modrm_encoding m / 64 = m.mod ∧
        (if -128 ≤ d ∧ d ≤ 127 then m.mod = 1 ∧ format'.disps = [(d % 256).toNat]
          else m.mod = 2 ∧ format'.disps = le_bytes (d % 4294967296).toNat 4) := by
  have hu : format.modrm.getD new_modrm = modrm_of format := rfl
  by_cases hd : -128 ≤ d ∧ d ≤ 127
  · have hb : (decide (d ≥ -128) && decide (d ≤ 127)) = true := by simp [hd.1, hd.2]
    simp only [if_pos hd]
    by_cases hl : rex_live exts = true
    · obtain ⟨r, hr⟩ := Option.isSome_iff_exists.mp (hrex hl)
      refine ⟨{ format with
          modrm := some ⟨1, (modrm_of format).reg, reg.index &&& 7⟩,
          disps := [(d % 256).toNat],
          rex_pfx := some { r with b := decide (reg.index > 7) } },
        ⟨1, (modrm_of format).reg, reg.index &&& 7⟩, ?_, rfl,
        modrm_mod_field _ (by show 1 < 4; decide), rfl, rfl⟩
      simp [fill_operand, fill_disp_reg, henc, hl, with_rex, hr, set_disp, hb, hu,
        int32_to_uint8_eq, MODRM_MOD_INDIRECT_REGISTER_BYTE_DISP]
    · refine ⟨{ format with
          modrm := some ⟨1, (modrm_of format).reg, reg.index &&& 7⟩,
          disps := [(d % 256).toNat] },
        ⟨1, (modrm_of format).reg, reg.index &&& 7⟩, ?_, rfl,
        modrm_mod_field _ (by show 1 < 4; decide), rfl, rfl⟩
      simp [fill_operand, fill_disp_reg, henc, hl, set_disp, hb, hu,
        int32_to_uint8_eq, MODRM_MOD_INDIRECT_REGISTER_BYTE_DISP]
  · have hb : (decide (d ≥ -128) && decide (d ≤ 127)) = false := by
      simpa using hd
    simp only [if_neg hd]
    have h4 : (int32_to_uint8 d).take 4 = le_bytes (d % 4294967296).toNat 4 := by
      rw [← int32_to_uint8_le, int32_to_uint8_eq]
      rfl
    by_cases hl : rex_live exts = true
    · obtain ⟨r, hr⟩ := Option.isSome_iff_exists.mp (hrex hl)
      refine ⟨{ format with
          modrm := some ⟨2, (modrm_of format).reg, reg.index &&& 7⟩,
          disps := le_bytes (d % 4294967296).toNat 4,
          rex_pfx := some { r with b := decide (reg.index > 7) } },
        ⟨2, (modrm_of format).reg, reg.index &&& 7⟩, ?_, rfl,
        modrm_mod_field _ (by show 2 < 4; decide), rfl, rfl⟩
      simp only [fill_operand, fill_disp_reg, henc, hl, with_rex, hr, set_disp, hb, h4, hu,
        MODRM_MOD_INDIRECT_REGISTER_DWORD_DISP, if_true, Bool.false_eq_true, if_false]
    · refine ⟨{ format with
          modrm := some ⟨2, (modrm_of format).reg, reg.index &&& 7⟩,
          disps := le_bytes (d % 4294967296).toNat 4 },
        ⟨2, (modrm_of format).reg, reg.index &&& 7⟩, ?_, rfl,
        modrm_mod_field _ (by show 2 < 4; decide), rfl, rfl⟩
      simp only [fill_operand, fill_disp_reg, henc, hl, set_disp, hb, h4, hu,
        MODRM_MOD_INDIRECT_REGISTER_DWORD_DISP, Bool.false_eq_true, if_false]

/-- Witness of C11: the slot `RM64` of a `REX.W /r` form filled with `[rbx - 129]`. -/
theorem C11_disp_reg_slot_witness :
    (⟨.RM64, .MODRM_RM⟩ : opcode_operand_t).encoding = .MODRM_RM ∧
      (rex_live [.REX_W, .SLASHR] = true → ext_phase_rex_w_slashr.rex_pfx.isSome = true) ∧
      ∃ format' m,
        fill_operand [.REX_W, .SLASHR] ext_phase_rex_w_slashr ⟨.RM64, .MODRM_RM⟩
            ⟨8, .disp_reg rbx (-129)⟩ = some format' ∧
          format'.modrm = some m ∧ opcode_modrm_encoding m / 64 = m.mod ∧
          (if -128 ≤ (-129 : Int) ∧ (-129 : Int) ≤ 127 then
            m.mod = 1 ∧ format'.disps = [((-129 : Int) % 256).toNat]
          else m.mod = 2 ∧ format'.disps = le_bytes ((-129 : Int) % 4294967296).toNat 4) :=
  ⟨rfl, fun _ => rfl,
    C11_disp_reg_slot [.REX_W, .SLASHR] ext_phase_rex_w_slashr ⟨.RM64, .MODRM_RM⟩ 8 rbx (-129) rfl
      (fun _ => rfl)⟩

/-- The displacement boundaries in bytes, `mov rax, [rbx + d]`: one displacement byte for
`d = -128` and `d = 127`, four for `d = -129` and `d = 128`. -/
theorem disp_reg_examples :
    encode ⟨0, "mov", 0, [⟨8, .reg rax⟩, ⟨8, .disp_reg rbx (-128)⟩], false⟩ =
        some (.mov_r64_rm64, [0x48, 0x8B, 0x43, 0x80]) ∧
      encode ⟨0, "mov", 0, [⟨8, .reg rax⟩, ⟨8, .disp_reg rbx 127⟩], false⟩ =
        some (.mov_r64_rm64, [0x48, 0x8B, 0x43, 0x7F]) ∧
      encode ⟨0, "mov", 0, [⟨8, .reg rax⟩, ⟨8, .disp_reg rbx (-129)⟩], false⟩ =
        some (.mov_r64_rm64, [0x48, 0x8B, 0x83, 0x7F, 0xFF, 0xFF, 0xFF]) ∧
      encode ⟨0, "mov", 0, [⟨8, .reg rax⟩, ⟨8, .disp_reg rbx 128⟩], false⟩ =
        some (.mov_r64_rm64, [0x48, 0x8B, 0x83, 0x80, 0x00, 0x00, 0x00]) := by
  decide!

/-- The displacement part of the `SIB_REG` branch for the bases rbp and r13. -/
theorem fill_sib_disp_base (format : amd64_binary_format_t) (base : reg_t) (disp : Int)
    (hb : base.index = 13 ∨ base.index = 5) :
    ∃ format' m, fill_sib_disp format base disp = some format' ∧ format'.modrm = some m ∧
      m.mod = 1 ∧ m.rm = (modrm_of format).rm ∧ format'.disps = [0] ∧
      format'.sib = format.sib ∧ format'.rex_pfx = format.rex_pfx := by
  simp only [fill_sib_disp, set_disp, hb, if_true]
  split_ifs <;>
    simp_all [modrm_of, MODRM_MOD_INDIRECT_REGISTER, MODRM_MOD_INDIRECT_REGISTER_BYTE_DISP,
      MODRM_MOD_INDIRECT_REGISTER_DWORD_DISP]

/-- What the displacement part leaves for the bases rbp and r13 after the SIB record has
been written. -/
theorem sib_base_post (mid : amd64_binary_format_t) (base : reg_t) (d : Int)
    (hb : base.index = 13 ∨ base.index = 5) (h2 : (modrm_of mid).rm = 4)
    (h3 : mid.sib.isSome = true) :
    ∃ format' m, fill_sib_disp mid base d = some format' ∧
      format'.modrm = some m ∧ m.mod = 1 ∧ m.rm = 4 ∧ opcode_modrm_encoding m / 64 = 1 ∧
      opcode_modrm_encoding m / 64 ≠ 0 ∧ format'.sib.isSome = true ∧
      format'.disps = [0] := by
  obtain ⟨format', m, g1, g2, g3, g4, g5, g6, -⟩ := fill_sib_disp_base mid base d hb
  have hbyte : opcode_modrm_encoding m / 64 = 1 := by
    rw [modrm_mod_field m (by rw [g3]; decide), g3]
  exact ⟨format', m, g1, g2, g3, g4.trans h2, hbyte, by rw [hbyte]; decide,
    by rw [g6]; exact h3, g5⟩

/-- C12. A slot of role `MODRM_RM` filled with a `SIB_REG` operand whose base register has
index 5 or 13, for every index register, scale and displacement: the record is built, it has
`mod = 01`, `rm = 4`, a SIB record and the single displacement byte `00`; the `mod` field of
the emitted ModR/M byte is `01`, never `00`. -/
theorem C12_sib_base_mod (exts : List opcode_ext) (format : amd64_binary_format_t)
    (slot : opcode_operand_t) (size : Nat) (base : reg_t) (index : Option reg_t) (scale : Nat)
    (d : Int) (henc : slot.encoding = .MODRM_RM) (hb : base.index = 5 ∨ base.index = 13)
    (hrex : rex_live exts = true → format.rex_pfx.isSome = true) :
    ∃ format' m,
      fill_operand exts format slot ⟨size, .sib_reg (some base) index scale d⟩ = some format' ∧
        format'.modrm = some m ∧ m.mod = 1 ∧ m.rm = 4 ∧ opcode_modrm_encoding m / 64 = 1 ∧
        opcode_modrm_encoding m / 64 ≠ 0 ∧ format'.sib.isSome = true ∧
        format'.disps = [0] := by
  have hb' : base.index = 13 ∨ base.index = 5 := hb.symm
  by_cases hl : rex_live exts = true
  · obtain ⟨r, hr⟩ := Option.isSome_iff_exists.mp (hrex hl)
    simp only [fill_operand, fill_sib_reg, henc, hl, with_rex, hr, if_true]
    exact sib_base_post _ base d hb' rfl rfl
  · simp only [fill_operand, fill_sib_reg, henc, hl, Bool.false_eq_true, if_false]
    exact sib_base_post _ base d hb' rfl rfl

/-- Witness of C12: the slot `RM64` of a `REX.W /r` form filled with `[r13 + rax*2 + 16]`. -/
theorem C12_sib_base_mod_witness :
    (⟨.RM64, .MODRM_RM⟩ : opcode_operand_t).encoding = .MODRM_RM ∧
      (r13.index = 5 ∨ r13.index = 13) ∧
      (rex_live [.REX_W, .SLASHR] = true → ext_phase_rex_w_slashr.rex_pfx.isSome = true) ∧
      ∃ format' m,
        fill_operand [.REX_W, .SLASHR] ext_phase_rex_w_slashr ⟨.RM64, .MODRM_RM⟩
            ⟨8, .sib_reg (some r13) (some rax) 1 16⟩ = some format' ∧
          format'.modrm = some m ∧ m.mod = 1 ∧ m.rm = 4 ∧ opcode_modrm_encoding m / 64 = 1 ∧
          opcode_modrm_encoding m / 64 ≠ 0 ∧ format'.sib.isSome = true ∧
          format'.disps = [0] :=
  ⟨rfl, by decide, fun _ => rfl,
    C12_sib_base_mod [.REX_W, .SLASHR] ext_phase_rex_w_slashr ⟨.RM64, .MODRM_RM⟩ 8 r13
      (some rax) 1 16 rfl (by decide) (fun _ => rfl)⟩

/-- The bases rbp and r13 in bytes, `mov rax, [rbp + rax]` and `mov rax, [r13 + 16]`: ModR/M `44`, that is
`mod = 01`, followed by the SIB byte and the displacement byte `00`. -/
theorem sib_base_examples :
    encode ⟨0, "mov", 0, [⟨8, .reg rax⟩, ⟨8, .sib_reg (some rbp) (some rax) 0 0⟩], false⟩ =
        some (.mov_r64_rm64, [0x48, 0x8B, 0x44, 0x05, 0x00]) ∧
      encode ⟨0, "mov", 0, [⟨8, .reg rax⟩, ⟨8, .sib_reg (some r13) none 0 16⟩], false⟩ =
        some (.mov_r64_rm64, [0x49, 0x8B, 0x44, 0x25, 0x00]) := by
  decide!
/-! ## Exactness of the trie: what a leaf holds -/

theorem operand_low_to_high_nodup (t : inst_operand_type) : (operand_low_to_high t).Nodup := by
  cases t <;> decide

theorem node_insts_nil (n : amd64_opcode_tree_node_t) : node_insts n [] = n.insts := rfl

theorem node_insts_new (keys : List table_key) : node_insts opcode_node_new keys = [] := by
  cases keys <;> rfl

theorem node_insts_cons (n : amd64_opcode_tree_node_t) (k : table_key) (ks : List table_key) :
    node_insts n (k :: ks) = node_insts ((table_get n.succs k).getD opcode_node_new) ks := by
  cases hg : table_get n.succs k with
  | none =>
    have h1 : node_insts n (k :: ks) = [] := by simp [node_insts, walk_keys, hg]
    rw [h1, Option.getD_none, node_insts_new]
  | some c => simp [node_insts, walk_keys, hg]

theorem node_insts_set (n child : amd64_opcode_tree_node_t) (key k : table_key)
    (ks : List table_key) :
    node_insts (.mk n.insts (table_set n.succs key child)) (k :: ks) =
      if key = k then node_insts child ks else node_insts n (k :: ks) := by
  rw [node_insts_cons, node_insts_cons]
  simp only [amd64_opcode_tree_node_t.succs, table_get_set]
  split <;> rfl

theorem slots_accept_nil : slots_accept [] [] = true := rfl

theorem slots_accept_nil_cons (s : opcode_operand_t) (ss : List opcode_operand_t) :
    slots_accept [] (s :: ss) = false := by
  simp [slots_accept]

theorem slots_accept_cons_nil (k : table_key) (ks : List table_key) :
    slots_accept (k :: ks) [] = false := by
  simp [slots_accept]

theorem slots_accept_cons (k : table_key) (ks : List table_key) (s : opcode_operand_t)
    (ss : List opcode_operand_t) :
    slots_accept (k :: ks) (s :: ss) =
      (decide (k ∈ operand_low_to_high s.type) && slots_accept ks ss) := by
  simp only [slots_accept, List.length_cons, List.zip_cons_cons, List.all_cons, add_left_inj]
  cases decide (ss.length = ks.length) <;> cases decide (k ∈ operand_low_to_high s.type) <;> rfl

/-- The forms below a node after `opcode_find_succs`: one more copy of `inst` exactly at the
key sequences its remaining slots accept. -/
theorem opcode_find_succs_insts (inst : opcode_ref) (slots : List opcode_operand_t) :
    ∀ (n : amd64_opcode_tree_node_t) (keys : List table_key),
      node_insts (opcode_find_succs inst slots n) keys =
        node_insts n keys ++ (if slots_accept keys slots = true then [inst] else []) := by
  induction slots with
  | nil =>
    intro n keys
    cases keys with
    | nil => simp [opcode_find_succs, node_insts_nil, amd64_opcode_tree_node_t.insts, slots_accept_nil]
    | cons k ks =>
      simp only [slots_accept_cons_nil, Bool.false_eq_true, if_false, List.append_nil]
      rw [node_insts_cons, node_insts_cons]
      rfl
  | cons slot rest ih =>
    intro n keys
    simp only [opcode_find_succs]
    have main : ∀ (l : List table_key), l.Nodup →
        ∀ (n : amd64_opcode_tree_node_t) (keys : List table_key),
        node_insts (l.foldl
          (fun node key =>
            amd64_opcode_tree_node_t.mk node.insts
              (table_set node.succs key
                (opcode_find_succs inst rest ((table_get node.succs key).getD opcode_node_new))))
          n) keys =
          node_insts n keys ++
            (match keys with
              | [] => []
              | k :: ks => if k ∈ l ∧ slots_accept ks rest = true then [inst] else []) := by
      intro l
      induction l with
      | nil =>
        intro _ n keys
        cases keys <;> simp
      | cons key l ihl =>
        intro hl n keys
        have hl' := List.nodup_cons.mp hl
        simp only [List.foldl_cons]
        rw [ihl hl'.2]
        cases keys with
        | nil => simp [node_insts_nil, amd64_opcode_tree_node_t.insts]
        | cons k ks =>
          simp only
          rw [node_insts_set, ih]
          by_cases hk : key = k
          · subst hk
            simp only [if_true, hl'.1, false_and, if_false, List.append_nil, List.mem_cons,
              true_or, true_and]
            rw [node_insts_cons]
          · have hk' : ¬ k = key := fun e => hk e.symm
            simp only [hk, if_false, List.mem_cons, hk', false_or]
    rw [main _ (operand_low_to_high_nodup slot.type)]
    cases keys with
    | nil => simp [slots_accept_nil_cons]
    | cons k ks =>
      simp only [slots_accept_cons, Bool.and_eq_true, decide_eq_true_eq]

/-- The forms below a mnemonic after `opcode_tree_build`. -/
theorem opcode_tree_build_insts (heap : opcode_heap) (root : amd64_opcode_tree_node_t)
    (inst : opcode_ref) (name : String) (keys : List table_key) :
    node_insts (opcode_tree_build heap root inst) (.name name :: keys) =
      node_insts root (.name name :: keys) ++
        (if (decide ((heap inst).group = name) && slots_accept keys (heap inst).operands) = true
          then [inst] else []) := by
  unfold opcode_tree_build
  simp only
  rw [node_insts_set, opcode_find_succs_insts]
  by_cases hn : (heap inst).group = name
  · subst hn
    simp only [if_true, decide_True, Bool.true_and]
    rw [node_insts_cons]
  · have hn' : ¬ table_key.name (heap inst).group = table_key.name name := by
      intro e
      exact hn (table_key.name.inj e)
    simp [hn, hn']

/-- The forms below a mnemonic in the trie built from a registration sequence. -/
theorem opcode_tree_of_insts (heap : opcode_heap) (regs : List opcode_ref) (name : String)
    (keys : List table_key) :
    node_insts (opcode_tree_of heap regs) (.name name :: keys) =
      spec_candidates heap regs name keys := by
  have main : ∀ (l : List opcode_ref) (root : amd64_opcode_tree_node_t),
      node_insts (l.foldl (opcode_tree_build heap) root) (.name name :: keys) =
        node_insts root (.name name :: keys) ++ spec_candidates heap l name keys := by
    intro l
    induction l with
    | nil => intro root; simp [spec_candidates]
    | cons f l ih =>
      intro root
      simp only [List.foldl_cons]
      rw [ih, opcode_tree_build_insts, List.append_assoc]
      congr 1
      simp only [spec_candidates, List.filter_cons]
      split <;> rfl
  unfold opcode_tree_of
  rw [main, node_insts_new, List.nil_append]

theorem select_candidates_insts (root : amd64_opcode_tree_node_t) (name : String)
    (keys : List table_key) :
    (select_candidates root name keys).getD [] = node_insts root (.name name :: keys) := by
  unfold select_candidates node_insts
  simp only [walk_keys]
  cases table_get root.succs (.name name) <;> rfl
/-! ## The sort: ascending and stable -/

/-- One pass over a front of `f.length + 1` forms moves a form of maximal ordinal to the end
of the front and leaves the rest of the list alone; a pass without a swap has met a sorted
front. -/
theorem opcode_sort_pass_front (heap : opcode_heap) (f : List opcode_ref) :
    ∀ (a : opcode_ref) (back : List opcode_ref),
      ∃ f' m,
        (opcode_sort_pass heap f.length (a :: f ++ back)).1 = f' ++ m :: back ∧
          (f' ++ [m]).Perm (a :: f) ∧
          (∀ x ∈ f', first_operand_ord heap x ≤ first_operand_ord heap m) ∧
          ((opcode_sort_pass heap f.length (a :: f ++ back)).2 = false →
            (opcode_sort_pass heap f.length (a :: f ++ back)).1 = a :: f ++ back ∧
              List.Pairwise (fun x y => first_operand_ord heap x ≤ first_operand_ord heap y)
                (a :: f)) := by
  induction f with
  | nil =>
    intro a back
    refine ⟨[], a, ?_, List.Perm.refl _, ?_, ?_⟩
    · simp [opcode_sort_pass]
    · intro x hx; cases hx
    · intro _
      simp [opcode_sort_pass]
  | cons b g ih =>
    intro a back
    simp only [List.length_cons, List.cons_append, opcode_sort_pass, List.append_eq]
    by_cases hab : first_operand_ord heap a > first_operand_ord heap b
    · obtain ⟨g', m, h1, h2, h3, -⟩ := ih a back
      simp only [List.cons_append] at h1
      simp only [hab, if_true]
      refine ⟨b :: g', m, ?_, ?_, ?_, ?_⟩
      · simp [h1]
      · exact ((h2.cons b).trans (List.Perm.swap a b g))
      · intro x hx
        have ham : first_operand_ord heap a ≤ first_operand_ord heap m := by
          have : a ∈ g' ++ [m] := h2.symm.subset (List.mem_cons_self _ _)
          simp only [List.mem_append, List.mem_singleton] at this
          rcases this with h | h
          · exact h3 a h
          · rw [h]
        rcases List.mem_cons.mp hx with h | h
        · rw [h]; omega
        · exact h3 x h
      · intro h
        cases h
    · obtain ⟨g', m, h1, h2, h3, h4⟩ := ih b back
      simp only [List.cons_append] at h1 h4
      simp only [hab, if_false]
      have hbm : first_operand_ord heap b ≤ first_operand_ord heap m := by
        have : b ∈ g' ++ [m] := h2.symm.subset (List.mem_cons_self _ _)
        simp only [List.mem_append, List.mem_singleton] at this
        rcases this with h | h
        · exact h3 b h
        · rw [h]
      refine ⟨a :: g', m, ?_, ?_, ?_, ?_⟩
      · simp [h1]
      · exact h2.cons a
      · intro x hx
        rcases List.mem_cons.mp hx with h | h
        · rw [h]; omega
        · exact h3 x h
      · intro hflag
        obtain ⟨e1, e2⟩ := h4 hflag
        refine ⟨by rw [e1], ?_⟩
        rw [List.pairwise_cons]
        refine ⟨?_, e2⟩
        intro y hy
        rcases List.mem_cons.mp hy with h | h
        · rw [h]; omega
        · have := (List.pairwise_cons.mp e2).1 y h
          omega

/-- The outer loop sorts a list whose back is sorted and above the front. -/
theorem opcode_sort_loop_sorted (heap : opcode_heap) (n : Nat) :
    ∀ (front back : List opcode_ref), front.length = n + 1 →
      List.Pairwise (fun x y => first_operand_ord heap x ≤ first_operand_ord heap y) back →
      (∀ x ∈ front, ∀ y ∈ back, first_operand_ord heap x ≤ first_operand_ord heap y) →
      List.Pairwise (fun x y => first_operand_ord heap x ≤ first_operand_ord heap y)
        (opcode_sort_loop heap n (front ++ back)) := by
  induction n with
  | zero =>
    intro front back hlen hb hfb
    match front, hlen with
    | [a], _ =>
      simp only [opcode_sort_loop, List.singleton_append, List.pairwise_cons]
      exact ⟨fun y hy => hfb a (List.mem_singleton.mpr rfl) y hy, hb⟩
  | succ n ih =>
    intro front back hlen hb hfb
    match front, hlen with
    | a :: f, hlen =>
      have hf : f.length = n + 1 := by simpa using hlen
      obtain ⟨f', m, h1, h2, h3, h4⟩ := opcode_sort_pass_front heap f a back
      rw [hf] at h1 h4
      simp only [opcode_sort_loop]
      have hmem : ∀ x, x ∈ f' ++ [m] → x ∈ a :: f := fun x hx => h2.subset hx
      by_cases hflag : (opcode_sort_pass heap (n + 1) (a :: f ++ back)).2 = true
      · simp only [List.cons_append] at h1 hflag
        simp only [List.cons_append, hflag, if_true, h1]
        have hlen' : f'.length = n + 1 := by
          have := h2.length_eq
          simp only [List.length_append, List.length_singleton, List.length_cons,
            List.length_nil] at this
          omega
        apply ih f' (m :: back) hlen'
        · rw [List.pairwise_cons]
          exact ⟨fun y hy => hfb m (hmem m (by simp)) y hy, hb⟩
        · intro x hx y hy
          rcases List.mem_cons.mp hy with h | h
          · rw [h]; exact h3 x hx
          · exact hfb x (hmem x (by simp [hx])) y h
      · have hflag' : (opcode_sort_pass heap (n + 1) (a :: f ++ back)).2 = false := by
          simpa using hflag
        obtain ⟨e1, e2⟩ := h4 hflag'
        simp only [List.cons_append] at e1 hflag'
        simp only [List.cons_append, hflag', Bool.false_eq_true, if_false, e1]
        rw [← List.cons_append, List.pairwise_append]
        exact ⟨e2, hb, hfb⟩

/-- The result of `opcode_sort_insts` is ascending in the kind of the first operand. -/
theorem opcode_sort_insts_sorted (heap : opcode_heap) (l : List opcode_ref) :
    List.Pairwise (fun x y => first_operand_ord heap x ≤ first_operand_ord heap y)
      (opcode_sort_insts heap l) := by
  unfold opcode_sort_insts
  split
  · rename_i h
    rw [List.length_eq_zero.mp h]
    exact List.Pairwise.nil
  · rename_i h
    have := opcode_sort_loop_sorted heap (l.length - 1) l [] (by omega) List.Pairwise.nil
      (fun _ _ y hy => by cases hy)
    simpa using this

theorem opcode_sort_pass_stable (heap : opcode_heap) (v : Nat) (n : Nat) :
    ∀ l : List opcode_ref,
      (opcode_sort_pass heap n l).1.filter (fun x => decide (first_operand_ord heap x = v)) =
        l.filter (fun x => decide (first_operand_ord heap x = v)) := by
  induction n with
  | zero => intro l; simp [opcode_sort_pass]
  | succ n ih =>
    intro l
    match l with
    | [] => simp [opcode_sort_pass]
    | [a] => simp [opcode_sort_pass]
    | a :: b :: rest =>
      simp only [opcode_sort_pass]
      split
      · rename_i hab
        simp only [List.filter_cons, ih]
        by_cases ha : first_operand_ord heap a = v <;>
          by_cases hb : first_operand_ord heap b = v <;> simp [ha, hb]
        omega
      · simp only [List.filter_cons, ih]

theorem opcode_sort_loop_stable (heap : opcode_heap) (v : Nat) (k : Nat) :
    ∀ l : List opcode_ref,
      (opcode_sort_loop heap k l).filter (fun x => decide (first_operand_ord heap x = v)) =
        l.filter (fun x => decide (first_operand_ord heap x = v)) := by
  induction k with
  | zero => intro l; simp [opcode_sort_loop]
  | succ k ih =>
    intro l
    simp only [opcode_sort_loop]
    split
    · rw [ih, opcode_sort_pass_stable]
    · rw [opcode_sort_pass_stable]

/-- Forms of equal ordinal keep their relative order through `opcode_sort_insts`. -/
theorem opcode_sort_insts_stable (heap : opcode_heap) (v : Nat) (l : List opcode_ref) :
    (opcode_sort_insts heap l).filter (fun x => decide (first_operand_ord heap x = v)) =
      l.filter (fun x => decide (first_operand_ord heap x = v)) := by
  unfold opcode_sort_insts
  split
  · rfl
  · exact opcode_sort_loop_stable heap v _ l
/-! ## Selection in terms of the registration sequence -/

theorem survives_eq (heap : opcode_heap) (inst : amd64_asm_inst_t) :
    (fun f => !((select_flags_all inst.operands (false, false)).2 &&
      has_rex_extension (heap f).extensions)) = survives heap inst := by
  funext f
  rw [select_flags_all_snd]
  rfl

theorem select_finish_nil (heap : opcode_heap) (inst : amd64_asm_inst_t) (flags : Bool × Bool) :
    select_finish heap inst [] flags = none := rfl

/-- The selector in one expression: filter the candidates, sort, take the first. -/
theorem opcode_select_getD (heap : opcode_heap) (root : amd64_opcode_tree_node_t)
    (inst : amd64_asm_inst_t) :
    opcode_select heap root inst =
      match opcode_sort_insts heap
          (((select_candidates root inst.name (inst.operands.map operand_key)).getD []).filter
            (survives heap inst)) with
      | [] => none
      | f :: _ =>
        some (f, { inst with need_rex_ext := (select_flags_all inst.operands (false, false)).1 }) := by
  rw [opcode_select_eq]
  cases select_candidates root inst.name (inst.operands.map operand_key) with
  | none => rfl
  | some temps =>
    simp only [select_finish, survives_eq, Option.getD_some]

/-- The selector on the trie built from a registration sequence. -/
theorem opcode_select_tree (heap : opcode_heap) (regs : List opcode_ref)
    (inst : amd64_asm_inst_t) :
    opcode_select heap (opcode_tree_of heap regs) inst =
      match opcode_sort_insts heap
          ((spec_candidates heap regs inst.name (inst.operands.map operand_key)).filter
            (survives heap inst)) with
      | [] => none
      | f :: _ =>
        some (f, { inst with need_rex_ext := (select_flags_all inst.operands (false, false)).1 }) := by
  rw [opcode_select_getD, select_candidates_insts, opcode_tree_of_insts]

/-- The first form of the sorted list: the first of the input among those of least ordinal. -/
theorem opcode_sort_insts_head (heap : opcode_heap) (l rest : List opcode_ref) (x : opcode_ref)
    (h : opcode_sort_insts heap l = x :: rest) :
    ∃ pre post, l = pre ++ x :: post ∧
      (∀ g ∈ pre, first_operand_ord heap x < first_operand_ord heap g) ∧
      (∀ g ∈ post, first_operand_ord heap x ≤ first_operand_ord heap g) := by
  have hs := opcode_sort_insts_sorted heap l
  have hp := opcode_sort_insts_perm heap l
  have hst := opcode_sort_insts_stable heap (first_operand_ord heap x) l
  rw [h] at hs hp hst
  have hmin : ∀ g ∈ l, first_operand_ord heap x ≤ first_operand_ord heap g := by
    intro g hg
    have hg' : g ∈ x :: rest := hp.symm.subset hg
    rcases List.mem_cons.mp hg' with e | e
    · rw [e]
    · exact (List.pairwise_cons.mp hs).1 g e
  simp only [List.filter_cons, decide_True, if_true] at hst
  obtain ⟨pre, post, e1, e2, -, -⟩ := List.filter_eq_cons_iff.mp hst.symm
  refine ⟨pre, post, e1, ?_, ?_⟩
  · intro g hg
    have h1 := hmin g (by rw [e1]; simp [hg])
    have h2 := e2 g hg
    simp only [decide_eq_true_eq] at h2
    omega
  · intro g hg
    exact hmin g (by rw [e1]; simp [hg])

/-- C25. `opcode_sort_insts` is a stable ascending sort on the kind of the first operand: for
every list of forms the result is a permutation of the input, the ordinals of the first
operands are non-decreasing along it, and for every ordinal the forms of that ordinal occur
in the same order as in the input. -/
theorem C25_sort_stable_ascending (heap : opcode_heap) (l : List opcode_ref) :
    (opcode_sort_insts heap l).Perm l ∧
      List.Pairwise (fun x y => first_operand_ord heap x ≤ first_operand_ord heap y)
        (opcode_sort_insts heap l) ∧
      ∀ v : Nat,
        (opcode_sort_insts heap l).filter (fun x => decide (first_operand_ord heap x = v)) =
          l.filter (fun x => decide (first_operand_ord heap x = v)) :=
  ⟨opcode_sort_insts_perm heap l, opcode_sort_insts_sorted heap l,
    fun v => opcode_sort_insts_stable heap v l⟩

/-- The sort on four forms of `mov`: the two `RM8` forms come first, in their input order,
then the two `R8` forms, in theirs. -/
theorem sort_examples :
    opcode_sort_insts static_insts [.mov_r8_rm8, .mov_rex_rm8_r8, .mov_rex_r8_rm8, .mov_rm8_r8] =
      [.mov_rex_rm8_r8, .mov_rm8_r8, .mov_r8_rm8, .mov_rex_r8_rm8] := by
  decide!

/-- C26. After `amd64_opcode_init`, for every mnemonic and every sequence of operand keys,
the candidate list reached by the trie walk of `opcode_select` (empty when the walk fails) is
the list, in registration order and with multiplicity, of the registered forms whose group is
the mnemonic, which have as many operand slots as there are keys, and each of whose slots
lists the key at its position in `operand_low_to_high`. -/
theorem C26_candidates_refine_spec (name : String) (keys : List table_key) :
    (select_candidates opcode_tree_root name keys).getD [] =
      spec_candidates static_insts registered_insts name keys := by
  rw [select_candidates_insts, opcode_tree_root_eq, opcode_tree_of_insts]

/-- The candidates of `mov` with two byte registers, in registration order, and those of
`cmp` with two 64-bit registers: `cmp_r64_rm64` is registered twice and found twice. -/
theorem candidates_examples :
    select_candidates opcode_tree_root "mov" [.operand .REG 1, .operand .REG 1] =
        some [.mov_rex_rm8_r8, .mov_rm8_r8, .mov_rex_r8_rm8, .mov_r8_rm8] ∧
      spec_candidates static_insts registered_insts "mov" [.operand .REG 1, .operand .REG 1] =
        [.mov_rex_rm8_r8, .mov_rm8_r8, .mov_rex_r8_rm8, .mov_r8_rm8] ∧
      select_candidates opcode_tree_root "cmp" [.operand .REG 8, .operand .REG 8] =
        some [.cmp_r64_rm64, .cmp_r64_rm64] ∧
      select_candidates opcode_tree_root "mov" [.operand .UINT8 1] = none ∧
      spec_candidates static_insts registered_insts "mov" [.operand .UINT8 1] = [] := by
  decide!
/-! ## Which form wins, and what the registration order decides -/

theorem opcode_select_tree_none (heap : opcode_heap) (regs : List opcode_ref)
    (inst : amd64_asm_inst_t) :
    opcode_select heap (opcode_tree_of heap regs) inst = none ↔
      (spec_candidates heap regs inst.name (inst.operands.map operand_key)).filter
        (survives heap inst) = [] := by
  rw [opcode_select_tree, ← opcode_sort_insts_nil heap]
  cases opcode_sort_insts heap
      ((spec_candidates heap regs inst.name (inst.operands.map operand_key)).filter
        (survives heap inst)) with
  | nil => simp
  | cons x rest => simp

theorem opcode_select_tree_some (heap : opcode_heap) (regs : List opcode_ref)
    (inst inst' : amd64_asm_inst_t) (form : opcode_ref)
    (h : opcode_select heap (opcode_tree_of heap regs) inst = some (form, inst')) :
    inst' = { inst with need_rex_ext := (select_flags_all inst.operands (false, false)).1 } ∧
      ∃ pre post,
        (spec_candidates heap regs inst.name (inst.operands.map operand_key)).filter
            (survives heap inst) = pre ++ form :: post ∧
          (∀ g ∈ pre, first_operand_ord heap form < first_operand_ord heap g) ∧
          (∀ g ∈ post, first_operand_ord heap form ≤ first_operand_ord heap g) := by
  rw [opcode_select_tree] at h
  cases hs : opcode_sort_insts heap
      ((spec_candidates heap regs inst.name (inst.operands.map operand_key)).filter
        (survives heap inst)) with
  | nil => simp [hs] at h
  | cons x rest =>
    simp only [hs, Option.some.injEq, Prod.mk.injEq] at h
    obtain ⟨rfl, rfl⟩ := h
    exact ⟨rfl, opcode_sort_insts_head heap _ rest x hs⟩

/-- C24. When `opcode_select` succeeds, the list of the candidates of the reached leaf that
survive the high-byte filter, which is in registration order, splits around the returned
form: every surviving candidate before it has a strictly greater ordinal of the first
operand's kind, every one after it an ordinal at least as great. So the returned form has the
least ordinal and is the earliest registered among the survivors of that ordinal. -/
theorem C24_select_minimal_earliest (inst inst' : amd64_asm_inst_t) (form : opcode_ref)
    (hsel : opcode_select static_insts opcode_tree_root inst = some (form, inst')) :
    ∃ temps pre post,
      select_candidates opcode_tree_root inst.name (inst.operands.map operand_key)
          = some temps ∧
        temps = spec_candidates static_insts registered_insts inst.name
          (inst.operands.map operand_key) ∧
        temps.filter (survives static_insts inst) = pre ++ form :: post ∧
        (∀ g ∈ pre, first_operand_ord static_insts form < first_operand_ord static_insts g) ∧
        (∀ g ∈ post, first_operand_ord static_insts form ≤ first_operand_ord static_insts g) := by
  obtain ⟨temps, hc, -⟩ := opcode_select_some _ _ _ _ _ hsel
  have ht : temps = spec_candidates static_insts registered_insts inst.name
      (inst.operands.map operand_key) := by
    have := select_candidates_insts opcode_tree_root inst.name (inst.operands.map operand_key)
    rw [hc, opcode_tree_root_eq, opcode_tree_of_insts] at this
    exact this
  rw [opcode_tree_root_eq] at hsel
  obtain ⟨-, pre, post, h1, h2, h3⟩ := opcode_select_tree_some _ _ _ _ _ hsel
  exact ⟨temps, pre, post, hc, ht, by rw [ht]; exact h1, h2, h3⟩

/-- Witness of C24: `mov al, bl`, for which `mov_rex_rm8_r8` is returned. -/
theorem C24_select_minimal_earliest_witness :
    opcode_select static_insts opcode_tree_root mov_al_bl = some (.mov_rex_rm8_r8, mov_al_bl) ∧
      ∃ temps pre post,
        select_candidates opcode_tree_root mov_al_bl.name (mov_al_bl.operands.map operand_key)
            = some temps ∧
          temps = spec_candidates static_insts registered_insts mov_al_bl.name
            (mov_al_bl.operands.map operand_key) ∧
          temps.filter (survives static_insts mov_al_bl) = pre ++ .mov_rex_rm8_r8 :: post ∧
          (∀ g ∈ pre, first_operand_ord static_insts .mov_rex_rm8_r8 <
            first_operand_ord static_insts g) ∧
          (∀ g ∈ post, first_operand_ord static_insts .mov_rex_rm8_r8 ≤
            first_operand_ord static_insts g) :=
  ⟨by decide!, C24_select_minimal_earliest mov_al_bl mov_al_bl .mov_rex_rm8_r8 (by decide!)⟩

/-- C21, as it fails: with the registration sequence of `amd64_opcode_init` reversed, which
is a permutation of it, `mov al, bl` selects `mov_rm8_r8` instead of `mov_rex_rm8_r8`. -/
theorem C21_order_matters_counterexample :
    registered_insts.reverse.Perm registered_insts ∧
      opcode_select static_insts (opcode_tree_of static_insts registered_insts) mov_al_bl =
        some (.mov_rex_rm8_r8, mov_al_bl) ∧
      opcode_select static_insts (opcode_tree_of static_insts registered_insts.reverse)
          mov_al_bl = some (.mov_rm8_r8, mov_al_bl) :=
  ⟨List.reverse_perm _, by decide!, by decide!⟩

/-- C21, amended. The registration order decides only ties: for every permutation of the
registration sequence and every instruction, selection fails in both cases or in neither;
when it succeeds the instruction comes back the same and the two returned forms have the same
ordinal of the first operand's kind, each being a surviving candidate of the other trie; and
they are the same form whenever no other surviving candidate has that ordinal. -/
theorem C21_order_independence_amended (heap : opcode_heap) (regs regs' : List opcode_ref)
    (hp : regs'.Perm regs) (inst : amd64_asm_inst_t) :
    (opcode_select heap (opcode_tree_of heap regs') inst = none ↔
      opcode_select heap (opcode_tree_of heap regs) inst = none) ∧
      ∀ (f f' : opcode_ref) (i i' : amd64_asm_inst_t),
        opcode_select heap (opcode_tree_of heap regs) inst = some (f, i) →
        opcode_select heap (opcode_tree_of heap regs') inst = some (f', i') →
        i' = i ∧ first_operand_ord heap f' = first_operand_ord heap f ∧
          f' ∈ (spec_candidates heap regs inst.name (inst.operands.map operand_key)).filter
            (survives heap inst) ∧
          ((∀ g ∈ (spec_candidates heap regs inst.name (inst.operands.map operand_key)).filter
              (survives heap inst),
            first_operand_ord heap g = first_operand_ord heap f → g = f) → f' = f) := by
  have hperm : ((spec_candidates heap regs' inst.name (inst.operands.map operand_key)).filter
      (survives heap inst)).Perm
      ((spec_candidates heap regs inst.name (inst.operands.map operand_key)).filter
        (survives heap inst)) := by
    unfold spec_candidates
    exact (hp.filter _).filter _
  constructor
  · rw [opcode_select_tree_none, opcode_select_tree_none]
    constructor
    · intro h
      rw [h] at hperm
      exact hperm.symm.eq_nil
    · intro h
      rw [h] at hperm
      exact hperm.eq_nil
  · intro f f' i i' h h'
    obtain ⟨hi, pre, post, e1, e2, e3⟩ := opcode_select_tree_some _ _ _ _ _ h
    obtain ⟨hi', pre', post', e1', e2', e3'⟩ := opcode_select_tree_some _ _ _ _ _ h'
    have hmin : ∀ g ∈ (spec_candidates heap regs inst.name
        (inst.operands.map operand_key)).filter (survives heap inst),
        first_operand_ord heap f ≤ first_operand_ord heap g := by
      intro g hg
      rw [e1] at hg
      simp only [List.mem_append, List.mem_cons] at hg
      rcases hg with hg | rfl | hg
      · exact Nat.le_of_lt (e2 g hg)
      · exact Nat.le_refl _
      · exact e3 g hg
    have hmin' : ∀ g ∈ (spec_candidates heap regs' inst.name
        (inst.operands.map operand_key)).filter (survives heap inst),
        first_operand_ord heap f' ≤ first_operand_ord heap g := by
      intro g hg
      rw [e1'] at hg
      simp only [List.mem_append, List.mem_cons] at hg
      rcases hg with hg | rfl | hg
      · exact Nat.le_of_lt (e2' g hg)
      · exact Nat.le_refl _
      · exact e3' g hg
    have hf : f ∈ (spec_candidates heap regs inst.name
        (inst.operands.map operand_key)).filter (survives heap inst) := by
      rw [e1]; simp
    have hf' : f' ∈ (spec_candidates heap regs' inst.name
        (inst.operands.map operand_key)).filter (survives heap inst) := by
      rw [e1']; simp
    have hord : first_operand_ord heap f' = first_operand_ord heap f :=
      Nat.le_antisymm (hmin' f (hperm.symm.subset hf)) (hmin f' (hperm.subset hf'))
    exact ⟨by rw [hi, hi'], hord, hperm.subset hf', fun huniq => huniq f' (hperm.subset hf') hord⟩

/-- Witness of the amended C21: the reversed registration sequence and `mov rax, [rbx]`. -/
theorem C21_order_independence_amended_witness :
    registered_insts.reverse.Perm registered_insts ∧
      (opcode_select static_insts (opcode_tree_of static_insts registered_insts.reverse)
          mov_rax_mem_rbx = none ↔
        opcode_select static_insts (opcode_tree_of static_insts registered_insts)
          mov_rax_mem_rbx = none) ∧
      ∀ (f f' : opcode_ref) (i i' : amd64_asm_inst_t),
        opcode_select static_insts (opcode_tree_of static_insts registered_insts)
            mov_rax_mem_rbx = some (f, i) →
        opcode_select static_insts (opcode_tree_of static_insts registered_insts.reverse)
            mov_rax_mem_rbx = some (f', i') →
        i' = i ∧ first_operand_ord static_insts f' = first_operand_ord static_insts f ∧
          f' ∈ (spec_candidates static_insts registered_insts mov_rax_mem_rbx.name
            (mov_rax_mem_rbx.operands.map operand_key)).filter
              (survives static_insts mov_rax_mem_rbx) ∧
          ((∀ g ∈ (spec_candidates static_insts registered_insts mov_rax_mem_rbx.name
              (mov_rax_mem_rbx.operands.map operand_key)).filter
                (survives static_insts mov_rax_mem_rbx),
            first_operand_ord static_insts g = first_operand_ord static_insts f → g = f) →
            f' = f) :=
  ⟨List.reverse_perm _,
    C21_order_independence_amended static_insts registered_insts registered_insts.reverse
      (List.reverse_perm _) mov_rax_mem_rbx⟩

/-- The same form in both orders when there is no tie: `mov rax, [rbx]`. -/
theorem order_examples :
    opcode_select static_insts (opcode_tree_of static_insts registered_insts) mov_rax_mem_rbx =
        some (.mov_r64_rm64, mov_rax_mem_rbx) ∧
      opcode_select static_insts (opcode_tree_of static_insts registered_insts.reverse)
          mov_rax_mem_rbx = some (.mov_r64_rm64, mov_rax_mem_rbx) := by
  decide!
/-! ## Calls that run in parallel -/

/-- `opcode_fill` is its store followed by its rest. -/
theorem opcode_fill_split (heap : opcode_heap) (inst : opcode_ref) (asm_inst : amd64_asm_inst_t) :
    opcode_fill heap inst asm_inst =
      (opcode_fill_rest (fill_heap heap inst asm_inst) inst asm_inst).map
        (fun format => (fill_heap heap inst asm_inst, format)) := by
  simp only [opcode_fill, opcode_fill_rest, (fill_heap_fields heap inst asm_inst).2.2]
  cases fill_operands (fill_exts (fill_heap heap inst asm_inst inst) asm_inst)
    (List.foldl build_ext
      (if (fill_heap heap inst asm_inst inst).prefix_byte > 0 then
        { inst_format_new (heap inst).opcode with
          op_id := asm_inst.op_id,
          prefix_byte := (fill_heap heap inst asm_inst inst).prefix_byte }
      else { inst_format_new (heap inst).opcode with op_id := asm_inst.op_id })
      (fill_exts (fill_heap heap inst asm_inst inst) asm_inst))
    (List.take 4 (fill_heap heap inst asm_inst inst).operands) asm_inst.operands <;> rfl

/-- A call that runs alone makes its three steps and returns what
`amd64_asm_inst_encoding` returns. -/
theorem thread_alone (heap : opcode_heap) (root : amd64_opcode_tree_node_t)
    (inst : amd64_asm_inst_t) :
    (run_schedule root [0, 0, 0] (heap, [.ready inst])).2.map thread_result =
      [some ((amd64_asm_inst_encoding heap root inst).map (fun p => p.2))] := by
  simp only [run_schedule, List.getElem?_cons_zero, thread_step, amd64_asm_inst_encoding]
  cases hsel : opcode_select heap root inst with
  | none => simp [run_schedule, thread_step, thread_result]
  | some p =>
    obtain ⟨form, inst'⟩ := p
    simp only [List.set_cons_zero, List.getElem?_cons_zero, thread_step, opcode_fill_split]
    cases hrest : opcode_fill_rest (fill_heap heap form inst') form inst' with
    | none => simp [run_schedule, thread_step, thread_result, hrest]
    | some format => simp [run_schedule, thread_step, thread_result, hrest]

/-- C23, the code at the failing input. Two calls run in parallel from the state after
`amd64_opcode_init`. When the store of `lock add [rax], rbx` falls between the selection and
the rest of `add [rax], rbx`, the latter returns `F0 48 01 18`; alone it returns `48 01 18`.
When the stores of `lock add [rax], rbx` and of the same instruction with prefix `66` fall in
this order before the rest of the first, the first returns `66 48 01 18`; alone it returns
`F0 48 01 18`. -/
theorem C23_interleaving_changes_bytes :
    ((run_schedule opcode_tree_root [0, 1, 1, 0, 0, 1]
          (static_insts, [.ready add_mem_rax_rbx, .ready lock_add_mem_rax_rbx])).2.map
        thread_result =
        [some (some (.add_rm64_r64, [0xF0, 0x48, 0x01, 0x18])),
          some (some (.add_rm64_r64, [0xF0, 0x48, 0x01, 0x18]))] ∧
      (run_schedule opcode_tree_root [0, 0, 0] (static_insts, [.ready add_mem_rax_rbx])).2.map
        thread_result = [some (some (.add_rm64_r64, [0x48, 0x01, 0x18]))]) ∧
      ((run_schedule opcode_tree_root [0, 1, 0, 1, 0, 1]
          (static_insts, [.ready lock_add_mem_rax_rbx, .ready data16_add_mem_rax_rbx])).2.map
        thread_result =
        [some (some (.add_rm64_r64, [0x66, 0x48, 0x01, 0x18])),
          some (some (.add_rm64_r64, [0x66, 0x48, 0x01, 0x18]))] ∧
      (run_schedule opcode_tree_root [0, 0, 0]
          (static_insts, [.ready lock_add_mem_rax_rbx])).2.map
        thread_result = [some (some (.add_rm64_r64, [0xF0, 0x48, 0x01, 0x18]))]) :=
  ⟨⟨by decide!, by decide!⟩, ⟨by decide!, by decide!⟩⟩

/-! ## Operands a role cannot consume -/

/-- A direct call of the operand loop on a pair the selector never forms: a `SIB_REG`
operand in a slot of role `MODRM_REG`, `OPCODE_PLUS` or `VEX_VVVV`, and a `RIP_RELATIVE`
operand in a slot of role `OPCODE_PLUS` or `VEX_VVVV`, are skipped, the turn returns the
record unchanged, and `opcode_fill` on `push_r64` with `[rax + rbx*4 + 8]` or `[rip + 16]`
returns the record of `push rax`, byte `50`. A `DISP_REG` operand in a slot of role
`MODRM_REG`, `OPCODE_PLUS` or `VEX_VVVV` and an `INDIRECT_REG` operand in a slot of role
`OPCODE_PLUS` or `VEX_VVVV` do stop the call. -/
theorem unconsumed_operand_direct_call (exts : List opcode_ext)
    (format : amd64_binary_format_t) (type : inst_operand_type) (size : Nat)
    (base index : Option reg_t) (scale : Nat) (reg : reg_t) (d : Int) :
    (fill_operand exts format ⟨type, .MODRM_REG⟩ ⟨size, .sib_reg base index scale d⟩
        = some format ∧
      fill_operand exts format ⟨type, .OPCODE_PLUS⟩ ⟨size, .sib_reg base index scale d⟩
        = some format ∧
      fill_operand exts format ⟨type, .VEX_VVVV⟩ ⟨size, .sib_reg base index scale d⟩
        = some format ∧
      fill_operand exts format ⟨type, .OPCODE_PLUS⟩ ⟨size, .rip_relative d⟩ = some format ∧
      fill_operand exts format ⟨type, .VEX_VVVV⟩ ⟨size, .rip_relative d⟩ = some format) ∧
      ((opcode_fill static_insts .push_r64 push_sib).map
          (fun p => opcode_format_encoding p.2) = some [0x50] ∧
        (opcode_fill static_insts .push_r64 push_rip).map
          (fun p => opcode_format_encoding p.2) = some [0x50]) ∧
      (fill_operand exts format ⟨type, .MODRM_REG⟩ ⟨size, .disp_reg reg d⟩ = none ∧
        fill_operand exts format ⟨type, .OPCODE_PLUS⟩ ⟨size, .disp_reg reg d⟩ = none ∧
        fill_operand exts format ⟨type, .VEX_VVVV⟩ ⟨size, .disp_reg reg d⟩ = none ∧
        fill_operand exts format ⟨type, .OPCODE_PLUS⟩ ⟨size, .indirect_reg reg⟩ = none ∧
        fill_operand exts format ⟨type, .VEX_VVVV⟩ ⟨size, .indirect_reg reg⟩ = none) := by
  refine ⟨⟨rfl, rfl, rfl, rfl, rfl⟩, by decide!, ⟨rfl, rfl, rfl, rfl, rfl⟩⟩

/-- A failing turn stops the operand loop, whatever comes after it. -/
theorem fill_operands_stops (exts : List opcode_ext) (format : amd64_binary_format_t)
    (slot : opcode_operand_t) (op : amd64_asm_operand_t) (slots : List opcode_operand_t)
    (ops : List amd64_asm_operand_t) (h : fill_operand exts format slot op = none) :
    fill_operands exts format (slot :: slots) (op :: ops) = none := by
  simp [fill_operands, h]

/-! ## Slots and operands of accepted instructions -/

theorem has_64_reg_iff (r : reg_t) :
    has_64_reg r = true ↔ r.index ≥ 8 ∨ r.name ∈ ["spl", "bpl", "sil", "dil"] := by
  simp only [List.mem_cons, List.mem_singleton, List.not_mem_nil, or_false]
  unfold has_64_reg str_equal
  constructor
  · intro h
    split_ifs at h with h1 h2 h3 h4 h5
    · exact Or.inr (Or.inl (by simpa using h1))
    · exact Or.inr (Or.inr (Or.inl (by simpa using h2)))
    · exact Or.inr (Or.inr (Or.inr (Or.inl (by simpa using h3))))
    · exact Or.inr (Or.inr (Or.inr (Or.inr (by simpa using h4))))
    · exact Or.inl h5
  · rintro (h | h | h | h | h) <;> simp [h]

/-- The registers that `opcode_select` inspects in an operand, kind by kind. -/
theorem mem_operand_regs (op : amd64_asm_operand_t) (r : reg_t) :
    r ∈ operand_regs op ↔
      op.value = .reg r ∨ (∃ d, op.value = .disp_reg r d) ∨ op.value = .indirect_reg r ∨
        (∃ i s d, op.value = .sib_reg (some r) i s d) ∨
        (∃ b s d, op.value = .sib_reg b (some r) s d) := by
  obtain ⟨size, value⟩ := op
  cases value with
  | sib_reg b i s d =>
    cases b <;> cases i <;> simp [operand_regs, select_regs, eq_comm]
  | _ => simp [operand_regs, select_regs, eq_comm]

/-- C27. On success `opcode_select` hands the instruction back with `need_rex_ext` set if
and only if some register it inspects (that of a `REG`, `DISP_REG` or `INDIRECT_REG` operand,
the base or the index of a `SIB_REG` operand) has index at least 8 or is named spl, bpl, sil
or dil. The instruction handed back is computed from the operands alone, whatever the form. -/
theorem C27_need_rex_ext_iff (heap : opcode_heap) (root : amd64_opcode_tree_node_t)
    (inst inst' : amd64_asm_inst_t) (form : opcode_ref)
    (hsel : opcode_select heap root inst = some (form, inst')) :
    (inst'.need_rex_ext = true ↔
      ∃ op ∈ inst.operands, ∃ r : reg_t,
        (op.value = .reg r ∨ (∃ d, op.value = .disp_reg r d) ∨ op.value = .indirect_reg r ∨
          (∃ i s d, op.value = .sib_reg (some r) i s d) ∨
          (∃ b s d, op.value = .sib_reg b (some r) s d)) ∧
        (r.index ≥ 8 ∨ r.name ∈ ["spl", "bpl", "sil", "dil"])) ∧
      inst' = { inst with
        need_rex_ext := inst.operands.any (fun op => (operand_regs op).any has_64_reg) } := by
  obtain ⟨-, -, -, -, hinst⟩ := opcode_select_some heap root inst inst' form hsel
  have hneed : inst'.need_rex_ext = (select_flags_all inst.operands (false, false)).1 := by
    rw [hinst]
  constructor
  · rw [hneed, flags_fst_iff]
    constructor
    · rintro ⟨op, hop, r, hr, h64⟩
      exact ⟨op, hop, r, (mem_operand_regs op r).mp hr, (has_64_reg_iff r).mp h64⟩
    · rintro ⟨op, hop, r, hr, h64⟩
      exact ⟨op, hop, r, (mem_operand_regs op r).mpr hr, (has_64_reg_iff r).mpr h64⟩
  · rw [hinst, select_flags_all_fst]
    rfl

/-- Witness of C27: `movzx eax, spl`. -/
theorem C27_need_rex_ext_iff_witness :
    opcode_select static_insts opcode_tree_root movzx_eax_spl =
        some (.movzx_r32_rm8, { movzx_eax_spl with need_rex_ext := true }) ∧
      (({ movzx_eax_spl with need_rex_ext := true } : amd64_asm_inst_t).need_rex_ext = true ↔
        ∃ op ∈ movzx_eax_spl.operands, ∃ r : reg_t,
          (op.value = .reg r ∨ (∃ d, op.value = .disp_reg r d) ∨ op.value = .indirect_reg r ∨
            (∃ i s d, op.value = .sib_reg (some r) i s d) ∨
            (∃ b s d, op.value = .sib_reg b (some r) s d)) ∧
          (r.index ≥ 8 ∨ r.name ∈ ["spl", "bpl", "sil", "dil"])) ∧
      ({ movzx_eax_spl with need_rex_ext := true } : amd64_asm_inst_t) =
        { movzx_eax_spl with
          need_rex_ext :=
            movzx_eax_spl.operands.any (fun op => (operand_regs op).any has_64_reg) } :=
  ⟨by decide!,
    C27_need_rex_ext_iff static_insts opcode_tree_root movzx_eax_spl
      { movzx_eax_spl with need_rex_ext := true } .movzx_r32_rm8 (by decide!)⟩

/-- C28. For every REX record, `opcode_rex_encoding` gives the byte
`0x40 | (w << 3) | (r << 2) | (x << 1) | b`; it lies in `0x40..0x4F`, its high four bits
are `0100`. -/
theorem C28_rex_byte (rex : rex_prefix_t) :
    opcode_rex_encoding rex =
        0x40 ||| (bit rex.w <<< 3) ||| (bit rex.r <<< 2) ||| (bit rex.x <<< 1) ||| bit rex.b ∧
      0x40 ≤ opcode_rex_encoding rex ∧ opcode_rex_encoding rex ≤ 0x4F ∧
      opcode_rex_encoding rex >>> 4 = 4 := by
  obtain ⟨w, r, x, b⟩ := rex
  cases w <;> cases r <;> cases x <;> cases b <;> decide

theorem sib_byte_eq (scale index base : Nat) (hs : scale < 4) :
    opcode_sib_encoding ⟨scale, index, base⟩ =
      (scale <<< 6) ||| ((index &&& 7) <<< 3) ||| (base &&& 7) := by
  have h1 : index &&& 7 ≤ 7 := Nat.and_le_right
  have h2 : base &&& 7 ≤ 7 := Nat.and_le_right
  simp only [opcode_sib_encoding, u8]
  generalize index &&& 7 = a at h1
  generalize base &&& 7 = c at h2
  interval_cases scale <;> interval_cases a <;> interval_cases c <;> rfl

/-- C29. For every ModR/M record with `mod` in `0..3`, whatever `reg` and `rm` hold,
`opcode_modrm_encoding` gives `(mod << 6) | ((reg & 7) << 3) | (rm & 7)`, and for every SIB
record with `scale` in `0..3`, `opcode_sib_encoding` gives
`(scale << 6) | ((index & 7) << 3) | (base & 7)`. -/
theorem C29_modrm_sib_bytes (m : modrm_t) (s : sib_t) (hm : m.mod < 4) (hs : s.scale < 4) :
    opcode_modrm_encoding m = (m.mod <<< 6) ||| ((m.reg &&& 7) <<< 3) ||| (m.rm &&& 7) ∧
      opcode_sib_encoding s = (s.scale <<< 6) ||| ((s.index &&& 7) <<< 3) ||| (s.base &&& 7) := by
  obtain ⟨mod, reg, rm⟩ := m
  obtain ⟨scale, index, base⟩ := s
  exact ⟨modrm_byte_eq mod reg rm hm, sib_byte_eq scale index base hs⟩

/-- Witness of C29: a ModR/M record with `reg = 9`, `rm = 12` and a SIB record with
`index = 12`, `base = 13`. -/
theorem C29_modrm_sib_bytes_witness :
    (⟨2, 9, 12⟩ : modrm_t).mod < 4 ∧ (⟨3, 12, 13⟩ : sib_t).scale < 4 ∧
      opcode_modrm_encoding ⟨2, 9, 12⟩ =
        ((⟨2, 9, 12⟩ : modrm_t).mod <<< 6) ||| (((⟨2, 9, 12⟩ : modrm_t).reg &&& 7) <<< 3)
          ||| ((⟨2, 9, 12⟩ : modrm_t).rm &&& 7) ∧
      opcode_sib_encoding ⟨3, 12, 13⟩ =
        ((⟨3, 12, 13⟩ : sib_t).scale <<< 6) ||| (((⟨3, 12, 13⟩ : sib_t).index &&& 7) <<< 3)
          ||| ((⟨3, 12, 13⟩ : sib_t).base &&& 7) :=
  ⟨by decide, by decide, C29_modrm_sib_bytes ⟨2, 9, 12⟩ ⟨3, 12, 13⟩ (by decide) (by decide)⟩

/-- The bytes of the two records of the witness: `8C` and `E5`. -/
theorem modrm_sib_examples :
    opcode_modrm_encoding ⟨2, 9, 12⟩ = 0x8C ∧ opcode_sib_encoding ⟨3, 12, 13⟩ = 0xE5 := by
  decide

/-! ## The order of the output -/

theorem opcode_vex_encoding_length (v : vex_prefix_t) :
    (opcode_vex_encoding v).length = 2 ∨ (opcode_vex_encoding v).length = 3 := by
  unfold opcode_vex_encoding
  split
  · left; rfl
  · right; rfl

/-- C30. For every record, `opcode_format_encoding` writes the concatenation, in this order,
of the legacy prefix byte if it is not zero, the VEX prefix (two or three bytes) if there is a
VEX record, the REX byte if there is a REX record, the opcode bytes (the bytes of the array
`opcode` before its first zero), the ModR/M byte and the SIB byte if their records exist, the
displacement bytes and the immediate bytes; the count is the sum of the lengths of these
parts, an absent part counting zero. -/
theorem C30_format_order (format : amd64_binary_format_t) :
    opcode_format_encoding format =
        (if format.prefix_byte = 0 then [] else [format.prefix_byte])
          ++ (format.vex_pfx.map opcode_vex_encoding).getD []
          ++ (format.rex_pfx.map opcode_rex_encoding).toList
          ++ (format.opcode.take 3).takeWhile (fun b => decide (b ≠ 0))
          ++ (format.modrm.map opcode_modrm_encoding).toList
          ++ (format.sib.map opcode_sib_encoding).toList
          ++ format.disps ++ format.imms ∧
      (opcode_format_encoding format).length =
        (if format.prefix_byte = 0 then 0 else 1)
          + ((format.vex_pfx.map (fun v => (opcode_vex_encoding v).length)).getD 0)
          + (if format.rex_pfx.isSome then 1 else 0)
          + ((format.opcode.take 3).takeWhile (fun b => decide (b ≠ 0))).length
          + (if format.modrm.isSome then 1 else 0)
          + (if format.sib.isSome then 1 else 0)
          + format.disps.length + format.imms.length ∧
      (∀ v, format.vex_pfx = some v →
        (opcode_vex_encoding v).length = 2 ∨ (opcode_vex_encoding v).length = 3) := by
  obtain ⟨pb, vex, rex, opc, modrm, sib, disps, imms, op_id⟩ := format
  have hw : (fun b : Nat => decide (b > 0)) = (fun b : Nat => decide (b ≠ 0)) := by
    funext b
    cases b <;> simp
  refine ⟨?_, ?_, fun v _ => opcode_vex_encoding_length v⟩
  · cases vex <;> cases rex <;> cases modrm <;> cases sib <;>
      by_cases hp : pb = 0 <;>
      simp [opcode_format_encoding, opcode_bytes, hw, hp, Nat.pos_iff_ne_zero]
  · cases vex <;> cases rex <;> cases modrm <;> cases sib <;>
      by_cases hp : pb = 0 <;>
      simp [opcode_format_encoding, opcode_bytes, hw, hp, Nat.pos_iff_ne_zero] <;> omega

/-- A record with every part and its bytes in order: prefix `F0`, REX `48`, opcode `81`,
ModR/M `84`, SIB `98`, four displacement bytes and four immediate bytes. -/
theorem format_order_examples :
    opcode_format_encoding
        ⟨0xF0, none, some ⟨true, false, false, false⟩, [0x81, 0, 0], some ⟨2, 0, 4⟩,
          some ⟨2, 3, 0⟩, [0x78, 0x56, 0x34, 0x12], [0x44, 0x33, 0x22, 0x11], 0⟩ =
      [0xF0, 0x48, 0x81, 0x84, 0x98, 0x78, 0x56, 0x34, 0x12, 0x44, 0x33, 0x22, 0x11] := by
  decide
/-! ## The bytes of VEX, and fields of the ModR/M byte -/

theorem u8_and7 (x : Nat) : u8 x &&& 7 = x &&& 7 := by
  have h1 : ∀ y : Nat, y &&& 7 = y % 8 := fun y => Nat.and_pow_two_sub_one_eq_mod y 3
  rw [h1, h1, u8]
  exact Nat.mod_mod_of_dvd x (by decide)

theorem add8_and7 (x : Nat) : (x + 8) &&& 7 = x &&& 7 := by
  have h1 : ∀ y : Nat, y &&& 7 = y % 8 := fun y => Nat.and_pow_two_sub_one_eq_mod y 3
  rw [h1, h1]
  omega

theorem modrm_low_bits : ∀ a < 8, ∀ b < 8, (a ||| (b <<< 3)) < 64 ∧ (a ||| (b <<< 3)) / 8 % 8 = b := by
  decide!

theorem modrm_reg_bits (y M : Nat) (hy : y < 64) :
    (((y ||| (M <<< 6)) % 256) >>> 3) &&& 7 = y / 8 % 8 := by
  have h1 : ∀ z : Nat, z &&& 7 = z % 8 := fun z => Nat.and_pow_two_sub_one_eq_mod z 3
  have h2 : 2 ^ 6 * M + y = 2 ^ 6 * M ||| y := Nat.mul_add_lt_is_or (by simpa using hy) M
  rw [Nat.lor_comm, Nat.shiftLeft_eq, Nat.mul_comm M, ← h2, h1, Nat.shiftRight_eq_div_pow]
  simp only [Nat.reducePow]
  omega

/-- The `reg` field of the emitted ModR/M byte is the low three bits of the member `reg`,
whatever the other members hold. -/
theorem modrm_reg_field_eq (m : modrm_t) : modrm_reg_field m = m.reg &&& 7 := by
  obtain ⟨mod, reg, rm⟩ := m
  have h1 : rm &&& 7 < 8 := Nat.lt_succ_of_le Nat.and_le_right
  have h2 : reg &&& 7 < 8 := Nat.lt_succ_of_le Nat.and_le_right
  have h3 := modrm_low_bits _ h1 _ h2
  simp only [modrm_reg_field, opcode_modrm_encoding, u8]
  rw [modrm_reg_bits _ _ h3.1]
  exact h3.2

theorem vex_byte_two :
    ∀ s < 16, ∀ p < 4, ∀ r l : Bool,
      u8 ((if r then 1 <<< 7 else 0) + (s <<< 3) + (if l then 1 <<< 2 else 0) + p) =
        (bit r <<< 7) ||| (s <<< 3) ||| (bit l <<< 2) ||| p := by
  decide!

theorem vex_byte_three :
    ∀ m < 32, ∀ r x b : Bool,
      u8 ((if r then 1 <<< 7 else 0) + (if x then 1 <<< 6 else 0) + (if b then 1 <<< 5 else 0)
          + m) =
        (bit r <<< 7) ||| (bit x <<< 6) ||| (bit b <<< 5) ||| m := by
  decide!

/-- C31. For every VEX record with `source` in `0..15`, `pp` in `0..3` and map field in
`0..31`, `opcode_vex_encoding` gives the two bytes `C5`, `(r<<7)|(source<<3)|(L<<2)|pp` when
`x` and `b` are set and the map field is 0 or the `0F` escape, and otherwise the three bytes
`C4`, `(r<<7)|(x<<6)|(b<<5)|m`, `(w<<7)|(source<<3)|(L<<2)|pp`; the bits are written as they
are stored. -/
theorem C31_vex_bytes (v : vex_prefix_t) (hs : v.source < 16) (hp : v.vex_opcode_extension < 4)
    (hm : v.vex_legacy_byte < 32) :
    opcode_vex_encoding v =
      if (v.vex_legacy_byte = 0 ∨ v.vex_legacy_byte = VEX_LEGACY_BYTE_0F) ∧ v.x = true
          ∧ v.b = true then
        [0xC5, (bit v.r <<< 7) ||| (v.source <<< 3) ||| (bit v.l <<< 2) |||
          v.vex_opcode_extension]
      else
        [0xC4, (bit v.r <<< 7) ||| (bit v.x <<< 6) ||| (bit v.b <<< 5) ||| v.vex_legacy_byte,
          (bit v.w <<< 7) ||| (v.source <<< 3) ||| (bit v.l <<< 2) |||
            v.vex_opcode_extension] := by
  obtain ⟨source, legacy, ext, l, r, w, x, b⟩ := v
  simp only at hs hp hm
  simp only [opcode_vex_encoding, vex_byte_two source hs ext hp, vex_byte_three legacy hm]

/-- Witness of C31: the record of `vaddsd xmm0, xmm1, …` (`source = 14`, `pp = 3`, all of
`r`, `x`, `b` set), two bytes, and the same record with `b` cleared, three bytes. -/
theorem C31_vex_bytes_witness :
    ((⟨14, 1, 3, false, true, false, true, true⟩ : vex_prefix_t).source < 16 ∧
      (⟨14, 1, 3, false, true, false, true, true⟩ : vex_prefix_t).vex_opcode_extension < 4 ∧
      (⟨14, 1, 3, false, true, false, true, true⟩ : vex_prefix_t).vex_legacy_byte < 32) ∧
      opcode_vex_encoding ⟨14, 1, 3, false, true, false, true, true⟩ =
        (if ((⟨14, 1, 3, false, true, false, true, true⟩ : vex_prefix_t).vex_legacy_byte = 0 ∨
            (⟨14, 1, 3, false, true, false, true, true⟩ : vex_prefix_t).vex_legacy_byte =
              VEX_LEGACY_BYTE_0F) ∧
            (⟨14, 1, 3, false, true, false, true, true⟩ : vex_prefix_t).x = true ∧
            (⟨14, 1, 3, false, true, false, true, true⟩ : vex_prefix_t).b = true then
          [0xC5,
            (bit (⟨14, 1, 3, false, true, false, true, true⟩ : vex_prefix_t).r <<< 7) |||
              ((⟨14, 1, 3, false, true, false, true, true⟩ : vex_prefix_t).source <<< 3) |||
              (bit (⟨14, 1, 3, false, true, false, true, true⟩ : vex_prefix_t).l <<< 2) |||
              (⟨14, 1, 3, false, true, false, true, true⟩ : vex_prefix_t).vex_opcode_extension]
        else
          [0xC4,
            (bit (⟨14, 1, 3, false, true, false, true, true⟩ : vex_prefix_t).r <<< 7) |||
              (bit (⟨14, 1, 3, false, true, false, true, true⟩ : vex_prefix_t).x <<< 6) |||
              (bit (⟨14, 1, 3, false, true, false, true, true⟩ : vex_prefix_t).b <<< 5) |||
              (⟨14, 1, 3, false, true, false, true, true⟩ : vex_prefix_t).vex_legacy_byte,
            (bit (⟨14, 1, 3, false, true, false, true, true⟩ : vex_prefix_t).w <<< 7) |||
              ((⟨14, 1, 3, false, true, false, true, true⟩ : vex_prefix_t).source <<< 3) |||
              (bit (⟨14, 1, 3, false, true, false, true, true⟩ : vex_prefix_t).l <<< 2) |||
              (⟨14, 1, 3, false, true, false, true, true⟩ : vex_prefix_t).vex_opcode_extension]) :=
  ⟨by decide,
    C31_vex_bytes ⟨14, 1, 3, false, true, false, true, true⟩ (by decide) (by decide) (by decide)⟩

/-- The two forms of the VEX prefix in bytes: `C5 F3`, and `C4 C1 73` once `b` is cleared. -/
theorem vex_examples :
    opcode_vex_encoding ⟨14, 1, 3, false, true, false, true, true⟩ = [0xC5, 0xF3] ∧
      opcode_vex_encoding ⟨14, 1, 3, false, true, false, true, false⟩ = [0xC4, 0xC1, 0x73] := by
  decide
/-! ## Registers in the roles `MODRM_REG` and `OPCODE_PLUS` -/

theorem and7_idem (x : Nat) : (x &&& 7) &&& 7 = x &&& 7 := by
  rw [Nat.and_assoc, Nat.and_self]

theorem gt7_iff_ge8 (n : Nat) : decide (n > 7) = decide (n ≥ 8) := by
  by_cases h : n ≥ 8
  · rw [decide_eq_true h, decide_eq_true (show n > 7 by omega)]
  · rw [decide_eq_false h, decide_eq_false (show ¬ n > 7 by omega)]

/-- The register branch for a slot of role `MODRM_REG`, the extension `/r` declared. -/
theorem fill_reg_slashr (exts : List opcode_ext) (format : amd64_binary_format_t) (r : reg_t)
    (hs : ext_exists exts .SLASHR = true)
    (hrex : rex_live exts = true → format.rex_pfx.isSome = true)
    (hvex : vex_live exts = true → format.vex_pfx.isSome = true) :
    ∃ format' m, fill_reg exts format .MODRM_REG r = some format' ∧ format'.modrm = some m ∧
      m.reg = r.index &&& 7 ∧ modrm_reg_field m = r.index &&& 7 ∧
      (rex_live exts = true →
        ∃ rex, format'.rex_pfx = some rex ∧ rex.r = decide (r.index ≥ 8)) := by
  have hfield : ∀ m : modrm_t, m.reg = r.index &&& 7 → modrm_reg_field m = r.index &&& 7 := by
    intro m hm
    rw [modrm_reg_field_eq, hm, and7_idem]
  by_cases hl : rex_live exts = true
  · obtain ⟨rex, hr⟩ := Option.isSome_iff_exists.mp (hrex hl)
    cases hm : format.modrm <;>
      simp only [fill_reg, hs, hl, hm, with_rex, hr, if_true, modrm_of, Option.getD_some] <;>
      exact ⟨_, _, rfl, rfl, rfl, hfield _ rfl, fun _ => ⟨_, rfl, gt7_iff_ge8 _⟩⟩
  · by_cases hv : vex_live exts = true
    · obtain ⟨v, hv'⟩ := Option.isSome_iff_exists.mp (hvex hv)
      cases hm : format.modrm <;>
        simp only [fill_reg, hs, hl, hv, hm, with_vex, hv', if_true, modrm_of,
          Option.getD_some, Bool.false_eq_true, if_false] <;>
        exact ⟨_, _, rfl, rfl, rfl, hfield _ rfl, fun h => by cases h⟩
    · cases hm : format.modrm <;>
        simp only [fill_reg, hs, hl, hv, hm, if_true, modrm_of, Option.getD_some,
          Bool.false_eq_true, if_false] <;>
        exact ⟨_, _, rfl, rfl, rfl, hfield _ rfl, fun h => by cases h⟩

/-- The register branch for a slot of role `MODRM_REG`, no extension `/r` declared. -/
theorem fill_reg_no_slashr (exts : List opcode_ext) (format : amd64_binary_format_t) (r : reg_t)
    (hs : ext_exists exts .SLASHR = false) :
    ∃ format' m, fill_reg exts format .MODRM_REG r = some format' ∧ format'.modrm = some m ∧
      m.reg = (modrm_of format).reg ∧ format'.rex_pfx = format.rex_pfx ∧
      format'.vex_pfx = format.vex_pfx := by
  cases hm : format.modrm with
  | none =>
    simp only [fill_reg, hs, hm, Bool.false_eq_true, if_false, modrm_of]
    exact ⟨_, _, rfl, rfl, rfl, rfl, rfl⟩
  | some m =>
    simp only [fill_reg, hs, hm, Bool.false_eq_true, if_false, modrm_of]
    exact ⟨_, m, rfl, hm, rfl, rfl, rfl⟩

/-- C32, the code at a failing input. `sal bl, cl` is encoded with the form `sal_rex_rm8_cl`,
whose second slot has the role `MODRM_REG` and is filled with the `REG` operand `cl`: the `reg`
field of the record and of the byte `E3` is 4, the digit of `/4`, while `cl.index & 7` is 1. -/
theorem C32_modrm_reg_counterexample :
    (opcode_select static_insts opcode_tree_root sal_bl_cl).map Prod.fst =
        some .sal_rex_rm8_cl ∧
      (static_insts .sal_rex_rm8_cl).operands.map (fun s => s.encoding) =
        [.MODRM_RM, .MODRM_REG] ∧
      sal_bl_cl.operands = [⟨1, .reg bl⟩, ⟨1, .reg cl⟩] ∧
      cl.index &&& 7 = 1 ∧
      ((opcode_select static_insts opcode_tree_root sal_bl_cl).bind
          (fun p => opcode_fill static_insts p.1 p.2)).map
        (fun q => (q.2.modrm.map (fun m => (m.reg, modrm_reg_field m)),
          opcode_format_encoding q.2)) =
        some (some (4, 4), [0x40, 0xD2, 0xE3]) :=
  ⟨by decide!, by decide!, rfl, by decide, by decide!⟩

/-- C32, amended. A `REG` or `FREG` operand `r` filling a slot of role `MODRM_REG`: when the
form declares `/r`, the turn leaves a ModR/M record whose `reg` member and whose `reg` field
in the byte are `r.index & 7`, and `rex.r = (r.index >= 8)` when a REX prefix is live; when
the form does not declare `/r`, the turn leaves a ModR/M record with the `reg` member it had
(0 in a new record) and the REX and VEX records as they were. -/
theorem C32_modrm_reg_slot_amended (exts : List opcode_ext) (format : amd64_binary_format_t)
    (slot : opcode_operand_t) (size : Nat) (r : reg_t) (henc : slot.encoding = .MODRM_REG)
    (hrex : rex_live exts = true → format.rex_pfx.isSome = true)
    (hvex : vex_live exts = true → format.vex_pfx.isSome = true) :
    ∀ operand ∈ [(⟨size, .reg r⟩ : amd64_asm_operand_t), ⟨size, .freg r⟩],
      (ext_exists exts .SLASHR = true →
        ∃ format' m, fill_operand exts format slot operand = some format' ∧
          format'.modrm = some m ∧ m.reg = r.index &&& 7 ∧
          modrm_reg_field m = r.index &&& 7 ∧
          (rex_live exts = true →
            ∃ rex, format'.rex_pfx = some rex ∧ rex.r = decide (r.index ≥ 8))) ∧
      (ext_exists exts .SLASHR = false →
        ∃ format' m, fill_operand exts format slot operand = some format' ∧
          format'.modrm = some m ∧ m.reg = (modrm_of format).reg ∧
          format'.rex_pfx = format.rex_pfx ∧ format'.vex_pfx = format.vex_pfx) := by
  intro operand hop
  have hfill : fill_operand exts format slot operand = fill_reg exts format .MODRM_REG r := by
    simp only [List.mem_cons, List.mem_singleton, List.not_mem_nil, or_false] at hop
    rcases hop with rfl | rfl <;> simp only [fill_operand, henc]
  rw [hfill]
  exact ⟨fun hs => fill_reg_slashr exts format r hs hrex hvex,
    fun hs => fill_reg_no_slashr exts format r hs⟩

/-- Witness of C32, amended: the slot `R64` of a `REX.W /r` form filled with r9. -/
theorem C32_modrm_reg_slot_amended_witness :
    (⟨.R64, .MODRM_REG⟩ : opcode_operand_t).encoding = .MODRM_REG ∧
      (rex_live [.REX_W, .SLASHR] = true → ext_phase_rex_w_slashr.rex_pfx.isSome = true) ∧
      (vex_live [.REX_W, .SLASHR] = true → ext_phase_rex_w_slashr.vex_pfx.isSome = true) ∧
      ∀ operand ∈ [(⟨8, .reg r9⟩ : amd64_asm_operand_t), ⟨8, .freg r9⟩],
        (ext_exists [.REX_W, .SLASHR] .SLASHR = true →
          ∃ format' m,
            fill_operand [.REX_W, .SLASHR] ext_phase_rex_w_slashr ⟨.R64, .MODRM_REG⟩ operand =
              some format' ∧
            format'.modrm = some m ∧ m.reg = r9.index &&& 7 ∧
            modrm_reg_field m = r9.index &&& 7 ∧
            (rex_live [.REX_W, .SLASHR] = true →
              ∃ rex, format'.rex_pfx = some rex ∧ rex.r = decide (r9.index ≥ 8))) ∧
        (ext_exists [.REX_W, .SLASHR] .SLASHR = false →
          ∃ format' m,
            fill_operand [.REX_W, .SLASHR] ext_phase_rex_w_slashr ⟨.R64, .MODRM_REG⟩ operand =
              some format' ∧
            format'.modrm = some m ∧ m.reg = (modrm_of ext_phase_rex_w_slashr).reg ∧
            format'.rex_pfx = ext_phase_rex_w_slashr.rex_pfx ∧
            format'.vex_pfx = ext_phase_rex_w_slashr.vex_pfx) :=
  ⟨rfl, fun _ => rfl, fun h => absurd h (by decide),
    C32_modrm_reg_slot_amended [.REX_W, .SLASHR] ext_phase_rex_w_slashr ⟨.R64, .MODRM_REG⟩ 8 r9
      rfl (fun _ => rfl) (fun h => absurd h (by decide))⟩

/-- The two cases in bytes: `mov rax, r9` on a `/r` form has `reg = 1` and REX.R set, and
the shifts by `cl` keep the digits `/4`, `/7` and `/5`. -/
theorem modrm_reg_examples :
    encode ⟨0, "mov", 0, [⟨8, .reg rax⟩, ⟨8, .reg r9⟩], false⟩ =
        some (.mov_rm64_r64, [0x4C, 0x89, 0xC8]) ∧
      encode sal_bl_cl = some (.sal_rex_rm8_cl, [0x40, 0xD2, 0xE3]) ∧
      encode ⟨0, "sar", 0, [⟨4, .reg eax⟩, ⟨1, .reg cl⟩], false⟩ =
        some (.sar_rm32_cl, [0xD3, 0xF8]) ∧
      encode ⟨0, "shr", 0, [⟨8, .reg rbx⟩, ⟨1, .reg cl⟩], false⟩ =
        some (.shr_rm64_cl, [0x48, 0xD3, 0xEB]) := by
  decide!

/-- C34. A slot of role `OPCODE_PLUS` filled with a `REG` operand `r`: the turn adds
`r.index & 7` to the first opcode byte (a byte up to `F8` does not wrap, and a non-zero one
is the first opcode byte emitted), leaves the ModR/M record as it was, absent if it was
absent, and sets `rex.b = (r.index >= 8)` when a REX prefix is live. With the form
`push_r64`, r12 gives the bytes `41 54` and rax gives the byte `50`. -/
theorem C34_opcode_plus_slot (exts : List opcode_ext) (format : amd64_binary_format_t)
    (slot : opcode_operand_t) (size : Nat) (r : reg_t) (b : Nat) (rest : List Nat)
    (henc : slot.encoding = .OPCODE_PLUS) (hop : format.opcode = b :: rest)
    (hrex : rex_live exts = true → format.rex_pfx.isSome = true) :
    (∃ format', fill_operand exts format slot ⟨size, .reg r⟩ = some format' ∧
      format'.opcode = u8 (b + (r.index &&& 7)) :: rest ∧
      (b ≤ 0xF8 → format'.opcode = (b + (r.index &&& 7)) :: rest) ∧
      (0 < b → b ≤ 0xF8 →
        ∃ tail, opcode_bytes format'.opcode = (b + (r.index &&& 7)) :: tail) ∧
      format'.modrm = format.modrm ∧
      (rex_live exts = true →
        ∃ rex, format'.rex_pfx = some rex ∧ rex.b = decide (r.index ≥ 8)) ∧
      (rex_live exts = false → format'.rex_pfx = format.rex_pfx)) ∧
      (opcode_fill static_insts .push_r64 ⟨0, "push", 0, [⟨8, .reg r12⟩], true⟩).map
          (fun p => opcode_format_encoding p.2) = some [0x41, 0x54] ∧
      (opcode_fill static_insts .push_r64 ⟨0, "push", 0, [⟨8, .reg rax⟩], false⟩).map
          (fun p => opcode_format_encoding p.2) = some [0x50] := by
  refine ⟨?_, by decide!, by decide!⟩
  have h7 : r.index &&& 7 ≤ 7 := Nat.and_le_right
  have hu : b ≤ 0xF8 → u8 (b + (r.index &&& 7)) = b + (r.index &&& 7) := by
    intro hb
    exact Nat.mod_eq_of_lt (by omega)
  have hbytes : ∀ F : amd64_binary_format_t, F.opcode = u8 (b + (r.index &&& 7)) :: rest →
      0 < b → b ≤ 0xF8 → ∃ tail, opcode_bytes F.opcode = (b + (r.index &&& 7)) :: tail := by
    intro F hF h0 hb
    rw [hF, hu hb]
    have hpos : decide (b + (r.index &&& 7) > 0) = true := decide_eq_true (by omega)
    exact ⟨(rest.take 2).takeWhile (fun b => decide (b > 0)), by
      simp only [opcode_bytes, List.take_succ_cons, List.takeWhile_cons, hpos, if_true]⟩
  by_cases hl : rex_live exts = true
  · obtain ⟨rex, hr⟩ := Option.isSome_iff_exists.mp (hrex hl)
    simp only [fill_operand, fill_reg, henc, hl, with_rex, hr, if_true, hop,
      List.modifyHead_cons]
    exact ⟨_, rfl, rfl, fun hb => by rw [hu hb], hbytes _ rfl, rfl,
      fun _ => ⟨_, rfl, gt7_iff_ge8 _⟩, fun h => by cases h⟩
  · simp only [fill_operand, fill_reg, henc, hl, Bool.false_eq_true, if_false, hop,
      List.modifyHead_cons]
    exact ⟨_, rfl, rfl, fun hb => by rw [hu hb], hbytes _ rfl, rfl, False.elim, fun _ => rfl⟩

/-- Witness of C34: the slot `R64` of `push_r64` filled with r12, after the extension phase
has created the REX record that `need_rex_ext` asks for. -/
theorem C34_opcode_plus_slot_witness :
    ((⟨.R64, .OPCODE_PLUS⟩ : opcode_operand_t).encoding = .OPCODE_PLUS ∧
      (build_ext (inst_format_new [0x50]) .REX).opcode = 0x50 :: [] ∧
      (rex_live [.REX] = true →
        (build_ext (inst_format_new [0x50]) .REX).rex_pfx.isSome = true)) ∧
      ((∃ format',
        fill_operand [.REX] (build_ext (inst_format_new [0x50]) .REX) ⟨.R64, .OPCODE_PLUS⟩
            ⟨8, .reg r12⟩ = some format' ∧
          format'.opcode = u8 (0x50 + (r12.index &&& 7)) :: [] ∧
          (0x50 ≤ 0xF8 → format'.opcode = (0x50 + (r12.index &&& 7)) :: []) ∧
          (0 < 0x50 → 0x50 ≤ 0xF8 →
            ∃ tail, opcode_bytes format'.opcode = (0x50 + (r12.index &&& 7)) :: tail) ∧
          format'.modrm = (build_ext (inst_format_new [0x50]) .REX).modrm ∧
          (rex_live [.REX] = true →
            ∃ rex, format'.rex_pfx = some rex ∧ rex.b = decide (r12.index ≥ 8)) ∧
          (rex_live [.REX] = false →
            format'.rex_pfx = (build_ext (inst_format_new [0x50]) .REX).rex_pfx)) ∧
        (opcode_fill static_insts .push_r64 ⟨0, "push", 0, [⟨8, .reg r12⟩], true⟩).map
            (fun p => opcode_format_encoding p.2) = some [0x41, 0x54] ∧
        (opcode_fill static_insts .push_r64 ⟨0, "push", 0, [⟨8, .reg rax⟩], false⟩).map
            (fun p => opcode_format_encoding p.2) = some [0x50]) :=
  ⟨⟨rfl, rfl, fun _ => rfl⟩,
    C34_opcode_plus_slot [.REX] (build_ext (inst_format_new [0x50]) .REX) ⟨.R64, .OPCODE_PLUS⟩
      8 r12 0x50 [] rfl rfl (fun _ => rfl)⟩

/-- Every registered form with a slot of role `OPCODE_PLUS` declares a first opcode byte in
`01..F8`, and no `/k` or `/r` extension. -/
theorem opcode_plus_forms :
    ∀ f ∈ registered_insts,
      (static_insts f).operands.any (fun s => decide (s.encoding = .OPCODE_PLUS)) = true →
        (static_insts f).opcode.head?.any (fun b => decide (0 < b ∧ b ≤ 0xF8)) = true ∧
          (static_insts f).extensions.any slash_ext = false := by
  decide!
/-! ## The `SIB_REG` operand on an ordinary base register -/

/-- The displacement part of the `SIB_REG` branch for a base register other than rbp and
r13. -/
theorem fill_sib_disp_plain (format : amd64_binary_format_t) (base : reg_t) (d : Int)
    (h5 : base.index ≠ 5) (h13 : base.index ≠ 13) :
    ∃ format' m, fill_sib_disp format base d = some format' ∧ format'.modrm = some m ∧
      m.rm = (modrm_of format).rm ∧ m.reg = (modrm_of format).reg ∧
      format'.sib = format.sib ∧ format'.rex_pfx = format.rex_pfx ∧
      (d = 0 → m.mod = 0 ∧ format'.disps = format.disps) ∧
      (d ≠ 0 → -128 ≤ d → d ≤ 127 → m.mod = 1 ∧ format'.disps = [(d % 256).toNat]) ∧
      (d < -128 ∨ 127 < d → m.mod = 2 ∧ format'.disps = int32_to_uint8 d) := by
  have hb : ¬ (base.index = 13 ∨ base.index = 5) := by
    rintro (h | h)
    · exact h13 h
    · exact h5 h
  simp only [fill_sib_disp, set_disp, if_neg hb]
  simp only [h5, false_and, if_false]
  by_cases h0 : d = 0
  · simp only [h0, if_true]
    exact ⟨_, _, rfl, rfl, rfl, rfl, rfl, rfl, fun _ => ⟨rfl, rfl⟩,
      fun h => absurd rfl h, fun h => by omega⟩
  · by_cases h1 : d ≥ -128 ∧ d ≤ 127
    · simp only [h0, h1, and_self, if_true, if_false]
      exact ⟨_, _, rfl, rfl, rfl, rfl, rfl, rfl, False.elim,
        fun _ _ _ => ⟨rfl, rfl⟩, fun h => by omega⟩
    · simp only [h0, h1, if_false]
      refine ⟨_, _, rfl, rfl, rfl, rfl, rfl, rfl, False.elim,
        fun _ h2 h3 => absurd ⟨h2, h3⟩ h1, fun _ => ⟨rfl, ?_⟩⟩
      simp [int32_to_uint8]

theorem u8_of_lt (n : Nat) (h : n < 256) : u8 n = n := Nat.mod_eq_of_lt h

/-- The byte of the SIB record that the `SIB_REG` branch writes. -/
theorem new_sib_byte (scale i b : Nat) (hs : scale < 4) :
    opcode_sib_encoding (new_sib scale i b) = (scale <<< 6) ||| ((i &&& 7) <<< 3) ||| (b &&& 7) := by
  rw [new_sib, sib_byte_eq _ _ _ (by rw [u8_of_lt scale (by omega)]; exact hs), u8_and7, u8_and7,
    u8_of_lt scale (by omega)]

/-- What the displacement part leaves after the SIB record has been written, for a base
register other than rbp and r13. -/
theorem sib_plain_post (mid : amd64_binary_format_t) (base : reg_t) (d : Int)
    (h5 : base.index ≠ 5) (h13 : base.index ≠ 13) (s : sib_t)
    (hm : (modrm_of mid).rm = 4) (hsib : mid.sib = some s) (hd : mid.disps = []) :
    ∃ format' m, fill_sib_disp mid base d = some format' ∧ format'.modrm = some m ∧
      format'.sib = some s ∧ m.rm = 4 ∧ format'.rex_pfx = mid.rex_pfx ∧
      (d = 0 → m.mod = 0 ∧ format'.disps = []) ∧
      (d ≠ 0 → -128 ≤ d → d ≤ 127 → m.mod = 1 ∧ format'.disps = [(d % 256).toNat]) ∧
      (d < -128 ∨ 127 < d →
        m.mod = 2 ∧ format'.disps = le_bytes (d % 4294967296).toNat 4) := by
  obtain ⟨format', m, g1, g2, g3, -, g5, g6, g7, g8, g9⟩ := fill_sib_disp_plain mid base d h5 h13
  refine ⟨format', m, g1, g2, g5.trans hsib, g3.trans hm, g6, ?_, g8, ?_⟩
  · intro h0
    exact ⟨(g7 h0).1, (g7 h0).2.trans hd⟩
  · intro h
    exact ⟨(g9 h).1, (g9 h).2.trans (int32_to_uint8_le d)⟩

/-- C33. A slot of role `MODRM_RM` filled with a `SIB_REG` operand `[base + index*scale + d]`
whose base index is not 5 or 13 (scale in `0..3`, register indexes below 256, no
displacement byte in the record before): `rm = 4`; the SIB byte is
`(scale << 6) | ((i & 7) << 3) | (base.index & 7)` with `i` the index of the index register,
4 when there is none; when REX is live `rex.b = (base.index >= 8)` and `rex.x` says that an
index register of index `>= 8` is present; `d = 0` gives `mod = 00` and no displacement byte,
a non-zero `d` in `[-128, 127]` gives `mod = 01` and the byte `d mod 256`, any other `d`
gives `mod = 10` and the four little-endian bytes of `d`. -/
theorem C33_sib_slot (exts : List opcode_ext) (format : amd64_binary_format_t)
    (slot : opcode_operand_t) (size : Nat) (base : reg_t) (index : Option reg_t) (scale : Nat)
    (d : Int) (henc : slot.encoding = .MODRM_RM) (h5 : base.index ≠ 5) (h13 : base.index ≠ 13)
    (hs : scale < 4) (hb : base.index < 256) (hi : ∀ i ∈ index, i.index < 256)
    (hd : format.disps = [])
    (hrex : rex_live exts = true → format.rex_pfx.isSome = true) :
    ∃ format' m s,
      fill_operand exts format slot ⟨size, .sib_reg (some base) index scale d⟩ = some format' ∧
        format'.modrm = some m ∧ format'.sib = some s ∧ m.rm = 4 ∧
        opcode_sib_encoding s =
          (scale <<< 6) ||| ((((index.map (fun i => i.index)).getD 4) &&& 7) <<< 3)
            ||| (base.index &&& 7) ∧
        (rex_live exts = true →
          ∃ rex, format'.rex_pfx = some rex ∧ rex.b = decide (base.index ≥ 8) ∧
            rex.x = index.any (fun i => decide (i.index ≥ 8))) ∧
        (d = 0 → m.mod = 0 ∧ format'.disps = []) ∧
        (d ≠ 0 → -128 ≤ d → d ≤ 127 → m.mod = 1 ∧ format'.disps = [(d % 256).toNat]) ∧
        (d < -128 ∨ 127 < d →
          m.mod = 2 ∧ format'.disps = le_bytes (d % 4294967296).toNat 4) := by
  have hbb : decide (u8 base.index > 7) = decide (base.index ≥ 8) := by
    rw [u8_of_lt _ hb, gt7_iff_ge8]
  cases index with
  | none =>
    have hbyte : opcode_sib_encoding (new_sib scale 4 (u8 base.index)) =
        (scale <<< 6) ||| (((((none : Option reg_t).map (fun i => i.index)).getD 4) &&& 7) <<< 3)
          ||| (base.index &&& 7) := by
      rw [new_sib_byte _ _ _ hs, u8_and7]
      rfl
    by_cases hl : rex_live exts = true
    · obtain ⟨rex, hr⟩ := Option.isSome_iff_exists.mp (hrex hl)
      have hfill : fill_operand exts format slot ⟨size, .sib_reg (some base) none scale d⟩ =
          fill_sib_disp ({ format with
            modrm := some { modrm_of format with rm := MODRM_MOD_SIB_FOLLOWS_RM },
            sib := some (new_sib scale 4 (u8 base.index)),
            rex_pfx := some { rex with
              x := decide (4 > 7), b := decide (u8 base.index > 7) } } :
            amd64_binary_format_t) base d := by
        simp only [fill_operand, fill_sib_reg, henc, hl, with_rex, hr, if_true]
      obtain ⟨format', m, g1, g2, g3, g4, g5, g6, g7, g8⟩ :=
        sib_plain_post ({ format with
            modrm := some { modrm_of format with rm := MODRM_MOD_SIB_FOLLOWS_RM },
            sib := some (new_sib scale 4 (u8 base.index)),
            rex_pfx := some { rex with
              x := decide (4 > 7), b := decide (u8 base.index > 7) } } :
            amd64_binary_format_t) base d h5 h13 _ rfl rfl hd
      rw [hfill]
      exact ⟨format', m, _, g1, g2, g3, g4, hbyte, fun _ => ⟨_, g5, hbb, rfl⟩, g6, g7, g8⟩
    · have hfill : fill_operand exts format slot ⟨size, .sib_reg (some base) none scale d⟩ =
          fill_sib_disp ({ format with
            modrm := some { modrm_of format with rm := MODRM_MOD_SIB_FOLLOWS_RM },
            sib := some (new_sib scale 4 (u8 base.index)) } : amd64_binary_format_t)
            base d := by
        simp only [fill_operand, fill_sib_reg, henc, hl, Bool.false_eq_true, if_false]
      obtain ⟨format', m, g1, g2, g3, g4, g5, g6, g7, g8⟩ :=
        sib_plain_post ({ format with
            modrm := some { modrm_of format with rm := MODRM_MOD_SIB_FOLLOWS_RM },
            sib := some (new_sib scale 4 (u8 base.index)) } : amd64_binary_format_t)
          base d h5 h13 _ rfl rfl hd
      rw [hfill]
      exact ⟨format', m, _, g1, g2, g3, g4, hbyte, fun h => absurd h hl, g6, g7, g8⟩
  | some i =>
    have hbyte : opcode_sib_encoding (new_sib scale (u8 i.index) (u8 base.index)) =
        (scale <<< 6) ||| (((((some i).map (fun i => i.index)).getD 4) &&& 7) <<< 3)
          ||| (base.index &&& 7) := by
      rw [new_sib_byte _ _ _ hs, u8_and7, u8_and7]
      rfl
    have hx : decide (u8 i.index > 7) = (some i).any (fun i => decide (i.index ≥ 8)) := by
      rw [u8_of_lt _ (hi i rfl), gt7_iff_ge8]
      rfl
    by_cases hl : rex_live exts = true
    · obtain ⟨rex, hr⟩ := Option.isSome_iff_exists.mp (hrex hl)
      have hfill : fill_operand exts format slot ⟨size, .sib_reg (some base) (some i) scale d⟩ =
          fill_sib_disp ({ format with
            modrm := some { modrm_of format with rm := MODRM_MOD_SIB_FOLLOWS_RM },
            sib := some (new_sib scale (u8 i.index) (u8 base.index)),
            rex_pfx := some { rex with
              x := decide ((u8 i.index) > 7), b := decide (u8 base.index > 7) } } :
            amd64_binary_format_t) base d := by
        simp only [fill_operand, fill_sib_reg, henc, hl, with_rex, hr, if_true]
      obtain ⟨format', m, g1, g2, g3, g4, g5, g6, g7, g8⟩ :=
        sib_plain_post ({ format with
            modrm := some { modrm_of format with rm := MODRM_MOD_SIB_FOLLOWS_RM },
            sib := some (new_sib scale (u8 i.index) (u8 base.index)),
            rex_pfx := some { rex with
              x := decide ((u8 i.index) > 7), b := decide (u8 base.index > 7) } } :
            amd64_binary_format_t) base d h5 h13 _ rfl rfl hd
      rw [hfill]
      exact ⟨format', m, _, g1, g2, g3, g4, hbyte, fun _ => ⟨_, g5, hbb, hx⟩, g6, g7, g8⟩
    · have hfill : fill_operand exts format slot ⟨size, .sib_reg (some base) (some i) scale d⟩ =
          fill_sib_disp ({ format with
            modrm := some { modrm_of format with rm := MODRM_MOD_SIB_FOLLOWS_RM },
            sib := some (new_sib scale (u8 i.index) (u8 base.index)) } : amd64_binary_format_t)
            base d := by
        simp only [fill_operand, fill_sib_reg, henc, hl, Bool.false_eq_true, if_false]
      obtain ⟨format', m, g1, g2, g3, g4, g5, g6, g7, g8⟩ :=
        sib_plain_post ({ format with
            modrm := some { modrm_of format with rm := MODRM_MOD_SIB_FOLLOWS_RM },
            sib := some (new_sib scale (u8 i.index) (u8 base.index)) } : amd64_binary_format_t)
          base d h5 h13 _ rfl rfl hd
      rw [hfill]
      exact ⟨format', m, _, g1, g2, g3, g4, hbyte, fun h => absurd h hl, g6, g7, g8⟩

/-- Witness of C33: the slot `RM64` of a `REX.W /r` form filled with
`[rbx + r9*4 + 1000]`. -/
theorem C33_sib_slot_witness :
    ((⟨.RM64, .MODRM_RM⟩ : opcode_operand_t).encoding = .MODRM_RM ∧ rbx.index ≠ 5 ∧
      rbx.index ≠ 13 ∧ 2 < 4 ∧ rbx.index < 256 ∧ (∀ i ∈ some r9, i.index < 256) ∧
      ext_phase_rex_w_slashr.disps = [] ∧
      (rex_live [.REX_W, .SLASHR] = true → ext_phase_rex_w_slashr.rex_pfx.isSome = true)) ∧
      ∃ format' m s,
        fill_operand [.REX_W, .SLASHR] ext_phase_rex_w_slashr ⟨.RM64, .MODRM_RM⟩
            ⟨8, .sib_reg (some rbx) (some r9) 2 1000⟩ = some format' ∧
          format'.modrm = some m ∧ format'.sib = some s ∧ m.rm = 4 ∧
          opcode_sib_encoding s =
            (2 <<< 6) ||| (((((some r9).map (fun i => i.index)).getD 4) &&& 7) <<< 3)
              ||| (rbx.index &&& 7) ∧
          (rex_live [.REX_W, .SLASHR] = true →
            ∃ rex, format'.rex_pfx = some rex ∧ rex.b = decide (rbx.index ≥ 8) ∧
              rex.x = (some r9).any (fun i => decide (i.index ≥ 8))) ∧
          ((1000 : Int) = 0 → m.mod = 0 ∧ format'.disps = []) ∧
          ((1000 : Int) ≠ 0 → -128 ≤ (1000 : Int) → (1000 : Int) ≤ 127 →
            m.mod = 1 ∧ format'.disps = [((1000 : Int) % 256).toNat]) ∧
          ((1000 : Int) < -128 ∨ 127 < (1000 : Int) →
            m.mod = 2 ∧ format'.disps = le_bytes ((1000 : Int) % 4294967296).toNat 4) :=
  ⟨⟨rfl, by decide, by decide, by decide, by decide,
      fun i h => by cases h; decide, rfl, fun _ => rfl⟩,
    C33_sib_slot [.REX_W, .SLASHR] ext_phase_rex_w_slashr ⟨.RM64, .MODRM_RM⟩ 8 rbx (some r9) 2
      1000 rfl (by decide) (by decide) (by decide) (by decide)
      (fun i h => by cases h; decide) rfl (fun _ => rfl)⟩

/-- The three displacement widths and the index sentinel in bytes:
`mov rax, [rbx + r9*4]`, `mov rax, [r12 - 8]`, `mov rax, [rbx + rax*8 + 1000]`. -/
theorem sib_slot_examples :
    encode ⟨0, "mov", 0, [⟨8, .reg rax⟩, ⟨8, .sib_reg (some rbx) (some r9) 2 0⟩], false⟩ =
        some (.mov_r64_rm64, [0x4A, 0x8B, 0x04, 0x8B]) ∧
      encode ⟨0, "mov", 0, [⟨8, .reg rax⟩, ⟨8, .sib_reg (some r12) none 0 (-8)⟩], false⟩ =
        some (.mov_r64_rm64, [0x49, 0x8B, 0x44, 0x24, 0xF8]) ∧
      encode ⟨0, "mov", 0, [⟨8, .reg rax⟩, ⟨8, .sib_reg (some rbx) (some rax) 3 1000⟩], false⟩ =
        some (.mov_r64_rm64, [0x48, 0x8B, 0x84, 0xC3, 0xE8, 0x03, 0x00, 0x00]) := by
  decide!
/-! ## The digit of a `/k` extension -/

theorem fill_sib_disp_reg (format format' : amd64_binary_format_t) (base : reg_t) (disp : Int)
    (hf : fill_sib_disp format base disp = some format') :
    ∃ m, format'.modrm = some m ∧ m.reg = (modrm_of format).reg := by
  simp only [fill_sib_disp, set_disp] at hf
  split_ifs at hf <;> cases hf <;> exact ⟨_, rfl, by simp [modrm_of]⟩

/-- A turn of the operand loop on a form that declares no `/r` keeps the `reg` member of an
existing ModR/M record. -/
theorem step_reg_kept (exts : List opcode_ext) (format format' : amd64_binary_format_t)
    (slot : opcode_operand_t) (op : amd64_asm_operand_t) (m : modrm_t)
    (hacc : role_accepts slot.encoding op.type = true)
    (hs : ext_exists exts .SLASHR = false) (hm : format.modrm = some m)
    (hf : fill_operand exts format slot op = some format') :
    ∃ m', format'.modrm = some m' ∧ m'.reg = m.reg := by
  obtain ⟨type, encoding⟩ := slot
  obtain ⟨size, value⟩ := op
  cases encoding <;> cases value <;>
    simp only [role_accepts, amd64_asm_operand_t.type, fill_operand, fill_reg,
      fill_disp_reg, fill_indirect_reg, fill_rip_relative, fill_seg_offset, fill_sib_reg,
      set_disp, set_imm, hs, hm, Bool.false_eq_true, if_false] at hf hacc <;>
    (try (simp at hacc; done))
  all_goals (repeat' split at hf)
  all_goals first
    | (cases hf; done)
    | (obtain ⟨r, hr, rfl⟩ := with_rex_eq _ _ _ hf
       simp [modrm_of, hm])
    | (obtain ⟨v, hv, rfl⟩ := with_vex_eq _ _ _ hf
       simp [modrm_of, hm])
    | (cases hf
       simp [modrm_of, hm])
    | (rename_i heq
       obtain ⟨-, -, -, -, h5, -, -, -⟩ := rex_opt_eq _ _ _ _ heq
       obtain ⟨m', g1, g2⟩ := fill_sib_disp_reg _ _ _ _ hf
       refine ⟨m', g1, ?_⟩
       rw [g2]
       simp [modrm_of, h5, hm])

/-- The operand loop on a form that declares no `/r` keeps the `reg` member of an existing
ModR/M record. -/
theorem loop_reg_kept (exts : List opcode_ext) (slots : List opcode_operand_t)
    (ops : List amd64_asm_operand_t) (hacc : accepts slots ops)
    (hs : ext_exists exts .SLASHR = false) :
    ∀ (format format' : amd64_binary_format_t) (m : modrm_t),
      format.modrm = some m → fill_operands exts format slots ops = some format' →
      ∃ m', format'.modrm = some m' ∧ m'.reg = m.reg := by
  induction hacc with
  | nil =>
    intro format format' m hm h
    simp only [fill_operands, Option.some.injEq] at h
    subst h
    exact ⟨m, hm, rfl⟩
  | cons h1 _ ih =>
    intro format format' m hm h
    obtain ⟨mid, hstep, hr⟩ := fill_operands_cons _ _ _ _ _ _ _ h
    obtain ⟨m1, a1, a2⟩ := step_reg_kept _ _ _ _ _ m h1 hs hm hstep
    obtain ⟨m2, b1, b2⟩ := ih mid format' m1 a1 hr
    exact ⟨m2, b1, b2.trans a2⟩

theorem build_ext_digit (format : amd64_binary_format_t) (e : opcode_ext) (k : Nat)
    (hk : slash_digit e = some k) :
    ∃ m, (build_ext format e).modrm = some m ∧ m.reg = k := by
  cases e <;> simp only [slash_digit, Option.some.injEq] at hk <;>
    first
      | (cases hk; done)
      | (subst hk; exact ⟨_, rfl, rfl⟩)

/-- The extension phase of a form whose `/…` extensions all are `/k` leaves a ModR/M record
with `reg = k`. -/
theorem ext_phase_reg (k : Nat) (exts : List opcode_ext)
    (hall : ∀ e ∈ exts, slash_ext e = true → slash_digit e = some k) :
    ∀ format : amd64_binary_format_t,
      ((∃ m, format.modrm = some m ∧ m.reg = k) ∨ exts.any slash_ext = true) →
        ∃ m, (exts.foldl build_ext format).modrm = some m ∧ m.reg = k := by
  induction exts with
  | nil =>
    intro format h
    rcases h with h | h
    · exact h
    · simp at h
  | cons e es ih =>
    intro format h
    simp only [List.foldl_cons]
    apply ih (fun e' he' => hall e' (List.mem_cons_of_mem _ he'))
    by_cases hse : slash_ext e = true
    · exact Or.inl (build_ext_digit format e k (hall e (List.mem_cons_self _ _) hse))
    · rcases h with h | h
      · left
        have hkeep := (build_ext_fields format e).2.2.2.2.2.1 (by simpa using hse)
        rw [hkeep]
        exact h
      · right
        simp only [List.any_cons, Bool.or_eq_true] at h
        rcases h with h | h
        · exact absurd h hse
        · exact h

theorem slash_digit_facts (e : opcode_ext) (k : Nat) (h : slash_digit e = some k) :
    slash_ext e = true ∧ k < 8 ∧ k &&& 7 = k ∧ e ≠ .SLASHR := by
  cases e <;> simp only [slash_digit, Option.some.injEq] at h <;>
    first
      | (cases h; done)
      | (subst h; exact ⟨rfl, by decide, rfl, by decide⟩)

/-- In the registered catalog a form that declares `/k` declares no other `/…` extension. -/
theorem slash_digit_alone :
    ∀ f ∈ registered_insts,
      (static_insts f).extensions.all (fun e =>
        (slash_digit e).isNone || (static_insts f).extensions.all (fun e' =>
          !slash_ext e' || decide (slash_digit e' = slash_digit e))) = true := by
  decide!

/-- The record with which the operand loop of `opcode_fill` starts is the result of the
extension phase on a record without ModR/M. -/
theorem opcode_fill_loop (heap heap' : opcode_heap) (ref : opcode_ref) (inst : amd64_asm_inst_t)
    (format' : amd64_binary_format_t) (h : opcode_fill heap ref inst = some (heap', format')) :
    ∃ start, start.modrm = none ∧ start.rex_pfx = none ∧
      fill_operands (fill_exts (heap ref) inst)
          ((fill_exts (heap ref) inst).foldl build_ext start) ((heap ref).operands.take 4)
          inst.operands = some format' := by
  simp only [opcode_fill, fill_exts_heap, (fill_heap_fields heap ref inst).2.1] at h
  split at h
  · cases h
  · rename_i format hf
    simp only [Option.some.injEq, Prod.mk.injEq] at h
    obtain ⟨-, rfl⟩ := h
    refine ⟨_, ?_, ?_, hf⟩ <;> split <;> rfl

theorem mem_fill_exts (form : amd64_opcode_inst_t) (asm_inst : amd64_asm_inst_t)
    (e : opcode_ext) (h : e ∈ fill_exts form asm_inst) :
    e ∈ form.extensions.take 4 ∨ e = .REX := by
  simp only [fill_exts] at h
  split at h
  · simpa using h
  · exact Or.inl h

/-- The byte of the ModR/M record is among the emitted bytes. -/
theorem encoding_modrm_split (format : amd64_binary_format_t) (m : modrm_t)
    (h : format.modrm = some m) :
    ∃ pre post, opcode_format_encoding format = pre ++ opcode_modrm_encoding m :: post := by
  obtain ⟨pb, vex, rex, opc, modrm, sib, disps, imms, op_id⟩ := format
  simp only at h
  subst h
  exact ⟨(if pb > 0 then [pb] else []) ++ (vex.map opcode_vex_encoding).getD []
      ++ (rex.map (fun r => [opcode_rex_encoding r])).getD [] ++ opcode_bytes opc,
    (sib.map (fun s => [opcode_sib_encoding s])).getD [] ++ disps ++ imms, by
      cases vex <;> cases rex <;> cases sib <;> simp [opcode_format_encoding]⟩

/-- C40. For every instruction accepted with a registered form that declares a `/k`
extension: the record that `opcode_fill` returns has a ModR/M record whose `reg` member is
`k`, and the `reg` field (bits 5..3) of the emitted ModR/M byte is `k`; `opcode_fill`
returns a record when every `SIB_REG` operand has a base register. The forms
`sal/sar/shr rm, cl` are among them: they declare `/4`, `/7`, `/5` and a second slot of role
`MODRM_REG`. -/
theorem C40_slash_digit_kept (inst inst' : amd64_asm_inst_t) (form : opcode_ref)
    (e : opcode_ext) (k : Nat)
    (hsel : opcode_select static_insts opcode_tree_root inst = some (form, inst'))
    (he : e ∈ (static_insts form).extensions) (hk : slash_digit e = some k) :
    (∀ heap' format', opcode_fill static_insts form inst' = some (heap', format') →
      ∃ m, format'.modrm = some m ∧ m.reg = k ∧ modrm_reg_field m = k ∧
        ∃ pre post, opcode_format_encoding format' = pre ++ opcode_modrm_encoding m :: post) ∧
      ((∀ op ∈ inst.operands, sib_has_base op = true) →
        ∃ heap' format', opcode_fill static_insts form inst' = some (heap', format')) ∧
      ∀ f ∈ [opcode_ref.sal_rm8_cl, opcode_ref.sal_rex_rm8_cl, opcode_ref.sal_rm16_cl,
          opcode_ref.sal_rm32_cl, opcode_ref.sal_rm64_cl, opcode_ref.sar_rm8_cl,
          opcode_ref.sar_rex_rm8_cl, opcode_ref.sar_rm16_cl, opcode_ref.sar_rm32_cl,
          opcode_ref.sar_rm64_cl, opcode_ref.shr_rm8_cl, opcode_ref.shr_rex_rm8_cl,
          opcode_ref.shr_rm16_cl, opcode_ref.shr_rm32_cl, opcode_ref.shr_rm64_cl],
        f ∈ registered_insts ∧
          (static_insts f).extensions.any (fun x => (slash_digit x).isSome) = true ∧
          (static_insts f).operands.map (fun s => s.encoding) = [.MODRM_RM, .MODRM_REG] := by
  refine ⟨?_, accepted_total inst inst' form hsel, by decide!⟩
  intro heap' format' hf
  obtain ⟨hreg, hwf, -, -, hacc, hinst⟩ := accepted_shape inst inst' form hsel
  obtain ⟨w1, w2, -, -, -, -, -, -⟩ := form_wf_props _ hwf
  obtain ⟨hse, hk8, hk7, -⟩ := slash_digit_facts e k hk
  have halone := slash_digit_alone form hreg
  simp only [List.all_eq_true, Bool.or_eq_true, Option.isNone_iff_eq_none, Bool.not_eq_true',
    decide_eq_true_eq] at halone
  have hall : ∀ e' ∈ (static_insts form).extensions, slash_ext e' = true →
      slash_digit e' = some k := by
    intro e' he' hs'
    rcases halone e he with h | h
    · rw [hk] at h
      cases h
    · rcases h e' he' with h' | h'
      · rw [hs'] at h'
        cases h'
      · rw [h', hk]
  obtain ⟨start, hs0, -, hloop⟩ := opcode_fill_loop static_insts heap' form inst' format' hf
  have hops : inst'.operands = inst.operands := by rw [hinst]
  rw [List.take_of_length_le w1, hops] at hloop
  have hexts : ∀ e' ∈ fill_exts (static_insts form) inst', slash_ext e' = true →
      slash_digit e' = some k := by
    intro e' he' hs'
    rcases mem_fill_exts _ _ _ he' with h | h
    · rw [List.take_of_length_le w2] at h
      exact hall e' h hs'
    · subst h
      cases hs'
  have hany : (fill_exts (static_insts form) inst').any slash_ext = true := by
    rw [(fill_exts_facts (static_insts form) inst').2.2.1, List.take_of_length_le w2]
    exact List.any_eq_true.mpr ⟨e, he, hse⟩
  have hnor : ext_exists (fill_exts (static_insts form) inst') .SLASHR = false := by
    cases hc : ext_exists (fill_exts (static_insts form) inst') .SLASHR with
    | false => rfl
    | true =>
      have := hexts _ ((contains_mem _ _).mp hc) rfl
      cases this
  obtain ⟨m0, hm0, hr0⟩ := ext_phase_reg k _ hexts start (Or.inr hany)
  obtain ⟨m, hm, hr⟩ := loop_reg_kept _ _ _ hacc hnor _ _ m0 hm0 hloop
  refine ⟨m, hm, hr.trans hr0, ?_, ?_⟩
  · rw [modrm_reg_field_eq, hr, hr0, hk7]
  · exact encoding_modrm_split format' m hm

/-- Witness of C40: `sal bl, cl` with the form `sal_rex_rm8_cl`, which declares `/4`. -/
theorem C40_slash_digit_kept_witness :
    (opcode_select static_insts opcode_tree_root sal_bl_cl =
        some (.sal_rex_rm8_cl, { sal_bl_cl with need_rex_ext := false }) ∧
      opcode_ext.SLASH4 ∈ (static_insts .sal_rex_rm8_cl).extensions ∧
      slash_digit .SLASH4 = some 4) ∧
      (∀ heap' format',
        opcode_fill static_insts .sal_rex_rm8_cl { sal_bl_cl with need_rex_ext := false } =
          some (heap', format') →
        ∃ m, format'.modrm = some m ∧ m.reg = 4 ∧ modrm_reg_field m = 4 ∧
          ∃ pre post, opcode_format_encoding format' = pre ++ opcode_modrm_encoding m :: post) ∧
      ((∀ op ∈ sal_bl_cl.operands, sib_has_base op = true) →
        ∃ heap' format',
          opcode_fill static_insts .sal_rex_rm8_cl { sal_bl_cl with need_rex_ext := false } =
            some (heap', format')) ∧
      ∀ f ∈ [opcode_ref.sal_rm8_cl, opcode_ref.sal_rex_rm8_cl, opcode_ref.sal_rm16_cl,
          opcode_ref.sal_rm32_cl, opcode_ref.sal_rm64_cl, opcode_ref.sar_rm8_cl,
          opcode_ref.sar_rex_rm8_cl, opcode_ref.sar_rm16_cl, opcode_ref.sar_rm32_cl,
          opcode_ref.sar_rm64_cl, opcode_ref.shr_rm8_cl, opcode_ref.shr_rex_rm8_cl,
          opcode_ref.shr_rm16_cl, opcode_ref.shr_rm32_cl, opcode_ref.shr_rm64_cl],
        f ∈ registered_insts ∧
          (static_insts f).extensions.any (fun x => (slash_digit x).isSome) = true ∧
          (static_insts f).operands.map (fun s => s.encoding) = [.MODRM_RM, .MODRM_REG] :=
  ⟨⟨by decide!, by decide!, rfl⟩,
    C40_slash_digit_kept sal_bl_cl { sal_bl_cl with need_rex_ext := false } .sal_rex_rm8_cl
      .SLASH4 4 (by decide!) (by decide!) rfl⟩
/-! ## What the encoder reads of an operand -/

theorem any_operand_regs (p : reg_t → Bool) (ops : List amd64_asm_operand_t) :
    ops.any (fun op => (operand_regs op).any p) =
      (ops.map operand_regs).any (fun l => l.any p) := by
  induction ops with
  | nil => rfl
  | cons x xs ih => simp only [List.any_cons, List.map_cons, ih]

/-- Selection reads of the operands their keys and the registers it inspects, nothing
else. -/
theorem opcode_select_congr (heap : opcode_heap) (root : amd64_opcode_tree_node_t)
    (a b : amd64_asm_inst_t) (hn : a.name = b.name)
    (hk : a.operands.map operand_key = b.operands.map operand_key)
    (hr : a.operands.map operand_regs = b.operands.map operand_regs) :
    opcode_select heap root a =
      (opcode_select heap root b).map
        (fun p => (p.1, { a with need_rex_ext := p.2.need_rex_ext })) := by
  have hs : survives heap a = survives heap b := by
    funext f
    have h1 := any_operand_regs is_high_eight_reg a.operands
    have h2 := any_operand_regs is_high_eight_reg b.operands
    simp only [survives, h1, h2, hr]
  have hf : (select_flags_all a.operands (false, false)).1 =
      (select_flags_all b.operands (false, false)).1 := by
    have h1 := any_operand_regs has_64_reg a.operands
    have h2 := any_operand_regs has_64_reg b.operands
    rw [select_flags_all_fst, select_flags_all_fst, h1, h2, hr]
  rw [opcode_select_getD, opcode_select_getD, hn, hk, hs, hf]
  cases opcode_sort_insts heap
      (((select_candidates root b.name (b.operands.map operand_key)).getD []).filter
        (survives heap b)) with
  | nil => rfl
  | cons f rest => rfl

/-- The record of `opcode_fill` reads of the instruction `op_id`, `prefix`, `need_rex_ext`
and what the operand loop does with the operands. -/
theorem opcode_fill_congr (heap : opcode_heap) (f : opcode_ref) (a b : amd64_asm_inst_t)
    (h1 : a.op_id = b.op_id) (h2 : a.prefix_byte = b.prefix_byte)
    (h3 : a.need_rex_ext = b.need_rex_ext)
    (h4 : ∀ format, fill_operands (fill_exts (heap f) b) format ((heap f).operands.take 4)
        a.operands =
      fill_operands (fill_exts (heap f) b) format ((heap f).operands.take 4) b.operands) :
    opcode_fill heap f a = opcode_fill heap f b := by
  have hh : fill_heap heap f a = fill_heap heap f b := by
    simp only [fill_heap, h2]
  have he : fill_exts (fill_heap heap f b f) a = fill_exts (fill_heap heap f b f) b := by
    simp only [fill_exts, h3]
  simp only [opcode_fill, hh, he, h1]
  rw [fill_exts_heap, (fill_heap_fields heap f b).2.1, h4]

theorem fill_operands_at (exts : List opcode_ext) (a b : amd64_asm_operand_t)
    (post : List amd64_asm_operand_t)
    (h : ∀ format slot, fill_operand exts format slot a = fill_operand exts format slot b) :
    ∀ (pre : List amd64_asm_operand_t) (slots : List opcode_operand_t)
      (format : amd64_binary_format_t),
      fill_operands exts format slots (pre ++ a :: post) =
        fill_operands exts format slots (pre ++ b :: post) := by
  intro pre
  induction pre with
  | nil =>
    intro slots format
    cases slots with
    | nil => rfl
    | cons slot slots => simp only [List.nil_append, fill_operands, h]
  | cons x pre ih =>
    intro slots format
    cases slots with
    | nil => rfl
    | cons slot slots =>
      simp only [List.cons_append, fill_operands]
      cases fill_operand exts format slot x with
      | none => rfl
      | some mid => exact ih slots mid

/-! ## The displacement beside the bases rbp and r13 -/

/-- The displacement part of the `SIB_REG` branch returns the same record for every
displacement when the base register has index 5 or 13. -/
theorem fill_sib_disp_indep (format : amd64_binary_format_t) (base : reg_t) (d1 d2 : Int)
    (hb : base.index = 13 ∨ base.index = 5) :
    fill_sib_disp format base d1 = fill_sib_disp format base d2 := by
  simp only [fill_sib_disp, set_disp, hb, if_true]
  split_ifs <;>
    simp_all [modrm_of, MODRM_MOD_INDIRECT_REGISTER, MODRM_MOD_INDIRECT_REGISTER_BYTE_DISP,
      MODRM_MOD_INDIRECT_REGISTER_DWORD_DISP]

theorem fill_sib_disp_base_short (format : amd64_binary_format_t) (base : reg_t) (d : Int)
    (hb : base.index = 13 ∨ base.index = 5) :
    ∃ format' m, fill_sib_disp format base d = some format' ∧ format'.modrm = some m ∧
      m.mod = 1 ∧ format'.disps = [0x00] := by
  obtain ⟨format', m, g1, g2, g3, -, g5, -, -⟩ := fill_sib_disp_base format base d hb
  exact ⟨format', m, g1, g2, g3, g5⟩

theorem fill_sib_reg_indep (exts : List opcode_ext) (format : amd64_binary_format_t)
    (slot : opcode_operand_t) (size : Nat) (base : reg_t) (index : Option reg_t) (scale : Nat)
    (d1 d2 : Int) (hb : base.index = 13 ∨ base.index = 5) :
    fill_operand exts format slot ⟨size, .sib_reg (some base) index scale d1⟩ =
      fill_operand exts format slot ⟨size, .sib_reg (some base) index scale d2⟩ := by
  obtain ⟨type, encoding⟩ := slot
  cases encoding <;> simp only [fill_operand, fill_sib_reg]
  split
  · rfl
  · exact fill_sib_disp_indep _ base d1 d2 hb

/-- C36. A `SIB_REG` operand whose base register has index 5 or 13: the turn of the operand
loop returns the same record for every displacement; in a slot of role `MODRM_RM` that
record has `mod = 01` and exactly one displacement byte, `00`; and two instructions that
differ only in the displacement of such an operand give the same result of
`amd64_asm_inst_encoding`, the same form and bytes or the same failure. -/
theorem C36_sib_base_disp_discarded (size : Nat) (base : reg_t) (index : Option reg_t)
    (scale : Nat) (hb : base.index = 5 ∨ base.index = 13) :
    (∀ exts format slot d1 d2,
      fill_operand exts format slot ⟨size, .sib_reg (some base) index scale d1⟩ =
        fill_operand exts format slot ⟨size, .sib_reg (some base) index scale d2⟩) ∧
      (∀ exts format slot d, slot.encoding = .MODRM_RM →
        (rex_live exts = true → format.rex_pfx.isSome = true) →
        ∃ format' m,
          fill_operand exts format slot ⟨size, .sib_reg (some base) index scale d⟩ =
            some format' ∧
          format'.modrm = some m ∧ m.mod = 1 ∧ format'.disps = [0x00]) ∧
      ∀ (op_id : Nat) (name : String) (pb : Nat) (need : Bool)
        (pre post : List amd64_asm_operand_t) (d1 d2 : Int),
        amd64_asm_inst_encoding static_insts opcode_tree_root
            ⟨op_id, name, pb, pre ++ ⟨size, .sib_reg (some base) index scale d1⟩ :: post, need⟩ =
          amd64_asm_inst_encoding static_insts opcode_tree_root
            ⟨op_id, name, pb, pre ++ ⟨size, .sib_reg (some base) index scale d2⟩ :: post,
              need⟩ := by
  have hb' : base.index = 13 ∨ base.index = 5 := hb.symm
  have hstep : ∀ exts format slot d1 d2,
      fill_operand exts format slot ⟨size, .sib_reg (some base) index scale d1⟩ =
        fill_operand exts format slot ⟨size, .sib_reg (some base) index scale d2⟩ :=
    fun exts format slot d1 d2 =>
      fill_sib_reg_indep exts format slot size base index scale d1 d2 hb'
  refine ⟨hstep, ?_, ?_⟩
  · intro exts format slot d henc hrex
    by_cases hl : rex_live exts = true
    · obtain ⟨r, hr⟩ := Option.isSome_iff_exists.mp (hrex hl)
      simp only [fill_operand, fill_sib_reg, henc, hl, with_rex, hr, if_true]
      exact fill_sib_disp_base_short _ base d hb'
    · simp only [fill_operand, fill_sib_reg, henc, hl, Bool.false_eq_true, if_false]
      exact fill_sib_disp_base_short _ base d hb'
  · intro op_id name pb need pre post d1 d2
    have hsel := opcode_select_congr static_insts opcode_tree_root
      ⟨op_id, name, pb, pre ++ ⟨size, .sib_reg (some base) index scale d1⟩ :: post, need⟩
      ⟨op_id, name, pb, pre ++ ⟨size, .sib_reg (some base) index scale d2⟩ :: post, need⟩
      rfl (by simp only [List.map_append, List.map_cons]; rfl)
      (by simp only [List.map_append, List.map_cons]; rfl)
    simp only [amd64_asm_inst_encoding]
    rw [hsel]
    cases hsb : opcode_select static_insts opcode_tree_root
        ⟨op_id, name, pb, pre ++ ⟨size, .sib_reg (some base) index scale d2⟩ :: post, need⟩ with
    | none => rfl
    | some p =>
      obtain ⟨f, i'⟩ := p
      obtain ⟨-, -, -, -, hi⟩ := opcode_select_some _ _ _ _ _ hsb
      subst hi
      simp only [Option.map_some']
      rw [opcode_fill_congr static_insts f
        ⟨op_id, name, pb, pre ++ ⟨size, .sib_reg (some base) index scale d1⟩ :: post,
          (select_flags_all (pre ++ ⟨size, .sib_reg (some base) index scale d2⟩ :: post)
            (false, false)).1⟩
        ⟨op_id, name, pb, pre ++ ⟨size, .sib_reg (some base) index scale d2⟩ :: post,
          (select_flags_all (pre ++ ⟨size, .sib_reg (some base) index scale d2⟩ :: post)
            (false, false)).1⟩ rfl rfl rfl
        (fun format => fill_operands_at _ _ _ post (fun fm sl => hstep _ fm sl d1 d2) pre _ format)]

/-- Witness of C36: the operand `[r13 + d]` without index register. -/
theorem C36_sib_base_disp_discarded_witness :
    (r13.index = 5 ∨ r13.index = 13) ∧
      ((∀ exts format slot d1 d2,
        fill_operand exts format slot ⟨8, .sib_reg (some r13) none 0 d1⟩ =
          fill_operand exts format slot ⟨8, .sib_reg (some r13) none 0 d2⟩) ∧
        (∀ exts format slot d, slot.encoding = .MODRM_RM →
          (rex_live exts = true → format.rex_pfx.isSome = true) →
          ∃ format' m,
            fill_operand exts format slot ⟨8, .sib_reg (some r13) none 0 d⟩ = some format' ∧
            format'.modrm = some m ∧ m.mod = 1 ∧ format'.disps = [0x00]) ∧
        ∀ (op_id : Nat) (name : String) (pb : Nat) (need : Bool)
          (pre post : List amd64_asm_operand_t) (d1 d2 : Int),
          amd64_asm_inst_encoding static_insts opcode_tree_root
              ⟨op_id, name, pb, pre ++ ⟨8, .sib_reg (some r13) none 0 d1⟩ :: post, need⟩ =
            amd64_asm_inst_encoding static_insts opcode_tree_root
              ⟨op_id, name, pb, pre ++ ⟨8, .sib_reg (some r13) none 0 d2⟩ :: post, need⟩) :=
  ⟨by decide, C36_sib_base_disp_discarded 8 r13 none 0 (by decide)⟩

/-- The lost displacement in bytes: `mov rax, [r13 + 16]` and `mov rax, [r13 + 4096]` both
give `49 8B 44 25 00`. -/
theorem sib_base_disp_examples :
    encode (mov_rax_sib_r13 16) = some (.mov_r64_rm64, [0x49, 0x8B, 0x44, 0x25, 0x00]) ∧
      encode (mov_rax_sib_r13 4096) = some (.mov_r64_rm64, [0x49, 0x8B, 0x44, 0x25, 0x00]) := by
  decide!

/-! ## `FREG` operands and REX -/

theorem raise_freg_key (op : amd64_asm_operand_t) : operand_key (raise_freg op) = operand_key op := by
  obtain ⟨size, value⟩ := op
  cases value <;> rfl

theorem raise_freg_regs (op : amd64_asm_operand_t) :
    operand_regs (raise_freg op) = operand_regs op := by
  obtain ⟨size, value⟩ := op
  cases value <;> rfl

/-- A turn of the operand loop without live REX or VEX reads of an `FREG` register the low
three bits of its index. -/
theorem step_raise (exts : List opcode_ext) (format : amd64_binary_format_t)
    (slot : opcode_operand_t) (op : amd64_asm_operand_t)
    (hrex : rex_live exts = false) (hvex : vex_live exts = false)
    (hacc : role_accepts slot.encoding op.type = true) :
    fill_operand exts format slot (raise_freg op) = fill_operand exts format slot op := by
  obtain ⟨type, encoding⟩ := slot
  obtain ⟨size, value⟩ := op
  cases value with
  | freg r =>
    cases encoding <;>
      simp only [role_accepts, amd64_asm_operand_t.type] at hacc <;>
      (try (simp at hacc; done)) <;>
      simp only [raise_freg, fill_operand, fill_reg, hrex, hvex, add8_and7, Bool.false_eq_true,
        if_false]
  | _ => rfl

theorem loop_raise (exts : List opcode_ext) (slots : List opcode_operand_t)
    (ops : List amd64_asm_operand_t) (hacc : accepts slots ops)
    (hrex : rex_live exts = false) (hvex : vex_live exts = false) :
    ∀ format : amd64_binary_format_t,
      fill_operands exts format slots (ops.map raise_freg) = fill_operands exts format slots ops := by
  induction hacc with
  | nil => intro format; rfl
  | cons h1 _ ih =>
    intro format
    simp only [List.map_cons, fill_operands, step_raise exts format _ _ hrex hvex h1]
    split
    · rfl
    · exact ih _

/-- The SSE forms of the catalog declare neither `REX` nor `REX.W`, and every name of
the list is the name of a registered form. -/
theorem sse_forms_no_rex :
    (∀ f ∈ registered_insts, (static_insts f).name ∈ sse_names →
      has_rex_extension (static_insts f).extensions = false) ∧
      ∀ n ∈ sse_names, ∃ f ∈ registered_insts, (static_insts f).name = n := by
  constructor <;> decide!

theorem no_regs_of_kind (op : amd64_asm_operand_t)
    (h : op.type ∉ [asm_operand_type.REG, .DISP_REG, .INDIRECT_REG, .SIB_REG]) :
    operand_regs op = [] := by
  obtain ⟨size, value⟩ := op
  cases value <;> simp [amd64_asm_operand_t.type] at h <;> rfl

/-- C37, the code at a counterexample. `movsd xmm0, [r9]` and `movsd xmm8, [r9]` take the
registered SSE form `movsd_xmm1_m64`; the base r9 sets `need_rex_ext`, a REX byte is
emitted and its bit R tells the two registers apart: `F2 41 0F 10 01` and
`F2 45 0F 10 01`. -/
theorem C37_freg_rex_counterexample :
    (opcode_ref.movsd_xmm1_m64 ∈ registered_insts ∧
      (static_insts .movsd_xmm1_m64).name ∈ sse_names) ∧
      encode ⟨0, "mov", 0, [⟨8, .freg xmm0⟩, ⟨8, .indirect_reg r9⟩], false⟩ =
        some (.movsd_xmm1_m64, [0xF2, 0x41, 0x0F, 0x10, 0x01]) ∧
      encode ⟨0, "mov", 0, [⟨8, .freg xmm8⟩, ⟨8, .indirect_reg r9⟩], false⟩ =
        some (.movsd_xmm1_m64, [0xF2, 0x45, 0x0F, 0x10, 0x01]) ∧
      encode (raise_inst ⟨0, "mov", 0, [⟨8, .freg xmm0⟩, ⟨8, .indirect_reg r9⟩], false⟩) =
        some (.movsd_xmm1_m64, [0xF2, 0x45, 0x0F, 0x10, 0x01]) :=
  ⟨⟨by decide!, by decide!⟩, by decide!, by decide!, by decide!⟩

/-- C37, amended. `opcode_select` never derives `need_rex_ext` from an `FREG` operand: for
an accepted instruction without `REG`, `DISP_REG`, `INDIRECT_REG` and `SIB_REG` operand
`need_rex_ext` comes back false. When the returned form is an SSE form (movsd, movss, addsd,
addss, subsd, subss, mulsd, mulss, divsd, divss, xorps, xorpd, comiss, comisd) and no
general-purpose register of the instruction has index at least 8 or is named spl, bpl, sil
or dil, the record has no REX and no VEX record, and the same instruction with every `FREG`
index raised by 8 is encoded to the same form and bytes. -/
theorem C37_freg_no_rex_amended (inst inst' : amd64_asm_inst_t) (form : opcode_ref)
    (hsel : opcode_select static_insts opcode_tree_root inst = some (form, inst')) :
    ((∀ op ∈ inst.operands,
        op.type ∉ [asm_operand_type.REG, .DISP_REG, .INDIRECT_REG, .SIB_REG]) →
      inst'.need_rex_ext = false) ∧
      ((static_insts form).name ∈ sse_names →
        (∀ op ∈ inst.operands, ∀ r ∈ operand_regs op, has_64_reg r = false) →
        inst'.need_rex_ext = false ∧
          opcode_select static_insts opcode_tree_root (raise_inst inst) =
            some (form, raise_inst inst') ∧
          opcode_fill static_insts form (raise_inst inst') =
            opcode_fill static_insts form inst' ∧
          encode (raise_inst inst) = encode inst ∧
          (∀ heap' format', opcode_fill static_insts form inst' = some (heap', format') →
            format'.rex_pfx = none ∧ format'.vex_pfx = none ∧
            opcode_format_encoding format' =
              (if format'.prefix_byte > 0 then [format'.prefix_byte] else [])
                ++ opcode_bytes format'.opcode
                ++ (format'.modrm.map (fun m => [opcode_modrm_encoding m])).getD []
                ++ (format'.sib.map (fun s => [opcode_sib_encoding s])).getD []
                ++ format'.disps ++ format'.imms) ∧
          ((∀ op ∈ inst.operands, sib_has_base op = true) →
            ∃ heap' format', opcode_fill static_insts form inst' = some (heap', format'))) := by
  obtain ⟨hreg, hwf, -, -, hacc, hinst⟩ := accepted_shape inst inst' form hsel
  have hneed : inst'.need_rex_ext = (select_flags_all inst.operands (false, false)).1 := by
    rw [hinst]
  have hno : (∀ op ∈ inst.operands, ∀ r ∈ operand_regs op, has_64_reg r = false) →
      inst'.need_rex_ext = false := by
    intro h
    cases hn : inst'.need_rex_ext with
    | false => rfl
    | true =>
      rw [hneed] at hn
      obtain ⟨op, hop, r, hr, h64⟩ := (flags_fst_iff _).mp hn
      rw [h op hop r hr] at h64
      cases h64
  constructor
  · intro h
    apply hno
    intro op hop r hr
    rw [no_regs_of_kind op (h op hop)] at hr
    cases hr
  · intro hsse hgp
    have hn := hno hgp
    obtain ⟨w1, w2, -, -, -, w6, -, -⟩ := form_wf_props _ hwf
    have hrexf : has_rex_extension (static_insts form).extensions = false :=
      sse_forms_no_rex.1 form hreg hsse
    obtain ⟨e1, -, -, e4⟩ := fill_exts_facts (static_insts form) inst'
    have hrex : rex_live (fill_exts (static_insts form) inst') = false := by
      rw [e1, hrexf, hn]; rfl
    have hvex : vex_live (fill_exts (static_insts form) inst') = false := by
      apply vex_live_of_no_vex
      rw [e4, List.take_of_length_le w2]
      exact w6
    have hops : inst'.operands = inst.operands := by rw [hinst]
    have hselr : opcode_select static_insts opcode_tree_root (raise_inst inst) =
        some (form, raise_inst inst') := by
      rw [opcode_select_congr static_insts opcode_tree_root (raise_inst inst) inst rfl
        (by simp only [raise_inst, List.map_map]
            exact List.map_congr_left (fun op _ => raise_freg_key op))
        (by simp only [raise_inst, List.map_map]
            exact List.map_congr_left (fun op _ => raise_freg_regs op)), hsel, hinst]
      rfl
    have hfill : opcode_fill static_insts form (raise_inst inst') =
        opcode_fill static_insts form inst' := by
      apply opcode_fill_congr static_insts form (raise_inst inst') inst' rfl rfl rfl
      intro format
      rw [List.take_of_length_le w1]
      exact loop_raise _ _ _ (hops ▸ hacc) hrex hvex format
    refine ⟨hn, hselr, hfill, ?_, ?_, accepted_total inst inst' form hsel⟩
    · simp only [encode, amd64_asm_inst_encoding, hselr, hsel, hfill]
    · intro heap' format' hf
      obtain ⟨exts, format0, hloop, hacc', -, f1, f2, -⟩ :=
        accepted_fill inst inst' form heap' format' hsel hf
      obtain ⟨c1, c2, -, -⟩ := loop_common exts _ _ hacc' format0 format' hloop
      have hr : format'.rex_pfx = none := by
        rw [f1, hrexf, hn] at c1
        cases hrr : format'.rex_pfx with
        | none => rfl
        | some r => rw [hrr] at c1; cases c1
      have hv : format'.vex_pfx = none := by
        rw [f2] at c2
        cases hvv : format'.vex_pfx with
        | none => rfl
        | some v => rw [hvv] at c2; cases c2
      refine ⟨hr, hv, ?_⟩
      simp only [opcode_format_encoding, hr, hv, List.append_nil]
      cases format'.modrm <;> cases format'.sib <;> rfl

/-- Witness of C37, amended: `movsd xmm0, xmm1`, accepted with the form `movsd_xmm1_xmm2`. -/
theorem C37_freg_no_rex_amended_witness :
    opcode_select static_insts opcode_tree_root movsd_xmm0_xmm1 =
        some (.movsd_xmm1_xmm2, movsd_xmm0_xmm1) ∧
      ((∀ op ∈ movsd_xmm0_xmm1.operands,
          op.type ∉ [asm_operand_type.REG, .DISP_REG, .INDIRECT_REG, .SIB_REG]) →
        movsd_xmm0_xmm1.need_rex_ext = false) ∧
      ((static_insts .movsd_xmm1_xmm2).name ∈ sse_names →
        (∀ op ∈ movsd_xmm0_xmm1.operands, ∀ r ∈ operand_regs op, has_64_reg r = false) →
        movsd_xmm0_xmm1.need_rex_ext = false ∧
          opcode_select static_insts opcode_tree_root (raise_inst movsd_xmm0_xmm1) =
            some (.movsd_xmm1_xmm2, raise_inst movsd_xmm0_xmm1) ∧
          opcode_fill static_insts .movsd_xmm1_xmm2 (raise_inst movsd_xmm0_xmm1) =
            opcode_fill static_insts .movsd_xmm1_xmm2 movsd_xmm0_xmm1 ∧
          encode (raise_inst movsd_xmm0_xmm1) = encode movsd_xmm0_xmm1 ∧
          (∀ heap' format',
            opcode_fill static_insts .movsd_xmm1_xmm2 movsd_xmm0_xmm1 = some (heap', format') →
            format'.rex_pfx = none ∧ format'.vex_pfx = none ∧
            opcode_format_encoding format' =
              (if format'.prefix_byte > 0 then [format'.prefix_byte] else [])
                ++ opcode_bytes format'.opcode
                ++ (format'.modrm.map (fun m => [opcode_modrm_encoding m])).getD []
                ++ (format'.sib.map (fun s => [opcode_sib_encoding s])).getD []
                ++ format'.disps ++ format'.imms) ∧
          ((∀ op ∈ movsd_xmm0_xmm1.operands, sib_has_base op = true) →
            ∃ heap' format',
              opcode_fill static_insts .movsd_xmm1_xmm2 movsd_xmm0_xmm1 =
                some (heap', format'))) :=
  ⟨by decide!, C37_freg_no_rex_amended movsd_xmm0_xmm1 movsd_xmm0_xmm1 .movsd_xmm1_xmm2 (by decide!)⟩

/-- The registers xmm8 and xmm9 in bytes: `movsd xmm8, xmm9` is encoded as
`movsd xmm0, xmm1`, `F2 0F 10 C1`. -/
theorem freg_examples :
    encode movsd_xmm0_xmm1 = some (.movsd_xmm1_xmm2, [0xF2, 0x0F, 0x10, 0xC1]) ∧
      encode movsd_xmm8_xmm9 = some (.movsd_xmm1_xmm2, [0xF2, 0x0F, 0x10, 0xC1]) ∧
      encode (raise_inst movsd_xmm0_xmm1) = some (.movsd_xmm1_xmm2, [0xF2, 0x0F, 0x10, 0xC1]) := by
  decide!
/-! ## High-byte registers beside a synthesized REX -/

/-- The REX byte stands right after the legacy prefix when the record has a REX and no VEX
record. -/
theorem encoding_rex_split (format : amd64_binary_format_t) (rex : rex_prefix_t)
    (hv : format.vex_pfx = none) (hr : format.rex_pfx = some rex) :
    ∃ post, opcode_format_encoding format =
      (if format.prefix_byte > 0 then [format.prefix_byte] else [])
        ++ opcode_rex_encoding rex :: post := by
  refine ⟨opcode_bytes format.opcode
      ++ (format.modrm.map (fun m => [opcode_modrm_encoding m])).getD []
      ++ (format.sib.map (fun s => [opcode_sib_encoding s])).getD []
      ++ format.disps ++ format.imms, ?_⟩
  simp only [opcode_format_encoding, hv, hr, List.append_nil, List.append_assoc,
    List.singleton_append]
  cases format.modrm <;> cases format.sib <;> rfl

/-- C35, the code at the failing inputs. For an accepted instruction with a register named
ah, bh, ch or dh the returned form declares neither `REX` nor `REX.W`; yet the record that
`opcode_fill` builds has a REX record, whose byte `4x` the serializer writes right after the
legacy prefix, exactly when a register of the instruction satisfies `has_64_reg` (index at
least 8, or spl, bpl, sil, dil). `mov ah, r8b` gives `44 88 C4` and `mov ah, spl` gives
`40 88 E4`, both with a REX byte; `mov ah, bl` gives `88 DC`. -/
theorem C35_rex_beside_high_byte (inst inst' : amd64_asm_inst_t) (form : opcode_ref)
    (hsel : opcode_select static_insts opcode_tree_root inst = some (form, inst'))
    (hhigh : ∃ op ∈ inst.operands, ∃ r ∈ operand_regs op, r.name ∈ ["ah", "bh", "ch", "dh"]) :
    has_rex_extension (static_insts form).extensions = false ∧
      (∀ heap' format', opcode_fill static_insts form inst' = some (heap', format') →
        (format'.rex_pfx.isSome = true ↔
          ∃ op ∈ inst.operands, ∃ r ∈ operand_regs op, has_64_reg r = true) ∧
        ∀ rex, format'.rex_pfx = some rex →
          opcode_rex_encoding rex / 16 = 4 ∧
            ∃ post, opcode_format_encoding format' =
              (if format'.prefix_byte > 0 then [format'.prefix_byte] else [])
                ++ opcode_rex_encoding rex :: post) ∧
      ((∀ op ∈ inst.operands, sib_has_base op = true) →
        ∃ heap' format', opcode_fill static_insts form inst' = some (heap', format')) ∧
      encode mov_ah_r8b = some (.mov_rm8_r8, [0x44, 0x88, 0xC4]) ∧
      encode ⟨0, "mov", 0, [⟨1, .reg ah⟩, ⟨1, .reg spl⟩], false⟩ =
        some (.mov_rm8_r8, [0x40, 0x88, 0xE4]) ∧
      encode mov_ah_bl = some (.mov_rm8_r8, [0x88, 0xDC]) := by
  obtain ⟨-, -, -, hfilter, hinst⟩ := opcode_select_some _ _ _ _ _ hsel
  have hnorex : has_rex_extension (static_insts form).extensions = false :=
    hfilter ((flags_snd_iff _).mpr hhigh)
  have hneed : inst'.need_rex_ext = (select_flags_all inst.operands (false, false)).1 := by
    rw [hinst]
  refine ⟨hnorex, ?_, accepted_total inst inst' form hsel, by decide!, by decide!, by decide!⟩
  intro heap' format' hf
  obtain ⟨exts, format0, hloop, hacc, -, f1, f2, -⟩ :=
    accepted_fill inst inst' form heap' format' hsel hf
  obtain ⟨c1, c2, -, -⟩ := loop_common exts _ _ hacc format0 format' hloop
  have hv : format'.vex_pfx = none := by
    rw [f2] at c2
    cases hvv : format'.vex_pfx with
    | none => rfl
    | some v => rw [hvv] at c2; cases c2
  refine ⟨?_, fun rex hr => ⟨rex_byte_high rex, encoding_rex_split format' rex hv hr⟩⟩
  rw [c1, f1, hnorex, Bool.false_or, hneed]
  exact flags_fst_iff _

/-- Witness of C35: `mov ah, r8b`, accepted with the form `mov_rm8_r8`. -/
theorem C35_rex_beside_high_byte_witness :
    (opcode_select static_insts opcode_tree_root mov_ah_r8b =
        some (.mov_rm8_r8, { mov_ah_r8b with need_rex_ext := true }) ∧
      ∃ op ∈ mov_ah_r8b.operands, ∃ r ∈ operand_regs op, r.name ∈ ["ah", "bh", "ch", "dh"]) ∧
      (has_rex_extension (static_insts .mov_rm8_r8).extensions = false ∧
        (∀ heap' format',
          opcode_fill static_insts .mov_rm8_r8 { mov_ah_r8b with need_rex_ext := true } =
            some (heap', format') →
          (format'.rex_pfx.isSome = true ↔
            ∃ op ∈ mov_ah_r8b.operands, ∃ r ∈ operand_regs op, has_64_reg r = true) ∧
          ∀ rex, format'.rex_pfx = some rex →
            opcode_rex_encoding rex / 16 = 4 ∧
              ∃ post, opcode_format_encoding format' =
                (if format'.prefix_byte > 0 then [format'.prefix_byte] else [])
                  ++ opcode_rex_encoding rex :: post) ∧
        ((∀ op ∈ mov_ah_r8b.operands, sib_has_base op = true) →
          ∃ heap' format',
            opcode_fill static_insts .mov_rm8_r8 { mov_ah_r8b with need_rex_ext := true } =
              some (heap', format')) ∧
        encode mov_ah_r8b = some (.mov_rm8_r8, [0x44, 0x88, 0xC4]) ∧
        encode ⟨0, "mov", 0, [⟨1, .reg ah⟩, ⟨1, .reg spl⟩], false⟩ =
          some (.mov_rm8_r8, [0x40, 0x88, 0xE4]) ∧
        encode mov_ah_bl = some (.mov_rm8_r8, [0x88, 0xDC])) :=
  ⟨⟨by decide!,
      ⟨1, .reg ah⟩, List.mem_cons_self _ _, ah, List.mem_cons_self _ _, List.mem_cons_self _ _⟩,
    C35_rex_beside_high_byte mov_ah_r8b { mov_ah_r8b with need_rex_ext := true } .mov_rm8_r8
      (by decide!)
      ⟨⟨1, .reg ah⟩, List.mem_cons_self _ _, ah, List.mem_cons_self _ _,
        List.mem_cons_self _ _⟩⟩

/-! ## The form `cmp_rm64_r64` -/

/-- The registration sequence of `amd64_opcode_init` names `cmp_r64_rm64` twice and
`cmp_rm64_r64` never. -/
theorem cmp_registration :
    opcode_ref.cmp_rm64_r64 ∉ registered_insts ∧
      registered_insts.count opcode_ref.cmp_r64_rm64 = 2 := by
  constructor <;> decide!

/-- No form is filed under `cmp` for a 64-bit memory operand followed by a 64-bit register. -/
theorem cmp_mem_reg_candidates :
    ∀ k ∈ [asm_operand_type.INDIRECT_REG, .DISP_REG, .SIB_REG, .RIP_RELATIVE],
      spec_candidates static_insts registered_insts "cmp" [.operand k 8, .operand .REG 8] = [] := by
  decide!

/-- Forms are filed under add, sub, and, or, xor and mov for a 64-bit memory operand
followed by a 64-bit register. -/
theorem alu_mem_reg_candidates :
    ∀ n ∈ ["add", "sub", "and", "or", "xor", "mov"],
      ∀ k ∈ [asm_operand_type.INDIRECT_REG, .DISP_REG, .SIB_REG, .RIP_RELATIVE],
        spec_candidates static_insts registered_insts n [.operand k 8, .operand .REG 8] ≠ [] := by
  decide!

theorem survives_of_no_high (heap : opcode_heap) (inst : amd64_asm_inst_t)
    (h : ∀ op ∈ inst.operands, ∀ r ∈ operand_regs op, is_high_eight_reg r = false) :
    ∀ f, survives heap inst f = true := by
  intro f
  have h0 : inst.operands.any (fun op => (operand_regs op).any is_high_eight_reg) = false := by
    rw [List.any_eq_false]
    intro op hop
    rw [Bool.not_eq_true, List.any_eq_false]
    intro r hr
    rw [h op hop r hr]
    decide
  simp only [survives, h0, Bool.false_and, Bool.not_false]

/-- C38. After `amd64_opcode_init` the form `cmp_rm64_r64` is not registered (`cmp_r64_rm64`
is registered twice) and `opcode_select` never returns it. Every `cmp` whose first operand is
a memory operand of size 8 (`INDIRECT_REG`, `DISP_REG`, `SIB_REG` or `RIP_RELATIVE`) and whose
second operand is a `REG` of size 8 fails selection, and so `amd64_asm_inst_encoding`;
the same two operands are accepted for add, sub, and, or, xor and mov when none of their
registers is a high-byte register. -/
theorem C38_cmp_mem_reg_rejected (op_id pb : Nat) (need : Bool) (m r : amd64_asm_operand_t)
    (hm : m.type ∈ [asm_operand_type.INDIRECT_REG, .DISP_REG, .SIB_REG, .RIP_RELATIVE])
    (hms : m.size = 8) (hr : r.type = .REG) (hrs : r.size = 8) :
    (opcode_ref.cmp_rm64_r64 ∉ registered_insts ∧
      registered_insts.count opcode_ref.cmp_r64_rm64 = 2) ∧
      (∀ inst inst' form,
        opcode_select static_insts opcode_tree_root inst = some (form, inst') →
          form ≠ .cmp_rm64_r64) ∧
      opcode_select static_insts opcode_tree_root ⟨op_id, "cmp", pb, [m, r], need⟩ = none ∧
      amd64_asm_inst_encoding static_insts opcode_tree_root ⟨op_id, "cmp", pb, [m, r], need⟩
        = none ∧
      ∀ n ∈ ["add", "sub", "and", "or", "xor", "mov"],
        (∀ x ∈ operand_regs m ++ operand_regs r, is_high_eight_reg x = false) →
          ∃ form inst',
            opcode_select static_insts opcode_tree_root ⟨op_id, n, pb, [m, r], need⟩ =
              some (form, inst') := by
  have hkeys : ([m, r] : List amd64_asm_operand_t).map operand_key =
      [.operand m.type 8, .operand .REG 8] := by
    simp only [List.map_cons, List.map_nil, operand_key, asm_operand_to_key, hms, hr, hrs]
  have hnone : opcode_select static_insts opcode_tree_root ⟨op_id, "cmp", pb, [m, r], need⟩ =
      none := by
    rw [opcode_tree_root_eq, opcode_select_tree_none]
    simp only [hkeys]
    rw [cmp_mem_reg_candidates m.type hm]
    rfl
  refine ⟨cmp_registration, ?_, hnone, ?_, ?_⟩
  · intro inst inst' form hsel hform
    have hreg := (accepted_shape inst inst' form hsel).1
    rw [hform] at hreg
    exact cmp_registration.1 hreg
  · simp only [amd64_asm_inst_encoding, hnone]
  · intro n hn hhigh
    cases hsel : opcode_select static_insts opcode_tree_root ⟨op_id, n, pb, [m, r], need⟩ with
    | some p => exact ⟨p.1, p.2, rfl⟩
    | none =>
      exfalso
      rw [opcode_tree_root_eq, opcode_select_tree_none] at hsel
      simp only [hkeys] at hsel
      have hall := survives_of_no_high static_insts ⟨op_id, n, pb, [m, r], need⟩ (by
        intro op hop x hx
        simp only [List.mem_cons, List.mem_singleton, List.not_mem_nil, or_false] at hop
        rcases hop with rfl | rfl
        · exact hhigh x (List.mem_append_left _ hx)
        · exact hhigh x (List.mem_append_right _ hx))
      rw [List.filter_eq_self.mpr (fun f _ => hall f)] at hsel
      exact alu_mem_reg_candidates n hn m.type hm hsel

/-- Witness of C38: the operands `[rax]` and `rbx`. -/
theorem C38_cmp_mem_reg_rejected_witness :
    (((⟨8, .indirect_reg rax⟩ : amd64_asm_operand_t).type ∈
        [asm_operand_type.INDIRECT_REG, .DISP_REG, .SIB_REG, .RIP_RELATIVE] ∧
      (⟨8, .indirect_reg rax⟩ : amd64_asm_operand_t).size = 8 ∧
      (⟨8, .reg rbx⟩ : amd64_asm_operand_t).type = .REG ∧
      (⟨8, .reg rbx⟩ : amd64_asm_operand_t).size = 8)) ∧
      ((opcode_ref.cmp_rm64_r64 ∉ registered_insts ∧
        registered_insts.count opcode_ref.cmp_r64_rm64 = 2) ∧
        (∀ inst inst' form,
          opcode_select static_insts opcode_tree_root inst = some (form, inst') →
            form ≠ .cmp_rm64_r64) ∧
        opcode_select static_insts opcode_tree_root
          ⟨0, "cmp", 0, [⟨8, .indirect_reg rax⟩, ⟨8, .reg rbx⟩], false⟩ = none ∧
        amd64_asm_inst_encoding static_insts opcode_tree_root
          ⟨0, "cmp", 0, [⟨8, .indirect_reg rax⟩, ⟨8, .reg rbx⟩], false⟩ = none ∧
        ∀ n ∈ ["add", "sub", "and", "or", "xor", "mov"],
          (∀ x ∈ operand_regs ⟨8, .indirect_reg rax⟩ ++ operand_regs ⟨8, .reg rbx⟩,
            is_high_eight_reg x = false) →
            ∃ form inst',
              opcode_select static_insts opcode_tree_root
                ⟨0, n, 0, [⟨8, .indirect_reg rax⟩, ⟨8, .reg rbx⟩], false⟩ =
                  some (form, inst')) :=
  ⟨⟨by decide, rfl, rfl, rfl⟩,
    C38_cmp_mem_reg_rejected 0 0 false ⟨8, .indirect_reg rax⟩ ⟨8, .reg rbx⟩ (by decide) rfl rfl
      rfl⟩

/-- The two outcomes in bytes: `cmp [rax], rbx` is rejected, `cmp rax, [rbx]` and
`add [rax], rbx` are encoded. -/
theorem cmp_examples :
    encode cmp_mem_rax_rbx = none ∧
      encode ⟨0, "cmp", 0, [⟨8, .reg rax⟩, ⟨8, .indirect_reg rbx⟩], false⟩ =
        some (.cmp_r64_rm64, [0x48, 0x3B, 0x03]) ∧
      encode add_mem_rax_rbx = some (.add_rm64_r64, [0x48, 0x01, 0x18]) := by
  decide!

/-! ## `opcode_fill` on accepted instructions -/

/-- C39. For every instruction accepted by `opcode_select` against the registered catalog,
every `SIB_REG` operand having a base register, `opcode_fill` on the returned form returns a
record: none of its failure branches is reached and no absent REX or VEX record is written
through; so `amd64_asm_inst_encoding` returns the form and the bytes of that record. -/
theorem C39_fill_returns (inst inst' : amd64_asm_inst_t) (form : opcode_ref)
    (hsel : opcode_select static_insts opcode_tree_root inst = some (form, inst'))
    (hbase : ∀ op ∈ inst.operands, sib_has_base op = true) :
    ∃ heap' format', opcode_fill static_insts form inst' = some (heap', format') ∧
      amd64_asm_inst_encoding static_insts opcode_tree_root inst =
        some (heap', form, opcode_format_encoding format') ∧
      encode inst = some (form, opcode_format_encoding format') := by
  obtain ⟨heap', format', hf⟩ := accepted_total inst inst' form hsel hbase
  refine ⟨heap', format', hf, ?_, ?_⟩ <;>
    simp only [encode, amd64_asm_inst_encoding, hsel, hf, Option.map_some']

/-- Witness of C39: `mov rax, [r13 + 16]`, the memory operand a `SIB_REG` on the base r13. -/
theorem C39_fill_returns_witness :
    (opcode_select static_insts opcode_tree_root (mov_rax_sib_r13 16) =
        some (.mov_r64_rm64, { mov_rax_sib_r13 16 with need_rex_ext := true }) ∧
      ∀ op ∈ (mov_rax_sib_r13 16).operands, sib_has_base op = true) ∧
      ∃ heap' format',
        opcode_fill static_insts .mov_r64_rm64 { mov_rax_sib_r13 16 with need_rex_ext := true } =
          some (heap', format') ∧
        amd64_asm_inst_encoding static_insts opcode_tree_root (mov_rax_sib_r13 16) =
          some (heap', .mov_r64_rm64, opcode_format_encoding format') ∧
        encode (mov_rax_sib_r13 16) = some (.mov_r64_rm64, opcode_format_encoding format') :=
  ⟨⟨by decide!, by decide⟩,
    C39_fill_returns (mov_rax_sib_r13 16) { mov_rax_sib_r13 16 with need_rex_ext := true }
      .mov_r64_rm64 (by decide!) (by decide)⟩

/-- The failure branches are reached on other inputs: a `SIB_REG` operand without base
register aborts `opcode_fill`. -/
theorem fill_abort_example :
    opcode_select static_insts opcode_tree_root
        ⟨0, "mov", 0, [⟨8, .reg rax⟩, ⟨8, .sib_reg none (some rbx) 1 0⟩], false⟩ =
        some (.mov_r64_rm64,
          ⟨0, "mov", 0, [⟨8, .reg rax⟩, ⟨8, .sib_reg none (some rbx) 1 0⟩], false⟩) ∧
      encode ⟨0, "mov", 0, [⟨8, .reg rax⟩, ⟨8, .sib_reg none (some rbx) 1 0⟩], false⟩ = none := by
  constructor <;> decide!
end Amd64
